import Mathlib

/-!
# Milestone escrow workflow: a verification development

A shallow embedding of the workflow core of the repository (milestone
calculator, service status table, product-config validation, payment-request
handler and webhook ingestion) together with theorems about it.

Conventions.
* A Go `error` result that is `nil` is `none`; a `(value, error)` pair is a sum type.
* The relational store is an explicit value of type `Store`; a transaction works on a
  copy of it that replaces the store on commit and is dropped on rollback.
* Library functions whose code is not part of the repository (JSON decoding, SHA-256,
  HMAC, the HTTP call to the payment platform) are parameters.
-/

set_option autoImplicit false

namespace Microservice

/-! ## Decimals (`github.com/shopspring/decimal`) -/

/-- A `decimal.Decimal` is an arbitrary-precision number `value * 10^exp`. It is modelled by
the rational number it denotes: `Add`, `Sub`, `Mul`, `Equal`, `IsZero`, `LessThanOrEqual`
are exact on that number, and `Round` and `Div` are the functions of it defined below. -/
abbrev Decimal := ℚ

/-- Method `d.Round(places)`: the nearest multiple of `10^(-places)`, halves rounded away
from zero. -/
def Decimal.Round (d : Decimal) (places : Int) : Decimal :=
  let s : ℚ := (10 : ℚ) ^ places
  if 0 ≤ d then (⌊d * s + 1 / 2⌋ : ℚ) / s else -((⌊-d * s + 1 / 2⌋ : ℚ) / s)

/-- The library's `DivisionPrecision`: number of decimal places kept by `Div`. -/
def Decimal.DivisionPrecision : Int := 16

/-- Method `d.Div(d2)`, which is `d.DivRound(d2, DivisionPrecision)`: the exact quotient
rounded half away from zero to `DivisionPrecision` places. -/
def Decimal.Div (d d2 : Decimal) : Decimal :=
  Decimal.Round (d / d2) Decimal.DivisionPrecision

/-! ## `internal/milestone/template.go` -/

/-- Go `type TemplateType string`. -/
abbrev TemplateType := String

def TemplateTypeFixed : TemplateType := "fixed"

def TemplateTypePercentage : TemplateType := "percentage"

/-- Struct `MilestoneTemplate`; the field `Type` of the source is `Typ` here. -/
structure MilestoneTemplate where
  Typ : TemplateType
  Value : Decimal
  IsFinal : Bool
  deriving DecidableEq, Repr

structure ValidationError where
  Code : String
  Message : String
  deriving DecidableEq, Repr

/-- The `for i, t := range templates` loop of `ValidateTemplate`: `i` is the index of the
head of the remaining entries, `finalIdx` the loop variable of the source (`-1` until a
final entry is seen). The result is the early-return error or the last `finalIdx`. -/
def validateLoop : List MilestoneTemplate → Int → Int → Except ValidationError Int
  | [], _, finalIdx => .ok finalIdx
  | t :: rest, i, finalIdx =>
    if t.Value ≤ 0 then
      .error ⟨"MILESTONE_VALUE_INVALID", "milestone value must be > 0"⟩
    else if ¬(t.Typ = TemplateTypeFixed ∨ t.Typ = TemplateTypePercentage) then
      .error ⟨"MILESTONE_TYPE_INVALID", "milestone type must be fixed or percentage"⟩
    else if t.IsFinal then
      if finalIdx ≠ -1 then
        .error ⟨"FINAL_MILESTONE_DUPLICATE", "exactly one final milestone is required"⟩
      else validateLoop rest (i + 1) i
    else validateLoop rest (i + 1) finalIdx

/-- Function `ValidateTemplate`: `none` is the `nil` error. -/
def ValidateTemplate (templates : List MilestoneTemplate) : Option ValidationError :=
  if templates.length = 0 then
    some ⟨"MILESTONE_TEMPLATE_EMPTY", "milestone template cannot be empty"⟩
  else
    match validateLoop templates 0 (-1) with
    | .error e => some e
    | .ok finalIdx =>
      if finalIdx = -1 then
        some ⟨"FINAL_MILESTONE_MISSING", "final milestone is required"⟩
      else if finalIdx ≠ (templates.length : Int) - 1 then
        some ⟨"FINAL_MILESTONE_NOT_LAST", "final milestone must be last"⟩
      else none

/-! ## `internal/milestone/calculator.go` -/

structure CalculatedMilestone where
  Amount : Decimal
  IsFinal : Bool
  deriving DecidableEq, Repr

/-- Go `type CurrencyScale int32`. -/
abbrev CurrencyScale := Int

def DefaultCurrencyScale : CurrencyScale := 2

/-- Outcome of `CalculateAmounts`: the milestones, a validation error, or the runtime panic
of an out-of-range slice index. -/
inductive CalcResult where
  | ok (out : List CalculatedMilestone)
  | err (e : ValidationError)
  | indexPanic
  deriving DecidableEq, Repr

/-- The `for _, t := range templates` loop of `CalculateAmounts`, threading `out` and `sum`. -/
def calcLoop (total : Decimal) (scale : CurrencyScale) :
    List MilestoneTemplate → List CalculatedMilestone → Decimal →
      Except ValidationError (List CalculatedMilestone × Decimal)
  | [], out, sum => .ok (out, sum)
  | t :: rest, out, sum =>
    if t.Typ = TemplateTypeFixed then
      let amt := Decimal.Round t.Value scale
      calcLoop total scale rest (out ++ [⟨amt, t.IsFinal⟩]) (sum + amt)
    else if t.Typ = TemplateTypePercentage then
      let amt := Decimal.Round (Decimal.Div (total * t.Value) 100) scale
      calcLoop total scale rest (out ++ [⟨amt, t.IsFinal⟩]) (sum + amt)
    else
      .error ⟨"MILESTONE_TYPE_INVALID", "milestone type must be fixed or percentage"⟩

/-- The part of `CalculateAmounts` after the loop (lines 54-74): delta correction of the last
entry, the sum check and the check of the final amount. `out[len(out)-1]` on an empty slice
is the runtime panic. -/
def finishAmounts (total : Decimal) (scale : CurrencyScale)
    (out : List CalculatedMilestone) (sum : Decimal) : CalcResult :=
  let delta := Decimal.Round total scale - sum
  let corrected : Option (List CalculatedMilestone × Decimal) :=
    if delta ≠ 0 then
      match out.getLast? with
      | none => none
      | some l =>
        some (out.set (out.length - 1) ⟨Decimal.Round (l.Amount + delta) scale, true⟩,
          Decimal.Round (sum + delta) scale)
    else some (out, sum)
  match corrected with
  | none => .indexPanic
  | some (out, sum) =>
    if sum ≠ Decimal.Round total scale then
      .err ⟨"MILESTONE_SUM_MISMATCH", "milestone amounts do not sum to service total"⟩
    else
      match out.getLast? with
      | none => .indexPanic
      | some l =>
        if l.Amount ≤ 0 then
          .err ⟨"FINAL_MILESTONE_INVALID", "final milestone amount must be > 0"⟩
        else .ok out

/-- Function `CalculateAmounts`. -/
def CalculateAmounts (total : Decimal) (templates : List MilestoneTemplate)
    (scale : CurrencyScale) : CalcResult :=
  match ValidateTemplate templates with
  | some e => .err e
  | none =>
    if total ≤ 0 then
      .err ⟨"SERVICE_TOTAL_INVALID", "service total must be > 0"⟩
    else
      let scale := if scale ≤ 0 then DefaultCurrencyScale else scale
      match calcLoop total scale templates [] 0 with
      | .error e => .err e
      | .ok (out, sum) => finishAmounts total scale out sum

/-! ### Notions used to state the properties of the calculator -/

/-- An entry that passes the per-entry checks of `ValidateTemplate`. -/
def EntryOK (t : MilestoneTemplate) : Prop :=
  0 < t.Value ∧ (t.Typ = TemplateTypeFixed ∨ t.Typ = TemplateTypePercentage)


/-- Number `x` is a whole multiple of `10^(-s)`. -/
def IsScaled (s : Int) (x : Decimal) : Prop := ∃ k : ℤ, x = (k : ℚ) / (10 : ℚ) ^ s

/-- The scale `CalculateAmounts` works with: the default for a scale that is not positive. -/
def effectiveScale (scale : CurrencyScale) : CurrencyScale :=
  if scale ≤ 0 then DefaultCurrencyScale else scale

/-- The rounded amount `CalculateAmounts` computes for one entry inside its loop. -/
def entryAmount (total : Decimal) (scale : CurrencyScale) (t : MilestoneTemplate) : Decimal :=
  if t.Typ = TemplateTypeFixed then Decimal.Round t.Value scale
  else Decimal.Round (Decimal.Div (total * t.Value) 100) scale

/-- Sum of the amounts of a list of calculated milestones. -/
def amountsSum (out : List CalculatedMilestone) : Decimal := (out.map (fun m => m.Amount)).sum

/-- The delta-corrected final amount: the rounded total minus the rounded amounts of the
entries before the last one. -/
def correctedFinal (total : Decimal) (scale : CurrencyScale) (ts : List MilestoneTemplate) :
    Decimal :=
  Decimal.Round total scale - ((ts.dropLast).map (entryAmount total scale)).sum

/-! ## `internal/service/status.go` -/

/-- Go `type Status string`. -/
abbrev Status := String

def StatusDraft : Status := "Draft"

def StatusBooked : Status := "Booked"

def StatusInProgress : Status := "InProgress"

def StatusWaitingForApproval : Status := "WaitingForApproval"

def StatusCompleted : Status := "Completed"

/-- The map `allowedTransitions`, as the list of its entries. -/
def allowedTransitions : List (Status × List (Status × Bool)) :=
  [ (StatusDraft, [(StatusBooked, true)]),
    (StatusBooked, [(StatusInProgress, true)]),
    (StatusInProgress, [(StatusWaitingForApproval, true)]),
    (StatusWaitingForApproval, [(StatusCompleted, true), (StatusInProgress, true)]),
    (StatusCompleted, []) ]

/-- Function `CanTransition`: a missing key of the inner map reads as `false`. -/
def CanTransition (fromS toS : Status) : Bool :=
  match allowedTransitions.lookup fromS with
  | none => false
  | some m => (m.lookup toS).getD false

/-! ## `internal/serviceproduct/config.go` -/

/-- Go `json.RawMessage`. -/
abbrev RawMessage := String

namespace serviceproduct

structure Config where
  Version : Int
  Currency : String
  Templates : List MilestoneTemplate
  deriving DecidableEq, Repr

/-- The loop of `ParseAndValidate` that computes `allPercent` and `sum`; it stops at the
first entry that is not a percentage. -/
def percentLoop : List MilestoneTemplate → Decimal → Bool × Decimal
  | [], sum => (true, sum)
  | t :: rest, sum =>
    if t.Typ ≠ TemplateTypePercentage then (false, sum) else percentLoop rest (sum + t.Value)

/-- Function `ParseAndValidate`; `unmarshal` is `json.Unmarshal` into a `Config` (`none` on
error). -/
def ParseAndValidate (unmarshal : RawMessage → Option Config) (raw : RawMessage) :
    Except ValidationError Config :=
  match unmarshal raw with
  | none => .error ⟨"VALIDATION_FAILED", "invalid config json"⟩
  | some cfg =>
    let cfg := if cfg.Version = 0 then { cfg with Version := 1 } else cfg
    match ValidateTemplate cfg.Templates with
    | some e => .error e
    | none =>
      let r := percentLoop cfg.Templates 0
      if r.1 = true ∧ r.2 ≠ 100 then
        .error ⟨"MILESTONE_SUM_INVALID", "percentage milestones must sum to 100"⟩
      else .ok cfg

end serviceproduct

/-! ## Strings (`strings`, `unicode`) -/

/-- Go `unicode.IsSpace`: the code points with the Unicode White_Space property. -/
def isSpace (c : Char) : Bool :=
  let n := c.toNat
  (9 ≤ n && n ≤ 13) || n = 32 || n = 0x85 || n = 0xA0 || n = 0x1680 ||
    (0x2000 ≤ n && n ≤ 0x200A) || n = 0x2028 || n = 0x2029 || n = 0x202F || n = 0x205F ||
    n = 0x3000

/-- Go `strings.TrimSpace`: leading and trailing white space removed. -/
def TrimSpace (s : String) : String :=
  String.mk ((s.toList.dropWhile isSpace).reverse.dropWhile isSpace).reverse

/-- Index of the last occurrence of `c` in `cs` (`strings.LastIndex` with a one-character
separator), `none` for the `-1` of the source. -/
def lastIndexOfChar (c : Char) : List Char → Option Nat
  | [] => none
  | x :: rest =>
    match lastIndexOfChar c rest with
    | some i => some (i + 1)
    | none => if x = c then some 0 else none

/-! ## The store -/

/-- Go `time.Time`, as a number. -/
abbrev Time := Int

/-- Go errors that the handlers tell apart: the two sentinel values of `pgx`, a
`*pgconn.PgError` with its SQLSTATE code (`"23505"` is the unique violation), and any other
error with its text. -/
inductive GoError where
  | ErrTxCommitRollback
  | ErrNoRows
  | pg (code : String)
  | other (text : String)
  deriving DecidableEq, Repr

/-- Method `Error()` of a Go error: its text. -/
def GoError.Error : GoError → String
  | .ErrTxCommitRollback => "commit unexpectedly resulted in rollback"
  | .ErrNoRows => "no rows in result set"
  | .pg code => "ERROR: (SQLSTATE " ++ code ++ ")"
  | .other text => text

/-- A value in the JSON objects the code stores as metadata: a string, an integer, or the
text `d.StringFixed(places)` of a decimal. -/
inductive JsonValue where
  | str (s : String)
  | int (n : Int)
  | fixed (d : Decimal) (places : Int)
  deriving DecidableEq, Repr

/-- A JSON object such as the `metadata` of an audit entry, as its list of fields. -/
abbrev Metadata := List (String × JsonValue)

namespace shop

/-- Go `shop.Shop`, a row of `shops`. -/
structure Shop where
  ID : String
  Domain : String
  AccessToken : String
  Plan : String
  Status : String
  InstalledAt : Time
  deriving DecidableEq, Repr

end shop

namespace service

/-- Row of `services` (Go `service.Service` without the columns the database fills by
default and no code writes: `display_id`, `created_at`). -/
structure Service where
  ID : String
  ShopID : String
  ShopifyOrderID : String
  ShopifyProductID : String
  ClientEmail : String
  ClientName : String
  TotalAmount : Decimal
  Currency : String
  Status : Status
  ServiceConfigSnapshot : RawMessage
  CompletedViaOverride : Bool
  UpdatedAt : Time
  deriving DecidableEq, Repr

end service

namespace milestone

/-- Row of `milestones`. The nullable columns are options; `amount` (a numeric column that the
code reads as text) is the number. -/
structure Row where
  ID : String
  ServiceID : String
  Sequence : Int
  Amount : Decimal
  Status : String
  DraftOrderID : Option String
  CheckoutURL : Option String
  PaidAt : Option Time
  deriving DecidableEq, Repr

/-- Go `milestone.Record`: a row as the code scans it, a `NULL` reference read as `""`, with
the currency of the owning service when the query joins it (`""` otherwise). -/
structure Record where
  ID : String
  ServiceID : String
  Sequence : Int
  Amount : Decimal
  Status : String
  Currency : String
  DraftOrderID : String
  CheckoutURL : String
  PaidAt : Option Time
  deriving DecidableEq, Repr

end milestone

namespace approval

/-- Row of `approvals` (Go `approval.Record`). -/
structure Record where
  ServiceID : String
  Approved : Bool
  RevisionRequested : Bool
  ClientNote : String
  HasPreview : Bool
  ApprovedAt : Option Time
  UpdatedAt : Time
  deriving DecidableEq, Repr

end approval

namespace files

/-- Row of `files` (Go `files.Record`). -/
structure Record where
  ID : String
  ServiceID : String
  UploadedBy : String
  FileURL : String
  Kind : String
  deriving DecidableEq, Repr

end files

namespace portal

/-- Row of `portal_tokens` (Go `portal.TokenRecord`). -/
structure TokenRecord where
  ID : String
  ServiceID : String
  Token : String
  ExpiresAt : Time
  RevokedAt : Option Time
  deriving DecidableEq, Repr

end portal

namespace serviceproduct

/-- Row of `service_product_configs` (Go `serviceproduct.Record`). -/
structure Record where
  ShopID : String
  ShopifyProductID : String
  Config : RawMessage
  deriving DecidableEq, Repr

end serviceproduct

/-- Row of `webhook_events`, the idempotency ledger. -/
structure WebhookEvent where
  ShopID : String
  Topic : String
  EventID : String
  PayloadHash : String
  ProcessedAt : Time
  deriving DecidableEq, Repr

/-- Row of `audit_logs`. -/
structure AuditLog where
  ShopID : String
  ServiceID : Option String
  Action : String
  Actor : String
  Metadata : Metadata
  deriving DecidableEq, Repr

/-- Row of `service_events`, the timeline of a service. -/
structure ServiceEvent where
  ServiceID : String
  EventType : String
  Summary : String
  Actor : String
  OccurredAt : Time
  Data : Metadata
  deriving DecidableEq, Repr

/-- Row of `admin_actions`. -/
structure AdminAction where
  ServiceID : String
  ActionType : String
  Reason : String
  Actor : String
  Metadata : Metadata
  deriving DecidableEq, Repr

/-- The persistent store: one list of rows per table, in insertion order. -/
structure Store where
  shops : List shop.Shop
  serviceProductConfigs : List serviceproduct.Record
  services : List service.Service
  milestones : List milestone.Row
  approvals : List approval.Record
  files : List files.Record
  portalTokens : List portal.TokenRecord
  webhookEvents : List WebhookEvent
  auditLogs : List AuditLog
  serviceEvents : List ServiceEvent
  adminActions : List AdminAction
  deriving DecidableEq, Repr

/-! ## `pkg/db/db.go`: transactions -/

/-- A request with an open transaction. Statements run on the transaction read and write
`view`; `pool` is the committed store, which statements run directly on the pool write. -/
structure TxState where
  pool : Store
  view : Store
  deriving DecidableEq, Repr

/-- What the closure passed to `WithTx` leaves behind: the state, the error it returns
(`none` for `nil`), and what it assigned to the variables it captures. -/
structure TxResult (α : Type) where
  st : TxState
  err : Option GoError
  val : α

namespace db

/-- Function `WithTx`: begin, run `fn`, roll back when it returns an error, commit otherwise.
`commitErr` is the result of `tx.Commit`. The result is the committed store afterwards, the
error `WithTx` returns and the captured variables. -/
def WithTx {α : Type} (commitErr : Option GoError) (store : Store)
    (fn : TxState → TxResult α) : Store × Option GoError × α :=
  let r := fn ⟨store, store⟩
  match r.err with
  | some e => (r.st.pool, some e, r.val)
  | none =>
    match commitErr with
    | some e => (r.st.pool, some e, r.val)
    | none => (r.st.view, none, r.val)

end db

/-! ## `internal/audit`, `internal/events`, `internal/milestone/repository.go` -/

namespace audit

/-- Function `audit.Insert`: appends a row to `audit_logs`. -/
def Insert (s : Store) (shopID : String) (serviceID : Option String) (action actor : String)
    (metadata : Metadata) : Store :=
  { s with auditLogs := s.auditLogs ++ [⟨shopID, serviceID, action, actor, metadata⟩] }

end audit

namespace events

/-- Function `events.Insert`: appends a row to `service_events`. -/
def Insert (s : Store) (serviceID eventType summary actor : String) (occurredAt : Time)
    (data : Metadata) : Store :=
  { s with
    serviceEvents := s.serviceEvents ++ [⟨serviceID, eventType, summary, actor, occurredAt, data⟩] }

end events

namespace milestone

/-- A row as the code scans it into a `Record`. -/
def Row.toRecord (m : Row) (currency : String) : Record :=
  ⟨m.ID, m.ServiceID, m.Sequence, m.Amount, m.Status, currency, m.DraftOrderID.getD "",
    m.CheckoutURL.getD "", m.PaidAt⟩

/-- Function `GetForUpdate`: the milestone with this id. -/
def GetForUpdate (s : Store) (milestoneID : String) : Except GoError Record :=
  match s.milestones.find? (fun m => m.ID = milestoneID) with
  | some m => .ok (m.toRecord "")
  | none => .error .ErrNoRows

/-- Function `GetForUpdateScoped`: the first row of the join of `milestones` with `services`
for this milestone id and shop id. -/
def GetForUpdateScoped (s : Store) (shopID milestoneID : String) : Except GoError Record :=
  match (s.milestones.filterMap (fun m =>
      if m.ID = milestoneID then
        (s.services.find? (fun sv => sv.ID = m.ServiceID ∧ sv.ShopID = shopID)).map
          (fun sv => m.toRecord sv.Currency)
      else none)).head? with
  | some r => .ok r
  | none => .error .ErrNoRows

/-- Function `SetDraftOrder`: an `UPDATE ... WHERE id = $1`. -/
def SetDraftOrder (s : Store) (milestoneID draftOrderID checkoutURL : String) : Store :=
  { s with
    milestones := s.milestones.map (fun m =>
      if m.ID = milestoneID then
        { m with DraftOrderID := some draftOrderID, CheckoutURL := some checkoutURL }
      else m) }

/-- Function `MarkPaid`. -/
def MarkPaid (s : Store) (milestoneID : String) (paidAt : Time) : Store :=
  { s with
    milestones := s.milestones.map (fun m =>
      if m.ID = milestoneID then { m with Status := "paid", PaidAt := some paidAt } else m) }

/-- The query `SELECT sequence FROM milestones WHERE service_id = $1 ORDER BY sequence DESC
LIMIT 1`: the highest sequence of the service, `none` when it has no milestone. -/
def finalSequence (s : Store) (serviceID : String) : Option Int :=
  ((s.milestones.filter (fun m => m.ServiceID = serviceID)).map (fun m => m.Sequence)).foldl
    (fun acc q => match acc with
      | none => some q
      | some a => some (max a q)) none

end milestone

namespace approval

/-- The query `SELECT approved FROM approvals WHERE service_id = $1`. -/
def queryApproved (s : Store) (serviceID : String) : Option Bool :=
  (s.approvals.find? (fun a => a.ServiceID = serviceID)).map (fun a => a.Approved)

end approval

/-! ## `pkg/config` -/

namespace config

/-- Go `config.ShopifyConfig` (the fields the handlers read). -/
structure ShopifyConfig where
  APIKey : String
  APISecret : String
  WebhookSecret : String
  APIVersion : String
  DevAdminAccessToken : String
  deriving DecidableEq, Repr

/-- Go `config.Config` (the fields the handlers read). -/
structure Config where
  AppEnv : String
  Shopify : ShopifyConfig
  deriving DecidableEq, Repr

end config

/-! ## `pkg/shopify/client.go`, `pkg/shopify/draft_orders.go` -/

namespace shopify

structure Client where
  ShopDomain : String
  AccessToken : String
  APIVersion : String
  deriving DecidableEq, Repr

/-- The HTTP request of `CreateDraftOrder`: the `draftOrderCreate` mutation posted to
`https://<ShopDomain>/admin/api/<APIVersion>/graphql.json` with the access token and the
input (note and one line item of quantity 1). -/
structure DraftOrderRequest where
  ShopDomain : String
  APIVersion : String
  AccessToken : String
  note : String
  title : String
  originalUnitPrice : Decimal
  deriving DecidableEq, Repr

/-- The `draftOrder` object of the response. -/
structure DraftOrderNode where
  ID : String
  InvoiceURL : String
  deriving DecidableEq, Repr

/-- The decoded response `gqlResp` of the source: the draft order (`nil` as `none`) and the
messages of `userErrors` and of `errors`. -/
structure gqlResp where
  DraftOrder : Option DraftOrderNode
  UserErrors : List String
  Errors : List String
  deriving DecidableEq, Repr

/-- The payment platform as seen through `doJSON` after the request is built: it answers a
request with a transport, status or decoding error, or with a decoded response. -/
abbrev Platform := DraftOrderRequest → Except GoError gqlResp

/-- Method `doJSON` for the draft-order mutation: the default API version, the check for a
missing shop domain or token (no request is sent then), and the exchange. The second
component lists the requests sent. -/
def doJSON (platform : Platform) (c : Client) (note title : String) (amount : Decimal) :
    Except GoError gqlResp × List DraftOrderRequest :=
  let apiVersion := if c.APIVersion = "" then "2025-10" else c.APIVersion
  if c.ShopDomain = "" ∨ c.AccessToken = "" then
    (.error (.other "missing shop domain or access token"), [])
  else
    let req : DraftOrderRequest := ⟨c.ShopDomain, apiVersion, c.AccessToken, note, title, amount⟩
    (platform req, [req])

/-- Lines 103-112 of `CreateDraftOrder`: the numeric id at the end of a GID. -/
def numericID (gid : String) : String :=
  let last :=
    match lastIndexOfChar '/' gid.toList with
    | some i => if (i : Int) < (gid.toList.length : Int) - 1 then
        String.mk (gid.toList.drop (i + 1)) else gid
    | none => gid
  let last := TrimSpace last
  if last = "" then gid else last

/-- Method `CreateDraftOrder`: the pair `(draftOrderID, checkoutURL)` or the error, and the
requests sent. The parameter `currency` is not part of the request. -/
def CreateDraftOrder (platform : Platform) (c : Client) (title : String) (amount : Decimal)
    (_currency : String) (note : String) :
    Except GoError (String × String) × List DraftOrderRequest :=
  match doJSON platform c note title amount with
  | (.error e, sent) => (.error e, sent)
  | (.ok resp, sent) =>
    match resp.Errors with
    | e :: _ => (.error (.other ("draftOrderCreate graphql error: " ++ e)), sent)
    | [] =>
      match resp.UserErrors with
      | e :: _ => (.error (.other ("draftOrderCreate user error: " ++ e)), sent)
      | [] =>
        match resp.DraftOrder with
        | none => (.error (.other "draftOrderCreate returned empty id"), sent)
        | some d =>
          if d.ID = "" then (.error (.other "draftOrderCreate returned empty id"), sent)
          else (.ok (numericID d.ID, d.InvoiceURL), sent)

end shopify

/-! ## `internal/payment/handlers.go` -/

/-- What a handler writes to its `http.ResponseWriter`. -/
inductive Response where
  | apiError (status : Nat) (code message : String)
  | paymentLink (draftOrderId checkoutUrl : String)
  | status (code : Nat)
  deriving DecidableEq, Repr

namespace payment

/-- The variables the transaction closure of `RequestPayment` captures: the response it
wrote with `api.WriteError` (if any), the value of `resp`, and the requests sent to the
payment platform. -/
structure Captured where
  written : Option Response
  resp : Option (String × String)
  sent : List shopify.DraftOrderRequest
  deriving DecidableEq, Repr

/-- The closure that `RequestPayment` passes to `db.WithTx`. -/
def requestPaymentTx (cfg : config.Config) (platform : shopify.Platform) (now : Time)
    (shopCtx : shop.Shop) (id : String) (st : TxState) : TxResult Captured :=
  match milestone.GetForUpdateScoped st.view shopCtx.ID id with
  | .error e => ⟨st, some e, ⟨none, none, []⟩⟩
  | .ok m =>
    if m.Status = "paid" then
      ⟨st, some .ErrTxCommitRollback,
        ⟨some (.apiError 409 "MILESTONE_ALREADY_PAID" "milestone already paid"), none, []⟩⟩
    else if m.Status = "locked" then
      ⟨st, some .ErrTxCommitRollback,
        ⟨some (.apiError 409 "MILESTONE_LOCKED" "milestone is locked"), none, []⟩⟩
    else if m.DraftOrderID ≠ "" ∧ m.CheckoutURL ≠ "" then
      ⟨st, none, ⟨none, some (m.DraftOrderID, m.CheckoutURL), []⟩⟩
    else
      let blocked : Bool :=
        match milestone.finalSequence st.view m.ServiceID with
        | some finalSeq =>
          if m.Sequence = finalSeq then
            match approval.queryApproved st.view m.ServiceID with
            | some approved => !approved
            | none => true
          else false
        | none => false
      if blocked then
        ⟨st, some .ErrTxCommitRollback,
          ⟨some (.apiError 409 "FINAL_MILESTONE_LOCKED" "final payment requires approval"),
            none, []⟩⟩
      else
        let client : shopify.Client :=
          ⟨shopCtx.Domain,
            if cfg.AppEnv ≠ "prod" ∧ TrimSpace cfg.Shopify.DevAdminAccessToken ≠ "" then
              TrimSpace cfg.Shopify.DevAdminAccessToken
            else shopCtx.AccessToken,
            cfg.Shopify.APIVersion⟩
        let title := "Milestone payment (service " ++ m.ServiceID ++ ", seq " ++
          toString m.Sequence ++ ")"
        let note := "service_workflow: milestone_id=" ++ m.ID ++ " service_id=" ++ m.ServiceID
        let currency := if m.Currency = "" then "USD" else m.Currency
        match shopify.CreateDraftOrder platform client title m.Amount currency note with
        | (.error e, sent) => ⟨st, some e, ⟨none, none, sent⟩⟩
        | (.ok (draftOrderID, checkoutURL), sent) =>
          let v1 := milestone.SetDraftOrder st.view m.ID draftOrderID checkoutURL
          let actor := "merchant"
          let v2 := audit.Insert v1 shopCtx.ID (some m.ServiceID) "MILESTONE_PAYMENT_REQUESTED"
            actor [("milestoneId", .str m.ID), ("draftOrderId", .str draftOrderID)]
          let v3 := events.Insert v2 m.ServiceID "MILESTONE_PAYMENT_REQUESTED"
            "Milestone payment requested" actor now
            [("milestoneId", .str m.ID), ("draftOrderId", .str draftOrderID)]
          ⟨{ st with view := v3 }, none, ⟨none, some (draftOrderID, checkoutURL), sent⟩⟩

/-- Result of the handler: the store afterwards, the HTTP response and the requests sent to
the payment platform. -/
structure Outcome where
  store : Store
  response : Response
  sent : List shopify.DraftOrderRequest
  deriving DecidableEq, Repr

/-- Method `Handlers.RequestPayment`. `shopCtx` is `api.ShopFromContext` (`none` for `nil`),
`id` the URL parameter, `now` the clock and `commitErr` the result of `tx.Commit`. -/
def RequestPayment (cfg : config.Config) (platform : shopify.Platform) (now : Time)
    (commitErr : Option GoError) (store : Store) (shopCtx : Option shop.Shop) (id : String) :
    Outcome :=
  match shopCtx with
  | none => ⟨store, .apiError 401 "UNAUTHORIZED" "missing shop identity", []⟩
  | some shopCtx =>
    if id = "" then ⟨store, .apiError 400 "VALIDATION_FAILED" "missing id", []⟩
    else
      match db.WithTx commitErr store (requestPaymentTx cfg platform now shopCtx id) with
      | (store1, some e, cap) =>
        if e = .ErrTxCommitRollback then
          -- the closure has written the response (a bare rollback writes none: status 200)
          ⟨store1, cap.written.getD (.status 200), cap.sent⟩
        else if cfg.AppEnv ≠ "prod" then
          ⟨store1, .apiError 500 "INTERNAL" ("request payment failed: " ++ e.Error), cap.sent⟩
        else ⟨store1, .apiError 500 "INTERNAL" "internal error", cap.sent⟩
      | (store1, none, cap) =>
        match cap.resp with
        | some (d, u) => ⟨store1, .paymentLink d u, cap.sent⟩
        | none => ⟨store1, .status 200, cap.sent⟩

end payment

/-! ## Example data -/

namespace Example

def demoShop : shop.Shop := ⟨"shop-1", "demo.myshopify.com", "shpat-demo", "", "active", 0⟩

def demoConfig : config.Config := ⟨"prod", ⟨"key", "secret", "whsec", "2025-10", ""⟩⟩

def demoService : service.Service :=
  ⟨"svc-1", "shop-1", "5001", "9001", "client@example.com", "Ada Client", 100, "USD",
    StatusInProgress, "", false, 0⟩

/-- The three milestones of the demo service: deposit (paid), middle (unpaid), final
(locked). -/
def demoMilestones : List milestone.Row :=
  [ ⟨"m-0", "svc-1", 0, 30, "paid", none, none, some 0⟩,
    ⟨"m-1", "svc-1", 1, 30, "unpaid", none, none, none⟩,
    ⟨"m-2", "svc-1", 2, 40, "locked", none, none, none⟩ ]

def demoStore : Store :=
  { shops := [demoShop], serviceProductConfigs := [], services := [demoService],
    milestones := demoMilestones, approvals := [], files := [], portalTokens := [],
    webhookEvents := [], auditLogs := [], serviceEvents := [], adminActions := [] }

/-- The demo store once the final milestone `m-2` is unpaid, with no approval record. -/
def demoStoreFinalUnpaid : Store :=
  { demoStore with
    milestones :=
      [ ⟨"m-0", "svc-1", 0, 30, "paid", none, none, some 0⟩,
        ⟨"m-1", "svc-1", 1, 30, "unpaid", none, none, none⟩,
        ⟨"m-2", "svc-1", 2, 40, "unpaid", none, none, none⟩ ] }

/-- A payment platform that creates the draft order and answers with its id and with an
empty invoice URL (the field is nullable in the platform's schema). -/
def platformNoInvoiceURL : shopify.Platform :=
  fun _ => .ok ⟨some ⟨"gid://shopify/DraftOrder/1001", ""⟩, [], []⟩

/-- A first `RequestPayment` for the unpaid milestone `m-1` of the demo store. -/
def firstRequest : payment.Outcome :=
  payment.RequestPayment demoConfig platformNoInvoiceURL 1 none demoStore (some demoShop) "m-1"

/-- A second `RequestPayment` for `m-1`, on the store the first one left. -/
def secondRequest : payment.Outcome :=
  payment.RequestPayment demoConfig platformNoInvoiceURL 2 none firstRequest.store
    (some demoShop) "m-1"

end Example

/-! ## Library functions outside the repository -/

/-- Functions of the Go standard library and of third-party packages that the webhook code
calls and whose code is not part of the repository. -/
structure Lib where
  /-- Go `unicode.ToLower` on one code point. -/
  toLower : Char → Char
  /-- Hex form of the SHA-256 digest of a body. -/
  sha256Hex : String → String
  /-- Base64 form of the HMAC-SHA256 of a body under a secret (arguments: secret, body). -/
  hmacBase64 : String → String → String
  /-- Go `decimal.NewFromString` (`none` on error). -/
  decimalFromString : String → Option Decimal
  /-- Go `json.Unmarshal` into a `serviceproduct.Config`. -/
  unmarshalConfig : RawMessage → Option serviceproduct.Config

/-- Go `strings.ToLower`. -/
def ToLower (lib : Lib) (s : String) : String := String.mk (s.toList.map lib.toLower)

/-! ## `internal/webhook/topics.go` -/

namespace webhook

/-- Go `strings.ReplaceAll(t, old, "_")` for a one-character `old`. -/
def replaceChar (old : Char) (cs : List Char) : List Char :=
  cs.map (fun c => if c = old then '_' else c)

/-- Go `strings.Contains(t, "__")`. -/
def hasDoubleUnderscore : List Char → Bool
  | [] => false
  | c :: rest =>
    match rest with
    | [] => false
    | d :: _ => (c = '_' && d = '_') || hasDoubleUnderscore rest

/-- Go `strings.ReplaceAll(t, "__", "_")`: the non-overlapping occurrences from the left. -/
def replaceDoubleUnderscore : List Char → List Char
  | [] => []
  | [c] => [c]
  | c :: d :: rest =>
    if c = '_' ∧ d = '_' then '_' :: replaceDoubleUnderscore rest
    else c :: replaceDoubleUnderscore (d :: rest)

/-- The loop `for strings.Contains(t, "__") { t = strings.ReplaceAll(t, "__", "_") }` with a
bound on the number of rounds; every round shortens `t`, so `t.length` rounds are enough. -/
def collapseUnderscores : Nat → List Char → List Char
  | 0, t => t
  | fuel + 1, t =>
    if hasDoubleUnderscore t then collapseUnderscores fuel (replaceDoubleUnderscore t) else t

/-- Go `strings.Trim(t, "_")`. -/
def trimUnderscores (cs : List Char) : List Char :=
  ((cs.dropWhile (fun c => c = '_')).reverse.dropWhile (fun c => c = '_')).reverse

/-- Function `NormalizeTopic`. -/
def NormalizeTopic (lib : Lib) (topic : String) : String :=
  let t := (TrimSpace (ToLower lib topic)).toList
  let t := replaceChar '/' t
  let t := replaceChar '.' t
  let t := replaceChar '-' t
  let t := collapseUnderscores t.length t
  String.mk (trimUnderscores t)

/-! ## `internal/webhook/note.go` -/

/-- The class `[a-zA-Z0-9_]` under the flag `(?i)`: case folding adds to the ASCII letters
the two other code points that fold to one of them, U+017F (to `s`) and U+212A (to `k`). -/
def isKeyChar (c : Char) : Bool :=
  c.isAlphanum || c = '_' || c.toNat = 0x17F || c.toNat = 0x212A

/-- The class `[a-zA-Z0-9-]` under the flag `(?i)`. -/
def isValueChar (c : Char) : Bool :=
  c.isAlphanum || c = '-' || c.toNat = 0x17F || c.toNat = 0x212A

/-- The class `[\s,;]`; `\s` of the regexp syntax is `[\t\n\f\r ]`. -/
def isNoteSeparator (c : Char) : Bool :=
  c = '\t' || c = '\n' || c.toNat = 12 || c = '\r' || c = ' ' || c = ',' || c = ';'

/-- A match of `([a-zA-Z0-9_]+)=([a-zA-Z0-9-]+)` at the head of `cs`: both groups are the
longest runs of their class. The result is the two groups and the rest of the input. -/
def matchKeyValue (cs : List Char) : Option (List Char × List Char × List Char) :=
  let k := cs.takeWhile isKeyChar
  match cs.dropWhile isKeyChar with
  | '=' :: rest =>
    let v := rest.takeWhile isValueChar
    if k ≠ [] ∧ v ≠ [] then some (k, v, rest.dropWhile isValueChar) else none
  | _ => none

/-- The successive matches of `noteKVRe` (`FindAllStringSubmatch`), as the pairs of their two
groups: the leftmost match from the current position, then on from its end. `atStart` says
that the position is the beginning of the note, where `^` matches. -/
def findAllKeyValues : Nat → Bool → List Char → List (List Char × List Char)
  | 0, _, _ => []
  | fuel + 1, atStart, cs =>
    match (if atStart then matchKeyValue cs else none) with
    | some (k, v, rest) => (k, v) :: findAllKeyValues fuel false rest
    | none =>
      match cs with
      | [] => []
      | c :: tl =>
        match (if isNoteSeparator c then matchKeyValue tl else none) with
        | some (k, v, rest) => (k, v) :: findAllKeyValues fuel false rest
        | none => findAllKeyValues fuel false tl

/-- Function `ParseKeyFromNote`. -/
def ParseKeyFromNote (lib : Lib) (note key : String) : String :=
  let key := TrimSpace key
  if key = "" then ""
  else
    let found := findAllKeyValues (note.toList.length + 1) true note.toList
    match found.find? (fun m => ToLower lib (String.mk m.1) = ToLower lib key) with
    | some m => String.mk m.2
    | none => ""

/-! ## `internal/webhook/verify.go` -/

/-- Function `VerifyShopifyWebhook`. -/
def VerifyShopifyWebhook (lib : Lib) (body hmacHeader secret : String) : Bool :=
  if hmacHeader = "" ∨ secret = "" then false
  else decide (lib.hmacBase64 secret body = hmacHeader)

end webhook

/-! ## `internal/webhook/handler.go` -/

namespace webhook

/-- Go `orderPaidPayload`; `LineItems` lists the product ids. -/
structure orderPaidPayload where
  ID : Int
  Email : String
  TotalPrice : String
  Currency : String
  Note : String
  FirstName : String
  LastName : String
  LineItems : List Int
  deriving DecidableEq, Repr

/-- Method `CustomerName`. -/
def orderPaidPayload.CustomerName (o : orderPaidPayload) : String :=
  TrimSpace (TrimSpace (o.FirstName ++ " " ++ o.LastName))

structure milestonePaidPayload where
  DraftOrderID : String
  deriving DecidableEq, Repr

/-- JSON decoding of the two payloads (`json.Unmarshal`, `none` on error). -/
structure Decoders where
  orderPaid : String → Option orderPaidPayload
  milestonePaid : String → Option milestonePaidPayload

/-- What the environment chooses during one delivery: the application clock, the clock of
the database (`NOW()`), the identifiers the database generates for the rows inserted, the
random portal token, and the result of `tx.Commit`. -/
structure Env where
  now : Time
  dbNow : Time
  newServiceID : String
  newMilestoneID : Nat → String
  newTokenID : String
  randomToken : String
  commitErr : Option GoError

/-- Function `int64ToString`. -/
def int64ToString (v : Int) : String := toString v

/-- Function `currencyOrDefault`. -/
def currencyOrDefault (c : String) : String :=
  if TrimSpace c = "" then "USD" else TrimSpace c

/-- Function `isUniqueViolation`. -/
def isUniqueViolation (err : GoError) : Bool :=
  match err with
  | .pg code => code = "23505"
  | _ => false

/-- Modelled from the spec: the unique constraint of the idempotency ledger on
(shop, topic, event id); the migration that declares `webhook_events` is not part of the
sources. Function `insertWebhookEvent` otherwise: the insert of one row. -/
def insertWebhookEvent (s : Store) (dbNow : Time) (shopID topic eventID payloadHash : String) :
    Except GoError Store :=
  if s.webhookEvents.any
      (fun e => e.ShopID = shopID ∧ e.Topic = topic ∧ e.EventID = eventID) then
    .error (.pg "23505")
  else
    .ok { s with
      webhookEvents := s.webhookEvents ++ [⟨shopID, topic, eventID, payloadHash, dbNow⟩] }

/-- Function `getServiceProductConfig`. -/
def getServiceProductConfig (s : Store) (shopID productID : String) :
    Except GoError RawMessage :=
  match s.serviceProductConfigs.find?
      (fun r => r.ShopID = shopID ∧ r.ShopifyProductID = productID) with
  | some r => .ok r.Config
  | none => .error .ErrNoRows

/-- Function `insertService`, with the constraint `UNIQUE(shop_id, shopify_order_id)` that
the source names. The new row has the id the database generates and the status `Booked`. -/
def insertService (s : Store) (env : Env) (shopID : String) (shopifyOrderID : Int)
    (shopifyProductID email name : String) (total : Decimal) (currency : String)
    (snapshot : RawMessage) : Except GoError (String × Bool × Store) :=
  if s.services.any
      (fun sv => sv.ShopID = shopID ∧ sv.ShopifyOrderID = int64ToString shopifyOrderID) then
    .error (.pg "23505")
  else
    .ok (env.newServiceID, true,
      { s with
        services := s.services ++
          [⟨env.newServiceID, shopID, int64ToString shopifyOrderID, shopifyProductID, email,
            name, Decimal.Round total 2, currencyOrDefault currency, StatusBooked, snapshot,
            false, env.dbNow⟩] })

/-- Function `insertMilestone`, with the constraint `UNIQUE(service_id, sequence)` that the
source names. -/
def insertMilestone (s : Store) (env : Env) (serviceID : String) (seq : Nat) (amount : Decimal)
    (status : String) (paidAt : Option Time) : Except GoError Store :=
  if s.milestones.any (fun m => m.ServiceID = serviceID ∧ m.Sequence = (seq : Int)) then
    .error (.pg "23505")
  else
    .ok { s with
      milestones := s.milestones ++
        [⟨env.newMilestoneID seq, serviceID, seq, Decimal.Round amount 2, status, none, none,
          paidAt⟩] }

end webhook

namespace portal

/-- Function `InsertToken`. -/
def InsertToken (s : Store) (tokenID token serviceID : String) (expiresAt : Time) : Store :=
  { s with portalTokens := s.portalTokens ++ [⟨tokenID, serviceID, token, expiresAt, none⟩] }

end portal

namespace service

/-- Function `UpdateStatus`. -/
def UpdateStatus (s : Store) (dbNow : Time) (shopID serviceID : String) (next : Status)
    (completedViaOverride : Bool) : Store :=
  { s with
    services := s.services.map (fun sv =>
      if sv.ShopID = shopID ∧ sv.ID = serviceID then
        { sv with Status := next, CompletedViaOverride := completedViaOverride,
                  UpdatedAt := dbNow }
      else sv) }

end service

namespace shop

/-- Method `FindByDomain`. -/
def FindByDomain (s : Store) (domain : String) : Except GoError Shop :=
  match s.shops.find? (fun sh => sh.Domain = domain) with
  | some sh => .ok sh
  | none => .error .ErrNoRows

/-- Modelled from the spec: the foreign keys with `ON DELETE CASCADE` (the migrations are not
part of the sources); deleting a shop removes every row the shop owns, directly or through
one of its services. Method `DeleteByID` otherwise: `DELETE FROM shops WHERE id = $1`. -/
def DeleteByID (s : Store) (id : String) : Store :=
  let owned : String → Bool := fun serviceID =>
    s.services.any (fun sv => sv.ID = serviceID ∧ sv.ShopID = id)
  { shops := s.shops.filter (fun sh => sh.ID ≠ id),
    serviceProductConfigs := s.serviceProductConfigs.filter (fun r => r.ShopID ≠ id),
    services := s.services.filter (fun sv => sv.ShopID ≠ id),
    milestones := s.milestones.filter (fun m => !owned m.ServiceID),
    approvals := s.approvals.filter (fun a => !owned a.ServiceID),
    files := s.files.filter (fun f => !owned f.ServiceID),
    portalTokens := s.portalTokens.filter (fun t => !owned t.ServiceID),
    webhookEvents := s.webhookEvents.filter (fun e => e.ShopID ≠ id),
    auditLogs := s.auditLogs.filter (fun a => a.ShopID ≠ id),
    serviceEvents := s.serviceEvents.filter (fun e => !owned e.ServiceID),
    adminActions := s.adminActions.filter (fun a => !owned a.ServiceID) }

end shop

namespace webhook

/-- The block that ends both settlement functions (lines 267-281 and 329-344): when the
milestone has the highest sequence of the service and the approval record says approved,
the service becomes `Completed` and a timeline event is recorded. -/
def completeIfFinalApproved (s : Store) (env : Env) (shopID serviceID : String)
    (sequence : Int) : Store :=
  match milestone.finalSequence s serviceID with
  | some finalSeq =>
    if sequence = finalSeq then
      match approval.queryApproved s serviceID with
      | some true =>
        events.Insert (service.UpdateStatus s env.dbNow shopID serviceID StatusCompleted false)
          serviceID "STATUS_CHANGED" "Service completed" "webhook" env.now
          [("to", .str StatusCompleted)]
      | _ => s
    else s
  | none => s

/-- Method `applyMilestonePaymentFromOrder`: the store afterwards and the error returned. -/
def applyMilestonePaymentFromOrder (s : Store) (env : Env) (shopRec : shop.Shop)
    (milestoneID : String) (orderID : Int) : Store × Option GoError :=
  match milestone.GetForUpdateScoped s shopRec.ID milestoneID with
  | .error _ => (s, none)
  | .ok m =>
    if m.Status = "paid" then (s, none)
    else if m.Status = "locked" then (s, none)
    else
      let s1 := milestone.MarkPaid s m.ID env.now
      let s2 := audit.Insert s1 shopRec.ID (some m.ServiceID) "MILESTONE_PAID" "webhook"
        [("milestoneId", .str m.ID), ("orderId", .str (int64ToString orderID))]
      let s3 := events.Insert s2 m.ServiceID "MILESTONE_PAID" "Milestone paid" "webhook" env.now
        [("milestoneId", .str m.ID)]
      (completeIfFinalApproved s3 env shopRec.ID m.ServiceID m.Sequence, none)

/-- The query of `handleMilestonePaid` that resolves a draft order id to a milestone of the
shop: the pair `(milestoneID, serviceID)` of the first row. -/
def resolveDraftOrder (s : Store) (shopID draftOrderID : String) : Option (String × String) :=
  (s.milestones.find? (fun m =>
    m.DraftOrderID = some draftOrderID ∧
      s.services.any (fun sv => sv.ID = m.ServiceID ∧ sv.ShopID = shopID))).map
    (fun m => (m.ID, m.ServiceID))

/-- Method `handleMilestonePaid`. -/
def handleMilestonePaid (s : Store) (dec : Decoders) (env : Env) (shopRec : shop.Shop)
    (body : String) : Store × Option GoError :=
  match dec.milestonePaid body with
  | none => (s, none)
  | some payload =>
    if payload.DraftOrderID = "" then (s, none)
    else
      match resolveDraftOrder s shopRec.ID payload.DraftOrderID with
      | none => (s, none)
      | some (milestoneID, serviceID) =>
        match milestone.GetForUpdate s milestoneID with
        | .error _ => (s, none)
        | .ok m =>
          if m.Status = "paid" then (s, none)
          else
            let s1 := milestone.MarkPaid s m.ID env.now
            let s2 := audit.Insert s1 shopRec.ID (some serviceID) "MILESTONE_PAID" "webhook"
              [("sequence", .int m.Sequence), ("draftOrderId", .str payload.DraftOrderID)]
            let s3 := events.Insert s2 serviceID "MILESTONE_PAID" "Milestone paid" "webhook"
              env.now [("sequence", .int m.Sequence)]
            (completeIfFinalApproved s3 env shopRec.ID serviceID m.Sequence, none)

/-- The loop of `handleOrdersPaid` over the line items: the first product with a stored,
non-empty configuration, as `(chosenProductID, cfgRaw)`; `("", "")` when there is none. -/
def chooseProduct (s : Store) (shopID : String) : List Int → String × RawMessage
  | [] => ("", "")
  | productID :: rest =>
    if productID = 0 then chooseProduct s shopID rest
    else
      match getServiceProductConfig s shopID (int64ToString productID) with
      | .ok raw =>
        if raw.length > 0 then (int64ToString productID, raw) else chooseProduct s shopID rest
      | .error _ => chooseProduct s shopID rest

/-- The loop of `handleOrdersPaid` that creates the milestones; `i` is the index of the head
of the remaining amounts. -/
def insertMilestones (env : Env) (shopID serviceID : String) :
    List CalculatedMilestone → Nat → Store → Store × Option GoError
  | [], _, s => (s, none)
  | m :: rest, i, s =>
    let status := if i = 0 then "paid" else if m.IsFinal then "locked" else "unpaid"
    let paidAt := if i = 0 then some env.now else none
    match insertMilestone s env serviceID i m.Amount status paidAt with
    | .error e =>
      if isUniqueViolation e then insertMilestones env shopID serviceID rest (i + 1) s
      else (s, some e)
    | .ok s1 =>
      let s2 :=
        if i = 0 then
          events.Insert
            (audit.Insert s1 shopID (some serviceID) "DEPOSIT_PAID" "webhook"
              [("sequence", .int 0), ("amount", .fixed m.Amount 2)])
            serviceID "MILESTONE_PAID" "Deposit paid" "webhook" env.now [("sequence", .int 0)]
        else s1
      insertMilestones env shopID serviceID rest (i + 1) s2

/-- The block of `handleOrdersPaid` under the first `if created` (lines 184-199): the audit
entry and the timeline event of the creation, the portal token valid for 30 days and its
timeline event. -/
def recordServiceCreated (s : Store) (env : Env) (shopID serviceID : String) (orderID : Int)
    (productID : String) : Store :=
  let a := audit.Insert s shopID (some serviceID) "SERVICE_CREATED" "webhook"
    [("shopifyOrderId", .int orderID), ("productId", .str productID)]
  let b := events.Insert a serviceID "SERVICE_CREATED" "Service created" "webhook" env.now
    [("shopifyOrderId", .int orderID)]
  let c := portal.InsertToken b env.newTokenID env.randomToken serviceID
    (env.now + 30 * 24 * 3600 * 1000000000)
  events.Insert c serviceID "PORTAL_TOKEN_CREATED" "Client portal link created" "webhook"
    env.now []

/-- Method `handleOrdersPaid`. -/
def handleOrdersPaid (s : Store) (lib : Lib) (dec : Decoders) (env : Env)
    (shopRec : shop.Shop) (body : String) : Store × Option GoError :=
  match dec.orderPaid body with
  | none => (s, none)
  | some payload =>
    if payload.ID = 0 ∨ payload.TotalPrice = "" ∨ payload.LineItems.length = 0 then (s, none)
    else if ParseKeyFromNote lib payload.Note "milestone_id" ≠ "" then
      applyMilestonePaymentFromOrder s env shopRec
        (ParseKeyFromNote lib payload.Note "milestone_id") payload.ID
    else
      let chosen := chooseProduct s shopRec.ID payload.LineItems
      if chosen.1 = "" then (s, none)
      else
        match serviceproduct.ParseAndValidate lib.unmarshalConfig chosen.2 with
        | .error _ => (s, none)
        | .ok cfg =>
          match lib.decimalFromString payload.TotalPrice with
          | none => (s, none)
          | some total =>
            match CalculateAmounts total cfg.Templates DefaultCurrencyScale with
            | .err _ => (s, none)
            | .indexPanic => (s, some (.other "runtime error: index out of range"))
            | .ok amounts =>
              match insertService s env shopRec.ID payload.ID chosen.1 payload.Email
                  payload.CustomerName total payload.Currency chosen.2 with
              | .error e => if isUniqueViolation e then (s, none) else (s, some e)
              | .ok (serviceID, created, s1) =>
                let s2 :=
                  if created then
                    recordServiceCreated s1 env shopRec.ID serviceID payload.ID chosen.1
                  else s1
                match insertMilestones env shopRec.ID serviceID amounts 0 s2 with
                | (s3, some e) => (s3, some e)
                | (s3, none) =>
                  if created then
                    (service.UpdateStatus s3 env.dbNow shopRec.ID serviceID StatusBooked false,
                      none)
                  else (s3, none)

/-- An inbound delivery: the headers the handler reads, the route parameter and the body
(`none` when reading the body fails). -/
structure Request where
  topicHeader : String
  topicParam : String
  shopDomainHeader : String
  hmacHeader : String
  webhookIDHeader : String
  eventIDHeader : String
  body : Option String
  deriving DecidableEq, Repr

/-- The normalized topic of a delivery (lines 45-49). -/
def requestTopic (lib : Lib) (r : Request) : String :=
  let topic := TrimSpace r.topicHeader
  NormalizeTopic lib (if topic = "" then r.topicParam else topic)

/-- The event id of a delivery and the fallback to the payload hash (lines 53-56, 76-80). -/
def requestEventID (lib : Lib) (r : Request) (body : String) : String :=
  let eventID := TrimSpace r.webhookIDHeader
  let eventID := if eventID = "" then TrimSpace r.eventIDHeader else eventID
  if eventID = "" then lib.sha256Hex body else eventID

/-- The closure that `ServeHTTP` passes to `db.WithTx`: the ledger insert and the dispatch.
The uninstall deletes the shop through the pool, not through the transaction; the deletion is
applied to the committed store at once and is visible to the transaction. -/
def serveTx (lib : Lib) (dec : Decoders) (env : Env) (shopRec : shop.Shop)
    (topic eventID payloadHash body : String) (st : TxState) : TxResult Unit :=
  match insertWebhookEvent st.view env.dbNow shopRec.ID topic eventID payloadHash with
  | .error e => if isUniqueViolation e then ⟨st, none, ()⟩ else ⟨st, some e, ()⟩
  | .ok v1 =>
    if topic = "orders_paid" then
      let r := handleOrdersPaid v1 lib dec env shopRec body
      ⟨{ st with view := r.1 }, r.2, ()⟩
    else if topic = "milestone_paid" then
      let r := handleMilestonePaid v1 dec env shopRec body
      ⟨{ st with view := r.1 }, r.2, ()⟩
    else if topic = "app_uninstalled" then
      ⟨⟨shop.DeleteByID st.pool shopRec.ID, shop.DeleteByID v1 shopRec.ID⟩, none, ()⟩
    else ⟨{ st with view := v1 }, none, ()⟩

/-- Result of `ServeHTTP`: the store afterwards, the response, and the error of the
transaction, which the handler only logs (`none` when there was no transaction or it
committed). -/
structure Outcome where
  store : Store
  response : Response
  txErr : Option GoError
  deriving DecidableEq, Repr

/-- Method `Handler.ServeHTTP`. -/
def ServeHTTP (cfg : config.Config) (lib : Lib) (dec : Decoders) (env : Env) (store : Store)
    (r : Request) : Outcome :=
  let topic := requestTopic lib r
  let shopDomain := TrimSpace r.shopDomainHeader
  let hmacHeader := TrimSpace r.hmacHeader
  match r.body with
  | none => ⟨store, .apiError 400 "VALIDATION_FAILED" "invalid body", none⟩
  | some body =>
    if ¬ VerifyShopifyWebhook lib body hmacHeader cfg.Shopify.WebhookSecret then
      ⟨store, .apiError 401 "UNAUTHORIZED" "invalid webhook signature", none⟩
    else
      match shop.FindByDomain store shopDomain with
      | .error _ => ⟨store, .status 200, none⟩
      | .ok shopRec =>
        let payloadHash := lib.sha256Hex body
        let eventID := requestEventID lib r body
        let res := db.WithTx env.commitErr store
          (serveTx lib dec env shopRec topic eventID payloadHash body)
        ⟨res.1, .status 200, res.2.1⟩

end webhook

/-! ### Notions used to state the properties of the webhook handler -/

/-- The ledger holds a record for this shop, topic and event id. -/
def ledgerHas (s : Store) (shopID topic eventID : String) : Bool :=
  s.webhookEvents.any (fun e => e.ShopID = shopID ∧ e.Topic = topic ∧ e.EventID = eventID)

/-- Two stores with the same ledger and the same shops. -/
def SameLedger (a b : Store) : Prop :=
  a.webhookEvents = b.webhookEvents ∧ a.shops = b.shops

/-- The unique constraint on `shops.shop_domain` that the `ON CONFLICT (shop_domain)` of
`shop.Upsert` relies on: no two shops of the store share a domain. -/
def UniqueShopDomains (s : Store) : Prop :=
  ∀ a ∈ s.shops, ∀ b ∈ s.shops, a.Domain = b.Domain → a.ID = b.ID

/-! ## Example data for the webhook handler -/

namespace Example

/-- Stand-ins for the library functions: ASCII lower-casing, a tagged copy of the body for
its digest, and a constant signature. -/
def demoLib : Lib :=
  ⟨Char.toLower, fun body => "sha256:" ++ body, fun _ _ => "sig", fun _ => none, fun _ => none⟩

/-- Decoders that read every body as the order that pays milestone `m-1`. -/
def demoDecoders : webhook.Decoders :=
  ⟨fun _ => some ⟨7001, "client@example.com", "30.00", "USD",
      "service_workflow: milestone_id=m-1 service_id=svc-1", "Ada", "Client", [9001]⟩,
    fun _ => none⟩

def demoEnv : webhook.Env := ⟨10, 10, "svc-new", fun _ => "ms-new", "tok-1", "abcdef", none⟩

/-- An `orders/paid` delivery for the demo shop without an event id header. -/
def demoDelivery : webhook.Request :=
  ⟨"orders/paid", "", "demo.myshopify.com", "sig", "", "", some "order-7001"⟩

/-- The first processing of `demoDelivery` on the demo store. -/
def firstDelivery : webhook.Outcome :=
  webhook.ServeHTTP demoConfig demoLib demoDecoders demoEnv demoStore demoDelivery

end Example

/-! ## `internal/milestone`, `internal/approval`, `internal/portal`, `internal/service`:
the queries and statements of the merchant and client handlers -/

namespace milestone

/-- Function `UnlockFinal`: the row of the service with the highest sequence becomes `unpaid`
when it is `locked`. -/
def UnlockFinal (s : Store) (serviceID : String) : Store :=
  { s with
    milestones := s.milestones.map (fun m =>
      if m.ServiceID = serviceID ∧ some m.Sequence = finalSequence s serviceID ∧
          m.Status = "locked" then
        { m with Status := "unpaid" }
      else m) }

/-- The query `SELECT status FROM milestones WHERE service_id = $1 ORDER BY sequence DESC
LIMIT 1` of `PatchStatus`: the status of the row of the service with the highest sequence. -/
def finalStatus (s : Store) (serviceID : String) : Except GoError String :=
  match s.milestones.find?
      (fun m => m.ServiceID = serviceID ∧ some m.Sequence = finalSequence s serviceID) with
  | some m => .ok m.Status
  | none => .error .ErrNoRows

end milestone

namespace approval

/-- Modelled from the spec: the values a new row of `approvals` gets for the columns the
insert does not name (not approved, no revision requested, no note, no approval time); the
migration that declares the table is not part of the sources. Function `UpsertRequested`
otherwise: the insert of `(service_id, has_preview)`, which on a conflict on `service_id`
updates `has_preview` and `updated_at` only. -/
def UpsertRequested (s : Store) (dbNow : Time) (serviceID : String) (hasPreview : Bool) :
    Store :=
  if s.approvals.any (fun a => a.ServiceID = serviceID) then
    { s with
      approvals := s.approvals.map (fun a =>
        if a.ServiceID = serviceID then { a with HasPreview := hasPreview, UpdatedAt := dbNow }
        else a) }
  else
    { s with approvals := s.approvals ++ [⟨serviceID, false, false, "", hasPreview, none, dbNow⟩] }

/-- Function `Approve`: an `UPDATE approvals ... WHERE service_id = $1`. -/
def Approve (s : Store) (dbNow : Time) (serviceID note : String) : Store :=
  { s with
    approvals := s.approvals.map (fun a =>
      if a.ServiceID = serviceID then
        { a with Approved := true, ApprovedAt := some dbNow, RevisionRequested := false,
                 ClientNote := note, UpdatedAt := dbNow }
      else a) }

/-- Function `RequestRevision`: an `UPDATE approvals ... WHERE service_id = $1`. -/
def RequestRevision (s : Store) (dbNow : Time) (serviceID note : String) : Store :=
  { s with
    approvals := s.approvals.map (fun a =>
      if a.ServiceID = serviceID then
        { a with RevisionRequested := true, Approved := false, ApprovedAt := none,
                 ClientNote := note, UpdatedAt := dbNow }
      else a) }

end approval

namespace portal

/-- Function `GetActiveByTokenForUpdate`: the token row, `ErrNoRows` when there is none or
when it is revoked or not after `now`. -/
def GetActiveByTokenForUpdate (s : Store) (token : String) (now : Time) :
    Except GoError TokenRecord :=
  match s.portalTokens.find? (fun t => t.Token = token) with
  | none => .error .ErrNoRows
  | some tr =>
    if tr.RevokedAt ≠ none ∨ ¬ (tr.ExpiresAt > now) then .error .ErrNoRows else .ok tr

end portal

namespace service

/-- Function `GetForUpdate`: the service with this id in this shop. -/
def GetForUpdate (s : Store) (shopID serviceID : String) : Except GoError Service :=
  match s.services.find? (fun sv => sv.ShopID = shopID ∧ sv.ID = serviceID) with
  | some sv => .ok sv
  | none => .error .ErrNoRows

/-- Function `GetForUpdateAny`: the service with this id, in any shop. -/
def GetForUpdateAny (s : Store) (serviceID : String) : Except GoError Service :=
  match s.services.find? (fun sv => sv.ID = serviceID) with
  | some sv => .ok sv
  | none => .error .ErrNoRows

/-- Function `ParseStatus`. -/
def ParseStatus (s : String) : Except GoError Status :=
  if s = StatusDraft ∨ s = StatusBooked ∨ s = StatusInProgress ∨
      s = StatusWaitingForApproval ∨ s = StatusCompleted then .ok s
  else .error (.other ("unknown status: " ++ s))

/-- The query `SELECT EXISTS (SELECT 1 FROM files WHERE service_id = $1 AND kind = 'preview')`
of `PatchStatus`. -/
def hasPreview (s : Store) (serviceID : String) : Bool :=
  s.files.any (fun f => f.ServiceID = serviceID ∧ f.Kind = "preview")

end service

namespace adminaction

/-- Go `adminaction.ActionType`. -/
abbrev ActionType := String

def ActionMarkMilestonePaid : ActionType := "MARK_MILESTONE_PAID"

def ActionCompleteServiceWithoutFinalPay : ActionType := "COMPLETE_SERVICE_WITHOUT_FINAL_PAYMENT"

def ActionReopenService : ActionType := "REOPEN_SERVICE"

/-- Function `adminaction.Insert`: appends a row to `admin_actions`. -/
def Insert (s : Store) (serviceID : String) (actionType : ActionType) (reason actor : String)
    (metadata : Metadata) : Store :=
  { s with adminActions := s.adminActions ++ [⟨serviceID, actionType, reason, actor, metadata⟩] }

end adminaction

/-! ## `internal/service/handlers.go`: `PatchStatus` and `AdminOverride` -/

namespace service

/-- Go `PatchStatusRequest`. -/
structure PatchStatusRequest where
  Status : String
  deriving DecidableEq, Repr

/-- Go `AdminOverrideRequest`. -/
structure AdminOverrideRequest where
  ActionType : String
  Reason : String
  MilestoneID : String
  deriving DecidableEq, Repr

/-- Result of a handler of this package: the store afterwards and the HTTP response. -/
structure Outcome where
  store : Store
  response : Response
  deriving DecidableEq, Repr

/-- The closure that `PatchStatus` passes to `db.WithTx`; its value is the response it wrote
with `api.WriteError`, if any. -/
def patchStatusTx (now dbNow : Time) (shopCtx : shop.Shop) (id : String) (next : Status)
    (st : TxState) : TxResult (Option Response) :=
  match GetForUpdate st.view shopCtx.ID id with
  | .error e => ⟨st, some e, none⟩
  | .ok svc =>
    let completion : Option (GoError × Option Response) :=
      if next = StatusCompleted ∧ ¬ svc.CompletedViaOverride then
        match milestone.finalStatus st.view svc.ID with
        | .error e => some (e, none)
        | .ok final =>
          if final ≠ "paid" then
            some (.ErrTxCommitRollback,
              some (.apiError 409 "FINAL_MILESTONE_LOCKED" "final milestone is not paid"))
          else none
      else none
    match completion with
    | some (e, written) => ⟨st, some e, written⟩
    | none =>
      if ¬ CanTransition svc.Status next then
        ⟨st, some .ErrTxCommitRollback,
          some (.apiError 409 "INVALID_STATE_TRANSITION" "invalid state transition")⟩
      else
        let v1 :=
          if next = StatusWaitingForApproval then
            approval.UpsertRequested st.view dbNow svc.ID (hasPreview st.view svc.ID)
          else st.view
        let v2 := UpdateStatus v1 dbNow shopCtx.ID svc.ID next svc.CompletedViaOverride
        let actor := "merchant"
        let v3 := audit.Insert v2 shopCtx.ID (some svc.ID) "STATUS_CHANGED" actor
          [("from", .str svc.Status), ("to", .str next)]
        let v4 := events.Insert v3 svc.ID "STATUS_CHANGED" "Status changed" actor now
          [("from", .str svc.Status), ("to", .str next)]
        ⟨{ st with view := v4 }, none, none⟩

/-- Method `Handlers.PatchStatus`. `shopCtx` is `api.ShopFromContext` (`none` for `nil`), `id`
the URL parameter, `req` the decoded body (`none` when decoding fails), `now` the clock,
`dbNow` the clock of the database and `commitErr` the result of `tx.Commit`. -/
def PatchStatus (now dbNow : Time) (commitErr : Option GoError) (store : Store)
    (shopCtx : Option shop.Shop) (id : String) (req : Option PatchStatusRequest) : Outcome :=
  match shopCtx with
  | none => ⟨store, .apiError 401 "UNAUTHORIZED" "missing shop identity"⟩
  | some shopCtx =>
    if id = "" then ⟨store, .apiError 400 "VALIDATION_FAILED" "missing id"⟩
    else
      match req with
      | none => ⟨store, .apiError 400 "VALIDATION_FAILED" "invalid json"⟩
      | some req =>
        match ParseStatus req.Status with
        | .error _ => ⟨store, .apiError 400 "VALIDATION_FAILED" "invalid status"⟩
        | .ok next =>
          match db.WithTx commitErr store (patchStatusTx now dbNow shopCtx id next) with
          | (store1, some e, written) =>
            if e = .ErrTxCommitRollback then ⟨store1, written.getD (.status 200)⟩
            else ⟨store1, .apiError 404 "NOT_FOUND" "service not found"⟩
          | (store1, none, _) => ⟨store1, .status 204⟩

/-- The closure that `AdminOverride` passes to `db.WithTx`; its value is the response it wrote
with `api.WriteError`, if any. -/
def adminOverrideTx (now dbNow : Time) (shopCtx : shop.Shop) (id : String)
    (action : adminaction.ActionType) (req : AdminOverrideRequest) (st : TxState) :
    TxResult (Option Response) :=
  match GetForUpdate st.view shopCtx.ID id with
  | .error e => ⟨st, some e, none⟩
  | .ok svc =>
    let actor := "merchant"
    let applied : Except Response Store :=
      if action = adminaction.ActionMarkMilestonePaid then
        if req.MilestoneID = "" then
          .error (.apiError 400 "VALIDATION_FAILED"
            "milestoneId is required for MARK_MILESTONE_PAID")
        else
          match milestone.GetForUpdate st.view req.MilestoneID with
          | .error _ => .error (.apiError 404 "NOT_FOUND" "milestone not found")
          | .ok m =>
            if m.ServiceID ≠ svc.ID then .error (.apiError 404 "NOT_FOUND" "milestone not found")
            else if m.Status = "paid" then
              .error (.apiError 409 "MILESTONE_ALREADY_PAID" "milestone already paid")
            else .ok (milestone.MarkPaid st.view m.ID now)
      else if action = adminaction.ActionCompleteServiceWithoutFinalPay then
        .ok (UpdateStatus st.view dbNow shopCtx.ID svc.ID StatusCompleted true)
      else if action = adminaction.ActionReopenService then
        .ok (UpdateStatus st.view dbNow shopCtx.ID svc.ID StatusInProgress false)
      else .ok st.view
    match applied with
    | .error written => ⟨st, some .ErrTxCommitRollback, some written⟩
    | .ok v1 =>
      let v2 := adminaction.Insert v1 svc.ID action req.Reason actor
        [("milestoneId", .str req.MilestoneID)]
      let v3 := audit.Insert v2 shopCtx.ID (some svc.ID) "ADMIN_OVERRIDE" actor
        [("actionType", .str action), ("reason", .str req.Reason),
          ("milestoneId", .str req.MilestoneID)]
      let v4 := events.Insert v3 svc.ID "ADMIN_OVERRIDE" "Admin override applied" actor now
        [("actionType", .str action), ("reason", .str req.Reason),
          ("milestoneId", .str req.MilestoneID)]
      ⟨{ st with view := v4 }, none, none⟩

/-- Method `Handlers.AdminOverride`, with the parameters of `PatchStatus`. -/
def AdminOverride (now dbNow : Time) (commitErr : Option GoError) (store : Store)
    (shopCtx : Option shop.Shop) (id : String) (req : Option AdminOverrideRequest) : Outcome :=
  match shopCtx with
  | none => ⟨store, .apiError 401 "UNAUTHORIZED" "missing shop identity"⟩
  | some shopCtx =>
    if id = "" then ⟨store, .apiError 400 "VALIDATION_FAILED" "missing id"⟩
    else
      match req with
      | none => ⟨store, .apiError 400 "VALIDATION_FAILED" "invalid json"⟩
      | some req =>
        if req.Reason = "" then
          ⟨store, .apiError 400 "OVERRIDE_REASON_REQUIRED" "reason is required"⟩
        else if ¬ (req.ActionType = adminaction.ActionMarkMilestonePaid ∨
            req.ActionType = adminaction.ActionCompleteServiceWithoutFinalPay ∨
            req.ActionType = adminaction.ActionReopenService) then
          ⟨store, .apiError 400 "VALIDATION_FAILED" "invalid actionType"⟩
        else
          match db.WithTx commitErr store
              (adminOverrideTx now dbNow shopCtx id req.ActionType req) with
          | (store1, some e, written) =>
            if e = .ErrTxCommitRollback then ⟨store1, written.getD (.status 200)⟩
            else ⟨store1, .apiError 404 "NOT_FOUND" "service not found"⟩
          | (store1, none, _) => ⟨store1, .status 204⟩

end service

/-! ## `internal/portal/handlers.go`: the client actions -/

namespace portal

/-- Result of a client action: the store afterwards and the HTTP response. -/
structure Outcome where
  store : Store
  response : Response
  deriving DecidableEq, Repr

/-- The closure that `clientAction` passes to `db.WithTx`; its value is the response it wrote
with `api.WriteError`, if any. -/
def clientActionTx (now dbNow : Time) (token note : String) (approve : Bool) (st : TxState) :
    TxResult (Option Response) :=
  match GetActiveByTokenForUpdate st.view token now with
  | .error _ =>
    ⟨st, some .ErrTxCommitRollback, some (.apiError 404 "NOT_FOUND" "portal link not found")⟩
  | .ok tr =>
    match service.GetForUpdateAny st.view tr.ServiceID with
    | .error _ =>
      ⟨st, some .ErrTxCommitRollback, some (.apiError 404 "NOT_FOUND" "service not found")⟩
    | .ok svc =>
      if svc.Status ≠ StatusWaitingForApproval then
        ⟨st, some .ErrTxCommitRollback,
          some (.apiError 409 "INVALID_STATE_TRANSITION" "service is not waiting for approval")⟩
      else
        let actor := "client"
        if approve then
          let v1 := approval.Approve st.view dbNow svc.ID note
          let v2 := milestone.UnlockFinal v1 svc.ID
          let v3 := audit.Insert v2 svc.ShopID (some svc.ID) "APPROVED" actor
            [("note", .str note)]
          let v4 := events.Insert v3 svc.ID "APPROVED" "Client approved" actor now []
          ⟨{ st with view := v4 }, none, none⟩
        else
          let v1 := approval.RequestRevision st.view dbNow svc.ID note
          let v2 := service.UpdateStatus v1 dbNow svc.ShopID svc.ID StatusInProgress false
          let v3 := audit.Insert v2 svc.ShopID (some svc.ID) "REVISION_REQUESTED" actor
            [("note", .str note)]
          let v4 := events.Insert v3 svc.ID "REVISION_REQUESTED" "Client requested revision"
            actor now []
          ⟨{ st with view := v4 }, none, none⟩

/-- Method `Handlers.clientAction`. `token` is the URL parameter, `note` the note of the
decoded body (`""` when decoding fails: the error is ignored), `now` the clock, `dbNow` the
clock of the database and `commitErr` the result of `tx.Commit`. -/
def clientAction (now dbNow : Time) (commitErr : Option GoError) (store : Store)
    (token note : String) (approve : Bool) : Outcome :=
  if token = "" then ⟨store, .apiError 400 "VALIDATION_FAILED" "missing token"⟩
  else
    match db.WithTx commitErr store (clientActionTx now dbNow token note approve) with
    | (store1, some e, written) =>
      if e = .ErrTxCommitRollback then ⟨store1, written.getD (.status 200)⟩
      else ⟨store1, .apiError 500 "INTERNAL" "internal error"⟩
    | (store1, none, _) => ⟨store1, .status 204⟩

/-- Method `Handlers.Approve`. -/
def Approve (now dbNow : Time) (commitErr : Option GoError) (store : Store)
    (token note : String) : Outcome :=
  clientAction now dbNow commitErr store token note true

/-- Method `Handlers.RequestRevision`. -/
def RequestRevision (now dbNow : Time) (commitErr : Option GoError) (store : Store)
    (token note : String) : Outcome :=
  clientAction now dbNow commitErr store token note false

end portal

/-! ### Notions used to state the properties of the approval gate -/

namespace approval

/-- A statement of the approval gate on `approvals`, with its arguments and the time of the
database when it runs. -/
inductive Op where
  | upsertRequested (dbNow : Time) (serviceID : String) (hasPreview : Bool)
  | approve (dbNow : Time) (serviceID note : String)
  | requestRevision (dbNow : Time) (serviceID note : String)
  deriving DecidableEq, Repr

/-- The store after one statement of the approval gate. -/
def Op.apply (s : Store) : Op → Store
  | .upsertRequested dbNow serviceID hasPreview => UpsertRequested s dbNow serviceID hasPreview
  | .approve dbNow serviceID note => Approve s dbNow serviceID note
  | .requestRevision dbNow serviceID note => RequestRevision s dbNow serviceID note

/-- The store after a sequence of statements of the approval gate, in order. -/
def run (s : Store) (ops : List Op) : Store := ops.foldl Op.apply s

/-- No approval record of the store is approved and has a revision requested at once. -/
def Exclusive (s : Store) : Prop :=
  ∀ a ∈ s.approvals, ¬ (a.Approved = true ∧ a.RevisionRequested = true)

end approval

/-! ### Notions used to state the properties of the status and milestone updates -/

/-- The primary key of `services`: no two rows of the store share an id. -/
def UniqueServiceIDs (s : Store) : Prop :=
  ∀ a ∈ s.services, ∀ b ∈ s.services, a.ID = b.ID → a = b

/-- The primary key of `milestones`: no two rows of the store share an id. -/
def UniqueMilestoneIDs (s : Store) : Prop :=
  ∀ a ∈ s.milestones, ∀ b ∈ s.milestones, a.ID = b.ID → a = b

/-- From store `s` to store `t`, every service keeps its status or goes from a status `x` to
a status `y` with `R x y`. -/
def StatusChangesAllowed (R : Status → Status → Prop) (s t : Store) : Prop :=
  ∀ a ∈ s.services, ∀ b ∈ t.services, b.ID = a.ID → b.Status = a.Status ∨ R a.Status b.Status

/-- From store `s` to store `t`, a milestone that was not paid and is paid afterwards had a
stored, non-empty draft order id. -/
def PaidOnlyWithReference (s t : Store) : Prop :=
  ∀ a ∈ s.milestones, ∀ b ∈ t.milestones, b.ID = a.ID → a.Status ≠ "paid" → b.Status = "paid" →
    ∃ d, a.DraftOrderID = some d ∧ d ≠ ""

instance (s : Store) : Decidable (UniqueServiceIDs s) := by
  unfold UniqueServiceIDs; infer_instance

instance (s : Store) : Decidable (UniqueMilestoneIDs s) := by
  unfold UniqueMilestoneIDs; infer_instance

/-- From store `s` to store `t`, the milestones and the services only grew, by rows with the
identifiers that the environment `env` gives to new rows. -/
def CreationFrame (env : webhook.Env) (s t : Store) : Prop :=
  (∃ extra, t.milestones = s.milestones ++ extra ∧
      ∀ e ∈ extra, ∃ j, e.ID = env.newMilestoneID j) ∧
    (∃ extra, t.services = s.services ++ extra ∧ ∀ e ∈ extra, e.ID = env.newServiceID)

/-! ## Example data for the merchant and client handlers -/

namespace Example

/-- The portal link of the demo service, valid until time 100. -/
def demoToken : portal.TokenRecord := ⟨"tok-0", "svc-1", "link-1", 100, none⟩

/-- The demo store with the portal link; the service is `InProgress`. -/
def portalStore : Store := { demoStore with portalTokens := [demoToken] }

/-- The demo service after the merchant asked for approval. -/
def waitingService : service.Service := { demoService with Status := StatusWaitingForApproval }

/-- The approval record that `PatchStatus` opened for the demo service. -/
def openApproval : approval.Record := ⟨"svc-1", false, false, "", true, none, 5⟩

/-- The demo store with the service waiting for approval: the final milestone `m-2` is
locked. -/
def waitingStore : Store :=
  { demoStore with
    services := [waitingService], approvals := [openApproval], portalTokens := [demoToken] }

/-- The demo store after the client approved, the merchant moved the service back to
`InProgress` and requested the final payment: the approval record says approved and the final
milestone `m-2` is unpaid with its payment request. -/
def approvedInProgress : Store :=
  { demoStore with
    milestones :=
      [ ⟨"m-0", "svc-1", 0, 30, "paid", none, none, some 0⟩,
        ⟨"m-1", "svc-1", 1, 30, "paid", some "2001", some "https://pay.example/2001", some 3⟩,
        ⟨"m-2", "svc-1", 2, 40, "unpaid", some "2002", some "https://pay.example/2002", none⟩ ],
    approvals := [⟨"svc-1", true, false, "looks good", true, some 6, 6⟩],
    portalTokens := [demoToken] }

/-- Decoders that read every body as the settlement of the draft order `2002`, and as the
paid order `7002` whose note names milestone `m-2`. -/
def settleDecoders : webhook.Decoders :=
  ⟨fun _ => some ⟨7002, "client@example.com", "40.00", "USD",
      "service_workflow: milestone_id=m-2 service_id=svc-1", "Ada", "Client", [9001]⟩,
    fun _ => some ⟨"2002"⟩⟩

/-- A `milestone_paid` delivery for the demo shop. -/
def settleDelivery : webhook.Request :=
  ⟨"milestone_paid", "", "demo.myshopify.com", "sig", "", "", some "draft-2002"⟩

end Example

namespace Example

/-- The store after the client approved on `waitingStore` and the merchant then moved the
service back to `InProgress`: the approval record still says approved and the final milestone
`m-2` is unpaid. -/
def reopenedAfterApproval : Store :=
  (service.PatchStatus 11 11 none
    (portal.Approve 10 10 none waitingStore "link-1" "looks good").store
    (some demoShop) "svc-1" (some ⟨StatusInProgress⟩)).store

/-- The delivery of the paid order whose note names the final milestone `m-2`, on
`reopenedAfterApproval`. -/
def finalSettlement : webhook.Outcome :=
  webhook.ServeHTTP demoConfig demoLib settleDecoders demoEnv reopenedAfterApproval demoDelivery

end Example

namespace Example

/-- The demo store with a configuration stored for the product `9001`. -/
def creationStore : Store :=
  { demoStore with serviceProductConfigs := [⟨"shop-1", "9001", "template-json"⟩] }

/-- Decoders that read every body as the paid order `7003` for the product `9001`, with an
empty note. -/
def creationDecoders : webhook.Decoders :=
  ⟨fun _ => some ⟨7003, "new@example.com", "10.01", "USD", "", "Bo", "Buyer", [9001]⟩,
    fun _ => none⟩

/-- An environment that numbers the milestones it creates. -/
def creationEnv : webhook.Env :=
  ⟨10, 10, "svc-new", fun i => "ms-new-" ++ toString i, "tok-1", "abcdef", none⟩

/-- Library stand-ins that read the stored configuration as the template 50% + 50% (final)
and the total price as 10.01. -/
def halvesLib : Lib :=
  ⟨Char.toLower, fun body => "sha256:" ++ body, fun _ _ => "sig",
    fun _ => some (1001 / 100),
    fun _ => some ⟨1, "USD",
      [⟨TemplateTypePercentage, 50, false⟩, ⟨TemplateTypePercentage, 50, true⟩]⟩⟩

/-- Library stand-ins that read the stored configuration as the one-entry template 100%
(final) and the total price as 100. -/
def singleLib : Lib :=
  ⟨Char.toLower, fun body => "sha256:" ++ body, fun _ _ => "sig",
    fun _ => some 100,
    fun _ => some ⟨1, "USD", [⟨TemplateTypePercentage, 100, true⟩]⟩⟩

end Example

/-! ## Example data for the deliveries of the webhook handler -/

namespace Example

/-- An `orders/paid` delivery, correctly signed, from a domain that no shop has. -/
def strangerDelivery : webhook.Request :=
  ⟨"orders/paid", "", "stranger.myshopify.com", "sig", "", "", some "order-7001"⟩

/-- An `app/uninstalled` delivery for the demo shop. -/
def uninstallDelivery : webhook.Request :=
  ⟨"app/uninstalled", "", "demo.myshopify.com", "sig", "wh-9", "", some "uninstall"⟩

/-- The demo environment with a commit that fails. -/
def failingCommitEnv : webhook.Env :=
  { demoEnv with commitErr := some (.other "conn closed") }

end Example

/-! ## The tokens of a note, as the specification words them -/

namespace notespec

/-- The class `[A-Za-z0-9_]` of the specification's key. -/
def isAsciiKeyChar (c : Char) : Bool := c.isAlphanum || c = '_'

/-- The class `[A-Za-z0-9-]` of the specification's value. -/
def isAsciiValueChar (c : Char) : Bool := c.isAlphanum || c = '-'

/-- The token `k=v` that starts at the head of `cs`, if there is one: `k` is the run of key
characters up to the `=`, `v` the longest run of value characters after it, both non-empty. -/
def tokenAt (keyC valC : Char → Bool) (cs : List Char) : Option (List Char × List Char) :=
  let k := cs.takeWhile keyC
  match cs.dropWhile keyC with
  | '=' :: rest =>
    let v := rest.takeWhile valC
    if k ≠ [] ∧ v ≠ [] then some (k, v) else none
  | _ => none

/-- All tokens of a note in the order of their positions: a token may start at a position that
is the beginning of the note or comes right after a separator (`boundary` says so for the
current position). -/
def tokens (keyC valC sepC : Char → Bool) : Bool → List Char → List (List Char × List Char)
  | _, [] => []
  | boundary, c :: tl =>
    (if boundary then (tokenAt keyC valC (c :: tl)).toList else []) ++
      tokens keyC valC sepC (sepC c) tl

/-- The value of the first token whose key equals `key` ignoring case, the empty string when
there is none. -/
def parseKey (keyC valC sepC : Char → Bool) (lib : Lib) (note key : String) : String :=
  match (tokens keyC valC sepC true note.toList).find?
      (fun m => ToLower lib (String.mk m.1) = ToLower lib key) with
  | some m => String.mk m.2
  | none => ""

end notespec

/-! ## `pkg/shopify/sessiontoken.go` -/

/-- Go `strings.TrimPrefix`. -/
def TrimPrefix (s pre : String) : String :=
  if pre.toList.isPrefixOf s.toList then String.mk (s.toList.drop pre.toList.length) else s

/-- Go `strings.TrimSuffix`. -/
def TrimSuffix (s suf : String) : String :=
  if suf.toList.isSuffixOf s.toList then
    String.mk (s.toList.take (s.toList.length - suf.toList.length))
  else s

namespace shopify

/-- The claims of a session token that the source reads: of `jwt.RegisteredClaims` the issuer,
the audience and the two times (`nil` as `none`), and the custom claim `dest`. -/
structure SessionTokenClaims where
  Issuer : String
  Audience : List String
  ExpiresAt : Option Time
  NotBefore : Option Time
  Dest : String
  deriving DecidableEq, Repr

structure VerifiedSession where
  ShopDomain : String
  ExpiresAt : Time
  deriving DecidableEq, Repr

end shopify

/-! ### The parser of `github.com/golang-jwt/jwt/v5` -/

namespace jwt

/-- What `VerifySessionToken` uses of the package `github.com/golang-jwt/jwt/v5`, whose code
is not part of the repository. `decode tokenString key` is the first part of
`Parser.ParseWithClaims`: it splits and decodes the token, checks that its signing method is
one of the valid methods `["HS256"]` and verifies the signature with the key that the key
function returns; its value is the error or the decoded claims. `invalidClaims expired
notValidYet` is the error that `ParseWithClaims` returns when the validation of the claims
fails; it wraps `ErrTokenExpired`, `ErrTokenNotValidYet` or both. -/
structure Library where
  decode : String → String → Except GoError shopify.SessionTokenClaims
  invalidClaims : Bool → Bool → GoError

/-- Method `Parser.ParseWithClaims` of the parser that `VerifySessionToken` makes, with the
time function `now`: once the signature is verified, the library validates the registered
claims. An expiry time must be after `now` (`now.Before(exp)`), and `now` must not be before
a not-before time; both claims are optional, and no other claim is validated with these
options. The result is the error of the call, or the decoded claims with the field `Valid` of
the token, which the library sets when it returns no error. -/
def ParseWithClaims (lib : Library) (tokenString key : String) (now : Time) :
    Except GoError (shopify.SessionTokenClaims × Bool) :=
  match lib.decode tokenString key with
  | .error err => .error err
  | .ok claims =>
    let expired : Bool :=
      match claims.ExpiresAt with
      | some exp => decide (¬ now < exp)
      | none => false
    let notValidYet : Bool :=
      match claims.NotBefore with
      | some nbf => decide (now < nbf)
      | none => false
    if expired ∨ notValidYet then .error (lib.invalidClaims expired notValidYet)
    else .ok (claims, true)

end jwt

namespace shopify

/-- Function `audContains`. -/
def audContains : List String → String → Bool
  | [], _ => false
  | a :: rest, want => if a = want then true else audContains rest want

/-- Function `extractShopFromClaims`. -/
def extractShopFromClaims (c : SessionTokenClaims) : String :=
  let fromDest : String :=
    if c.Dest ≠ "" then
      let s := TrimSpace c.Dest
      let s := TrimPrefix s "https://"
      let s := TrimPrefix s "http://"
      TrimSuffix s "/"
    else ""
  if fromDest ≠ "" then fromDest
  else if c.Issuer ≠ "" then
    let s := TrimSpace c.Issuer
    let s := TrimPrefix s "https://"
    let s := TrimPrefix s "http://"
    TrimSuffix s "/"
  else ""

/-- Function `VerifySessionToken`; `lib` is the JWT library. -/
def VerifySessionToken (lib : jwt.Library) (tokenString apiKey apiSecret : String)
    (now : Time) : Except GoError VerifiedSession :=
  if tokenString = "" then .error (.other "missing token")
  else if apiSecret = "" then .error (.other "missing api secret")
  else
    match jwt.ParseWithClaims lib tokenString apiSecret now with
    | .error err => .error err
    | .ok (claims, valid) =>
      if !valid then .error (.other "invalid token")
      else
        match claims.ExpiresAt with
        | none => .error (.other "token expired")
        | some expiresAt =>
          if expiresAt < now then .error (.other "token expired")
          else if (match claims.NotBefore with
              | some notBefore => decide (notBefore > now)
              | none => false) then
            .error (.other "token not active yet")
          else if apiKey ≠ "" ∧ audContains claims.Audience apiKey = false then
            .error (.other "audience mismatch")
          else
            let shopDomain := extractShopFromClaims claims
            if shopDomain = "" then .error (.other "missing shop in token")
            else .ok ⟨shopDomain, expiresAt⟩

end shopify

namespace Example

/-- The claims of a session token of the demo shop that expires at time 300. -/
def sessionClaims : shopify.SessionTokenClaims :=
  ⟨"https://demo.myshopify.com/admin", ["api-key"], some 300, none,
    "https://demo.myshopify.com"⟩

/-- A stand-in for the JWT library. Under the key `secret` the token `token-now` decodes to
the demo claims, `token-early` to the same claims with the not-before time 200, and
`token-open` to the same claims without an expiry time; under any other key the signature
does not verify. -/
def demoJWT : jwt.Library :=
  ⟨fun token key =>
      if key ≠ "secret" then .error (.other "token signature is invalid: signature is invalid")
      else if token = "token-now" then .ok sessionClaims
      else if token = "token-early" then .ok { sessionClaims with NotBefore := some 200 }
      else if token = "token-open" then .ok { sessionClaims with ExpiresAt := none }
      else .error (.other "token is malformed: token contains an invalid number of segments"),
    fun expired notValidYet =>
      .other ("token has invalid claims: " ++
        (if expired ∧ notValidYet then "token is expired, token is not valid yet"
          else if expired then "token is expired" else "token is not valid yet"))⟩

end Example

/-! ### Notions used to state the properties of the reachable states -/

namespace approval

/-- The client has answered the approval request of the service: the service has an approval
record, and each of its approval records is approved or has a revision requested. -/
def Answered (s : Store) (serviceID : String) : Prop :=
  (∃ a ∈ s.approvals, a.ServiceID = serviceID) ∧
    ∀ a ∈ s.approvals, a.ServiceID = serviceID →
      a.Approved = true ∨ a.RevisionRequested = true

end approval

/-- The identifiers that the database gives to the rows a delivery creates are new: no
service and no milestone of the store refers to the new service id, no milestone of the store
has one of the new milestone ids, and the new milestone ids differ from each other. -/
def FreshIDs (env : webhook.Env) (s : Store) : Prop :=
  (∀ sv ∈ s.services, sv.ID ≠ env.newServiceID) ∧
    (∀ m ∈ s.milestones, m.ServiceID ≠ env.newServiceID) ∧
    (∀ m ∈ s.milestones, ∀ i, m.ID ≠ env.newMilestoneID i) ∧
    ∀ i j, env.newMilestoneID i = env.newMilestoneID j → i = j

/-- The empty database. -/
def emptyStore : Store := ⟨[], [], [], [], [], [], [], [], [], [], []⟩

/-- The stores that the handlers produce from the empty database. A step is one call of a
handler that writes services, milestones or approval records: a webhook delivery (order paid,
milestone settlement, uninstall), `PatchStatus`, a client action (`Approve` or
`RequestRevision`), `RequestPayment` and, when `admin` is set, `AdminOverride`; or any other
change of the store that keeps the services, the milestones and the approval records (the
installation of a shop, a product configuration, a portal link, an uploaded file). -/
inductive Reachable (admin : Bool) : Store → Prop
  | empty : Reachable admin emptyStore
  | other (s t : Store) : Reachable admin s → t.services = s.services →
      t.milestones = s.milestones → t.approvals = s.approvals → Reachable admin t
  | delivery (cfg : config.Config) (lib : Lib) (dec : webhook.Decoders) (env : webhook.Env)
      (s : Store) (r : webhook.Request) : Reachable admin s → FreshIDs env s →
      Reachable admin (webhook.ServeHTTP cfg lib dec env s r).store
  | patchStatus (now dbNow : Time) (commitErr : Option GoError) (s : Store)
      (shopCtx : Option shop.Shop) (id : String) (req : Option service.PatchStatusRequest) :
      Reachable admin s →
      Reachable admin (service.PatchStatus now dbNow commitErr s shopCtx id req).store
  | clientAction (now dbNow : Time) (commitErr : Option GoError) (s : Store)
      (token note : String) (approve : Bool) : Reachable admin s →
      Reachable admin (portal.clientAction now dbNow commitErr s token note approve).store
  | requestPayment (cfg : config.Config) (platform : shopify.Platform) (now : Time)
      (commitErr : Option GoError) (s : Store) (shopCtx : Option shop.Shop) (id : String) :
      Reachable admin s →
      Reachable admin (payment.RequestPayment cfg platform now commitErr s shopCtx id).store
  | adminOverride (now dbNow : Time) (commitErr : Option GoError) (s : Store)
      (shopCtx : Option shop.Shop) (id : String) (req : Option service.AdminOverrideRequest) :
      admin = true → Reachable admin s →
      Reachable admin (service.AdminOverride now dbNow commitErr s shopCtx id req).store

/-- A service flagged as completed by an override is `Completed`. -/
def OverrideFlagOnlyCompleted (s : Store) : Prop :=
  ∀ sv ∈ s.services, sv.CompletedViaOverride = true → sv.Status = StatusCompleted

/-- A locked milestone has no payment request. -/
def NoLockedReference (s : Store) : Prop :=
  ∀ m ∈ s.milestones, m.Status = "locked" → m.DraftOrderID = none

/-- A service that waits for approval has an approval record. -/
def WaitingHasRecord (s : Store) : Prop :=
  ∀ sv ∈ s.services, sv.Status = StatusWaitingForApproval →
    ∃ a ∈ s.approvals, a.ServiceID = sv.ID

/-- For a service with more than one milestone, the milestone with the highest sequence is out
of the locked state only if the client has answered the approval request. -/
def FinalGate (s : Store) : Prop :=
  ∀ m ∈ s.milestones, (∃ x ∈ s.milestones, x.ServiceID = m.ServiceID ∧ x.ID ≠ m.ID) →
    milestone.finalSequence s m.ServiceID = some m.Sequence → m.Status ≠ "locked" →
    approval.Answered s m.ServiceID

/-- What the handlers other than the admin override keep of the services, the milestones and
the approval records. -/
def WorkflowInvariant (s : Store) : Prop :=
  UniqueServiceIDs s ∧ UniqueMilestoneIDs s ∧ NoLockedReference s ∧ WaitingHasRecord s ∧
    FinalGate s

/-- What every handler, the admin override included, keeps of the milestones: the ids are
unique and a locked milestone has no payment request. -/
def ReferenceInvariant (s : Store) : Prop :=
  UniqueMilestoneIDs s ∧ NoLockedReference s

/-! ## Example data for the reachable states -/

namespace Example

/-- The database once the demo shop is installed and a configuration is stored for the product
`9001`, before any order. -/
def installedStore : Store :=
  { emptyStore with
    shops := [demoShop], serviceProductConfigs := [⟨"shop-1", "9001", "template-json"⟩] }

/-- Library stand-ins that read the stored configuration as the template 50% + 50% (final)
and the total price as 100. -/
def evenLib : Lib :=
  ⟨Char.toLower, fun body => "sha256:" ++ body, fun _ _ => "sig",
    fun _ => some 100,
    fun _ => some ⟨1, "USD",
      [⟨TemplateTypePercentage, 50, false⟩, ⟨TemplateTypePercentage, 50, true⟩]⟩⟩

/-- An environment that gives the milestones the ids `ms-`, `ms-i`, `ms-ii`, and so on. -/
def tallyEnv : webhook.Env :=
  ⟨10, 10, "svc-new", fun i => "ms-" ++ String.mk (List.replicate i 'i'), "tok-1", "abcdef",
    none⟩

/-- The delivery of the paid order `7003` on `installedStore`. -/
def bookingDelivery : webhook.Outcome :=
  webhook.ServeHTTP demoConfig evenLib creationDecoders tallyEnv installedStore demoDelivery

/-- The services and the milestones that `bookingDelivery` leaves: the service `svc-new` is
`Booked`, its deposit `ms-` is paid and its final milestone `ms-i` is locked. The client holds
the portal link `abcdef`. -/
def bookedStore : Store :=
  { installedStore with
    services :=
      [⟨"svc-new", "shop-1", "7003", "9001", "new@example.com", "Bo Buyer", 100, "USD",
        StatusBooked, "template-json", false, 10⟩],
    milestones :=
      [ ⟨"ms-", "svc-new", 0, 50, "paid", none, none, some 10⟩,
        ⟨"ms-i", "svc-new", 1, 50, "locked", none, none, none⟩ ],
    portalTokens := [⟨"tok-1", "svc-new", "abcdef", 1000, none⟩] }

/-- The merchant starts the work and asks for approval. -/
def submittedStore : Store :=
  (service.PatchStatus 12 12 none
    (service.PatchStatus 11 11 none bookedStore (some demoShop) "svc-new"
      (some ⟨StatusInProgress⟩)).store
    (some demoShop) "svc-new" (some ⟨StatusWaitingForApproval⟩)).store

/-- The client approves. -/
def approvedStore : Store :=
  (portal.clientAction 13 13 none submittedStore "abcdef" "looks good" true).store

/-- The client then requests a revision. -/
def revisedStore : Store :=
  (portal.clientAction 14 14 none approvedStore "abcdef" "one more change" false).store

/-- The merchant completes the booked service by an admin override. -/
def overriddenStore : Store :=
  (service.AdminOverride 11 11 none bookedStore (some demoShop) "svc-new"
    (some ⟨adminaction.ActionCompleteServiceWithoutFinalPay, "paid in cash", ""⟩)).store

end Example

namespace Example

/-- A payment platform that creates the draft order `1001` with an invoice URL. -/
def platformInvoice : shopify.Platform :=
  fun _ => .ok ⟨some ⟨"gid://shopify/DraftOrder/1001", "https://pay.example/1001"⟩, [], []⟩

/-- The merchant requests the payment of the final milestone `ms-i` of `approvedStore`. -/
def requestedStore : Store :=
  (payment.RequestPayment demoConfig platformInvoice 15 none approvedStore (some demoShop)
    "ms-i").store

/-- Decoders that read every body as the settlement of the draft order `1001`. -/
def draftDecoders : webhook.Decoders := ⟨fun _ => none, fun _ => some ⟨"1001"⟩⟩

/-- An environment at time 16 whose new identifiers have at least six characters. -/
def laterEnv : webhook.Env :=
  ⟨16, 16, "svc-later", fun i => "later-" ++ String.mk (List.replicate i 'i'), "tok-2",
    "ghijkl", none⟩

/-- A `milestone_paid` delivery for the demo shop. -/
def draftDelivery : webhook.Request :=
  ⟨"milestone_paid", "", "demo.myshopify.com", "sig", "", "", some "draft-1001"⟩

/-- The platform reports the payment of the draft order `1001` on `requestedStore`: the final
milestone `ms-i` is paid and keeps its payment request. -/
def settledStore : Store :=
  (webhook.ServeHTTP demoConfig demoLib draftDecoders laterEnv requestedStore
    draftDelivery).store

end Example

/-! # Theorems -/

/-! ## Template validation -/

theorem validateLoop_cons_ok (t : MilestoneTemplate) (rest : List MilestoneTemplate)
    (i f : Int) (h : EntryOK t) :
    validateLoop (t :: rest) i f =
      if t.IsFinal then
        if f ≠ -1 then
          .error ⟨"FINAL_MILESTONE_DUPLICATE", "exactly one final milestone is required"⟩
        else validateLoop rest (i + 1) i
      else validateLoop rest (i + 1) f := by
  obtain ⟨hv, ht⟩ := h
  simp only [validateLoop, not_le.mpr hv, if_false, ht, not_true_eq_false]

theorem validateLoop_cons_bad (t : MilestoneTemplate) (rest : List MilestoneTemplate)
    (i f r : Int) (h : ¬ EntryOK t) : validateLoop (t :: rest) i f ≠ .ok r := by
  unfold EntryOK at h
  unfold validateLoop
  by_cases hv : t.Value ≤ 0
  · simp only [hv, if_true]
    intro hc; cases hc
  · have ht : ¬(t.Typ = TemplateTypeFixed ∨ t.Typ = TemplateTypePercentage) :=
      fun ht => h ⟨not_le.mp hv, ht⟩
    simp only [hv, if_false, ht, not_false_eq_true, if_true]
    intro hc; cases hc

theorem validateLoop_seen (ts : List MilestoneTemplate) (i f r : Int) (hf : f ≠ -1) :
    validateLoop ts i f = .ok r ↔ r = f ∧ ∀ t ∈ ts, EntryOK t ∧ t.IsFinal = false := by
  induction ts generalizing i with
  | nil =>
    simp only [validateLoop]
    constructor
    · intro h; cases h; exact ⟨rfl, by simp⟩
    · rintro ⟨rfl, -⟩; rfl
  | cons t rest ih =>
    by_cases hok : EntryOK t
    · rw [validateLoop_cons_ok t rest i f hok]
      cases hfin : t.IsFinal
      · simp only [Bool.false_eq_true, if_false]
        rw [ih]
        constructor
        · rintro ⟨hr, hall⟩
          refine ⟨hr, fun x hx => ?_⟩
          rcases List.mem_cons.mp hx with rfl | hx
          · exact ⟨hok, hfin⟩
          · exact hall x hx
        · rintro ⟨hr, hall⟩
          exact ⟨hr, fun x hx => hall x (List.mem_cons_of_mem _ hx)⟩
      · simp only [if_true, ne_eq, hf, not_false_eq_true]
        constructor
        · intro hc; cases hc
        · rintro ⟨-, hall⟩
          have := (hall t (List.mem_cons_self _ _)).2
          rw [hfin] at this
          cases this
    · constructor
      · intro h; exact absurd h (validateLoop_cons_bad t rest i f r hok)
      · intro h; exact absurd (h.2 t (List.mem_cons_self _ _)).1 hok

theorem validateLoop_unseen (ts : List MilestoneTemplate) (i r : Int) (hi : 0 ≤ i) :
    validateLoop ts i (-1) = .ok r ↔
      (r = -1 ∧ ∀ t ∈ ts, EntryOK t ∧ t.IsFinal = false) ∨
      (∃ pre t post, ts = pre ++ t :: post ∧ t.IsFinal = true ∧ EntryOK t ∧
        r = i + (pre.length : Int) ∧ (∀ x ∈ pre, EntryOK x ∧ x.IsFinal = false) ∧
        (∀ x ∈ post, EntryOK x ∧ x.IsFinal = false)) := by
  induction ts generalizing i with
  | nil =>
    simp only [validateLoop]
    constructor
    · intro h; cases h; exact Or.inl ⟨rfl, by simp⟩
    · rintro (⟨rfl, -⟩ | ⟨pre, u, post, heq, -⟩)
      · rfl
      · simp at heq
  | cons t rest ih =>
    by_cases hok : EntryOK t
    · rw [validateLoop_cons_ok t rest i (-1) hok]
      cases hfin : t.IsFinal
      · simp only [Bool.false_eq_true, if_false]
        rw [ih (i + 1) (by omega)]
        constructor
        · rintro (⟨hr, hall⟩ | ⟨pre, u, post, rfl, hu, huok, hr, hpre, hpost⟩)
          · left
            refine ⟨hr, ?_⟩
            intro x hx
            rcases List.mem_cons.mp hx with rfl | hx
            · exact ⟨hok, hfin⟩
            · exact hall x hx
          · right
            refine ⟨t :: pre, u, post, rfl, hu, huok, ?_, ?_, hpost⟩
            · simp only [List.length_cons]; push_cast; omega
            · intro x hx
              rcases List.mem_cons.mp hx with rfl | hx
              · exact ⟨hok, hfin⟩
              · exact hpre x hx
        · rintro (⟨hr, hall⟩ | ⟨pre, u, post, heq, hu, huok, hr, hpre, hpost⟩)
          · left
            exact ⟨hr, fun x hx => hall x (List.mem_cons_of_mem _ hx)⟩
          · right
            cases pre with
            | nil =>
              simp only [List.nil_append, List.cons.injEq] at heq
              obtain ⟨rfl, -⟩ := heq
              rw [hfin] at hu
              exact absurd hu (by simp)
            | cons p pre =>
              simp only [List.cons_append, List.cons.injEq] at heq
              obtain ⟨rfl, rfl⟩ := heq
              refine ⟨pre, u, post, rfl, hu, huok, ?_, ?_, hpost⟩
              · simp only [List.length_cons] at hr; push_cast at hr; omega
              · exact fun x hx => hpre x (List.mem_cons_of_mem _ hx)
      · simp only [if_true, ne_eq, not_true_eq_false, if_false]
        rw [validateLoop_seen rest (i + 1) i r (by omega)]
        constructor
        · rintro ⟨hr, hall⟩
          right
          exact ⟨[], t, rest, rfl, hfin, hok, by simp [hr], by simp, hall⟩
        · rintro (⟨hr, hall⟩ | ⟨pre, u, post, heq, hu, huok, hr, hpre, hpost⟩)
          · have := (hall t (List.mem_cons_self _ _)).2
            rw [hfin] at this
            exact absurd this (by simp)
          · cases pre with
            | nil =>
              simp only [List.nil_append, List.cons.injEq] at heq
              obtain ⟨rfl, rfl⟩ := heq
              exact ⟨by simpa using hr, hpost⟩
            | cons p pre =>
              simp only [List.cons_append, List.cons.injEq] at heq
              obtain ⟨rfl, -⟩ := heq
              have := (hpre _ (List.mem_cons_self _ _)).2
              rw [hfin] at this
              exact absurd this (by simp)
    · constructor
      · intro h; exact absurd h (validateLoop_cons_bad t rest i (-1) r hok)
      · rintro (⟨-, hall⟩ | ⟨pre, u, post, heq, hu, huok, hr, hpre, hpost⟩)
        · exact absurd (hall t (List.mem_cons_self _ _)).1 hok
        · cases pre with
          | nil =>
            simp only [List.nil_append, List.cons.injEq] at heq
            obtain ⟨rfl, -⟩ := heq
            exact absurd huok hok
          | cons p pre =>
            simp only [List.cons_append, List.cons.injEq] at heq
            obtain ⟨rfl, -⟩ := heq
            exact absurd (hpre _ (List.mem_cons_self _ _)).1 hok

/-- The shape of an accepted template: valid entries, the last one final, no other final. -/
theorem validateTemplate_eq_none_iff (ts : List MilestoneTemplate) :
    ValidateTemplate ts = none ↔
      ∃ init l, ts = init ++ [l] ∧ l.IsFinal = true ∧ EntryOK l ∧
        ∀ x ∈ init, EntryOK x ∧ x.IsFinal = false := by
  unfold ValidateTemplate
  by_cases hlen : ts.length = 0
  · simp only [hlen, if_true]
    constructor
    · intro h; cases h
    · rintro ⟨init, l, rfl, -⟩
      simp at hlen
  · simp only [hlen, if_false]
    cases hloop : validateLoop ts 0 (-1) with
    | error e =>
      refine ⟨fun h => (by cases h), ?_⟩
      rintro ⟨init, l, rfl, hl, hlok, hinit⟩
      have : validateLoop (init ++ [l]) 0 (-1) = .ok ((init.length : Int)) := by
        rw [validateLoop_unseen _ _ _ le_rfl]
        right
        exact ⟨init, l, [], rfl, hl, hlok, by simp, hinit, by simp⟩
      rw [this] at hloop
      cases hloop
    | ok r =>
      rw [validateLoop_unseen _ _ _ le_rfl] at hloop
      rcases hloop with ⟨hr, hall⟩ | ⟨pre, u, post, rfl, hu, huok, hr, hpre, hpost⟩
      · simp only [hr, if_true]
        refine ⟨fun h => (by cases h), ?_⟩
        rintro ⟨init, l, rfl, hl, -, -⟩
        have := (hall l (by simp)).2
        rw [hl] at this
        cases this
      · have hr1 : r ≠ -1 := by omega
        simp only [hr1, if_false]
        by_cases hlast : r = ((pre ++ u :: post).length : Int) - 1
        · simp only [hlast, ne_eq, not_true_eq_false, if_false, true_iff]
          have hp : post = [] := by
            rw [hr] at hlast
            simp only [List.length_append, List.length_cons] at hlast
            push_cast at hlast
            apply List.eq_nil_of_length_eq_zero
            omega
          subst hp
          exact ⟨pre, u, rfl, hu, huok, hpre⟩
        · simp only [ne_eq, hlast, not_false_eq_true, if_true]
          refine ⟨fun h => (by cases h), ?_⟩
          rintro ⟨init, l, heq, hl, -, hinit⟩
          exfalso
          apply hlast
          rw [hr]
          have hpost0 : post = [] := by
            by_contra hne
            obtain ⟨post1, z, rfl⟩ : ∃ post1 z, post = post1 ++ [z] :=
              ⟨post.dropLast, post.getLast hne, (List.dropLast_append_getLast hne).symm⟩
            have h1 : pre ++ u :: (post1 ++ [z]) = (pre ++ u :: post1) ++ [z] := by simp
            rw [h1] at heq
            obtain ⟨-, h3⟩ := List.append_inj' heq rfl
            simp only [List.cons.injEq, and_true] at h3
            subst h3
            have := (hpost z (by simp)).2
            rw [hl] at this
            cases this
          subst hpost0
          simp

/-! ## Rounding -/

theorem ten_zpow_pos (s : Int) : (0 : ℚ) < (10 : ℚ) ^ s := zpow_pos (by norm_num) s

theorem isScaled_round (d : Decimal) (s : Int) : IsScaled s (Decimal.Round d s) := by
  unfold Decimal.Round
  by_cases h : 0 ≤ d
  · simp only [h, if_true]
    exact ⟨_, rfl⟩
  · simp only [h, if_false]
    refine ⟨-⌊-d * (10 : ℚ) ^ s + 1 / 2⌋, ?_⟩
    push_cast
    ring

theorem floor_int_add_half (k : ℤ) : ⌊(k : ℚ) + 1 / 2⌋ = k := by
  rw [Int.floor_eq_iff]
  constructor <;> norm_num

theorem round_of_isScaled {s : Int} {x : Decimal} (hx : IsScaled s x) :
    Decimal.Round x s = x := by
  obtain ⟨k, rfl⟩ := hx
  have hS := ten_zpow_pos s
  have hne : (10 : ℚ) ^ s ≠ 0 := ne_of_gt hS
  unfold Decimal.Round
  by_cases h : 0 ≤ (k : ℚ) / (10 : ℚ) ^ s
  · simp only [h, if_true]
    rw [div_mul_cancel₀ _ hne, floor_int_add_half]
  · simp only [h, if_false]
    have : -((k : ℚ) / (10 : ℚ) ^ s) * (10 : ℚ) ^ s = ((-k : ℤ) : ℚ) := by
      rw [neg_mul, div_mul_cancel₀ _ hne]; push_cast; ring
    rw [this, floor_int_add_half]
    push_cast
    ring

theorem IsScaled.add {s : Int} {x y : Decimal} (hx : IsScaled s x) (hy : IsScaled s y) :
    IsScaled s (x + y) := by
  obtain ⟨a, rfl⟩ := hx
  obtain ⟨b, rfl⟩ := hy
  exact ⟨a + b, by push_cast; ring⟩

theorem IsScaled.sub {s : Int} {x y : Decimal} (hx : IsScaled s x) (hy : IsScaled s y) :
    IsScaled s (x - y) := by
  obtain ⟨a, rfl⟩ := hx
  obtain ⟨b, rfl⟩ := hy
  exact ⟨a - b, by push_cast; ring⟩

theorem isScaled_zero (s : Int) : IsScaled s 0 := ⟨0, by simp⟩

/-! ## The calculator -/

theorem calcLoop_ok (total : Decimal) (s : CurrencyScale) (ts : List MilestoneTemplate)
    (out : List CalculatedMilestone) (sum : Decimal) (h : ∀ t ∈ ts, EntryOK t) :
    calcLoop total s ts out sum =
      .ok (out ++ ts.map (fun t => ⟨entryAmount total s t, t.IsFinal⟩),
        sum + (ts.map (entryAmount total s)).sum) := by
  induction ts generalizing out sum with
  | nil => simp [calcLoop]
  | cons t rest ih =>
    have ht := (h t (List.mem_cons_self _ _)).2
    have hrest : ∀ x ∈ rest, EntryOK x := fun x hx => h x (List.mem_cons_of_mem _ hx)
    unfold calcLoop
    by_cases hfix : t.Typ = TemplateTypeFixed
    · simp only [hfix, if_true]
      rw [ih _ _ hrest]
      simp [entryAmount, hfix, add_assoc]
    · have hpct : t.Typ = TemplateTypePercentage := ht.resolve_left hfix
      rw [if_neg hfix, if_pos hpct]
      simp only []
      rw [ih _ _ hrest]
      have : entryAmount total s t = Decimal.Round (Decimal.Div (total * t.Value) 100) s := by
        simp [entryAmount, hfix]
      simp [this, add_assoc]

theorem isScaled_entryAmount (total : Decimal) (s : CurrencyScale) (t : MilestoneTemplate) :
    IsScaled s (entryAmount total s t) := by
  unfold entryAmount
  split <;> exact isScaled_round _ _

theorem isScaled_sum_entryAmount (total : Decimal) (s : CurrencyScale)
    (ts : List MilestoneTemplate) : IsScaled s ((ts.map (entryAmount total s)).sum) := by
  induction ts with
  | nil => simpa using isScaled_zero s
  | cons t rest ih =>
    simp only [List.map_cons, List.sum_cons]
    exact (isScaled_entryAmount total s t).add ih

theorem set_last_concat {α : Type} (xs : List α) (a b : α) :
    (xs ++ [a]).set ((xs ++ [a]).length - 1) b = xs ++ [b] := by
  induction xs with
  | nil => simp
  | cons x xs ih =>
    have hl : (xs ++ [a]).length - 1 = xs.length := by simp
    have hl2 : (x :: xs ++ [a]).length - 1 = xs.length + 1 := by simp
    rw [hl] at ih
    rw [hl2, List.cons_append, List.set_cons_succ, ih, List.cons_append]

/-- What `finishAmounts` returns on the output of the loop for an accepted template. -/
theorem finishAmounts_concat (total : Decimal) (s : CurrencyScale)
    (pre : List CalculatedMilestone) (a : Decimal)
    (hpre : IsScaled s (amountsSum pre)) :
    finishAmounts total s (pre ++ [⟨a, true⟩]) (amountsSum pre + a) =
      if Decimal.Round total s - amountsSum pre ≤ 0 then
        .err ⟨"FINAL_MILESTONE_INVALID", "final milestone amount must be > 0"⟩
      else .ok (pre ++ [⟨Decimal.Round total s - amountsSum pre, true⟩]) := by
  have hR : IsScaled s (Decimal.Round total s) := isScaled_round _ _
  unfold finishAmounts
  by_cases hd : Decimal.Round total s - (amountsSum pre + a) = 0
  · have ha' : a = Decimal.Round total s - amountsSum pre := by linarith
    have hsum : amountsSum pre + a = Decimal.Round total s := by linarith
    rw [← ha', hsum]
    simp only [sub_self, ne_eq, not_true_eq_false, if_false, List.getLast?_concat]
  · have h1 : a + (Decimal.Round total s - (amountsSum pre + a)) =
        Decimal.Round total s - amountsSum pre := by ring
    have h2 : amountsSum pre + a + (Decimal.Round total s - (amountsSum pre + a)) =
        Decimal.Round total s := by ring
    simp only [hd, ne_eq, not_false_eq_true, if_true, List.getLast?_concat, h1, h2,
      set_last_concat, round_of_isScaled hR, round_of_isScaled (hR.sub hpre), not_true_eq_false,
      if_false]

/-- The result of `CalculateAmounts` on an accepted template and a positive total. -/
theorem calculateAmounts_of_valid (total : Decimal) (ts : List MilestoneTemplate)
    (scale : CurrencyScale) (hv : ValidateTemplate ts = none) (ht : 0 < total) :
    CalculateAmounts total ts scale =
      if correctedFinal total (effectiveScale scale) ts ≤ 0 then
        .err ⟨"FINAL_MILESTONE_INVALID", "final milestone amount must be > 0"⟩
      else
        .ok ((ts.dropLast).map
            (fun t => ⟨entryAmount total (effectiveScale scale) t, t.IsFinal⟩) ++
          [⟨correctedFinal total (effectiveScale scale) ts, true⟩]) := by
  obtain ⟨init, l, rfl, hl, hlok, hinit⟩ := (validateTemplate_eq_none_iff ts).mp hv
  have hall : ∀ t ∈ init ++ [l], EntryOK t := by
    intro t htm
    rcases List.mem_append.mp htm with h | h
    · exact (hinit t h).1
    · simp only [List.mem_singleton] at h; subst h; exact hlok
  unfold CalculateAmounts
  rw [hv]
  simp only [not_le.mpr ht, if_false]
  rw [show (if scale ≤ 0 then DefaultCurrencyScale else scale) = effectiveScale scale from rfl]
  generalize effectiveScale scale = s
  rw [calcLoop_ok total s _ _ _ hall]
  simp only [List.nil_append, List.map_append, List.map_cons, List.map_nil, hl, zero_add,
    List.sum_append, List.sum_cons, List.sum_nil, add_zero]
  have hsum : amountsSum (init.map
      (fun t => (⟨entryAmount total s t, t.IsFinal⟩ : CalculatedMilestone))) =
      (init.map (entryAmount total s)).sum := by
    simp [amountsSum, List.map_map, Function.comp_def]
  have hfin := finishAmounts_concat total s
    (init.map (fun t => (⟨entryAmount total s t, t.IsFinal⟩ : CalculatedMilestone)))
    (entryAmount total s l) (by rw [hsum]; exact isScaled_sum_entryAmount total s init)
  rw [hsum] at hfin
  simp only [correctedFinal, List.dropLast_concat]
  exact hfin

theorem amountsSum_concat (pre : List CalculatedMilestone) (m : CalculatedMilestone) :
    amountsSum (pre ++ [m]) = amountsSum pre + m.Amount := by
  simp [amountsSum]

/-- A successful `CalculateAmounts` had an accepted template and a positive total. -/
theorem calculateAmounts_ok_inv (total : Decimal) (ts : List MilestoneTemplate)
    (scale : CurrencyScale) (out : List CalculatedMilestone)
    (h : CalculateAmounts total ts scale = .ok out) :
    ValidateTemplate ts = none ∧ 0 < total := by
  unfold CalculateAmounts at h
  cases hv : ValidateTemplate ts with
  | some e => rw [hv] at h; cases h
  | none =>
    refine ⟨rfl, ?_⟩
    by_contra hneg
    rw [hv] at h
    simp only [not_lt.mp hneg, if_true] at h
    cases h

theorem calculateAmounts_sum (total : Decimal) (ts : List MilestoneTemplate)
    (scale : CurrencyScale) (out : List CalculatedMilestone)
    (h : CalculateAmounts total ts scale = .ok out) :
    amountsSum out = Decimal.Round total (effectiveScale scale) := by
  obtain ⟨hv, ht⟩ := calculateAmounts_ok_inv total ts scale out h
  rw [calculateAmounts_of_valid total ts scale hv ht] at h
  split at h
  · cases h
  · injection h with h
    subst h
    rw [amountsSum_concat]
    simp only [correctedFinal, amountsSum, List.map_map, Function.comp_def]
    ring

/-! ## Accepted templates, by counting final entries -/

theorem countP_final_concat (init : List MilestoneTemplate) (l : MilestoneTemplate) :
    (init ++ [l]).countP (fun t => t.IsFinal) =
      init.countP (fun t => t.IsFinal) + (if l.IsFinal then 1 else 0) := by
  rw [List.countP_append]
  cases h : l.IsFinal <;> simp [List.countP_cons, h]

/-- An accepted template is a non-empty list of valid entries with exactly one final entry,
which is the last one. -/
theorem validateTemplate_eq_none_iff_count (ts : List MilestoneTemplate) :
    ValidateTemplate ts = none ↔
      ts ≠ [] ∧ (∀ t ∈ ts, EntryOK t) ∧ ts.countP (fun t => t.IsFinal) = 1 ∧
        ∃ l, ts.getLast? = some l ∧ l.IsFinal = true := by
  rw [validateTemplate_eq_none_iff]
  constructor
  · rintro ⟨init, l, rfl, hl, hlok, hinit⟩
    refine ⟨by simp, ?_, ?_, l, by simp, hl⟩
    · intro t ht
      rcases List.mem_append.mp ht with h | h
      · exact (hinit t h).1
      · simp only [List.mem_singleton] at h; subst h; exact hlok
    · rw [countP_final_concat, hl, if_pos rfl]
      have : init.countP (fun t => t.IsFinal) = 0 := by
        rw [List.countP_eq_zero]
        intro a ha
        simp [(hinit a ha).2]
      omega
  · rintro ⟨hne, hok, hcount, l, hlast, hl⟩
    obtain ⟨init, z, rfl⟩ : ∃ init z, ts = init ++ [z] :=
      ⟨ts.dropLast, ts.getLast hne, (List.dropLast_append_getLast hne).symm⟩
    simp only [List.getLast?_concat, Option.some.injEq] at hlast
    subst hlast
    refine ⟨init, z, rfl, hl, hok z (by simp), ?_⟩
    rw [countP_final_concat, hl, if_pos rfl] at hcount
    have h0 : init.countP (fun t => t.IsFinal) = 0 := by omega
    rw [List.countP_eq_zero] at h0
    intro x hx
    refine ⟨hok x (by simp [hx]), ?_⟩
    have := h0 x hx
    simpa using this

/-! ## The percentage-sum check of `ParseAndValidate` -/

theorem percentLoop_all (ts : List MilestoneTemplate) (sum : Decimal)
    (h : ∀ t ∈ ts, t.Typ = TemplateTypePercentage) :
    serviceproduct.percentLoop ts sum = (true, sum + (ts.map (fun t => t.Value)).sum) := by
  induction ts generalizing sum with
  | nil => simp [serviceproduct.percentLoop]
  | cons t rest ih =>
    have ht := h t (List.mem_cons_self _ _)
    unfold serviceproduct.percentLoop
    rw [if_neg (not_not.mpr ht), ih _ (fun x hx => h x (List.mem_cons_of_mem _ hx))]
    simp [add_assoc]

/-- What `ParseAndValidate` returns once the JSON is decoded, in terms of its two checks. -/
theorem parseAndValidate_of_decoded (unmarshal : RawMessage → Option serviceproduct.Config)
    (raw : RawMessage) (cfg : serviceproduct.Config) (hd : unmarshal raw = some cfg) :
    serviceproduct.ParseAndValidate unmarshal raw =
      match ValidateTemplate cfg.Templates with
      | some e => .error e
      | none =>
        if (serviceproduct.percentLoop cfg.Templates 0).1 = true ∧
            (serviceproduct.percentLoop cfg.Templates 0).2 ≠ 100 then
          .error ⟨"MILESTONE_SUM_INVALID", "percentage milestones must sum to 100"⟩
        else .ok (if cfg.Version = 0 then { cfg with Version := 1 } else cfg) := by
  unfold serviceproduct.ParseAndValidate
  rw [hd]
  by_cases hver : cfg.Version = 0 <;> simp only [hver, if_true, if_false]

/-! ## The webhook handler: the ledger and the shops are left alone by the domain handlers -/

theorem SameLedger.refl (a : Store) : SameLedger a a := ⟨rfl, rfl⟩

theorem SameLedger.trans {a b c : Store} (h1 : SameLedger a b) (h2 : SameLedger b c) :
    SameLedger a c := ⟨h1.1.trans h2.1, h1.2.trans h2.2⟩

theorem sameLedger_ite (c : Prop) [Decidable c] {a b s : Store} (ha : SameLedger a s)
    (hb : SameLedger b s) : SameLedger (if c then a else b) s := by
  split
  · exact ha
  · exact hb

theorem sameLedger_audit (s : Store) (shopID : String) (serviceID : Option String)
    (action actor : String) (md : Metadata) :
    SameLedger (audit.Insert s shopID serviceID action actor md) s := ⟨rfl, rfl⟩

theorem sameLedger_events (s : Store) (serviceID eventType summary actor : String) (t : Time)
    (data : Metadata) : SameLedger (events.Insert s serviceID eventType summary actor t data) s :=
  ⟨rfl, rfl⟩

theorem sameLedger_markPaid (s : Store) (id : String) (t : Time) :
    SameLedger (milestone.MarkPaid s id t) s := ⟨rfl, rfl⟩

theorem sameLedger_updateStatus (s : Store) (t : Time) (shopID serviceID : String)
    (next : Status) (o : Bool) :
    SameLedger (service.UpdateStatus s t shopID serviceID next o) s := ⟨rfl, rfl⟩

theorem sameLedger_insertToken (s : Store) (a b c : String) (t : Time) :
    SameLedger (portal.InsertToken s a b c t) s := ⟨rfl, rfl⟩

theorem sameLedger_completeIfFinalApproved (s : Store) (env : webhook.Env)
    (shopID serviceID : String) (q : Int) :
    SameLedger (webhook.completeIfFinalApproved s env shopID serviceID q) s := by
  unfold webhook.completeIfFinalApproved
  split
  · split
    · split
      · exact (sameLedger_events _ _ _ _ _ _ _).trans (sameLedger_updateStatus _ _ _ _ _ _)
      · exact SameLedger.refl s
    · exact SameLedger.refl s
  · exact SameLedger.refl s

theorem sameLedger_applyMilestonePayment (s : Store) (env : webhook.Env) (shopRec : shop.Shop)
    (milestoneID : String) (orderID : Int) :
    SameLedger (webhook.applyMilestonePaymentFromOrder s env shopRec milestoneID orderID).1 s := by
  unfold webhook.applyMilestonePaymentFromOrder
  split
  · exact SameLedger.refl s
  · split
    · exact SameLedger.refl s
    · split
      · exact SameLedger.refl s
      · exact (sameLedger_completeIfFinalApproved _ _ _ _ _).trans
          ((sameLedger_events _ _ _ _ _ _ _).trans
            ((sameLedger_audit _ _ _ _ _ _).trans (sameLedger_markPaid _ _ _)))

theorem sameLedger_handleMilestonePaid (s : Store) (dec : webhook.Decoders) (env : webhook.Env)
    (shopRec : shop.Shop) (body : String) :
    SameLedger (webhook.handleMilestonePaid s dec env shopRec body).1 s := by
  unfold webhook.handleMilestonePaid
  split
  · exact SameLedger.refl s
  · split
    · exact SameLedger.refl s
    · split
      · exact SameLedger.refl s
      · split
        · exact SameLedger.refl s
        · split
          · exact SameLedger.refl s
          · exact (sameLedger_completeIfFinalApproved _ _ _ _ _).trans
              ((sameLedger_events _ _ _ _ _ _ _).trans
                ((sameLedger_audit _ _ _ _ _ _).trans (sameLedger_markPaid _ _ _)))

theorem sameLedger_insertMilestone (s s1 : Store) (env : webhook.Env) (serviceID : String)
    (q : Nat) (amount : Decimal) (status : String) (paidAt : Option Time)
    (h : webhook.insertMilestone s env serviceID q amount status paidAt = .ok s1) :
    SameLedger s1 s := by
  unfold webhook.insertMilestone at h
  split at h
  · cases h
  · injection h with h
    subst h
    exact ⟨rfl, rfl⟩

theorem sameLedger_insertMilestones (env : webhook.Env) (shopID serviceID : String)
    (ms : List CalculatedMilestone) (i : Nat) (s : Store) :
    SameLedger (webhook.insertMilestones env shopID serviceID ms i s).1 s := by
  induction ms generalizing i s with
  | nil => exact SameLedger.refl s
  | cons m rest ih =>
    unfold webhook.insertMilestones
    simp only []
    split
    · split
      · exact ih _ _
      · exact SameLedger.refl s
    · rename_i s1 h1
      refine (ih _ _).trans ?_
      have hs1 := sameLedger_insertMilestone _ _ _ _ _ _ _ _ h1
      split
      · exact (sameLedger_events _ _ _ _ _ _ _).trans ((sameLedger_audit _ _ _ _ _ _).trans hs1)
      · exact hs1

theorem sameLedger_insertService (s s1 : Store) (env : webhook.Env) (shopID : String)
    (orderID : Int) (productID email name : String) (total : Decimal) (currency : String)
    (snapshot : RawMessage) (id : String) (created : Bool)
    (h : webhook.insertService s env shopID orderID productID email name total currency snapshot
      = .ok (id, created, s1)) :
    SameLedger s1 s := by
  unfold webhook.insertService at h
  split at h
  · cases h
  · injection h with h
    injection h with _ h
    injection h with _ h
    subst h
    exact ⟨rfl, rfl⟩

theorem sameLedger_recordServiceCreated (s : Store) (env : webhook.Env)
    (shopID serviceID : String) (orderID : Int) (productID : String) :
    SameLedger (webhook.recordServiceCreated s env shopID serviceID orderID productID) s :=
  ⟨rfl, rfl⟩

theorem sameLedger_handleOrdersPaid (s : Store) (lib : Lib) (dec : webhook.Decoders)
    (env : webhook.Env) (shopRec : shop.Shop) (body : String) :
    SameLedger (webhook.handleOrdersPaid s lib dec env shopRec body).1 s := by
  unfold webhook.handleOrdersPaid
  split
  · exact SameLedger.refl s
  · split
    · exact SameLedger.refl s
    · split
      · exact sameLedger_applyMilestonePayment _ _ _ _ _
      · simp only []
        split
        · exact SameLedger.refl s
        · split
          · exact SameLedger.refl s
          · split
            · exact SameLedger.refl s
            · split
              · exact SameLedger.refl s
              · exact SameLedger.refl s
              · split
                · split <;> exact SameLedger.refl s
                · rename_i serviceID created s1 hins
                  have hs1 := sameLedger_insertService _ _ _ _ _ _ _ _ _ _ _ _ _ hins
                  split
                  · rename_i s3 e h3
                    show SameLedger s3 s
                    have h3a := congrArg Prod.fst h3
                    simp only [] at h3a
                    rw [← h3a]
                    exact (sameLedger_insertMilestones _ _ _ _ _ _).trans
                      (sameLedger_ite _ ((sameLedger_recordServiceCreated _ _ _ _ _ _).trans hs1)
                        hs1)
                  · rename_i s3 h3
                    have hs3 : SameLedger s3 s := by
                      have h3a := congrArg Prod.fst h3
                      simp only [] at h3a
                      rw [← h3a]
                      exact (sameLedger_insertMilestones _ _ _ _ _ _).trans
                        (sameLedger_ite _
                          ((sameLedger_recordServiceCreated _ _ _ _ _ _).trans hs1) hs1)
                    split
                    · exact (sameLedger_updateStatus _ _ _ _ _ _).trans hs3
                    · exact hs3

/-! ## The webhook handler: the ledger gate -/

theorem insertWebhookEvent_of_has (s : Store) (t : Time) (shopID topic eventID hash : String)
    (h : ledgerHas s shopID topic eventID = true) :
    webhook.insertWebhookEvent s t shopID topic eventID hash = .error (.pg "23505") := by
  unfold webhook.insertWebhookEvent
  unfold ledgerHas at h
  rw [if_pos h]

theorem insertWebhookEvent_error (s : Store) (t : Time) (shopID topic eventID hash : String)
    (e : GoError) (h : webhook.insertWebhookEvent s t shopID topic eventID hash = .error e) :
    e = .pg "23505" ∧ ledgerHas s shopID topic eventID = true := by
  unfold webhook.insertWebhookEvent at h
  split at h
  · rename_i hany
    injection h with h
    exact ⟨h.symm, hany⟩
  · cases h

theorem insertWebhookEvent_ok (s v : Store) (t : Time) (shopID topic eventID hash : String)
    (h : webhook.insertWebhookEvent s t shopID topic eventID hash = .ok v) :
    ledgerHas v shopID topic eventID = true ∧ v.shops = s.shops := by
  unfold webhook.insertWebhookEvent at h
  split at h
  · cases h
  · injection h with h
    subst h
    refine ⟨?_, rfl⟩
    simp [ledgerHas]

theorem ledgerHas_of_sameLedger {a b : Store} (h : SameLedger a b) (shopID topic eventID : String) :
    ledgerHas a shopID topic eventID = ledgerHas b shopID topic eventID := by
  unfold ledgerHas
  rw [h.1]

theorem findByDomain_of_shops_eq {a b : Store} (h : a.shops = b.shops) (d : String) :
    shop.FindByDomain a d = shop.FindByDomain b d := by
  unfold shop.FindByDomain
  rw [h]

theorem findByDomain_ok (s : Store) (d : String) (sh : shop.Shop)
    (h : shop.FindByDomain s d = .ok sh) : sh ∈ s.shops ∧ sh.Domain = d := by
  unfold shop.FindByDomain at h
  split at h
  · rename_i x hx
    injection h with h
    subst h
    exact ⟨List.mem_of_find?_eq_some hx, by simpa using List.find?_some hx⟩
  · cases h

/-- After the deletion of a shop no shop of its domain is left, domains being unique. -/
theorem findByDomain_deleteByID (s : Store) (d : String) (sh : shop.Shop)
    (hu : ∀ a ∈ s.shops, ∀ b ∈ s.shops, a.Domain = b.Domain → a.ID = b.ID)
    (hmem : sh ∈ s.shops) (hd : sh.Domain = d) :
    shop.FindByDomain (shop.DeleteByID s sh.ID) d = .error .ErrNoRows := by
  unfold shop.FindByDomain
  have hnone : (shop.DeleteByID s sh.ID).shops.find? (fun x => x.Domain = d) = none := by
    rw [List.find?_eq_none]
    intro x hx
    simp only [shop.DeleteByID, List.mem_filter] at hx
    obtain ⟨hxm, hxid⟩ := hx
    simp only [decide_eq_true_eq]
    intro hxd
    have := hu x hxm sh hmem (hxd.trans hd.symm)
    simp [this] at hxid
  rw [hnone]

/-- A delivery for an unknown shop domain changes nothing. -/
theorem serveHTTP_unknown_shop (cfg : config.Config) (lib : Lib) (dec : webhook.Decoders)
    (env : webhook.Env) (s : Store) (r : webhook.Request) (e : GoError)
    (h : shop.FindByDomain s (TrimSpace r.shopDomainHeader) = .error e) :
    (webhook.ServeHTTP cfg lib dec env s r).store = s := by
  unfold webhook.ServeHTTP
  simp only []
  split
  · rfl
  · split
    · rfl
    · rw [h]

/-- A delivery whose ledger key is already recorded for the shop changes nothing. -/
theorem serveHTTP_recorded (cfg : config.Config) (lib : Lib) (dec : webhook.Decoders)
    (env : webhook.Env) (s : Store) (r : webhook.Request) (body : String) (sh : shop.Shop)
    (hb : r.body = some body)
    (hs : shop.FindByDomain s (TrimSpace r.shopDomainHeader) = .ok sh)
    (hl : ledgerHas s sh.ID (webhook.requestTopic lib r) (webhook.requestEventID lib r body)
      = true) :
    (webhook.ServeHTTP cfg lib dec env s r).store = s := by
  unfold webhook.ServeHTTP
  simp only [hb]
  split
  · rfl
  · rw [hs]
    simp only [db.WithTx, webhook.serveTx, insertWebhookEvent_of_has _ _ _ _ _ _ hl,
      webhook.isUniqueViolation, decide_True, if_true]
    cases env.commitErr <;> rfl

/-- The store a committed delivery leaves behind: either it has the shops of the store
before and a ledger record of the delivery, or the delivery was an uninstall and the shop
has been deleted from a store with the same shops. -/
theorem serveTx_committed (lib : Lib) (dec : webhook.Decoders) (env : webhook.Env)
    (store : Store) (sh : shop.Shop) (topic eventID hash body : String)
    (hcommit : (db.WithTx env.commitErr store
      (webhook.serveTx lib dec env sh topic eventID hash body)).2.1 = none) :
    ((db.WithTx env.commitErr store
          (webhook.serveTx lib dec env sh topic eventID hash body)).1.shops = store.shops ∧
        ledgerHas (db.WithTx env.commitErr store
          (webhook.serveTx lib dec env sh topic eventID hash body)).1 sh.ID topic eventID
          = true) ∨
      ∃ v1 : Store, v1.shops = store.shops ∧
        (db.WithTx env.commitErr store
          (webhook.serveTx lib dec env sh topic eventID hash body)).1 =
            shop.DeleteByID v1 sh.ID := by
  unfold db.WithTx webhook.serveTx at hcommit ⊢
  simp only [] at hcommit ⊢
  cases hI : webhook.insertWebhookEvent store env.dbNow sh.ID topic eventID hash with
  | error e =>
    obtain ⟨he, hl⟩ := insertWebhookEvent_error _ _ _ _ _ _ _ hI
    subst he
    rw [hI] at hcommit
    simp only [webhook.isUniqueViolation, decide_True, if_true] at hcommit ⊢
    cases hc : env.commitErr with
    | some e => rw [hc] at hcommit; cases hcommit
    | none => exact Or.inl ⟨rfl, hl⟩
  | ok v1 =>
    obtain ⟨hl, hshops⟩ := insertWebhookEvent_ok _ _ _ _ _ _ _ hI
    rw [hI] at hcommit
    simp only [] at hcommit ⊢
    by_cases ht1 : topic = "orders_paid"
    · simp only [ht1, if_true] at hcommit ⊢
      have hsl := sameLedger_handleOrdersPaid v1 lib dec env sh body
      cases hr : (webhook.handleOrdersPaid v1 lib dec env sh body).2 with
      | some e => rw [hr] at hcommit; cases hcommit
      | none =>
        rw [hr] at hcommit
        cases hc : env.commitErr with
        | some e => rw [hc] at hcommit; cases hcommit
        | none =>
          left
          refine ⟨hsl.2.trans hshops, ?_⟩
          simp only []
          rw [ledgerHas_of_sameLedger hsl, ← ht1]; exact hl
    · by_cases ht2 : topic = "milestone_paid"
      · have hne : ¬ ("milestone_paid" = "orders_paid") := by decide
        simp only [ht2, hne, if_true, if_false] at hcommit ⊢
        have hsl := sameLedger_handleMilestonePaid v1 dec env sh body
        cases hr : (webhook.handleMilestonePaid v1 dec env sh body).2 with
        | some e => rw [hr] at hcommit; cases hcommit
        | none =>
          rw [hr] at hcommit
          cases hc : env.commitErr with
          | some e => rw [hc] at hcommit; cases hcommit
          | none =>
            left
            refine ⟨hsl.2.trans hshops, ?_⟩
            simp only []
            rw [ledgerHas_of_sameLedger hsl, ← ht2]; exact hl
      · by_cases ht3 : topic = "app_uninstalled"
        · have hne1 : ¬ ("app_uninstalled" = "orders_paid") := by decide
          have hne2 : ¬ ("app_uninstalled" = "milestone_paid") := by decide
          simp only [ht3, hne1, hne2, if_true, if_false] at hcommit ⊢
          cases hc : env.commitErr with
          | some e => rw [hc] at hcommit; cases hcommit
          | none => exact Or.inr ⟨v1, hshops, rfl⟩
        · simp only [ht1, ht2, ht3, if_false] at hcommit ⊢
          cases hc : env.commitErr with
          | some e => rw [hc] at hcommit; cases hcommit
          | none => exact Or.inl ⟨hshops, hl⟩

/-! ## The final milestone and `UnlockFinal` -/

theorem finalSequence_of_milestones_eq {a b : Store} (h : a.milestones = b.milestones)
    (sid : String) : milestone.finalSequence a sid = milestone.finalSequence b sid := by
  simp only [milestone.finalSequence, h]

/-- An update of the milestones that keeps the service and the sequence of every row keeps
the highest sequence of every service. -/
theorem finalSequence_map {a b : Store} (f : milestone.Row → milestone.Row)
    (hf : ∀ m, (f m).ServiceID = m.ServiceID ∧ (f m).Sequence = m.Sequence)
    (h : b.milestones = a.milestones.map f) (sid : String) :
    milestone.finalSequence b sid = milestone.finalSequence a sid := by
  simp only [milestone.finalSequence, h, List.filter_map, List.map_map]
  congr 1
  have h1 : ((fun m : milestone.Row => decide (m.ServiceID = sid)) ∘ f) =
      (fun m : milestone.Row => decide (m.ServiceID = sid)) := by
    funext m
    simp [(hf m).1]
  have h2 : ((fun m : milestone.Row => m.Sequence) ∘ f) = (fun m : milestone.Row => m.Sequence) := by
    funext m
    simp [(hf m).2]
  rw [h1, h2]

theorem unlockFinal_milestones_of_eq {a b : Store} (h : a.milestones = b.milestones)
    (sid : String) :
    (milestone.UnlockFinal a sid).milestones = (milestone.UnlockFinal b sid).milestones := by
  simp only [milestone.UnlockFinal, h, finalSequence_of_milestones_eq h]

theorem finalSequence_unlockFinal (s : Store) (sid sid2 : String) :
    milestone.finalSequence (milestone.UnlockFinal s sid) sid2 =
      milestone.finalSequence s sid2 := by
  apply finalSequence_map _ _ rfl
  intro m
  by_cases h : m.ServiceID = sid ∧ some m.Sequence = milestone.finalSequence s sid ∧
      m.Status = "locked" <;> simp [h]

/-- Unlocking twice is unlocking once. -/
theorem unlockFinal_idem (s : Store) (sid : String) :
    (milestone.UnlockFinal (milestone.UnlockFinal s sid) sid).milestones =
      (milestone.UnlockFinal s sid).milestones := by
  have hfs := finalSequence_unlockFinal s sid sid
  simp only [milestone.UnlockFinal] at hfs ⊢
  simp only [hfs, List.map_map]
  apply List.map_congr_left
  intro m _
  by_cases h : m.ServiceID = sid ∧ some m.Sequence = milestone.finalSequence s sid ∧
      m.Status = "locked"
  · simp [h]
  · simp [h]

/-! ## The client actions -/

theorem getActiveByToken_of_eq {a b : Store} (h : a.portalTokens = b.portalTokens)
    (token : String) (now : Time) :
    portal.GetActiveByTokenForUpdate a token now =
      portal.GetActiveByTokenForUpdate b token now := by
  simp only [portal.GetActiveByTokenForUpdate, h]

/-- A link that is active at one time is, at any other time, the same link or no link. -/
theorem getActiveByToken_other_time {s : Store} {token : String} {now : Time}
    {tr : portal.TokenRecord} (h : portal.GetActiveByTokenForUpdate s token now = .ok tr)
    (now2 : Time) :
    portal.GetActiveByTokenForUpdate s token now2 = .ok tr ∨
      portal.GetActiveByTokenForUpdate s token now2 = .error .ErrNoRows := by
  simp only [portal.GetActiveByTokenForUpdate] at h ⊢
  cases hf : s.portalTokens.find? (fun t => t.Token = token) with
  | none => right; rfl
  | some t =>
    rw [hf] at h
    simp only at h ⊢
    by_cases h1 : t.RevokedAt ≠ none ∨ ¬ (t.ExpiresAt > now)
    · rw [if_pos h1] at h; cases h
    · rw [if_neg h1] at h
      cases h
      by_cases h2 : tr.RevokedAt ≠ none ∨ ¬ (tr.ExpiresAt > now2)
      · right; rw [if_pos h2]
      · left; rw [if_neg h2]

theorem getForUpdateAny_of_eq {a b : Store} (h : a.services = b.services) (sid : String) :
    service.GetForUpdateAny a sid = service.GetForUpdateAny b sid := by
  simp only [service.GetForUpdateAny, h]

/-- The result of a committed `Approve` on a service that waits for approval. -/
theorem approve_of_waiting (now dbNow : Time) (store : Store) (token note : String)
    (tr : portal.TokenRecord) (svc : service.Service) (htok : token ≠ "")
    (htr : portal.GetActiveByTokenForUpdate store token now = .ok tr)
    (hsvc : service.GetForUpdateAny store tr.ServiceID = .ok svc)
    (hst : svc.Status = StatusWaitingForApproval) :
    portal.clientAction now dbNow none store token note true =
      ⟨events.Insert
          (audit.Insert
            (milestone.UnlockFinal (approval.Approve store dbNow svc.ID note) svc.ID)
            svc.ShopID (some svc.ID) "APPROVED" "client" [("note", .str note)])
          svc.ID "APPROVED" "Client approved" "client" now [],
        .status 204⟩ := by
  simp [portal.clientAction, htok, db.WithTx, portal.clientActionTx, htr, hsvc, hst]

/-- A client action whose link is not active changes nothing. -/
theorem clientAction_no_link (now dbNow : Time) (commitErr : Option GoError) (store : Store)
    (token note : String) (approve : Bool)
    (htr : portal.GetActiveByTokenForUpdate store token now = .error .ErrNoRows) :
    (portal.clientAction now dbNow commitErr store token note approve).store = store := by
  by_cases htok : token = ""
  · simp [portal.clientAction, htok]
  · simp [portal.clientAction, htok, db.WithTx, portal.clientActionTx, htr]

/-! ## Settlement -/

theorem finalSequence_markPaid (s : Store) (id : String) (t : Time) (sid : String) :
    milestone.finalSequence (milestone.MarkPaid s id t) sid = milestone.finalSequence s sid := by
  apply finalSequence_map _ _ rfl
  intro m
  by_cases h : m.ID = id <;> simp [h]

/-- The services after the block that ends both settlement functions. -/
theorem completeIfFinalApproved_services (s : Store) (env : webhook.Env)
    (shopID serviceID : String) (sequence : Int) :
    (webhook.completeIfFinalApproved s env shopID serviceID sequence).services =
      if milestone.finalSequence s serviceID = some sequence ∧
          approval.queryApproved s serviceID = some true then
        (service.UpdateStatus s env.dbNow shopID serviceID StatusCompleted false).services
      else s.services := by
  unfold webhook.completeIfFinalApproved
  cases hf : milestone.finalSequence s serviceID with
  | none => simp
  | some finalSeq =>
    simp only []
    by_cases hq : sequence = finalSeq
    · subst hq
      rw [if_pos rfl]
      cases ha : approval.queryApproved s serviceID with
      | none => simp
      | some b =>
        cases b
        · simp
        · simp [events.Insert]
    · rw [if_neg hq]
      have : ¬ (some finalSeq = some sequence) := by
        intro h
        injection h with h
        exact hq h.symm
      simp [this]

theorem completeIfFinalApproved_milestones (s : Store) (env : webhook.Env)
    (shopID serviceID : String) (sequence : Int) :
    (webhook.completeIfFinalApproved s env shopID serviceID sequence).milestones =
      s.milestones := by
  unfold webhook.completeIfFinalApproved
  split
  · split
    · split <;> rfl
    · rfl
  · rfl

/-- The store after the statements both settlement functions run once they decide to mark a
milestone paid: what happens to the milestones and to the services. -/
theorem settle_effects (s : Store) (env : webhook.Env) (shopID serviceID id : String)
    (sequence : Int) (md1 md2 : Metadata) :
    (webhook.completeIfFinalApproved
        (events.Insert
          (audit.Insert (milestone.MarkPaid s id env.now) shopID (some serviceID)
            "MILESTONE_PAID" "webhook" md1)
          serviceID "MILESTONE_PAID" "Milestone paid" "webhook" env.now md2)
        env shopID serviceID sequence).milestones = (milestone.MarkPaid s id env.now).milestones ∧
    (webhook.completeIfFinalApproved
        (events.Insert
          (audit.Insert (milestone.MarkPaid s id env.now) shopID (some serviceID)
            "MILESTONE_PAID" "webhook" md1)
          serviceID "MILESTONE_PAID" "Milestone paid" "webhook" env.now md2)
        env shopID serviceID sequence).services =
      if milestone.finalSequence s serviceID = some sequence ∧
          approval.queryApproved s serviceID = some true then
        (service.UpdateStatus s env.dbNow shopID serviceID StatusCompleted false).services
      else s.services := by
  constructor
  · rw [completeIfFinalApproved_milestones]
    rfl
  · rw [completeIfFinalApproved_services]
    have h1 : milestone.finalSequence
        (events.Insert
          (audit.Insert (milestone.MarkPaid s id env.now) shopID (some serviceID)
            "MILESTONE_PAID" "webhook" md1)
          serviceID "MILESTONE_PAID" "Milestone paid" "webhook" env.now md2) serviceID =
        milestone.finalSequence s serviceID := by
      rw [finalSequence_of_milestones_eq
        (show (events.Insert
          (audit.Insert (milestone.MarkPaid s id env.now) shopID (some serviceID)
            "MILESTONE_PAID" "webhook" md1)
          serviceID "MILESTONE_PAID" "Milestone paid" "webhook" env.now md2).milestones =
          (milestone.MarkPaid s id env.now).milestones from rfl), finalSequence_markPaid]
    rw [h1]
    rfl

/-- With unique milestone ids, the milestone that `handleMilestonePaid` reads by id is the row
that its first query resolved from the draft order id. -/
theorem resolveDraftOrder_row (s : Store) (shopID draftOrderID mid sid : String)
    (m : milestone.Record) (hu : UniqueMilestoneIDs s)
    (hr : webhook.resolveDraftOrder s shopID draftOrderID = some (mid, sid))
    (hm : milestone.GetForUpdate s mid = .ok m) :
    ∃ r ∈ s.milestones, r.DraftOrderID = some draftOrderID ∧ r.ID = mid ∧ r.ServiceID = sid ∧
      m = r.toRecord "" := by
  unfold webhook.resolveDraftOrder at hr
  cases hf : s.milestones.find? (fun m =>
      m.DraftOrderID = some draftOrderID ∧
        s.services.any (fun sv => sv.ID = m.ServiceID ∧ sv.ShopID = shopID)) with
  | none => rw [hf] at hr; cases hr
  | some r =>
    rw [hf] at hr
    simp only [Option.map_some', Option.some.injEq, Prod.mk.injEq] at hr
    have hmem := List.mem_of_find?_eq_some hf
    have hp := List.find?_some hf
    simp only [decide_eq_true_eq] at hp
    unfold milestone.GetForUpdate at hm
    cases hg : s.milestones.find? (fun m => m.ID = mid) with
    | none => rw [hg] at hm; cases hm
    | some r2 =>
      rw [hg] at hm
      have hmem2 := List.mem_of_find?_eq_some hg
      have hp2 := List.find?_some hg
      simp only [decide_eq_true_eq] at hp2
      have he : r = r2 := hu r hmem r2 hmem2 (hr.1.trans hp2.symm)
      subst he
      injection hm with hm
      exact ⟨r, hmem, hp.1, hr.1, hr.2, hm.symm⟩

/-! ## Status changes and payments, statement by statement -/

theorem getForUpdate_mem {s : Store} {shopID serviceID : String} {svc : service.Service}
    (h : service.GetForUpdate s shopID serviceID = .ok svc) :
    svc ∈ s.services ∧ svc.ShopID = shopID ∧ svc.ID = serviceID := by
  unfold service.GetForUpdate at h
  cases hf : s.services.find? (fun sv => sv.ShopID = shopID ∧ sv.ID = serviceID) with
  | none => rw [hf] at h; cases h
  | some r =>
    rw [hf] at h
    injection h with h
    subst h
    have hp := List.find?_some hf
    simp only [decide_eq_true_eq] at hp
    exact ⟨List.mem_of_find?_eq_some hf, hp.1, hp.2⟩

theorem getForUpdateAny_mem {s : Store} {serviceID : String} {svc : service.Service}
    (h : service.GetForUpdateAny s serviceID = .ok svc) :
    svc ∈ s.services ∧ svc.ID = serviceID := by
  unfold service.GetForUpdateAny at h
  cases hf : s.services.find? (fun sv => sv.ID = serviceID) with
  | none => rw [hf] at h; cases h
  | some r =>
    rw [hf] at h
    injection h with h
    subst h
    have hp := List.find?_some hf
    simp only [decide_eq_true_eq] at hp
    exact ⟨List.mem_of_find?_eq_some hf, hp⟩

theorem statusChanges_of_eq {R : Status → Status → Prop} {s t : Store}
    (hu : UniqueServiceIDs s) (h : t.services = s.services) : StatusChangesAllowed R s t := by
  intro a ha b hb hid
  rw [h] at hb
  have := hu b hb a ha hid
  subst this
  exact Or.inl rfl

/-- One `UpdateStatus` on a store with unique service ids changes the status of the rows of
that shop with that id, and of no other row. -/
theorem statusChanges_of_updateStatus {R : Status → Status → Prop} {s t : Store}
    (hu : UniqueServiceIDs s) (dbNow : Time) (shopID serviceID : String) (next : Status)
    (ov : Bool)
    (hR : ∀ a ∈ s.services, a.ShopID = shopID → a.ID = serviceID →
      next = a.Status ∨ R a.Status next)
    (h : t.services = (service.UpdateStatus s dbNow shopID serviceID next ov).services) :
    StatusChangesAllowed R s t := by
  intro a ha b hb hid
  rw [h] at hb
  simp only [service.UpdateStatus, List.mem_map] at hb
  obtain ⟨c, hc, hcb⟩ := hb
  by_cases hcond : c.ShopID = shopID ∧ c.ID = serviceID
  · rw [if_pos hcond] at hcb
    subst hcb
    have hca : c = a := hu c hc a ha hid
    subst hca
    exact hR c hc hcond.1 hcond.2
  · rw [if_neg hcond] at hcb
    subst hcb
    have hca : c = a := hu c hc a ha hid
    subst hca
    exact Or.inl rfl

theorem paidOnly_of_map {s t : Store} (hu : UniqueMilestoneIDs s)
    (f : milestone.Row → milestone.Row) (hid : ∀ m, (f m).ID = m.ID)
    (hf : ∀ a ∈ s.milestones, a.Status ≠ "paid" → (f a).Status = "paid" →
      ∃ d, a.DraftOrderID = some d ∧ d ≠ "")
    (h : t.milestones = s.milestones.map f) : PaidOnlyWithReference s t := by
  intro a ha b hb hab hnp hp
  rw [h] at hb
  simp only [List.mem_map] at hb
  obtain ⟨c, hc, hcb⟩ := hb
  subst hcb
  have hca : c = a := hu c hc a ha ((hid c).symm.trans hab)
  subst hca
  exact hf c hc hnp hp

theorem paidOnly_of_eq {s t : Store} (hu : UniqueMilestoneIDs s)
    (h : t.milestones = s.milestones) : PaidOnlyWithReference s t :=
  paidOnly_of_map hu id (fun _ => rfl) (fun _ _ hnp hp => absurd hp hnp)
    (by rw [h, List.map_id])

/-- The committed store after `WithTx`: what the closure left in the pool, or, when the
closure returned no error, what it left in the transaction. -/
theorem withTx_store {α : Type} (commitErr : Option GoError) (store : Store)
    (fn : TxState → TxResult α) :
    (db.WithTx commitErr store fn).1 = (fn ⟨store, store⟩).st.pool ∨
      ((fn ⟨store, store⟩).err = none ∧
        (db.WithTx commitErr store fn).1 = (fn ⟨store, store⟩).st.view) := by
  unfold db.WithTx
  simp only []
  cases he : (fn ⟨store, store⟩).err with
  | some e => exact Or.inl rfl
  | none =>
    cases commitErr with
    | some ce => exact Or.inl rfl
    | none => exact Or.inr ⟨rfl, rfl⟩

/-- The closure of `PatchStatus` writes nothing to the pool; when it returns no error, it
has run one `UpdateStatus` of the service read, to a status that `CanTransition` allows, and
has left the milestones alone. -/
theorem patchStatusTx_shape (now dbNow : Time) (sh : shop.Shop) (id : String) (next : Status)
    (store : Store) :
    (service.patchStatusTx now dbNow sh id next ⟨store, store⟩).st.pool = store ∧
      ((service.patchStatusTx now dbNow sh id next ⟨store, store⟩).err = none →
        ∃ svc, service.GetForUpdate store sh.ID id = .ok svc ∧
          CanTransition svc.Status next = true ∧
          (service.patchStatusTx now dbNow sh id next ⟨store, store⟩).st.view.services =
            (service.UpdateStatus store dbNow sh.ID svc.ID next
              svc.CompletedViaOverride).services ∧
          (service.patchStatusTx now dbNow sh id next ⟨store, store⟩).st.view.milestones =
            store.milestones) := by
  unfold service.patchStatusTx
  cases hg : service.GetForUpdate store sh.ID id with
  | error e => exact ⟨rfl, fun h => by cases h⟩
  | ok svc =>
    simp only []
    split
    · exact ⟨rfl, fun h => by cases h⟩
    · by_cases hct : CanTransition svc.Status next = true
      · rw [if_neg (not_not_intro hct)]
        refine ⟨rfl, fun _ => ⟨svc, rfl, hct, ?_, ?_⟩⟩
        · simp only [events.Insert, audit.Insert, service.UpdateStatus]
          split
          · simp only [approval.UpsertRequested]
            split <;> rfl
          · rfl
        · simp only [events.Insert, audit.Insert, service.UpdateStatus]
          split
          · simp only [approval.UpsertRequested]
            split <;> rfl
          · rfl
      · rw [if_pos hct]
        exact ⟨rfl, fun h => by cases h⟩

/-- The store after `PatchStatus` is the store before or the result of its transaction. -/
theorem patchStatus_store (now dbNow : Time) (commitErr : Option GoError) (store : Store)
    (shopCtx : Option shop.Shop) (id : String) (req : Option service.PatchStatusRequest) :
    (service.PatchStatus now dbNow commitErr store shopCtx id req).store = store ∨
      ∃ sh next, shopCtx = some sh ∧
        (service.PatchStatus now dbNow commitErr store shopCtx id req).store =
          (db.WithTx commitErr store (service.patchStatusTx now dbNow sh id next)).1 := by
  cases shopCtx with
  | none => exact Or.inl rfl
  | some sh =>
    by_cases hid : id = ""
    · simp [service.PatchStatus, hid]
    cases req with
    | none => simp [service.PatchStatus, hid]
    | some rq =>
      cases hps : service.ParseStatus rq.Status with
      | error e => simp [service.PatchStatus, hid, hps]
      | ok next =>
        refine Or.inr ⟨sh, next, rfl, ?_⟩
        simp only [service.PatchStatus, if_neg hid, hps]
        generalize db.WithTx commitErr store (service.patchStatusTx now dbNow sh id next) = w
        obtain ⟨s1, e, wr⟩ := w
        cases e with
        | none => rfl
        | some e =>
          simp only []
          split <;> rfl

/-- The services after `PatchStatus`: those before, or those of one `UpdateStatus` of the
service read, to a status that `CanTransition` allows; the milestones are those before. -/
theorem patchStatus_shape (now dbNow : Time) (commitErr : Option GoError) (store : Store)
    (shopCtx : Option shop.Shop) (id : String) (req : Option service.PatchStatusRequest) :
    (service.PatchStatus now dbNow commitErr store shopCtx id req).store.milestones =
        store.milestones ∧
      ((service.PatchStatus now dbNow commitErr store shopCtx id req).store.services =
          store.services ∨
        ∃ sh svc next, shopCtx = some sh ∧ service.GetForUpdate store sh.ID id = .ok svc ∧
          CanTransition svc.Status next = true ∧
          (service.PatchStatus now dbNow commitErr store shopCtx id req).store.services =
            (service.UpdateStatus store dbNow sh.ID svc.ID next
              svc.CompletedViaOverride).services) := by
  rcases patchStatus_store now dbNow commitErr store shopCtx id req with h | ⟨sh, next, hsh, h⟩
  · rw [h]; exact ⟨rfl, Or.inl rfl⟩
  · rw [h]
    have hs := patchStatusTx_shape now dbNow sh id next store
    rcases withTx_store commitErr store (service.patchStatusTx now dbNow sh id next) with
      hw | ⟨he, hw⟩
    · rw [hw, hs.1]; exact ⟨rfl, Or.inl rfl⟩
    · rw [hw]
      obtain ⟨svc, hg, hct, hsv, hms⟩ := hs.2 he
      exact ⟨hms, Or.inr ⟨sh, svc, next, hsh, hg, hct, hsv⟩⟩

/-- The closure of `clientAction` writes nothing to the pool; when it returns no error, the
service of the link was waiting for approval, and the closure has unlocked the final
milestone (approval) or has run one `UpdateStatus` to `InProgress` (revision request). -/
theorem clientActionTx_shape (now dbNow : Time) (token note : String) (approve : Bool)
    (store : Store) :
    (portal.clientActionTx now dbNow token note approve ⟨store, store⟩).st.pool = store ∧
      ((portal.clientActionTx now dbNow token note approve ⟨store, store⟩).err = none →
        ∃ svc, svc ∈ store.services ∧ svc.Status = StatusWaitingForApproval ∧
          (((portal.clientActionTx now dbNow token note approve
                ⟨store, store⟩).st.view.services = store.services ∧
              (portal.clientActionTx now dbNow token note approve
                ⟨store, store⟩).st.view.milestones =
                (milestone.UnlockFinal store svc.ID).milestones) ∨
            ((portal.clientActionTx now dbNow token note approve
                ⟨store, store⟩).st.view.services =
                (service.UpdateStatus store dbNow svc.ShopID svc.ID StatusInProgress
                  false).services ∧
              (portal.clientActionTx now dbNow token note approve
                ⟨store, store⟩).st.view.milestones = store.milestones))) := by
  unfold portal.clientActionTx
  cases htr : portal.GetActiveByTokenForUpdate store token now with
  | error e => exact ⟨rfl, fun h => by cases h⟩
  | ok tr =>
    simp only []
    cases hsvc : service.GetForUpdateAny store tr.ServiceID with
    | error e => exact ⟨rfl, fun h => by cases h⟩
    | ok svc =>
      simp only []
      by_cases hst : svc.Status = StatusWaitingForApproval
      · rw [if_neg (not_not_intro hst)]
        cases approve with
        | true =>
          exact ⟨rfl, fun _ => ⟨svc, (getForUpdateAny_mem hsvc).1, hst,
            Or.inl ⟨rfl, unlockFinal_milestones_of_eq rfl _⟩⟩⟩
        | false =>
          exact ⟨rfl, fun _ => ⟨svc, (getForUpdateAny_mem hsvc).1, hst, Or.inr ⟨rfl, rfl⟩⟩⟩
      · rw [if_pos hst]
        exact ⟨rfl, fun h => by cases h⟩

/-- The store after `clientAction` is the store before or the result of its transaction. -/
theorem clientAction_store (now dbNow : Time) (commitErr : Option GoError) (store : Store)
    (token note : String) (approve : Bool) :
    (portal.clientAction now dbNow commitErr store token note approve).store = store ∨
      (portal.clientAction now dbNow commitErr store token note approve).store =
        (db.WithTx commitErr store (portal.clientActionTx now dbNow token note approve)).1 := by
  by_cases htok : token = ""
  · simp [portal.clientAction, htok]
  · right
    simp only [portal.clientAction, if_neg htok]
    generalize db.WithTx commitErr store (portal.clientActionTx now dbNow token note approve) = w
    obtain ⟨s1, e, wr⟩ := w
    cases e with
    | none => rfl
    | some e =>
      simp only []
      split <;> rfl

/-- The services and the milestones after `clientAction`. -/
theorem clientAction_shape (now dbNow : Time) (commitErr : Option GoError) (store : Store)
    (token note : String) (approve : Bool) :
    ((portal.clientAction now dbNow commitErr store token note approve).store.milestones =
        store.milestones ∨
      ∃ sid, (portal.clientAction now dbNow commitErr store token note approve).store.milestones =
        (milestone.UnlockFinal store sid).milestones) ∧
    ((portal.clientAction now dbNow commitErr store token note approve).store.services =
        store.services ∨
      ∃ svc, svc ∈ store.services ∧ svc.Status = StatusWaitingForApproval ∧
        (portal.clientAction now dbNow commitErr store token note approve).store.services =
          (service.UpdateStatus store dbNow svc.ShopID svc.ID StatusInProgress
            false).services) := by
  rcases clientAction_store now dbNow commitErr store token note approve with h | h
  · rw [h]; exact ⟨Or.inl rfl, Or.inl rfl⟩
  · rw [h]
    have hs := clientActionTx_shape now dbNow token note approve store
    rcases withTx_store commitErr store (portal.clientActionTx now dbNow token note approve) with
      hw | ⟨he, hw⟩
    · rw [hw, hs.1]; exact ⟨Or.inl rfl, Or.inl rfl⟩
    · rw [hw]
      obtain ⟨svc, hmem, hst, hcase⟩ := hs.2 he
      rcases hcase with ⟨hsv, hms⟩ | ⟨hsv, hms⟩
      · exact ⟨Or.inr ⟨svc.ID, hms⟩, Or.inl hsv⟩
      · exact ⟨Or.inl hms, Or.inr ⟨svc, hmem, hst, hsv⟩⟩

/-- The closure of `RequestPayment` writes nothing to the pool and changes the milestones
only through `SetDraftOrder`. -/
theorem requestPaymentTx_shape (cfg : config.Config) (platform : shopify.Platform) (now : Time)
    (shopCtx : shop.Shop) (id : String) (store : Store) :
    (payment.requestPaymentTx cfg platform now shopCtx id ⟨store, store⟩).st.pool = store ∧
      ((payment.requestPaymentTx cfg platform now shopCtx id ⟨store, store⟩).st.view.milestones =
          store.milestones ∨
        ∃ mid d u,
          (payment.requestPaymentTx cfg platform now shopCtx id
            ⟨store, store⟩).st.view.milestones =
            (milestone.SetDraftOrder store mid d u).milestones) := by
  unfold payment.requestPaymentTx
  split
  · exact ⟨rfl, Or.inl rfl⟩
  · split
    · exact ⟨rfl, Or.inl rfl⟩
    · split
      · exact ⟨rfl, Or.inl rfl⟩
      · split
        · exact ⟨rfl, Or.inl rfl⟩
        · simp only []
          split
          · exact ⟨rfl, Or.inl rfl⟩
          · split
            · exact ⟨rfl, Or.inl rfl⟩
            · exact ⟨rfl, Or.inr ⟨_, _, _, rfl⟩⟩

/-- The store after `RequestPayment` is the store before or the result of its transaction. -/
theorem requestPayment_store (cfg : config.Config) (platform : shopify.Platform) (now : Time)
    (commitErr : Option GoError) (store : Store) (shopCtx : Option shop.Shop) (id : String) :
    (payment.RequestPayment cfg platform now commitErr store shopCtx id).store = store ∨
      ∃ sh, (payment.RequestPayment cfg platform now commitErr store shopCtx id).store =
        (db.WithTx commitErr store (payment.requestPaymentTx cfg platform now sh id)).1 := by
  cases shopCtx with
  | none => exact Or.inl rfl
  | some sh =>
    by_cases hid : id = ""
    · simp [payment.RequestPayment, hid]
    · refine Or.inr ⟨sh, ?_⟩
      simp only [payment.RequestPayment, if_neg hid]
      generalize db.WithTx commitErr store (payment.requestPaymentTx cfg platform now sh id) = w
      obtain ⟨s1, e, cap⟩ := w
      cases e with
      | none =>
        simp only []
        split <;> rfl
      | some e =>
        simp only []
        split
        · rfl
        · split <;> rfl

/-- The milestones after `RequestPayment`. -/
theorem requestPayment_shape (cfg : config.Config) (platform : shopify.Platform) (now : Time)
    (commitErr : Option GoError) (store : Store) (shopCtx : Option shop.Shop) (id : String) :
    (payment.RequestPayment cfg platform now commitErr store shopCtx id).store.milestones =
        store.milestones ∨
      ∃ mid d u,
        (payment.RequestPayment cfg platform now commitErr store shopCtx id).store.milestones =
          (milestone.SetDraftOrder store mid d u).milestones := by
  rcases requestPayment_store cfg platform now commitErr store shopCtx id with h | ⟨sh, h⟩
  · rw [h]; exact Or.inl rfl
  · rw [h]
    have hs := requestPaymentTx_shape cfg platform now sh id store
    rcases withTx_store commitErr store (payment.requestPaymentTx cfg platform now sh id) with
      hw | ⟨_, hw⟩
    · rw [hw, hs.1]; exact Or.inl rfl
    · rw [hw]; exact hs.2

/-! ## The webhook handlers: which rows they change -/

theorem creationFrame_refl (env : webhook.Env) (s : Store) : CreationFrame env s s :=
  ⟨⟨[], by simp, by simp⟩, ⟨[], by simp, by simp⟩⟩

theorem creationFrame_trans {env : webhook.Env} {a b c : Store} (h1 : CreationFrame env a b)
    (h2 : CreationFrame env b c) : CreationFrame env a c := by
  obtain ⟨⟨m1, hm1, hm1f⟩, ⟨v1, hv1, hv1f⟩⟩ := h1
  obtain ⟨⟨m2, hm2, hm2f⟩, ⟨v2, hv2, hv2f⟩⟩ := h2
  refine ⟨⟨m1 ++ m2, by rw [hm2, hm1, List.append_assoc], ?_⟩,
    ⟨v1 ++ v2, by rw [hv2, hv1, List.append_assoc], ?_⟩⟩
  · intro e he
    rcases List.mem_append.mp he with h | h
    · exact hm1f e h
    · exact hm2f e h
  · intro e he
    rcases List.mem_append.mp he with h | h
    · exact hv1f e h
    · exact hv2f e h

theorem creationFrame_of_eq (env : webhook.Env) {s t : Store}
    (hm : t.milestones = s.milestones) (hs : t.services = s.services) :
    CreationFrame env s t :=
  ⟨⟨[], by simp [hm], by simp⟩, ⟨[], by simp [hs], by simp⟩⟩

theorem creationFrame_ite (env : webhook.Env) (c : Prop) [Decidable c] {a b s : Store}
    (ha : CreationFrame env s a) (hb : CreationFrame env s b) :
    CreationFrame env s (if c then a else b) := by
  split
  · exact ha
  · exact hb

theorem creationFrame_insertMilestone (s s1 : Store) (env : webhook.Env) (serviceID : String)
    (q : Nat) (amount : Decimal) (status : String) (paidAt : Option Time)
    (h : webhook.insertMilestone s env serviceID q amount status paidAt = .ok s1) :
    CreationFrame env s s1 := by
  unfold webhook.insertMilestone at h
  split at h
  · cases h
  · injection h with h
    subst h
    refine ⟨⟨_, rfl, ?_⟩, ⟨[], by simp, by simp⟩⟩
    intro e he
    simp only [List.mem_singleton] at he
    subst he
    exact ⟨q, rfl⟩

theorem creationFrame_insertMilestones (env : webhook.Env) (shopID serviceID : String)
    (ms : List CalculatedMilestone) (i : Nat) (s : Store) :
    CreationFrame env s (webhook.insertMilestones env shopID serviceID ms i s).1 := by
  induction ms generalizing i s with
  | nil => exact creationFrame_refl env s
  | cons m rest ih =>
    unfold webhook.insertMilestones
    simp only []
    split
    · split
      · exact ih _ _
      · exact creationFrame_refl env s
    · rename_i s1 h1
      refine creationFrame_trans ?_ (ih _ _)
      have hs1 := creationFrame_insertMilestone _ _ _ _ _ _ _ _ h1
      split
      · exact creationFrame_trans hs1 (creationFrame_of_eq env rfl rfl)
      · exact hs1

theorem creationFrame_insertService (s s1 : Store) (env : webhook.Env) (shopID : String)
    (orderID : Int) (productID email name : String) (total : Decimal) (currency : String)
    (snapshot : RawMessage) (id : String) (created : Bool)
    (h : webhook.insertService s env shopID orderID productID email name total currency snapshot
      = .ok (id, created, s1)) :
    id = env.newServiceID ∧ CreationFrame env s s1 := by
  unfold webhook.insertService at h
  split at h
  · cases h
  · injection h with h
    injection h with h0 h
    injection h with _ h
    subst h
    refine ⟨h0.symm, ⟨[], by simp, by simp⟩, ⟨_, rfl, ?_⟩⟩
    intro e he
    simp only [List.mem_singleton] at he
    subst he
    rfl

theorem creationFrame_recordServiceCreated (s : Store) (env : webhook.Env)
    (shopID serviceID : String) (orderID : Int) (productID : String) :
    CreationFrame env s (webhook.recordServiceCreated s env shopID serviceID orderID productID) :=
  creationFrame_of_eq env rfl rfl

/-- What `handleOrdersPaid` does to the milestones and the services: it settles the milestone
that the note names, or it only adds rows, and may end with the `UpdateStatus` to `Booked`
of the service it created. -/
theorem handleOrdersPaid_shape (s : Store) (lib : Lib) (dec : webhook.Decoders)
    (env : webhook.Env) (shopRec : shop.Shop) (body : String) :
    (∃ payload, dec.orderPaid body = some payload ∧
        webhook.ParseKeyFromNote lib payload.Note "milestone_id" ≠ "" ∧
        webhook.handleOrdersPaid s lib dec env shopRec body =
          webhook.applyMilestonePaymentFromOrder s env shopRec
            (webhook.ParseKeyFromNote lib payload.Note "milestone_id") payload.ID) ∨
      CreationFrame env s (webhook.handleOrdersPaid s lib dec env shopRec body).1 ∨
      ∃ s3, CreationFrame env s s3 ∧
        (webhook.handleOrdersPaid s lib dec env shopRec body).1 =
          service.UpdateStatus s3 env.dbNow shopRec.ID env.newServiceID StatusBooked false := by
  unfold webhook.handleOrdersPaid
  split
  · exact Or.inr (Or.inl (creationFrame_refl env s))
  · rename_i payload hdec
    split
    · exact Or.inr (Or.inl (creationFrame_refl env s))
    · split
      · rename_i hkey
        exact Or.inl ⟨payload, hdec, hkey, rfl⟩
      · right
        simp only []
        split
        · exact Or.inl (creationFrame_refl env s)
        · split
          · exact Or.inl (creationFrame_refl env s)
          · split
            · exact Or.inl (creationFrame_refl env s)
            · split
              · exact Or.inl (creationFrame_refl env s)
              · exact Or.inl (creationFrame_refl env s)
              · split
                · split <;> exact Or.inl (creationFrame_refl env s)
                · rename_i serviceID created s1 hins
                  obtain ⟨hsid, hs1⟩ :=
                    creationFrame_insertService _ _ _ _ _ _ _ _ _ _ _ _ _ hins
                  split
                  · rename_i s3 e h3
                    left
                    show CreationFrame env s s3
                    have h3a := congrArg Prod.fst h3
                    simp only [] at h3a
                    rw [← h3a]
                    exact creationFrame_trans
                      (creationFrame_ite env _
                        (creationFrame_trans hs1 (creationFrame_recordServiceCreated _ _ _ _ _ _)) hs1)
                      (creationFrame_insertMilestones _ _ _ _ _ _)
                  · rename_i s3 h3
                    have hs3 : CreationFrame env s s3 := by
                      have h3a := congrArg Prod.fst h3
                      simp only [] at h3a
                      rw [← h3a]
                      exact creationFrame_trans
                        (creationFrame_ite env _
                          (creationFrame_trans hs1 (creationFrame_recordServiceCreated _ _ _ _ _ _)) hs1)
                        (creationFrame_insertMilestones _ _ _ _ _ _)
                    split
                    · right
                      exact ⟨s3, hs3, by rw [hsid]⟩
                    · left
                      exact hs3

/-- What `applyMilestonePaymentFromOrder` does: nothing, or `MarkPaid` on a milestone of the
shop that is neither paid nor locked, with at most one `UpdateStatus` to `Completed`. -/
theorem applyMilestonePayment_shape (s : Store) (env : webhook.Env) (shopRec : shop.Shop)
    (milestoneID : String) (orderID : Int) :
    (webhook.applyMilestonePaymentFromOrder s env shopRec milestoneID orderID).1 = s ∨
      ∃ m, milestone.GetForUpdateScoped s shopRec.ID milestoneID = .ok m ∧
        m.Status ≠ "paid" ∧ m.Status ≠ "locked" ∧
        (webhook.applyMilestonePaymentFromOrder s env shopRec milestoneID orderID).1.milestones =
          (milestone.MarkPaid s m.ID env.now).milestones ∧
        ((webhook.applyMilestonePaymentFromOrder s env shopRec milestoneID orderID).1.services =
            s.services ∨
          (webhook.applyMilestonePaymentFromOrder s env shopRec milestoneID orderID).1.services =
            (service.UpdateStatus s env.dbNow shopRec.ID m.ServiceID StatusCompleted
              false).services) := by
  unfold webhook.applyMilestonePaymentFromOrder
  cases hm : milestone.GetForUpdateScoped s shopRec.ID milestoneID with
  | error e => exact Or.inl rfl
  | ok m =>
    simp only []
    by_cases hp : m.Status = "paid"
    · rw [if_pos hp]; exact Or.inl rfl
    rw [if_neg hp]
    by_cases hl : m.Status = "locked"
    · rw [if_pos hl]; exact Or.inl rfl
    rw [if_neg hl]
    have h := settle_effects s env shopRec.ID m.ServiceID m.ID m.Sequence
      [("milestoneId", .str m.ID), ("orderId", .str (webhook.int64ToString orderID))]
      [("milestoneId", .str m.ID)]
    refine Or.inr ⟨m, rfl, hp, hl, h.1, ?_⟩
    rw [h.2]
    split
    · exact Or.inr rfl
    · exact Or.inl rfl

/-- What `handleMilestonePaid` does: nothing, or `MarkPaid` on the milestone resolved from the
draft order id of the payload, with at most one `UpdateStatus` to `Completed`. -/
theorem handleMilestonePaid_shape (s : Store) (dec : webhook.Decoders) (env : webhook.Env)
    (shopRec : shop.Shop) (body : String) :
    (webhook.handleMilestonePaid s dec env shopRec body).1 = s ∨
      ∃ payload mid sid m, dec.milestonePaid body = some payload ∧
        payload.DraftOrderID ≠ "" ∧
        webhook.resolveDraftOrder s shopRec.ID payload.DraftOrderID = some (mid, sid) ∧
        milestone.GetForUpdate s mid = .ok m ∧ m.Status ≠ "paid" ∧
        (webhook.handleMilestonePaid s dec env shopRec body).1.milestones =
          (milestone.MarkPaid s m.ID env.now).milestones ∧
        ((webhook.handleMilestonePaid s dec env shopRec body).1.services = s.services ∨
          (webhook.handleMilestonePaid s dec env shopRec body).1.services =
            (service.UpdateStatus s env.dbNow shopRec.ID sid StatusCompleted false).services) := by
  unfold webhook.handleMilestonePaid
  cases hd : dec.milestonePaid body with
  | none => exact Or.inl rfl
  | some payload =>
    simp only []
    by_cases hne : payload.DraftOrderID = ""
    · rw [if_pos hne]; exact Or.inl rfl
    rw [if_neg hne]
    cases hr : webhook.resolveDraftOrder s shopRec.ID payload.DraftOrderID with
    | none => exact Or.inl rfl
    | some p =>
      obtain ⟨mid, sid⟩ := p
      simp only []
      cases hm : milestone.GetForUpdate s mid with
      | error e => exact Or.inl rfl
      | ok m =>
        simp only []
        by_cases hp : m.Status = "paid"
        · rw [if_pos hp]; exact Or.inl rfl
        rw [if_neg hp]
        have h := settle_effects s env shopRec.ID sid m.ID m.Sequence
          [("sequence", .int m.Sequence), ("draftOrderId", .str payload.DraftOrderID)]
          [("sequence", .int m.Sequence)]
        refine Or.inr ⟨payload, mid, sid, m, rfl, hne, hr, hm, hp, h.1, ?_⟩
        rw [h.2]
        split
        · exact Or.inr rfl
        · exact Or.inl rfl

/-- Settlement changes the status of a service only to `Completed`. -/
theorem statusChanges_handleMilestonePaid (s : Store) (dec : webhook.Decoders)
    (env : webhook.Env) (shopRec : shop.Shop) (body : String) (hu : UniqueServiceIDs s) :
    StatusChangesAllowed (fun _ y => y = StatusCompleted) s
      (webhook.handleMilestonePaid s dec env shopRec body).1 := by
  rcases handleMilestonePaid_shape s dec env shopRec body with h | ⟨_, _, sid, _, _, _, _, _, _, _, h⟩
  · exact statusChanges_of_eq hu (by rw [h])
  · rcases h with h | h
    · exact statusChanges_of_eq hu h
    · exact statusChanges_of_updateStatus hu env.dbNow shopRec.ID sid StatusCompleted false
        (fun _ _ _ _ => Or.inr rfl) h

theorem statusChanges_applyMilestonePayment (s : Store) (env : webhook.Env)
    (shopRec : shop.Shop) (milestoneID : String) (orderID : Int) (hu : UniqueServiceIDs s) :
    StatusChangesAllowed (fun _ y => y = StatusCompleted) s
      (webhook.applyMilestonePaymentFromOrder s env shopRec milestoneID orderID).1 := by
  rcases applyMilestonePayment_shape s env shopRec milestoneID orderID with
    h | ⟨m, _, _, _, _, h⟩
  · exact statusChanges_of_eq hu (by rw [h])
  · rcases h with h | h
    · exact statusChanges_of_eq hu h
    · exact statusChanges_of_updateStatus hu env.dbNow shopRec.ID m.ServiceID StatusCompleted
        false (fun _ _ _ _ => Or.inr rfl) h

/-- Rows added with a fresh service id leave every status as it was, also under the
`UpdateStatus` of the new service. -/
theorem statusChanges_of_creationFrame {R : Status → Status → Prop} {env : webhook.Env}
    {s s3 : Store} (hu : UniqueServiceIDs s)
    (hfresh : ∀ sv ∈ s.services, sv.ID ≠ env.newServiceID) (h : CreationFrame env s s3)
    (dbNow : Time) (shopID : String) (next : Status) (ov : Bool) :
    StatusChangesAllowed R s s3 ∧
      StatusChangesAllowed R s (service.UpdateStatus s3 dbNow shopID env.newServiceID next ov) := by
  obtain ⟨_, ⟨extra, hv, hvf⟩⟩ := h
  have key : ∀ a ∈ s.services, ∀ c ∈ s3.services, c.ID = a.ID → c = a := by
    intro a ha c hc hid
    rw [hv] at hc
    rcases List.mem_append.mp hc with h1 | h1
    · exact hu c h1 a ha hid
    · exact absurd ((hid.symm.trans (hvf c h1))) (hfresh a ha)
  constructor
  · intro a ha b hb hid
    have := key a ha b hb hid
    subst this
    exact Or.inl rfl
  · intro a ha b hb hid
    simp only [service.UpdateStatus, List.mem_map] at hb
    obtain ⟨c, hc, hcb⟩ := hb
    by_cases hcond : c.ShopID = shopID ∧ c.ID = env.newServiceID
    · rw [if_pos hcond] at hcb
      subst hcb
      have hca := key a ha c hc hid
      subst hca
      exact absurd hcond.2 (hfresh c ha)
    · rw [if_neg hcond] at hcb
      subst hcb
      have hca := key a ha c hc hid
      subst hca
      exact Or.inl rfl

theorem paidOnly_of_creationFrame {env : webhook.Env} {s s3 t : Store}
    (hu : UniqueMilestoneIDs s)
    (hfresh : ∀ j, ∀ m ∈ s.milestones, m.ID ≠ env.newMilestoneID j)
    (h : CreationFrame env s s3) (ht : t.milestones = s3.milestones) :
    PaidOnlyWithReference s t := by
  obtain ⟨⟨extra, hm, hmf⟩, _⟩ := h
  intro a ha b hb hid hnp hp
  rw [ht, hm] at hb
  rcases List.mem_append.mp hb with h1 | h1
  · have := hu b h1 a ha hid
    subst this
    exact absurd hp hnp
  · obtain ⟨j, hj⟩ := hmf b h1
    exact absurd (hid.symm.trans hj) (hfresh j a ha)

/-! ## The milestones of a new service -/

/-- The entries of a successful `CalculateAmounts`: one per template entry, each a multiple of
the currency unit, and final exactly at the last place. -/
theorem calculateAmounts_entries (total : Decimal) (ts : List MilestoneTemplate)
    (scale : CurrencyScale) (amounts : List CalculatedMilestone)
    (h : CalculateAmounts total ts scale = .ok amounts) :
    amounts.length = ts.length ∧
      ∀ i a, amounts[i]? = some a →
        IsScaled (effectiveScale scale) a.Amount ∧ (a.IsFinal = true ↔ i + 1 = amounts.length) := by
  obtain ⟨hv, ht⟩ := calculateAmounts_ok_inv total ts scale amounts h
  rw [calculateAmounts_of_valid total ts scale hv ht] at h
  obtain ⟨init, l, rfl, _, _, hinit⟩ := (validateTemplate_eq_none_iff ts).mp hv
  split at h
  · cases h
  · injection h with h
    subst h
    simp only [List.dropLast_concat]
    refine ⟨by simp, ?_⟩
    intro i a hia
    by_cases hi : i < init.length
    · rw [List.getElem?_append_left (by simpa using hi)] at hia
      simp only [List.getElem?_map, Option.map_eq_some'] at hia
      obtain ⟨t, ht1, rfl⟩ := hia
      have htm : t ∈ init := List.getElem?_mem ht1
      refine ⟨isScaled_entryAmount _ _ _, ?_⟩
      simp only [(hinit t htm).2, List.length_append, List.length_map, List.length_singleton]
      constructor
      · intro hc; cases hc
      · intro hc; omega
    · have hle : init.length ≤ i := not_lt.mp hi
      rw [List.getElem?_append_right (by simpa using hle)] at hia
      simp only [List.length_map] at hia
      have hi0 : i - init.length = 0 := by
        by_contra hne
        have : 1 ≤ i - init.length := Nat.one_le_iff_ne_zero.mpr hne
        rw [List.getElem?_eq_none (by simpa using this)] at hia
        cases hia
      rw [hi0] at hia
      simp only [List.getElem?_cons_zero, Option.some.injEq] at hia
      subst hia
      refine ⟨?_, ?_⟩
      · simp only [correctedFinal, List.dropLast_concat]
        exact (isScaled_round _ _).sub (isScaled_sum_entryAmount _ _ _)
      · simp only [List.length_append, List.length_map, List.length_singleton, true_iff]
        omega

/-- The loop that creates the milestones, on a store where the service has no milestone with
a sequence from `i` on: it returns no error, appends one row per amount and leaves the
services alone. -/
theorem insertMilestones_fresh (env : webhook.Env) (shopID serviceID : String)
    (ms : List CalculatedMilestone) (i : Nat) (s : Store)
    (hfree : ∀ m ∈ s.milestones, m.ServiceID = serviceID → m.Sequence < (i : Int)) :
    (webhook.insertMilestones env shopID serviceID ms i s).2 = none ∧
      (webhook.insertMilestones env shopID serviceID ms i s).1.milestones =
        s.milestones ++ (ms.enumFrom i).map (fun p =>
          (⟨env.newMilestoneID p.1, serviceID, (p.1 : Int), Decimal.Round p.2.Amount 2,
            if p.1 = 0 then "paid" else if p.2.IsFinal then "locked" else "unpaid",
            none, none, if p.1 = 0 then some env.now else none⟩ : milestone.Row)) ∧
      (webhook.insertMilestones env shopID serviceID ms i s).1.services = s.services := by
  induction ms generalizing i s with
  | nil => simp [webhook.insertMilestones]
  | cons m rest ih =>
    have hno : (s.milestones.any
        (fun x => decide (x.ServiceID = serviceID ∧ x.Sequence = (i : Int)))) = false := by
      rw [List.any_eq_false]
      intro x hx
      simp only [decide_eq_true_eq, not_and]
      intro hsid hseq
      have := hfree x hx hsid
      omega
    unfold webhook.insertMilestones
    simp only [webhook.insertMilestone, hno, Bool.false_eq_true, if_false]
    generalize hs2 : (if i = 0 then
        events.Insert
          (audit.Insert
            { s with
              milestones := s.milestones ++
                [⟨env.newMilestoneID i, serviceID, (i : Int), Decimal.Round m.Amount 2,
                  if i = 0 then "paid" else if m.IsFinal = true then "locked" else "unpaid",
                  none, none, if i = 0 then some env.now else none⟩] }
            shopID (some serviceID) "DEPOSIT_PAID" "webhook"
            [("sequence", .int 0), ("amount", .fixed m.Amount 2)])
          serviceID "MILESTONE_PAID" "Deposit paid" "webhook" env.now [("sequence", .int 0)]
      else
        { s with
          milestones := s.milestones ++
            [⟨env.newMilestoneID i, serviceID, (i : Int), Decimal.Round m.Amount 2,
              if i = 0 then "paid" else if m.IsFinal = true then "locked" else "unpaid",
              none, none, if i = 0 then some env.now else none⟩] }) = s2
    have hm2 : s2.milestones = s.milestones ++
        [⟨env.newMilestoneID i, serviceID, (i : Int), Decimal.Round m.Amount 2,
          if i = 0 then "paid" else if m.IsFinal = true then "locked" else "unpaid",
          none, none, if i = 0 then some env.now else none⟩] := by
      rw [← hs2]; split <;> rfl
    have hv2 : s2.services = s.services := by
      rw [← hs2]; split <;> rfl
    have hfree2 : ∀ x ∈ s2.milestones, x.ServiceID = serviceID → x.Sequence < ((i + 1 : Nat) : Int) := by
      intro x hx hsid
      rw [hm2] at hx
      rcases List.mem_append.mp hx with h1 | h1
      · have := hfree x h1 hsid
        omega
      · simp only [List.mem_singleton] at h1
        subst h1
        simp
    obtain ⟨h1, h2, h3⟩ := ih (i + 1) s2 hfree2
    refine ⟨h1, ?_, by rw [h3, hv2]⟩
    rw [h2, hm2, List.enumFrom_cons, List.map_cons, List.append_assoc]
    rfl

/-- The store after an order-paid delivery that creates a service: no error, one milestone
per calculated amount appended in order, and the new service appended as `Booked`. -/
theorem ordersPaid_creates (s : Store) (lib : Lib) (dec : webhook.Decoders)
    (env : webhook.Env) (shopRec : shop.Shop) (body : String)
    (payload : webhook.orderPaidPayload) (pid : String) (raw : RawMessage)
    (cfg : serviceproduct.Config) (total : Decimal) (amounts : List CalculatedMilestone)
    (hd : dec.orderPaid body = some payload)
    (hid0 : payload.ID ≠ 0) (htp : payload.TotalPrice ≠ "") (hli : payload.LineItems ≠ [])
    (hkey : webhook.ParseKeyFromNote lib payload.Note "milestone_id" = "")
    (hprod : webhook.chooseProduct s shopRec.ID payload.LineItems = (pid, raw))
    (hpid : pid ≠ "")
    (hcfg : serviceproduct.ParseAndValidate lib.unmarshalConfig raw = .ok cfg)
    (htotal : lib.decimalFromString payload.TotalPrice = some total)
    (hcalc : CalculateAmounts total cfg.Templates DefaultCurrencyScale = .ok amounts)
    (hnew : ∀ sv ∈ s.services,
      ¬ (sv.ShopID = shopRec.ID ∧ sv.ShopifyOrderID = webhook.int64ToString payload.ID))
    (hfreshS : ∀ sv ∈ s.services, sv.ID ≠ env.newServiceID)
    (hfreshM : ∀ m ∈ s.milestones, m.ServiceID ≠ env.newServiceID) :
    (webhook.handleOrdersPaid s lib dec env shopRec body).2 = none ∧
      (webhook.handleOrdersPaid s lib dec env shopRec body).1.milestones =
        s.milestones ++ amounts.enum.map (fun p =>
          (⟨env.newMilestoneID p.1, env.newServiceID, (p.1 : Int), p.2.Amount,
            if p.1 = 0 then "paid" else if p.1 + 1 = amounts.length then "locked" else "unpaid",
            none, none, if p.1 = 0 then some env.now else none⟩ : milestone.Row)) ∧
      (webhook.handleOrdersPaid s lib dec env shopRec body).1.services =
        s.services ++
          [⟨env.newServiceID, shopRec.ID, webhook.int64ToString payload.ID, pid, payload.Email,
            payload.CustomerName, Decimal.Round total 2,
            webhook.currencyOrDefault payload.Currency, StatusBooked, raw, false, env.dbNow⟩] := by
  have hcond : ¬ (payload.ID = 0 ∨ payload.TotalPrice = "" ∨ payload.LineItems.length = 0) := by
    rintro (h | h | h)
    · exact hid0 h
    · exact htp h
    · exact hli (List.length_eq_zero.mp h)
  have hany : (s.services.any (fun sv =>
      decide (sv.ShopID = shopRec.ID ∧
        sv.ShopifyOrderID = webhook.int64ToString payload.ID))) = false := by
    rw [List.any_eq_false]
    intro sv hsv
    simpa using hnew sv hsv
  obtain ⟨hlen, hent⟩ := calculateAmounts_entries total cfg.Templates DefaultCurrencyScale
    amounts hcalc
  -- the rows the loop appends are the rows of the statement
  have hrows : (amounts.enumFrom 0).map (fun p =>
        (⟨env.newMilestoneID p.1, env.newServiceID, (p.1 : Int), Decimal.Round p.2.Amount 2,
          if p.1 = 0 then "paid" else if p.2.IsFinal then "locked" else "unpaid",
          none, none, if p.1 = 0 then some env.now else none⟩ : milestone.Row)) =
      amounts.enum.map (fun p =>
        (⟨env.newMilestoneID p.1, env.newServiceID, (p.1 : Int), p.2.Amount,
          if p.1 = 0 then "paid" else if p.1 + 1 = amounts.length then "locked" else "unpaid",
          none, none, if p.1 = 0 then some env.now else none⟩ : milestone.Row)) := by
    apply List.map_congr_left
    rintro ⟨i, a⟩ hp
    have hia : amounts[i]? = some a := List.mk_mem_enum_iff_getElem?.mp hp
    obtain ⟨hsc, hfin⟩ := hent i a hia
    have hr : Decimal.Round a.Amount 2 = a.Amount := round_of_isScaled hsc
    simp only [hr]
    by_cases hlast : i + 1 = amounts.length
    · simp [hfin.mpr hlast, hlast]
    · have : ¬ (a.IsFinal = true) := fun h => hlast (hfin.mp h)
      simp [this, hlast]
  unfold webhook.handleOrdersPaid
  simp only [hd, if_neg hcond, hkey, ne_eq, not_true_eq_false, if_false, hprod, if_neg hpid,
    hcfg, htotal, hcalc, webhook.insertService, hany, Bool.false_eq_true, if_true]
  have hins := insertMilestones_fresh env shopRec.ID env.newServiceID amounts 0
    (webhook.recordServiceCreated
      { s with
        services := s.services ++
          [⟨env.newServiceID, shopRec.ID, webhook.int64ToString payload.ID, pid, payload.Email,
            payload.CustomerName, Decimal.Round total 2,
            webhook.currencyOrDefault payload.Currency, StatusBooked, raw, false, env.dbNow⟩] }
      env shopRec.ID env.newServiceID payload.ID pid)
    (fun m hm hsid => absurd hsid (hfreshM m hm))
  generalize webhook.insertMilestones env shopRec.ID env.newServiceID amounts 0
    (webhook.recordServiceCreated
      { s with
        services := s.services ++
          [⟨env.newServiceID, shopRec.ID, webhook.int64ToString payload.ID, pid, payload.Email,
            payload.CustomerName, Decimal.Round total 2,
            webhook.currencyOrDefault payload.Currency, StatusBooked, raw, false, env.dbNow⟩] }
      env shopRec.ID env.newServiceID payload.ID pid) = r at hins ⊢
  obtain ⟨s3, e⟩ := r
  obtain ⟨he, hm, hv⟩ := hins
  simp only at he hm hv
  subst he
  simp only []
  refine ⟨trivial, ?_, ?_⟩
  · show s3.milestones = _
    rw [hm, hrows]
    rfl
  · show (service.UpdateStatus s3 env.dbNow shopRec.ID env.newServiceID StatusBooked
      false).services = _
    simp only [service.UpdateStatus, hv]
    show List.map _ (s.services ++ _) = _
    rw [List.map_append]
    congr 1
    · conv_rhs => rw [← List.map_id s.services]
      apply List.map_congr_left
      intro sv hsv
      have := hfreshS sv hsv
      simp [this]
    · simp

/-! ## What the approval and the status updates set -/

theorem queryApproved_of_eq {a b : Store} (h : a.approvals = b.approvals) (sid : String) :
    approval.queryApproved a sid = approval.queryApproved b sid := by
  simp only [approval.queryApproved, h]

/-- After `Approve`, the approval record of the service, when there is one, says approved. -/
theorem queryApproved_approve (s : Store) (dbNow : Time) (sid note : String)
    (h : approval.queryApproved s sid ≠ none) :
    approval.queryApproved (approval.Approve s dbNow sid note) sid = some true := by
  simp only [approval.queryApproved, approval.Approve, List.find?_map] at h ⊢
  have hp : ((fun a : approval.Record => decide (a.ServiceID = sid)) ∘ fun a =>
      if a.ServiceID = sid then
        { a with Approved := true, ApprovedAt := some dbNow, RevisionRequested := false,
                 ClientNote := note, UpdatedAt := dbNow }
      else a) = fun a : approval.Record => decide (a.ServiceID = sid) := by
    funext a
    by_cases hc : a.ServiceID = sid <;> simp [hc]
  rw [hp]
  cases hf : s.approvals.find? (fun a => decide (a.ServiceID = sid)) with
  | none => rw [hf] at h; exact absurd rfl h
  | some a =>
    have ha := List.find?_some hf
    simp only [decide_eq_true_eq] at ha
    simp [ha]

/-- The service of a milestone read with `GetForUpdateScoped` is a service of the shop. -/
theorem getForUpdateScoped_service {s : Store} {shopID milestoneID : String}
    {m : milestone.Record} (h : milestone.GetForUpdateScoped s shopID milestoneID = .ok m) :
    ∃ sv ∈ s.services, sv.ID = m.ServiceID ∧ sv.ShopID = shopID := by
  unfold milestone.GetForUpdateScoped at h
  split at h
  · rename_i r hr
    injection h with h
    subst h
    have hmem := List.mem_of_mem_head? hr
    simp only [List.mem_filterMap] at hmem
    obtain ⟨row, _, hrow⟩ := hmem
    split at hrow
    · simp only [Option.map_eq_some'] at hrow
      obtain ⟨sv, hsv, rfl⟩ := hrow
      have hp := List.find?_some hsv
      simp only [decide_eq_true_eq] at hp
      exact ⟨sv, List.mem_of_find?_eq_some hsv, hp.1, hp.2⟩
    · cases hrow
  · cases h

/-- The service that `resolveDraftOrder` returns is a service of the shop. -/
theorem resolveDraftOrder_service {s : Store} {shopID draftOrderID mid sid : String}
    (h : webhook.resolveDraftOrder s shopID draftOrderID = some (mid, sid)) :
    ∃ sv ∈ s.services, sv.ID = sid ∧ sv.ShopID = shopID := by
  unfold webhook.resolveDraftOrder at h
  simp only [Option.map_eq_some', Prod.mk.injEq] at h
  obtain ⟨r, hr, _, hsid⟩ := h
  have hp := List.find?_some hr
  simp only [Bool.decide_and, Bool.and_eq_true, decide_eq_true_eq, List.any_eq_true] at hp
  obtain ⟨_, sv, hsv, hcond⟩ := hp
  exact ⟨sv, hsv, hcond.1.trans hsid, hcond.2⟩

/-- After `UpdateStatus` the rows of that shop with that id have the new status. -/
theorem updateStatus_sets (s : Store) (dbNow : Time) (shopID serviceID : String)
    (next : Status) (ov : Bool)
    (h : ∃ sv ∈ s.services, sv.ID = serviceID ∧ sv.ShopID = shopID) :
    ∃ sv ∈ s.services.map (fun sv =>
        if sv.ShopID = shopID ∧ sv.ID = serviceID then
          { sv with Status := next, CompletedViaOverride := ov, UpdatedAt := dbNow }
        else sv),
      sv.ID = serviceID ∧ sv.ShopID = shopID ∧ sv.Status = next := by
  obtain ⟨sv, hsv, hid, hshop⟩ := h
  refine ⟨{ sv with Status := next, CompletedViaOverride := ov, UpdatedAt := dbNow }, ?_,
    hid, hshop, rfl⟩
  simp only [List.mem_map]
  exact ⟨sv, hsv, by rw [if_pos ⟨hshop, hid⟩]⟩

/-! ## `NormalizeTopic` on a normal form -/

theorem mem_replaceChar {old c : Char} {cs : List Char} (h : c ∈ webhook.replaceChar old cs) :
    c = '_' ∨ (c ∈ cs ∧ c ≠ old) := by
  simp only [webhook.replaceChar, List.mem_map] at h
  obtain ⟨x, hx, rfl⟩ := h
  by_cases hc : x = old
  · left; simp [hc]
  · right; simp [hc, hx]

theorem replaceChar_of_not_mem {old : Char} {cs : List Char} (h : old ∉ cs) :
    webhook.replaceChar old cs = cs := by
  simp only [webhook.replaceChar]
  conv_rhs => rw [← List.map_id cs]
  apply List.map_congr_left
  intro c hc
  have : c ≠ old := fun he => h (he ▸ hc)
  simp [this]

/-- No two adjacent underscores, as a chain condition. -/
theorem hasDoubleUnderscore_eq_false_iff (cs : List Char) :
    webhook.hasDoubleUnderscore cs = false ↔
      List.Chain' (fun a b => ¬ (a = '_' ∧ b = '_')) cs := by
  induction cs with
  | nil => simp [webhook.hasDoubleUnderscore]
  | cons c rest ih =>
    cases rest with
    | nil => simp [webhook.hasDoubleUnderscore]
    | cons d tl =>
      rw [List.chain'_cons, ← ih]
      simp only [webhook.hasDoubleUnderscore, Bool.or_eq_false_iff, Bool.and_eq_false_imp,
        decide_eq_true_eq, decide_eq_false_iff_not]
      constructor
      · rintro ⟨h1, h2⟩
        exact ⟨fun ⟨a, b⟩ => h1 a b, h2⟩
      · rintro ⟨h1, h2⟩
        exact ⟨fun a b => h1 ⟨a, b⟩, h2⟩

theorem replaceDoubleUnderscore_length_le (cs : List Char) :
    (webhook.replaceDoubleUnderscore cs).length ≤ cs.length := by
  induction cs using webhook.replaceDoubleUnderscore.induct with
  | case1 => simp [webhook.replaceDoubleUnderscore]
  | case2 c => simp [webhook.replaceDoubleUnderscore]
  | case3 c d rest h ih =>
    rw [webhook.replaceDoubleUnderscore, if_pos h]
    simp only [List.length_cons]
    omega
  | case4 c d rest h ih =>
    rw [webhook.replaceDoubleUnderscore, if_neg h]
    simp only [List.length_cons] at ih ⊢
    omega

theorem replaceDoubleUnderscore_length_lt (cs : List Char)
    (h : webhook.hasDoubleUnderscore cs = true) :
    (webhook.replaceDoubleUnderscore cs).length < cs.length := by
  induction cs using webhook.replaceDoubleUnderscore.induct with
  | case1 => simp [webhook.hasDoubleUnderscore] at h
  | case2 c => simp [webhook.hasDoubleUnderscore] at h
  | case3 c d rest hc ih =>
    rw [webhook.replaceDoubleUnderscore, if_pos hc]
    have := replaceDoubleUnderscore_length_le rest
    simp only [List.length_cons]
    omega
  | case4 c d rest hc ih =>
    rw [webhook.replaceDoubleUnderscore, if_neg hc]
    simp only [webhook.hasDoubleUnderscore, Bool.or_eq_true, Bool.and_eq_true,
      decide_eq_true_eq] at h
    rcases h with h | h
    · exact absurd h hc
    · have := ih h
      simp only [List.length_cons] at this ⊢
      omega

theorem mem_replaceDoubleUnderscore {c : Char} (cs : List Char)
    (h : c ∈ webhook.replaceDoubleUnderscore cs) : c ∈ cs := by
  induction cs using webhook.replaceDoubleUnderscore.induct with
  | case1 => simp [webhook.replaceDoubleUnderscore] at h
  | case2 x => simpa [webhook.replaceDoubleUnderscore] using h
  | case3 x d rest hc ih =>
    rw [webhook.replaceDoubleUnderscore, if_pos hc] at h
    rcases List.mem_cons.mp h with h1 | h1
    · rw [h1, ← hc.1]; simp
    · simp [ih h1]
  | case4 x d rest hc ih =>
    rw [webhook.replaceDoubleUnderscore, if_neg hc] at h
    rcases List.mem_cons.mp h with h1 | h1
    · rw [h1]; simp
    · exact List.mem_cons_of_mem _ (ih h1)

/-- The loop of `NormalizeTopic` ends without two adjacent underscores when it has as many
rounds as the text has characters, and it keeps only characters of the text. -/
theorem collapseUnderscores_spec (fuel : Nat) (cs : List Char) (h : cs.length ≤ fuel) :
    webhook.hasDoubleUnderscore (webhook.collapseUnderscores fuel cs) = false ∧
      ∀ c ∈ webhook.collapseUnderscores fuel cs, c ∈ cs := by
  induction fuel generalizing cs with
  | zero =>
    have : cs = [] := List.length_eq_zero.mp (Nat.le_zero.mp h)
    subst this
    simp [webhook.collapseUnderscores, webhook.hasDoubleUnderscore]
  | succ n ih =>
    unfold webhook.collapseUnderscores
    by_cases hd : webhook.hasDoubleUnderscore cs = true
    · rw [if_pos hd]
      have hlt := replaceDoubleUnderscore_length_lt cs hd
      obtain ⟨h1, h2⟩ := ih (webhook.replaceDoubleUnderscore cs) (by omega)
      exact ⟨h1, fun c hc => mem_replaceDoubleUnderscore cs (h2 c hc)⟩
    · rw [if_neg hd]
      exact ⟨by simpa using hd, fun c hc => hc⟩

theorem collapseUnderscores_of_none (fuel : Nat) (cs : List Char)
    (h : webhook.hasDoubleUnderscore cs = false) : webhook.collapseUnderscores fuel cs = cs := by
  cases fuel with
  | zero => rfl
  | succ n => simp [webhook.collapseUnderscores, h]

theorem trimUnderscores_eq (cs : List Char) :
    webhook.trimUnderscores cs =
      (cs.dropWhile (fun c => decide (c = '_'))).rdropWhile (fun c => decide (c = '_')) := rfl

theorem trimUnderscores_within (cs : List Char) : webhook.trimUnderscores cs <:+: cs := by
  rw [trimUnderscores_eq]
  exact (List.rdropWhile_prefix _ _).isInfix.trans (List.dropWhile_suffix _).isInfix

/-- Trimming underscores twice is trimming once. -/
theorem trimUnderscores_idem (cs : List Char) :
    webhook.trimUnderscores (webhook.trimUnderscores cs) = webhook.trimUnderscores cs := by
  rw [trimUnderscores_eq (webhook.trimUnderscores cs), trimUnderscores_eq cs]
  generalize hl : cs.dropWhile (fun c => decide (c = '_')) = l
  have hhead : ∀ c, l.head? = some c → ¬ (decide (c = '_') = true) := by
    intro c hc
    have := List.head?_dropWhile_not (fun c => decide (c = '_')) cs
    rw [hl, hc] at this
    simpa using this
  -- the result of the right trim starts like `l` does, so the left trim does nothing
  have h1 : (l.rdropWhile (fun c => decide (c = '_'))).dropWhile (fun c => decide (c = '_')) =
      l.rdropWhile (fun c => decide (c = '_')) := by
    cases hr : l.rdropWhile (fun c => decide (c = '_')) with
    | nil => rfl
    | cons x xs =>
      have hpre : (x :: xs) <+: l := hr ▸ List.rdropWhile_prefix _ _
      obtain ⟨tl, htl⟩ := hpre
      have hx : l.head? = some x := by rw [← htl]; rfl
      have := hhead x hx
      simp only [List.dropWhile_cons]
      rw [if_neg this]
  rw [h1, List.rdropWhile_idempotent]

/-! ## White space and lower-casing -/

theorem mem_trimSpace {c : Char} {s : String} (h : c ∈ (TrimSpace s).toList) :
    c ∈ s.toList := by
  change c ∈ ((s.toList.dropWhile isSpace).reverse.dropWhile isSpace).reverse at h
  have h1 := List.mem_reverse.mp h
  have h2 := (List.dropWhile_suffix isSpace).subset h1
  have h3 := List.mem_reverse.mp h2
  exact (List.dropWhile_suffix isSpace).subset h3

/-- Lower-casing of ASCII letters is idempotent. -/
theorem char_toLower_idem (c : Char) : Char.toLower (Char.toLower c) = Char.toLower c := by
  have key : ∀ n, 65 ≤ n → n ≤ 90 → (Char.ofNat (n + 32)).toLower = Char.ofNat (n + 32) := by
    intro n h1 h2
    interval_cases n <;> rfl
  by_cases h : c.toNat ≥ 65 ∧ c.toNat ≤ 90
  · have : c.toLower = Char.ofNat (c.toNat + 32) := by
      unfold Char.toLower
      exact if_pos h
    rw [this]
    exact key _ h.1 h.2
  · have : c.toLower = c := by
      unfold Char.toLower
      exact if_neg h
    rw [this, this]


/-! ## The matches of the note pattern and the tokens of the note -/

theorem not_key_of_separator {c : Char} (h : webhook.isNoteSeparator c = true) :
    webhook.isKeyChar c = false ∧ webhook.isValueChar c = false ∧ c ≠ '=' := by
  simp only [webhook.isNoteSeparator, Bool.or_eq_true, decide_eq_true_eq] at h
  rcases h with (((((h | h) | h) | h) | h) | h) | h
  · subst h; decide
  · subst h; decide
  · have hc : c = Char.ofNat 12 := by rw [← h, Char.ofNat_toNat]
    subst hc; decide
  · subst h; decide
  · subst h; decide
  · subst h; decide
  · subst h; decide

theorem separator_of_key {c : Char} (h : webhook.isKeyChar c = true) :
    webhook.isNoteSeparator c = false := by
  cases hs : webhook.isNoteSeparator c
  · rfl
  · rw [(not_key_of_separator hs).1] at h; cases h

theorem separator_of_value {c : Char} (h : webhook.isValueChar c = true) :
    webhook.isNoteSeparator c = false := by
  cases hs : webhook.isNoteSeparator c
  · rfl
  · rw [(not_key_of_separator hs).2.1] at h; cases h

theorem separator_eq_sign : webhook.isNoteSeparator '=' = false := by decide

theorem tokens_skip (keyC valC sepC : Char → Bool) (p rest : List Char)
    (h : ∀ c ∈ p, sepC c = false) :
    notespec.tokens keyC valC sepC false (p ++ rest) =
      notespec.tokens keyC valC sepC false rest := by
  induction p with
  | nil => rfl
  | cons c p ih =>
    have hc := h c (List.mem_cons_self _ _)
    simp only [List.cons_append, notespec.tokens, Bool.false_eq_true, if_false, List.nil_append, hc]
    exact ih (fun x hx => h x (List.mem_cons_of_mem _ hx))

theorem tokens_skip_all (keyC valC sepC : Char → Bool) (p : List Char)
    (h : ∀ c ∈ p, sepC c = false) :
    notespec.tokens keyC valC sepC false p = [] := by
  have := tokens_skip keyC valC sepC p [] h
  rw [List.append_nil] at this
  rw [this]; rfl

/-- A match of the pattern at the head of `cs` is the token at the head of `cs`, and what it
leaves is `cs` without the token. -/
theorem matchKeyValue_eq_some {cs k v rest : List Char}
    (h : webhook.matchKeyValue cs = some (k, v, rest)) :
    notespec.tokenAt webhook.isKeyChar webhook.isValueChar cs = some (k, v) ∧
      cs = k ++ '=' :: (v ++ rest) ∧ k ≠ [] ∧ v ≠ [] ∧
      (∀ c ∈ k, webhook.isKeyChar c = true) ∧ (∀ c ∈ v, webhook.isValueChar c = true) := by
  unfold webhook.matchKeyValue at h
  unfold notespec.tokenAt
  have hcs := List.takeWhile_append_dropWhile webhook.isKeyChar cs
  split at h
  · rename_i r hd
    rw [hd] at hcs
    try rw [hd]
    simp only at h ⊢
    by_cases hkv : List.takeWhile webhook.isKeyChar cs ≠ [] ∧
        List.takeWhile webhook.isValueChar r ≠ []
    · rw [if_pos hkv] at h
      rw [if_pos hkv]
      simp only [Option.some.injEq, Prod.mk.injEq] at h
      obtain ⟨hk, hv, hr⟩ := h
      refine ⟨by rw [hk, hv], ?_, hk ▸ hkv.1, hv ▸ hkv.2, ?_, ?_⟩
      · rw [← hk, ← hv, ← hr, List.takeWhile_append_dropWhile]; exact hcs.symm
      · intro c hc; rw [← hk] at hc; exact List.mem_takeWhile_imp hc
      · intro c hc; rw [← hv] at hc; exact List.mem_takeWhile_imp hc
    · rw [if_neg hkv] at h; cases h
  · cases h

theorem matchKeyValue_eq_none {cs : List Char} (h : webhook.matchKeyValue cs = none) :
    notespec.tokenAt webhook.isKeyChar webhook.isValueChar cs = none := by
  unfold webhook.matchKeyValue at h
  unfold notespec.tokenAt
  split at h
  · rename_i r hd
    try rw [hd]
    simp only at h ⊢
    split at h
    · cases h
    · rename_i hkv; rw [if_neg hkv]
  · rename_i hd
    rfl

theorem tokens_of_match {cs k v rest : List Char}
    (h : webhook.matchKeyValue cs = some (k, v, rest)) :
    notespec.tokens webhook.isKeyChar webhook.isValueChar webhook.isNoteSeparator true cs =
      (k, v) :: notespec.tokens webhook.isKeyChar webhook.isValueChar webhook.isNoteSeparator
        false rest := by
  obtain ⟨ht, hcs, hk, hv, hkc, hvc⟩ := matchKeyValue_eq_some h
  obtain ⟨c, k1, rfl⟩ := List.exists_cons_of_ne_nil hk
  have hcs2 : cs = c :: ((k1 ++ '=' :: v) ++ rest) := by
    rw [hcs]; simp
  rw [hcs2] at ht ⊢
  simp only [notespec.tokens, if_true, ht, Option.toList, List.singleton_append,
    separator_of_key (hkc c (List.mem_cons_self _ _))]
  congr 1
  apply tokens_skip
  intro x hx
  rcases List.mem_append.mp hx with hx | hx
  · exact separator_of_key (hkc x (List.mem_cons_of_mem _ hx))
  · rcases List.mem_cons.mp hx with hx | hx
    · rw [hx]; exact separator_eq_sign
    · exact separator_of_value (hvc x hx)

theorem tokens_of_no_match {cs : List Char} (h : webhook.matchKeyValue cs = none) :
    notespec.tokens webhook.isKeyChar webhook.isValueChar webhook.isNoteSeparator true cs =
      notespec.tokens webhook.isKeyChar webhook.isValueChar webhook.isNoteSeparator false cs := by
  cases cs with
  | nil => rfl
  | cons c tl =>
    simp only [notespec.tokens, if_true, matchKeyValue_eq_none h, Option.toList,
      Bool.false_eq_true, if_false]

theorem matchKeyValue_rest_length {cs k v rest : List Char}
    (h : webhook.matchKeyValue cs = some (k, v, rest)) : rest.length < cs.length := by
  obtain ⟨_, hcs, _, _, _, _⟩ := matchKeyValue_eq_some h
  rw [hcs]
  simp only [List.length_append, List.length_cons]
  omega

theorem findAllKeyValues_succ (fuel : Nat) (b : Bool) (cs : List Char) :
    webhook.findAllKeyValues (fuel + 1) b cs =
      match (if b then webhook.matchKeyValue cs else none) with
      | some (k, v, rest) => (k, v) :: webhook.findAllKeyValues fuel false rest
      | none =>
        match cs with
        | [] => []
        | c :: tl =>
          match (if webhook.isNoteSeparator c then webhook.matchKeyValue tl else none) with
          | some (k, v, rest) => (k, v) :: webhook.findAllKeyValues fuel false rest
          | none => webhook.findAllKeyValues fuel false tl := rfl

/-- The matches that `FindAllStringSubmatch` returns are the tokens of the note: the search
that goes on from the end of each match passes over no token. -/
theorem findAllKeyValues_eq_tokens (fuel : Nat) (b : Bool) (cs : List Char)
    (h : cs.length < fuel) :
    webhook.findAllKeyValues fuel b cs =
      notespec.tokens webhook.isKeyChar webhook.isValueChar webhook.isNoteSeparator b cs := by
  induction fuel generalizing b cs with
  | zero => omega
  | succ fuel ih =>
    rw [findAllKeyValues_succ]
    cases hm : (if b = true then webhook.matchKeyValue cs else none) with
    | some m =>
      obtain ⟨k, v, rest⟩ := m
      have hb : b = true := by
        by_contra hb
        rw [if_neg hb] at hm; cases hm
      subst hb
      rw [if_pos rfl] at hm
      simp only
      rw [tokens_of_match hm, ih false rest (by have := matchKeyValue_rest_length hm; omega)]
    | none =>
      simp only
      have hbt : notespec.tokens webhook.isKeyChar webhook.isValueChar webhook.isNoteSeparator
          b cs = notespec.tokens webhook.isKeyChar webhook.isValueChar webhook.isNoteSeparator
          false cs := by
        cases b with
        | false => rfl
        | true => rw [if_pos rfl] at hm; exact tokens_of_no_match hm
      rw [hbt]
      cases cs with
      | nil => rfl
      | cons c tl =>
        simp only [List.length_cons] at h
        simp only [notespec.tokens, Bool.false_eq_true, if_false, List.nil_append]
        cases hm2 : (if webhook.isNoteSeparator c = true then webhook.matchKeyValue tl
            else none) with
        | some m =>
          obtain ⟨k, v, rest⟩ := m
          have hc : webhook.isNoteSeparator c = true := by
            by_contra hc
            rw [if_neg hc] at hm2; cases hm2
          rw [if_pos hc] at hm2
          simp only
          rw [hc, tokens_of_match hm2,
            ih false rest (by have := matchKeyValue_rest_length hm2; omega)]
        | none =>
          simp only
          rw [ih false tl (by omega)]
          cases hc : webhook.isNoteSeparator c with
          | false => rfl
          | true => rw [hc, if_pos rfl] at hm2; exact (tokens_of_no_match hm2).symm

/-- Function `ParseKeyFromNote` reads the tokens of the note with the key trimmed. -/
theorem parseKeyFromNote_eq (lib : Lib) (note key : String) (hk : TrimSpace key ≠ "") :
    webhook.ParseKeyFromNote lib note key =
      notespec.parseKey webhook.isKeyChar webhook.isValueChar webhook.isNoteSeparator lib note
        (TrimSpace key) := by
  unfold webhook.ParseKeyFromNote notespec.parseKey
  simp only [if_neg hk]
  rw [findAllKeyValues_eq_tokens _ _ _ (Nat.lt_succ_self _)]
  try rfl

theorem tokens_cons (keyC valC sepC : Char → Bool) (b : Bool) (c : Char) (tl : List Char) :
    notespec.tokens keyC valC sepC b (c :: tl) =
      (if b then (notespec.tokenAt keyC valC (c :: tl)).toList else []) ++
        notespec.tokens keyC valC sepC (sepC c) tl := rfl

theorem tokens_word (keyC valC sepC : Char → Bool) (w rest : List Char) (hw : w ≠ [])
    (h : ∀ c ∈ w, sepC c = false) :
    notespec.tokens keyC valC sepC true (w ++ rest) =
      (notespec.tokenAt keyC valC (w ++ rest)).toList ++
        notespec.tokens keyC valC sepC false rest := by
  cases w with
  | nil => exact absurd rfl hw
  | cons c w1 =>
    rw [List.cons_append, tokens_cons, if_pos rfl, h c (List.mem_cons_self _ _),
      tokens_skip keyC valC sepC w1 rest (fun x hx => h x (List.mem_cons_of_mem _ hx))]

theorem tokens_separator (keyC valC sepC : Char → Bool) (c : Char) (rest : List Char)
    (h : sepC c = true) :
    notespec.tokens keyC valC sepC false (c :: rest) =
      notespec.tokens keyC valC sepC true rest := by
  simp only [notespec.tokens, Bool.false_eq_true, if_false, List.nil_append, h]

theorem takeWhile_run (p : Char → Bool) (k rest : List Char) (c : Char)
    (hk : ∀ x ∈ k, p x = true) (hc : p c = false) :
    (k ++ c :: rest).takeWhile p = k ∧ (k ++ c :: rest).dropWhile p = c :: rest := by
  induction k with
  | nil => simp [List.takeWhile, List.dropWhile, hc]
  | cons a k ih =>
    have ha := hk a (List.mem_cons_self _ _)
    have := ih (fun x hx => hk x (List.mem_cons_of_mem _ hx))
    simp [List.takeWhile, List.dropWhile, ha, this.1, this.2]

theorem takeWhile_all (p : Char → Bool) (k : List Char) (hk : ∀ x ∈ k, p x = true) :
    k.takeWhile p = k := by
  induction k with
  | nil => rfl
  | cons a k ih =>
    have ha := hk a (List.mem_cons_self _ _)
    simp [List.takeWhile, ha, ih (fun x hx => hk x (List.mem_cons_of_mem _ hx))]

/-- The token at the head of `k=v` followed by the end of the note or by a character that no
value has. -/
theorem tokenAt_run (keyC valC : Char → Bool) (k v rest : List Char)
    (hk : ∀ x ∈ k, keyC x = true) (he : keyC '=' = false) (hv : ∀ x ∈ v, valC x = true)
    (hr : ∀ c tl, rest = c :: tl → valC c = false) :
    notespec.tokenAt keyC valC (k ++ '=' :: (v ++ rest)) =
      if k ≠ [] ∧ v ≠ [] then some (k, v) else none := by
  obtain ⟨h1, h2⟩ := takeWhile_run keyC k (v ++ rest) '=' hk he
  have h3 : (v ++ rest).takeWhile valC = v := by
    cases rest with
    | nil => rw [List.append_nil]; exact takeWhile_all valC v hv
    | cons c tl => exact (takeWhile_run valC v tl c hv (hr c tl rfl)).1
  unfold notespec.tokenAt
  rw [h2]
  simp only [h1, h3]

/-- No token starts with a run of key characters that something other than `=` follows. -/
theorem tokenAt_no_sign (keyC valC : Char → Bool) (k rest : List Char) (c : Char)
    (hk : ∀ x ∈ k, keyC x = true) (hc : keyC c = false) (hne : c ≠ '=') :
    notespec.tokenAt keyC valC (k ++ c :: rest) = none := by
  obtain ⟨_, h2⟩ := takeWhile_run keyC k rest c hk hc
  unfold notespec.tokenAt
  rw [h2]
  split
  · rename_i r heq
    simp only [List.cons.injEq] at heq
    exact absurd heq.1 hne
  · rfl

theorem isValueChar_of_ascii {c : Char} (h : notespec.isAsciiValueChar c = true) :
    webhook.isValueChar c = true := by
  unfold notespec.isAsciiValueChar at h
  unfold webhook.isValueChar
  simp only [Bool.or_eq_true] at h ⊢
  exact Or.inl (Or.inl h)

/-- The tokens of the note that `RequestPayment` writes for the milestone `m` of the service
`s`: the two identifiers under their keys, an empty one left out. -/
theorem tokens_payment_note (m s : String)
    (hm : ∀ c ∈ m.toList, notespec.isAsciiValueChar c = true)
    (hs : ∀ c ∈ s.toList, notespec.isAsciiValueChar c = true) :
    notespec.tokens webhook.isKeyChar webhook.isValueChar webhook.isNoteSeparator true
        ("service_workflow: milestone_id=" ++ m ++ " service_id=" ++ s).toList =
      (if m.toList ≠ [] then [("milestone_id".toList, m.toList)] else []) ++
        (if s.toList ≠ [] then [("service_id".toList, s.toList)] else []) := by
  have hmv : ∀ c ∈ m.toList, webhook.isValueChar c = true :=
    fun c hc => isValueChar_of_ascii (hm c hc)
  have hsv : ∀ c ∈ s.toList, webhook.isValueChar c = true :=
    fun c hc => isValueChar_of_ascii (hs c hc)
  have hnote : ("service_workflow: milestone_id=" ++ m ++ " service_id=" ++ s).toList =
      "service_workflow".toList ++ ':' :: (' ' :: ("milestone_id".toList ++ '=' ::
        (m.toList ++ ' ' :: ("service_id".toList ++ '=' :: (s.toList ++ []))))) := by
    simp only [String.toList, String.data_append, List.append_nil]
    simp
  have hnote2 : "service_workflow".toList ++ ':' :: (' ' :: ("milestone_id".toList ++ '=' ::
        (m.toList ++ ' ' :: ("service_id".toList ++ '=' :: (s.toList ++ []))))) =
      ("service_workflow".toList ++ [':']) ++ (' ' :: ("milestone_id".toList ++ '=' ::
        (m.toList ++ ' ' :: ("service_id".toList ++ '=' :: (s.toList ++ []))))) := by
    simp
  have hw1 : "milestone_id".toList ++ '=' ::
        (m.toList ++ ' ' :: ("service_id".toList ++ '=' :: (s.toList ++ []))) =
      ("milestone_id".toList ++ '=' :: m.toList) ++
        (' ' :: ("service_id".toList ++ '=' :: (s.toList ++ []))) := by
    simp
  have hw2 : "service_id".toList ++ '=' :: (s.toList ++ []) =
      ("service_id".toList ++ '=' :: s.toList) ++ [] := by
    simp
  rw [hnote]
  -- the prefix `service_workflow:` holds no token
  rw [hnote2, tokens_word _ _ _ _ _ (by decide) (by decide), ← hnote2,
    tokenAt_no_sign _ _ _ _ ':' (by decide) (by decide) (by decide),
    tokens_separator _ _ _ ' ' _ (by decide)]
  -- the word `milestone_id=m`
  rw [hw1, tokens_word _ _ _ _ _ (by simp) (by
      intro c hc
      rcases List.mem_append.mp hc with hc | hc
      · exact (by decide : ∀ c ∈ "milestone_id".toList,
          webhook.isNoteSeparator c = false) c hc
      · rcases List.mem_cons.mp hc with hc | hc
        · rw [hc]; decide
        · exact separator_of_value (hmv c hc)),
    ← hw1,
    tokenAt_run _ _ _ _ _ (by decide) (by decide) hmv (by
      intro c tl h
      simp only [List.cons.injEq] at h
      rw [← h.1]; decide),
    tokens_separator _ _ _ ' ' _ (by decide)]
  -- the word `service_id=s`
  rw [hw2, tokens_word _ _ _ _ _ (by simp) (by
      intro c hc
      rcases List.mem_append.mp hc with hc | hc
      · exact (by decide : ∀ c ∈ "service_id".toList,
          webhook.isNoteSeparator c = false) c hc
      · rcases List.mem_cons.mp hc with hc | hc
        · rw [hc]; decide
        · exact separator_of_value (hsv c hc)),
    ← hw2,
    tokenAt_run _ _ _ _ _ (by decide) (by decide) hsv (by intro c tl h; cases h)]
  simp only [String.toList]
  by_cases h1 : m.data = [] <;> by_cases h2 : s.data = [] <;>
    simp [h1, h2, notespec.tokens, Option.toList]

/-! ## Trimming a prefix, a suffix and white space -/

theorem trimPrefix_append (p d : String) : TrimPrefix (p ++ d) p = d := by
  unfold TrimPrefix
  have h : p.toList.isPrefixOf (p ++ d).toList = true := by
    rw [List.isPrefixOf_iff_prefix]
    simp only [String.toList, String.data_append]
    exact List.prefix_append _ _
  rw [if_pos h]
  simp only [String.toList, String.data_append, List.drop_left]

theorem trimPrefix_of_not_prefix (s p : String) (h : ¬ p.toList <+: s.toList) :
    TrimPrefix s p = s := by
  unfold TrimPrefix
  rw [if_neg]
  rw [List.isPrefixOf_iff_prefix]
  exact h

theorem trimSuffix_of_not_suffix (s p : String) (h : ¬ p.toList <:+ s.toList) :
    TrimSuffix s p = s := by
  unfold TrimSuffix
  rw [if_neg]
  rw [List.isSuffixOf_iff_suffix]
  exact h

theorem trimSpace_eq_rdropWhile (s : String) :
    TrimSpace s = String.mk ((s.toList.dropWhile isSpace).rdropWhile isSpace) := by
  unfold TrimSpace List.rdropWhile
  rfl

/-- A string that `TrimSpace` keeps has no white space at either end. -/
theorem trimSpace_fixed_iff (l : List Char) :
    TrimSpace (String.mk l) = String.mk l ↔
      l.dropWhile isSpace = l ∧ l.rdropWhile isSpace = l := by
  rw [trimSpace_eq_rdropWhile]
  have hinj : ∀ a b : List Char, String.mk a = String.mk b ↔ a = b :=
    fun a b => ⟨fun h => congrArg String.data h, fun h => congrArg String.mk h⟩
  rw [hinj]
  simp only [String.toList]
  constructor
  · intro h
    have h1 : (l.dropWhile isSpace).length ≤ l.length :=
      (List.dropWhile_suffix isSpace).length_le
    have h2 : ((l.dropWhile isSpace).rdropWhile isSpace).length ≤
        (l.dropWhile isSpace).length := (List.rdropWhile_prefix isSpace _).length_le
    have h3 : l.dropWhile isSpace = l := by
      apply (List.dropWhile_suffix isSpace).eq_of_length
      rw [h] at h2
      omega
    rw [h3] at h
    exact ⟨h3, h⟩
  · rintro ⟨h1, h2⟩
    rw [h1, h2]

theorem trimSpace_append (p d : String) (hp : TrimSpace p = p) (hd : TrimSpace d = d)
    (hpne : p ≠ "") (hdne : d ≠ "") : TrimSpace (p ++ d) = p ++ d := by
  obtain ⟨pl⟩ := p
  obtain ⟨dl⟩ := d
  have hpl : pl ≠ [] := fun h => hpne (by rw [h])
  have hdl : dl ≠ [] := fun h => hdne (by rw [h])
  have e : (String.mk pl ++ String.mk dl) = String.mk (pl ++ dl) := rfl
  rw [e]
  rw [trimSpace_fixed_iff] at hp hd ⊢
  obtain ⟨hp1, _⟩ := hp
  obtain ⟨_, hd2⟩ := hd
  constructor
  · cases pl with
    | nil => exact absurd rfl hpl
    | cons a pl =>
      rw [List.cons_append]
      by_cases ha : isSpace a = true
      · exfalso
        have hlen := congrArg List.length hp1
        rw [List.dropWhile_cons_of_pos ha] at hlen
        have := (List.dropWhile_suffix isSpace (l := pl)).length_le
        simp only [List.length_cons] at hlen
        omega
      · rw [List.dropWhile_cons_of_neg ha]
  · unfold List.rdropWhile at hd2 ⊢
    rw [List.reverse_append]
    have hr : dl.reverse ≠ [] := fun h => hdl (List.reverse_eq_nil_iff.mp h)
    have hd3 : List.dropWhile isSpace dl.reverse = dl.reverse := by
      have := congrArg List.reverse hd2
      rw [List.reverse_reverse] at this
      exact this
    cases hrev : dl.reverse with
    | nil => exact absurd hrev hr
    | cons a rl =>
      rw [hrev] at hd3
      rw [List.cons_append]
      by_cases ha : isSpace a = true
      · exfalso
        have hlen := congrArg List.length hd3
        rw [List.dropWhile_cons_of_pos ha] at hlen
        have := (List.dropWhile_suffix isSpace (l := rl)).length_le
        simp only [List.length_cons] at hlen
        omega
      · rw [List.dropWhile_cons_of_neg ha, ← List.cons_append, ← hrev, ← List.reverse_append,
          List.reverse_reverse]

/-! ## Session tokens -/

theorem audContains_iff (aud : List String) (want : String) :
    shopify.audContains aud want = true ↔ want ∈ aud := by
  induction aud with
  | nil => simp [shopify.audContains]
  | cons a rest ih =>
    unfold shopify.audContains
    by_cases h : a = want
    · simp [h]
    · rw [if_neg h, ih]
      simp [Ne.symm h]

/-- The library accepts a token that decodes under the key, expires after `now` and has no
not-before time after `now`. -/
theorem parseWithClaims_ok (lib : jwt.Library) (token key : String) (now expiresAt : Time)
    (claims : shopify.SessionTokenClaims) (hdecode : lib.decode token key = .ok claims)
    (hexp : claims.ExpiresAt = some expiresAt) (hnow : now < expiresAt)
    (hnbf : ∀ notBefore, claims.NotBefore = some notBefore → notBefore ≤ now) :
    jwt.ParseWithClaims lib token key now = .ok (claims, true) := by
  unfold jwt.ParseWithClaims
  rw [hdecode]
  cases hn : claims.NotBefore with
  | none => simp [hexp, hnow, hn]
  | some nb => simp [hexp, hnow, hn, not_lt.mpr (hnbf nb hn)]

/-- The library refuses a token whose expiry time is `now` or earlier, and so does
`VerifySessionToken`, with the error of the library. -/
theorem verifySessionToken_expired (lib : jwt.Library) (token apiKey apiSecret : String)
    (now expiresAt : Time) (claims : shopify.SessionTokenClaims)
    (htok : token ≠ "") (hsec : apiSecret ≠ "")
    (hdecode : lib.decode token apiSecret = .ok claims)
    (hexp : claims.ExpiresAt = some expiresAt) (hnow : expiresAt ≤ now) :
    ∃ notValidYet, shopify.VerifySessionToken lib token apiKey apiSecret now =
      .error (lib.invalidClaims true notValidYet) := by
  unfold shopify.VerifySessionToken jwt.ParseWithClaims
  rw [if_neg htok, if_neg hsec, hdecode]
  cases hn : claims.NotBefore with
  | none => exact ⟨false, by simp [hexp, hnow, hn]⟩
  | some nb => exact ⟨decide (now < nb), by simp [hexp, hnow, hn]⟩

/-- The library refuses a token whose not-before time is after `now`, and so does
`VerifySessionToken`, with the error of the library. -/
theorem verifySessionToken_not_valid_yet (lib : jwt.Library) (token apiKey apiSecret : String)
    (now notBefore : Time) (claims : shopify.SessionTokenClaims)
    (htok : token ≠ "") (hsec : apiSecret ≠ "")
    (hdecode : lib.decode token apiSecret = .ok claims)
    (hnbf : claims.NotBefore = some notBefore) (hnow : now < notBefore) :
    ∃ expired, shopify.VerifySessionToken lib token apiKey apiSecret now =
      .error (lib.invalidClaims expired true) := by
  unfold shopify.VerifySessionToken jwt.ParseWithClaims
  rw [if_neg htok, if_neg hsec, hdecode]
  cases he : claims.ExpiresAt with
  | none => exact ⟨false, by simp [hnbf, hnow, he]⟩
  | some ex => exact ⟨decide (¬ now < ex), by simp [hnbf, hnow, he]⟩

/-- The shop of a `dest` claim of the form `https://d`. -/
theorem extractShop_of_dest (c : shopify.SessionTokenClaims) (d : String)
    (hdest : c.Dest = "https://" ++ d) (hd : d ≠ "") (htrim : TrimSpace d = d)
    (hscheme : ¬ "http://".toList <+: d.toList) (hslash : ¬ "/".toList <:+ d.toList) :
    shopify.extractShopFromClaims c = d := by
  have h1 : TrimSpace c.Dest = "https://" ++ d := by
    rw [hdest]
    exact trimSpace_append "https://" d (by decide) htrim (by decide) hd
  have h0 : c.Dest ≠ "" := by
    rw [hdest]
    intro h
    have := congrArg String.length h
    simp only [String.length_append] at this
    have h8 : "https://".length = 8 := by decide
    have h00 : "".length = 0 := by decide
    omega
  unfold shopify.extractShopFromClaims
  simp only [if_pos h0, h1, trimPrefix_append, trimPrefix_of_not_prefix d "http://" hscheme,
    trimSuffix_of_not_suffix d "/" hslash, if_pos hd]

/-! ## The handlers: what they do to services, milestones and approval records -/

theorem upsertRequested_services (s : Store) (dbNow : Time) (sid : String) (hp : Bool) :
    (approval.UpsertRequested s dbNow sid hp).services = s.services ∧
      (approval.UpsertRequested s dbNow sid hp).milestones = s.milestones := by
  unfold approval.UpsertRequested
  split <;> exact ⟨rfl, rfl⟩

/-- The closure of `PatchStatus`: when it returns no error, it has run one `UpdateStatus` of
the service read, to a status that `CanTransition` allows, after `UpsertRequested` when the
new status is `WaitingForApproval`. -/
theorem patchStatusTx_effect (now dbNow : Time) (sh : shop.Shop) (id : String) (next : Status)
    (store : Store) :
    (service.patchStatusTx now dbNow sh id next ⟨store, store⟩).st.pool = store ∧
      ((service.patchStatusTx now dbNow sh id next ⟨store, store⟩).err = none →
        ∃ svc, service.GetForUpdate store sh.ID id = .ok svc ∧
          CanTransition svc.Status next = true ∧
          (service.patchStatusTx now dbNow sh id next ⟨store, store⟩).st.view.services =
            (service.UpdateStatus store dbNow sh.ID svc.ID next
              svc.CompletedViaOverride).services ∧
          (service.patchStatusTx now dbNow sh id next ⟨store, store⟩).st.view.milestones =
            store.milestones ∧
          (service.patchStatusTx now dbNow sh id next ⟨store, store⟩).st.view.approvals =
            if next = StatusWaitingForApproval then
              (approval.UpsertRequested store dbNow svc.ID
                (service.hasPreview store svc.ID)).approvals
            else store.approvals) := by
  unfold service.patchStatusTx
  cases hg : service.GetForUpdate store sh.ID id with
  | error e => exact ⟨rfl, fun h => by cases h⟩
  | ok svc =>
    simp only []
    split
    · exact ⟨rfl, fun h => by cases h⟩
    · by_cases hct : CanTransition svc.Status next = true
      · rw [if_neg (not_not_intro hct)]
        refine ⟨rfl, fun _ => ⟨svc, rfl, hct, ?_, ?_, ?_⟩⟩
        · simp only [events.Insert, audit.Insert, service.UpdateStatus]
          split
          · rw [(upsertRequested_services _ _ _ _).1]
          · rfl
        · simp only [events.Insert, audit.Insert, service.UpdateStatus]
          split
          · rw [(upsertRequested_services _ _ _ _).2]
          · rfl
        · simp only [events.Insert, audit.Insert, service.UpdateStatus]
          split <;> rfl
      · rw [if_pos hct]
        exact ⟨rfl, fun h => by cases h⟩

/-- The services, the milestones and the approval records after `PatchStatus`. -/
theorem patchStatus_effect (now dbNow : Time) (commitErr : Option GoError) (store : Store)
    (shopCtx : Option shop.Shop) (id : String) (req : Option service.PatchStatusRequest) :
    ((service.PatchStatus now dbNow commitErr store shopCtx id req).store.services =
        store.services ∧
      (service.PatchStatus now dbNow commitErr store shopCtx id req).store.milestones =
        store.milestones ∧
      (service.PatchStatus now dbNow commitErr store shopCtx id req).store.approvals =
        store.approvals) ∨
    ∃ (sh : shop.Shop) (svc : service.Service) (next : Status),
      service.GetForUpdate store sh.ID id = .ok svc ∧
      CanTransition svc.Status next = true ∧
      (service.PatchStatus now dbNow commitErr store shopCtx id req).store.services =
        (service.UpdateStatus store dbNow sh.ID svc.ID next
          svc.CompletedViaOverride).services ∧
      (service.PatchStatus now dbNow commitErr store shopCtx id req).store.milestones =
        store.milestones ∧
      (service.PatchStatus now dbNow commitErr store shopCtx id req).store.approvals =
        if next = StatusWaitingForApproval then
          (approval.UpsertRequested store dbNow svc.ID
            (service.hasPreview store svc.ID)).approvals
        else store.approvals := by
  rcases patchStatus_store now dbNow commitErr store shopCtx id req with h | ⟨sh, next, _, h⟩
  · rw [h]; exact Or.inl ⟨rfl, rfl, rfl⟩
  · rw [h]
    have hs := patchStatusTx_effect now dbNow sh id next store
    rcases withTx_store commitErr store (service.patchStatusTx now dbNow sh id next) with
      hw | ⟨he, hw⟩
    · rw [hw, hs.1]; exact Or.inl ⟨rfl, rfl, rfl⟩
    · rw [hw]
      obtain ⟨svc, hg, hct, hsv, hms, hap⟩ := hs.2 he
      exact Or.inr ⟨sh, svc, next, hg, hct, hsv, hms, hap⟩

/-- The closure of `clientAction`: when it returns no error, the service of the link was
waiting for approval, and the closure has run `Approve` and `UnlockFinal`, or
`RequestRevision` and one `UpdateStatus` to `InProgress`. -/
theorem clientActionTx_effect (now dbNow : Time) (token note : String) (approve : Bool)
    (store : Store) :
    (portal.clientActionTx now dbNow token note approve ⟨store, store⟩).st.pool = store ∧
      ((portal.clientActionTx now dbNow token note approve ⟨store, store⟩).err = none →
        ∃ svc, svc ∈ store.services ∧ svc.Status = StatusWaitingForApproval ∧
          (((portal.clientActionTx now dbNow token note approve
                ⟨store, store⟩).st.view.services = store.services ∧
              (portal.clientActionTx now dbNow token note approve
                ⟨store, store⟩).st.view.milestones =
                (milestone.UnlockFinal store svc.ID).milestones ∧
              (portal.clientActionTx now dbNow token note approve
                ⟨store, store⟩).st.view.approvals =
                (approval.Approve store dbNow svc.ID note).approvals) ∨
            ((portal.clientActionTx now dbNow token note approve
                ⟨store, store⟩).st.view.services =
                (service.UpdateStatus store dbNow svc.ShopID svc.ID StatusInProgress
                  false).services ∧
              (portal.clientActionTx now dbNow token note approve
                ⟨store, store⟩).st.view.milestones = store.milestones ∧
              (portal.clientActionTx now dbNow token note approve
                ⟨store, store⟩).st.view.approvals =
                (approval.RequestRevision store dbNow svc.ID note).approvals))) := by
  unfold portal.clientActionTx
  cases htr : portal.GetActiveByTokenForUpdate store token now with
  | error e => exact ⟨rfl, fun h => by cases h⟩
  | ok tr =>
    simp only []
    cases hsvc : service.GetForUpdateAny store tr.ServiceID with
    | error e => exact ⟨rfl, fun h => by cases h⟩
    | ok svc =>
      simp only []
      by_cases hst : svc.Status = StatusWaitingForApproval
      · rw [if_neg (not_not_intro hst)]
        cases approve with
        | true =>
          exact ⟨rfl, fun _ => ⟨svc, (getForUpdateAny_mem hsvc).1, hst,
            Or.inl ⟨rfl, unlockFinal_milestones_of_eq rfl _, rfl⟩⟩⟩
        | false =>
          exact ⟨rfl, fun _ => ⟨svc, (getForUpdateAny_mem hsvc).1, hst,
            Or.inr ⟨rfl, rfl, rfl⟩⟩⟩
      · rw [if_pos hst]
        exact ⟨rfl, fun h => by cases h⟩

/-- The services, the milestones and the approval records after a client action. -/
theorem clientAction_effect (now dbNow : Time) (commitErr : Option GoError) (store : Store)
    (token note : String) (approve : Bool) :
    ((portal.clientAction now dbNow commitErr store token note approve).store.services =
        store.services ∧
      (portal.clientAction now dbNow commitErr store token note approve).store.milestones =
        store.milestones ∧
      (portal.clientAction now dbNow commitErr store token note approve).store.approvals =
        store.approvals) ∨
    ∃ svc, svc ∈ store.services ∧ svc.Status = StatusWaitingForApproval ∧
      (((portal.clientAction now dbNow commitErr store token note approve).store.services =
          store.services ∧
        (portal.clientAction now dbNow commitErr store token note approve).store.milestones =
          (milestone.UnlockFinal store svc.ID).milestones ∧
        (portal.clientAction now dbNow commitErr store token note approve).store.approvals =
          (approval.Approve store dbNow svc.ID note).approvals) ∨
      ((portal.clientAction now dbNow commitErr store token note approve).store.services =
          (service.UpdateStatus store dbNow svc.ShopID svc.ID StatusInProgress
            false).services ∧
        (portal.clientAction now dbNow commitErr store token note approve).store.milestones =
          store.milestones ∧
        (portal.clientAction now dbNow commitErr store token note approve).store.approvals =
          (approval.RequestRevision store dbNow svc.ID note).approvals)) := by
  rcases clientAction_store now dbNow commitErr store token note approve with h | h
  · rw [h]; exact Or.inl ⟨rfl, rfl, rfl⟩
  · rw [h]
    have hs := clientActionTx_effect now dbNow token note approve store
    rcases withTx_store commitErr store (portal.clientActionTx now dbNow token note approve) with
      hw | ⟨he, hw⟩
    · rw [hw, hs.1]; exact Or.inl ⟨rfl, rfl, rfl⟩
    · rw [hw]
      obtain ⟨svc, hmem, hst, hcase⟩ := hs.2 he
      exact Or.inr ⟨svc, hmem, hst, hcase⟩

/-- The closure of `RequestPayment` changes the store only through `SetDraftOrder` on a
milestone that it read by id and found not locked. -/
theorem requestPaymentTx_effect (cfg : config.Config) (platform : shopify.Platform)
    (now : Time) (shopCtx : shop.Shop) (id : String) (store : Store) :
    (payment.requestPaymentTx cfg platform now shopCtx id ⟨store, store⟩).st.pool = store ∧
      (payment.requestPaymentTx cfg platform now shopCtx id ⟨store, store⟩).st.view.services =
        store.services ∧
      (payment.requestPaymentTx cfg platform now shopCtx id ⟨store, store⟩).st.view.approvals =
        store.approvals ∧
      ((payment.requestPaymentTx cfg platform now shopCtx id ⟨store, store⟩).st.view.milestones =
          store.milestones ∨
        ∃ m d u, milestone.GetForUpdateScoped store shopCtx.ID id = .ok m ∧
          m.Status ≠ "locked" ∧
          (payment.requestPaymentTx cfg platform now shopCtx id
            ⟨store, store⟩).st.view.milestones =
            (milestone.SetDraftOrder store m.ID d u).milestones) := by
  unfold payment.requestPaymentTx
  cases hg : milestone.GetForUpdateScoped store shopCtx.ID id with
  | error e => exact ⟨rfl, rfl, rfl, Or.inl rfl⟩
  | ok m =>
    simp only []
    split
    · exact ⟨rfl, rfl, rfl, Or.inl rfl⟩
    · split
      · exact ⟨rfl, rfl, rfl, Or.inl rfl⟩
      · rename_i hl
        split
        · exact ⟨rfl, rfl, rfl, Or.inl rfl⟩
        · split
          · exact ⟨rfl, rfl, rfl, Or.inl rfl⟩
          · split
            · exact ⟨rfl, rfl, rfl, Or.inl rfl⟩
            · exact ⟨rfl, rfl, rfl, Or.inr ⟨m, _, _, rfl, hl, rfl⟩⟩

/-- The services, the milestones and the approval records after `RequestPayment`. -/
theorem requestPayment_effect (cfg : config.Config) (platform : shopify.Platform) (now : Time)
    (commitErr : Option GoError) (store : Store) (shopCtx : Option shop.Shop) (id : String) :
    (payment.RequestPayment cfg platform now commitErr store shopCtx id).store.services =
        store.services ∧
      (payment.RequestPayment cfg platform now commitErr store shopCtx id).store.approvals =
        store.approvals ∧
      ((payment.RequestPayment cfg platform now commitErr store shopCtx id).store.milestones =
          store.milestones ∨
        ∃ sh m d u, milestone.GetForUpdateScoped store sh id = .ok m ∧ m.Status ≠ "locked" ∧
          (payment.RequestPayment cfg platform now commitErr store shopCtx id).store.milestones =
            (milestone.SetDraftOrder store m.ID d u).milestones) := by
  rcases requestPayment_store cfg platform now commitErr store shopCtx id with h | ⟨sh, h⟩
  · rw [h]; exact ⟨rfl, rfl, Or.inl rfl⟩
  · rw [h]
    obtain ⟨hp, hsv, hap, hms⟩ := requestPaymentTx_effect cfg platform now sh id store
    rcases withTx_store commitErr store (payment.requestPaymentTx cfg platform now sh id) with
      hw | ⟨_, hw⟩
    · rw [hw, hp]; exact ⟨rfl, rfl, Or.inl rfl⟩
    · rw [hw]
      refine ⟨hsv, hap, ?_⟩
      rcases hms with hms | ⟨m, d, u, hg, hl, hms⟩
      · exact Or.inl hms
      · exact Or.inr ⟨sh.ID, m, d, u, hg, hl, hms⟩

/-! ## The webhook handlers and the approval records -/

theorem completeIfFinalApproved_approvals (s : Store) (env : webhook.Env)
    (shopID serviceID : String) (sequence : Int) :
    (webhook.completeIfFinalApproved s env shopID serviceID sequence).approvals =
      s.approvals := by
  unfold webhook.completeIfFinalApproved
  split
  · split
    · split <;> rfl
    · rfl
  · rfl

theorem applyMilestonePayment_approvals (s : Store) (env : webhook.Env) (shopRec : shop.Shop)
    (milestoneID : String) (orderID : Int) :
    (webhook.applyMilestonePaymentFromOrder s env shopRec milestoneID orderID).1.approvals =
      s.approvals := by
  unfold webhook.applyMilestonePaymentFromOrder
  split
  · rfl
  · split
    · rfl
    · split
      · rfl
      · simp only [completeIfFinalApproved_approvals]
        rfl

theorem handleMilestonePaid_approvals (s : Store) (dec : webhook.Decoders) (env : webhook.Env)
    (shopRec : shop.Shop) (body : String) :
    (webhook.handleMilestonePaid s dec env shopRec body).1.approvals = s.approvals := by
  unfold webhook.handleMilestonePaid
  split
  · rfl
  · split
    · rfl
    · split
      · rfl
      · split
        · rfl
        · split
          · rfl
          · simp only [completeIfFinalApproved_approvals]
            rfl

theorem insertMilestones_approvals (env : webhook.Env) (shopID serviceID : String)
    (ms : List CalculatedMilestone) (i : Nat) (s : Store) :
    (webhook.insertMilestones env shopID serviceID ms i s).1.approvals = s.approvals := by
  induction ms generalizing i s with
  | nil => rfl
  | cons m rest ih =>
    unfold webhook.insertMilestones
    simp only []
    split
    · split
      · exact ih _ _
      · rfl
    · rename_i s1 h1
      rw [ih]
      unfold webhook.insertMilestone at h1
      split at h1
      · cases h1
      · injection h1 with h1
        subst h1
        split <;> rfl

theorem handleOrdersPaid_approvals (s : Store) (lib : Lib) (dec : webhook.Decoders)
    (env : webhook.Env) (shopRec : shop.Shop) (body : String) :
    (webhook.handleOrdersPaid s lib dec env shopRec body).1.approvals = s.approvals := by
  unfold webhook.handleOrdersPaid
  split
  · rfl
  · split
    · rfl
    · split
      · exact applyMilestonePayment_approvals _ _ _ _ _
      · simp only []
        split
        · rfl
        · split
          · rfl
          · split
            · rfl
            · split
              · rfl
              · rfl
              · split
                · split <;> rfl
                · rename_i serviceID created s1 hins
                  have hs1 : s1.approvals = s.approvals := by
                    unfold webhook.insertService at hins
                    split at hins
                    · cases hins
                    · injection hins with hins
                      injection hins with _ hins
                      injection hins with _ hins
                      subst hins
                      rfl
                  have hs2 : ∀ (o : Int) (p : String), (if created = true then
                      webhook.recordServiceCreated s1 env shopRec.ID serviceID o p
                    else s1).approvals = s.approvals := by
                    intro o p
                    split
                    · exact hs1
                    · exact hs1
                  split
                  · rename_i s3 e h3
                    have h3a := congrArg Prod.fst h3
                    simp only [] at h3a
                    show s3.approvals = _
                    rw [← h3a, insertMilestones_approvals]
                    exact hs2 _ _
                  · rename_i s3 h3
                    have h3a := congrArg Prod.fst h3
                    simp only [] at h3a
                    have : s3.approvals = s.approvals := by
                      rw [← h3a, insertMilestones_approvals]
                      exact hs2 _ _
                    split
                    · exact this
                    · exact this

/-- What `handleOrdersPaid` does: nothing; or the settlement of the milestone that the note
names; or the creation of a service, from a payload, a product, a configuration, a total and
amounts that passed every check. -/
theorem handleOrdersPaid_cases (s : Store) (lib : Lib) (dec : webhook.Decoders)
    (env : webhook.Env) (shopRec : shop.Shop) (body : String) :
    (webhook.handleOrdersPaid s lib dec env shopRec body).1 = s ∨
      (∃ payload, dec.orderPaid body = some payload ∧
        webhook.handleOrdersPaid s lib dec env shopRec body =
          webhook.applyMilestonePaymentFromOrder s env shopRec
            (webhook.ParseKeyFromNote lib payload.Note "milestone_id") payload.ID) ∨
      ∃ (payload : webhook.orderPaidPayload) (pid : String) (raw : RawMessage)
        (cfg : serviceproduct.Config) (total : Decimal) (amounts : List CalculatedMilestone),
        dec.orderPaid body = some payload ∧ payload.ID ≠ 0 ∧ payload.TotalPrice ≠ "" ∧
        payload.LineItems ≠ [] ∧
        webhook.ParseKeyFromNote lib payload.Note "milestone_id" = "" ∧
        webhook.chooseProduct s shopRec.ID payload.LineItems = (pid, raw) ∧ pid ≠ "" ∧
        serviceproduct.ParseAndValidate lib.unmarshalConfig raw = .ok cfg ∧
        lib.decimalFromString payload.TotalPrice = some total ∧
        CalculateAmounts total cfg.Templates DefaultCurrencyScale = .ok amounts ∧
        ∀ sv ∈ s.services,
          ¬ (sv.ShopID = shopRec.ID ∧
            sv.ShopifyOrderID = webhook.int64ToString payload.ID) := by
  cases hd : dec.orderPaid body with
  | none => left; simp only [webhook.handleOrdersPaid, hd]
  | some payload =>
    by_cases hcond : payload.ID = 0 ∨ payload.TotalPrice = "" ∨ payload.LineItems.length = 0
    · left; simp only [webhook.handleOrdersPaid, hd, if_pos hcond]
    by_cases hkey : webhook.ParseKeyFromNote lib payload.Note "milestone_id" ≠ ""
    · right; left
      exact ⟨payload, rfl, by simp only [webhook.handleOrdersPaid, hd, if_neg hcond, if_pos hkey]⟩
    cases hprod : webhook.chooseProduct s shopRec.ID payload.LineItems with
    | mk pid raw =>
    by_cases hpid : pid = ""
    · left
      simp only [webhook.handleOrdersPaid, hd, if_neg hcond, if_neg hkey, hprod, hpid, if_true]
    cases hcfg : serviceproduct.ParseAndValidate lib.unmarshalConfig raw with
    | error e =>
      left
      simp only [webhook.handleOrdersPaid, hd, if_neg hcond, if_neg hkey, hprod, if_neg hpid,
        hcfg]
    | ok cfg =>
    cases htotal : lib.decimalFromString payload.TotalPrice with
    | none =>
      left
      simp only [webhook.handleOrdersPaid, hd, if_neg hcond, if_neg hkey, hprod, if_neg hpid,
        hcfg, htotal]
    | some total =>
    cases hcalc : CalculateAmounts total cfg.Templates DefaultCurrencyScale with
    | err e =>
      left
      simp only [webhook.handleOrdersPaid, hd, if_neg hcond, if_neg hkey, hprod, if_neg hpid,
        hcfg, htotal, hcalc]
    | indexPanic =>
      left
      simp only [webhook.handleOrdersPaid, hd, if_neg hcond, if_neg hkey, hprod, if_neg hpid,
        hcfg, htotal, hcalc]
    | ok amounts =>
    by_cases hany : (s.services.any (fun sv =>
        decide (sv.ShopID = shopRec.ID ∧
          sv.ShopifyOrderID = webhook.int64ToString payload.ID))) = true
    · left
      simp only [webhook.handleOrdersPaid, hd, if_neg hcond, if_neg hkey, hprod, if_neg hpid,
        hcfg, htotal, hcalc, webhook.insertService, hany, if_true, webhook.isUniqueViolation,
        decide_True]
    · right; right
      have hc : payload.ID ≠ 0 ∧ payload.TotalPrice ≠ "" ∧ payload.LineItems ≠ [] := by
        refine ⟨fun h => hcond (Or.inl h), fun h => hcond (Or.inr (Or.inl h)), fun h => ?_⟩
        exact hcond (Or.inr (Or.inr (by rw [h]; rfl)))
      refine ⟨payload, pid, raw, cfg, total, amounts, rfl, hc.1, hc.2.1, hc.2.2,
        not_not.mp hkey, hprod, hpid, hcfg, htotal, hcalc, ?_⟩
      intro sv hsv hsv2
      apply hany
      rw [List.any_eq_true]
      exact ⟨sv, hsv, by simpa using hsv2⟩

/-- The store after `ServeHTTP` is the store before or the result of its transaction. -/
theorem serveHTTP_store (cfg : config.Config) (lib : Lib) (dec : webhook.Decoders)
    (env : webhook.Env) (store : Store) (r : webhook.Request) :
    (webhook.ServeHTTP cfg lib dec env store r).store = store ∨
      ∃ (sh : shop.Shop) (topic eventID hash body : String),
        (webhook.ServeHTTP cfg lib dec env store r).store =
          (db.WithTx env.commitErr store
            (webhook.serveTx lib dec env sh topic eventID hash body)).1 := by
  unfold webhook.ServeHTTP
  simp only []
  split
  · exact Or.inl rfl
  · split
    · exact Or.inl rfl
    · split
      · exact Or.inl rfl
      · exact Or.inr ⟨_, _, _, _, _, rfl⟩

/-- The closure of `ServeHTTP`: the pool is left as it was or without the shop; the
transaction holds the store with the ledger record (`v1`) after one of the handlers, or
without the shop. -/
theorem serveTx_effect (lib : Lib) (dec : webhook.Decoders) (env : webhook.Env)
    (sh : shop.Shop) (topic eventID hash body : String) (store : Store) :
    ((webhook.serveTx lib dec env sh topic eventID hash body ⟨store, store⟩).st.pool = store ∨
      (webhook.serveTx lib dec env sh topic eventID hash body ⟨store, store⟩).st.pool =
        shop.DeleteByID store sh.ID) ∧
    ((webhook.serveTx lib dec env sh topic eventID hash body ⟨store, store⟩).err = none →
      (webhook.serveTx lib dec env sh topic eventID hash body ⟨store, store⟩).st.view = store ∨
      ∃ v1 : Store, v1.services = store.services ∧ v1.milestones = store.milestones ∧
        v1.approvals = store.approvals ∧
        ((webhook.serveTx lib dec env sh topic eventID hash body ⟨store, store⟩).st.view = v1 ∨
          ((webhook.handleOrdersPaid v1 lib dec env sh body).2 = none ∧
            (webhook.serveTx lib dec env sh topic eventID hash body ⟨store, store⟩).st.view =
              (webhook.handleOrdersPaid v1 lib dec env sh body).1) ∨
          (webhook.serveTx lib dec env sh topic eventID hash body ⟨store, store⟩).st.view =
            (webhook.handleMilestonePaid v1 dec env sh body).1 ∨
          (webhook.serveTx lib dec env sh topic eventID hash body ⟨store, store⟩).st.view =
            shop.DeleteByID v1 sh.ID)) := by
  unfold webhook.serveTx
  simp only []
  cases hI : webhook.insertWebhookEvent store env.dbNow sh.ID topic eventID hash with
  | error e =>
    simp only []
    split
    · exact ⟨Or.inl rfl, fun _ => Or.inl rfl⟩
    · exact ⟨Or.inl rfl, fun _ => Or.inl rfl⟩
  | ok v1 =>
    have hv : v1.services = store.services ∧ v1.milestones = store.milestones ∧
        v1.approvals = store.approvals := by
      unfold webhook.insertWebhookEvent at hI
      split at hI
      · cases hI
      · injection hI with hI
        subst hI
        exact ⟨rfl, rfl, rfl⟩
    simp only []
    split
    · exact ⟨Or.inl rfl, fun he => Or.inr ⟨v1, hv.1, hv.2.1, hv.2.2, Or.inr (Or.inl ⟨he, rfl⟩)⟩⟩
    · split
      · exact ⟨Or.inl rfl, fun _ => Or.inr ⟨v1, hv.1, hv.2.1, hv.2.2, Or.inr (Or.inr (Or.inl rfl))⟩⟩
      · split
        · exact ⟨Or.inr rfl,
            fun _ => Or.inr ⟨v1, hv.1, hv.2.1, hv.2.2, Or.inr (Or.inr (Or.inr rfl))⟩⟩
        · exact ⟨Or.inl rfl, fun _ => Or.inr ⟨v1, hv.1, hv.2.1, hv.2.2, Or.inl rfl⟩⟩

/-- The store after `AdminOverride` is the store before or the result of its transaction. -/
theorem adminOverride_store (now dbNow : Time) (commitErr : Option GoError) (store : Store)
    (shopCtx : Option shop.Shop) (id : String) (req : Option service.AdminOverrideRequest) :
    (service.AdminOverride now dbNow commitErr store shopCtx id req).store = store ∨
      ∃ sh action rq,
        (service.AdminOverride now dbNow commitErr store shopCtx id req).store =
          (db.WithTx commitErr store (service.adminOverrideTx now dbNow sh id action rq)).1 := by
  cases shopCtx with
  | none => exact Or.inl rfl
  | some sh =>
    by_cases hid : id = ""
    · simp [service.AdminOverride, hid]
    cases req with
    | none => simp [service.AdminOverride, hid]
    | some rq =>
      by_cases hr : rq.Reason = ""
      · simp [service.AdminOverride, hid, hr]
      by_cases ha : ¬ (rq.ActionType = adminaction.ActionMarkMilestonePaid ∨
          rq.ActionType = adminaction.ActionCompleteServiceWithoutFinalPay ∨
          rq.ActionType = adminaction.ActionReopenService)
      · left
        simp only [service.AdminOverride, if_neg hid, if_neg hr, if_pos ha]
      · refine Or.inr ⟨sh, rq.ActionType, rq, ?_⟩
        simp only [service.AdminOverride, if_neg hid, if_neg hr, if_neg ha]
        generalize db.WithTx commitErr store
          (service.adminOverrideTx now dbNow sh id rq.ActionType rq) = w
        obtain ⟨s1, e, wr⟩ := w
        cases e with
        | none => rfl
        | some e =>
          simp only []
          split <;> rfl

/-- The closure of `AdminOverride` writes nothing to the pool, and changes the services by
one `UpdateStatus`, to `Completed` with the override flag or to `InProgress` without it. -/
theorem adminOverrideTx_services (now dbNow : Time) (sh : shop.Shop) (id : String)
    (action : adminaction.ActionType) (rq : service.AdminOverrideRequest) (store : Store) :
    (service.adminOverrideTx now dbNow sh id action rq ⟨store, store⟩).st.pool = store ∧
      ((service.adminOverrideTx now dbNow sh id action rq ⟨store, store⟩).st.view.services =
          store.services ∨
        (∃ sid, (service.adminOverrideTx now dbNow sh id action rq
            ⟨store, store⟩).st.view.services =
          (service.UpdateStatus store dbNow sh.ID sid StatusCompleted true).services) ∨
        ∃ sid, (service.adminOverrideTx now dbNow sh id action rq
            ⟨store, store⟩).st.view.services =
          (service.UpdateStatus store dbNow sh.ID sid StatusInProgress false).services) := by
  unfold service.adminOverrideTx
  cases hg : service.GetForUpdate store sh.ID id with
  | error e => exact ⟨rfl, Or.inl rfl⟩
  | ok svc =>
    simp only []
    by_cases h1 : action = adminaction.ActionMarkMilestonePaid
    · simp only [if_pos h1]
      split
      · exact ⟨rfl, Or.inl rfl⟩
      · rename_i v1 hv
        refine ⟨rfl, Or.inl ?_⟩
        show v1.services = store.services
        split at hv
        · cases hv
        · split at hv
          · cases hv
          · split at hv
            · cases hv
            · split at hv
              · cases hv
              · injection hv with hv
                subst hv
                rfl
    · simp only [if_neg h1]
      by_cases h2 : action = adminaction.ActionCompleteServiceWithoutFinalPay
      · simp only [if_pos h2]
        exact ⟨trivial, Or.inr (Or.inl ⟨svc.ID, rfl⟩)⟩
      · simp only [if_neg h2]
        by_cases h3 : action = adminaction.ActionReopenService
        · simp only [if_pos h3]
          exact ⟨trivial, Or.inr (Or.inr ⟨svc.ID, rfl⟩)⟩
        · simp only [if_neg h3]
          exact ⟨trivial, Or.inl rfl⟩

/-! ## Invariants of the reachable states, statement by statement -/

theorem finalGate_map {s t : Store} (f : milestone.Row → milestone.Row)
    (hf : ∀ m, (f m).ID = m.ID ∧ (f m).ServiceID = m.ServiceID ∧ (f m).Sequence = m.Sequence)
    (hM : t.milestones = s.milestones.map f)
    (hA : ∀ sid, approval.Answered s sid → approval.Answered t sid)
    (hun : ∀ m ∈ s.milestones, m.Status = "locked" → (f m).Status ≠ "locked" →
      approval.Answered t m.ServiceID)
    (hg : FinalGate s) : FinalGate t := by
  intro m' hm' hother hfin hnl
  rw [hM] at hm' hother
  simp only [List.mem_map] at hm' hother
  obtain ⟨m, hm, rfl⟩ := hm'
  obtain ⟨x', ⟨x, hx, rfl⟩, hxs, hxi⟩ := hother
  rw [finalSequence_map f (fun m => ⟨(hf m).2.1, (hf m).2.2⟩) hM] at hfin
  rw [(hf m).2.1] at hfin ⊢
  rw [(hf m).2.2] at hfin
  rw [(hf x).2.1, (hf m).2.1] at hxs
  rw [(hf x).1, (hf m).1] at hxi
  by_cases hl : m.Status = "locked"
  · exact hun m hm hl hnl
  · exact hA _ (hg m hm ⟨x, hx, hxs, hxi⟩ hfin hl)

theorem finalGate_of_eq {s t : Store} (hM : t.milestones = s.milestones)
    (hA : ∀ sid, approval.Answered s sid → approval.Answered t sid)
    (hg : FinalGate s) : FinalGate t :=
  finalGate_map id (fun _ => ⟨rfl, rfl, rfl⟩) (by rw [hM, List.map_id]) hA
    (fun _ _ hl hnl => absurd hl hnl) hg

theorem uniqueMilestoneIDs_map {s t : Store} (f : milestone.Row → milestone.Row)
    (hf : ∀ m, (f m).ID = m.ID) (hM : t.milestones = s.milestones.map f)
    (hu : UniqueMilestoneIDs s) : UniqueMilestoneIDs t := by
  intro a ha b hb hab
  rw [hM] at ha hb
  simp only [List.mem_map] at ha hb
  obtain ⟨a0, ha0, rfl⟩ := ha
  obtain ⟨b0, hb0, rfl⟩ := hb
  rw [hf, hf] at hab
  rw [hu a0 ha0 b0 hb0 hab]

theorem uniqueServiceIDs_map {s t : Store} (f : service.Service → service.Service)
    (hf : ∀ sv, (f sv).ID = sv.ID) (hS : t.services = s.services.map f)
    (hu : UniqueServiceIDs s) : UniqueServiceIDs t := by
  intro a ha b hb hab
  rw [hS] at ha hb
  simp only [List.mem_map] at ha hb
  obtain ⟨a0, ha0, rfl⟩ := ha
  obtain ⟨b0, hb0, rfl⟩ := hb
  rw [hf, hf] at hab
  rw [hu a0 ha0 b0 hb0 hab]

theorem uniqueServiceIDs_updateStatus {s t : Store} (dbNow : Time) (shopID sid : String)
    (next : Status) (ov : Bool)
    (hS : t.services = (service.UpdateStatus s dbNow shopID sid next ov).services)
    (hu : UniqueServiceIDs s) : UniqueServiceIDs t := by
  refine uniqueServiceIDs_map _ ?_ hS hu
  intro sv
  by_cases h : sv.ShopID = shopID ∧ sv.ID = sid <;> simp [h]

theorem noLockedReference_map {s t : Store} (f : milestone.Row → milestone.Row)
    (hM : t.milestones = s.milestones.map f)
    (hf : ∀ m ∈ s.milestones, (f m).Status = "locked" →
      m.Status = "locked" ∧ (f m).DraftOrderID = m.DraftOrderID)
    (hn : NoLockedReference s) : NoLockedReference t := by
  intro m' hm' hl
  rw [hM] at hm'
  simp only [List.mem_map] at hm'
  obtain ⟨m, hm, rfl⟩ := hm'
  obtain ⟨h1, h2⟩ := hf m hm hl
  rw [h2]
  exact hn m hm h1

/-- A status update keeps `WaitingHasRecord` when the records stay and, for an update to
`WaitingForApproval`, the service has a record afterwards. -/
theorem waitingHasRecord_updateStatus {s t : Store} (dbNow : Time) (shopID sid : String)
    (next : Status) (ov : Bool)
    (hS : t.services = (service.UpdateStatus s dbNow shopID sid next ov).services)
    (hA : ∀ x, (∃ a ∈ s.approvals, a.ServiceID = x) → ∃ a ∈ t.approvals, a.ServiceID = x)
    (hnext : next = StatusWaitingForApproval → ∃ a ∈ t.approvals, a.ServiceID = sid)
    (hw : WaitingHasRecord s) : WaitingHasRecord t := by
  intro sv' hsv' hst
  rw [hS] at hsv'
  simp only [service.UpdateStatus, List.mem_map] at hsv'
  obtain ⟨sv, hsv, rfl⟩ := hsv'
  by_cases hc : sv.ShopID = shopID ∧ sv.ID = sid
  · rw [if_pos hc] at hst ⊢
    simp only at hst ⊢
    rw [hc.2]
    exact hnext hst
  · rw [if_neg hc] at hst ⊢
    exact hA _ (hw sv hsv hst)

theorem waitingHasRecord_of_eq {s t : Store} (hS : t.services = s.services)
    (hA : ∀ x, (∃ a ∈ s.approvals, a.ServiceID = x) → ∃ a ∈ t.approvals, a.ServiceID = x)
    (hw : WaitingHasRecord s) : WaitingHasRecord t := by
  intro sv hsv hst
  rw [hS] at hsv
  exact hA _ (hw sv hsv hst)

/-! ### The statements on `approvals` -/

theorem hasRecord_of_eq {s t : Store} (hA : t.approvals = s.approvals) (x : String)
    (h : ∃ a ∈ s.approvals, a.ServiceID = x) : ∃ a ∈ t.approvals, a.ServiceID = x := by
  rw [hA]; exact h

theorem answered_of_eq {s t : Store} (hA : t.approvals = s.approvals) (x : String)
    (h : approval.Answered s x) : approval.Answered t x := by
  unfold approval.Answered at h ⊢
  rw [hA]; exact h

/-- An update of the approval records that keeps the service of every record and never takes
back an answer keeps what is answered. -/
theorem answered_map {s t : Store} (g : approval.Record → approval.Record)
    (hg : ∀ a, (g a).ServiceID = a.ServiceID)
    (hk : ∀ a, a.Approved = true ∨ a.RevisionRequested = true →
      (g a).Approved = true ∨ (g a).RevisionRequested = true)
    (hA : t.approvals = s.approvals.map g) (x : String) (h : approval.Answered s x) :
    approval.Answered t x := by
  obtain ⟨⟨a, ha, hax⟩, hall⟩ := h
  unfold approval.Answered
  rw [hA]
  refine ⟨⟨g a, List.mem_map.mpr ⟨a, ha, rfl⟩, (hg a).trans hax⟩, ?_⟩
  intro b hb hbx
  simp only [List.mem_map] at hb
  obtain ⟨b0, hb0, rfl⟩ := hb
  exact hk b0 (hall b0 hb0 ((hg b0).symm.trans hbx))

theorem hasRecord_map {s t : Store} (g : approval.Record → approval.Record)
    (hg : ∀ a, (g a).ServiceID = a.ServiceID)
    (hA : t.approvals = s.approvals.map g) (x : String)
    (h : ∃ a ∈ s.approvals, a.ServiceID = x) : ∃ a ∈ t.approvals, a.ServiceID = x := by
  obtain ⟨a, ha, hax⟩ := h
  rw [hA]
  exact ⟨g a, List.mem_map.mpr ⟨a, ha, rfl⟩, (hg a).trans hax⟩

theorem approve_eq_map (s : Store) (dbNow : Time) (sid note : String) :
    (approval.Approve s dbNow sid note).approvals = s.approvals.map (fun a =>
      if a.ServiceID = sid then
        { a with Approved := true, ApprovedAt := some dbNow, RevisionRequested := false,
                 ClientNote := note, UpdatedAt := dbNow }
      else a) := rfl

theorem requestRevision_eq_map (s : Store) (dbNow : Time) (sid note : String) :
    (approval.RequestRevision s dbNow sid note).approvals = s.approvals.map (fun a =>
      if a.ServiceID = sid then
        { a with RevisionRequested := true, Approved := false, ApprovedAt := none,
                 ClientNote := note, UpdatedAt := dbNow }
      else a) := rfl

theorem hasRecord_approve {s t : Store} (dbNow : Time) (sid note : String)
    (hA : t.approvals = (approval.Approve s dbNow sid note).approvals) (x : String)
    (h : ∃ a ∈ s.approvals, a.ServiceID = x) : ∃ a ∈ t.approvals, a.ServiceID = x := by
  refine hasRecord_map _ ?_ (hA.trans (approve_eq_map s dbNow sid note)) x h
  intro a
  by_cases hc : a.ServiceID = sid <;> simp [hc]

theorem answered_approve {s t : Store} (dbNow : Time) (sid note : String)
    (hA : t.approvals = (approval.Approve s dbNow sid note).approvals) (x : String)
    (h : approval.Answered s x) : approval.Answered t x := by
  refine answered_map _ ?_ ?_ (hA.trans (approve_eq_map s dbNow sid note)) x h
  · intro a
    by_cases hc : a.ServiceID = sid <;> simp [hc]
  · intro a ha
    by_cases hc : a.ServiceID = sid
    · simp [hc]
    · simpa [hc] using ha

/-- After `Approve`, a service that had a record is answered. -/
theorem answered_of_approve {s t : Store} (dbNow : Time) (sid note : String)
    (hA : t.approvals = (approval.Approve s dbNow sid note).approvals)
    (h : ∃ a ∈ s.approvals, a.ServiceID = sid) : approval.Answered t sid := by
  refine ⟨hasRecord_approve dbNow sid note hA sid h, ?_⟩
  intro b hb hbx
  rw [hA, approve_eq_map] at hb
  simp only [List.mem_map] at hb
  obtain ⟨b0, _, rfl⟩ := hb
  by_cases hc : b0.ServiceID = sid
  · simp [hc]
  · rw [if_neg hc] at hbx
    exact absurd hbx hc

theorem hasRecord_requestRevision {s t : Store} (dbNow : Time) (sid note : String)
    (hA : t.approvals = (approval.RequestRevision s dbNow sid note).approvals) (x : String)
    (h : ∃ a ∈ s.approvals, a.ServiceID = x) : ∃ a ∈ t.approvals, a.ServiceID = x := by
  refine hasRecord_map _ ?_ (hA.trans (requestRevision_eq_map s dbNow sid note)) x h
  intro a
  by_cases hc : a.ServiceID = sid <;> simp [hc]

theorem answered_requestRevision {s t : Store} (dbNow : Time) (sid note : String)
    (hA : t.approvals = (approval.RequestRevision s dbNow sid note).approvals) (x : String)
    (h : approval.Answered s x) : approval.Answered t x := by
  refine answered_map _ ?_ ?_ (hA.trans (requestRevision_eq_map s dbNow sid note)) x h
  · intro a
    by_cases hc : a.ServiceID = sid <;> simp [hc]
  · intro a ha
    by_cases hc : a.ServiceID = sid
    · simp [hc]
    · simpa [hc] using ha

theorem hasRecord_upsertRequested {s t : Store} (dbNow : Time) (sid : String) (hp : Bool)
    (hA : t.approvals = (approval.UpsertRequested s dbNow sid hp).approvals) (x : String)
    (h : ∃ a ∈ s.approvals, a.ServiceID = x) : ∃ a ∈ t.approvals, a.ServiceID = x := by
  unfold approval.UpsertRequested at hA
  split at hA
  · refine hasRecord_map _ ?_ hA x h
    intro a
    by_cases hc : a.ServiceID = sid <;> simp [hc]
  · obtain ⟨a, ha, hax⟩ := h
    rw [hA]
    exact ⟨a, List.mem_append_left _ ha, hax⟩

/-- After `UpsertRequested` the service has a record. -/
theorem hasRecord_of_upsertRequested {s t : Store} (dbNow : Time) (sid : String) (hp : Bool)
    (hA : t.approvals = (approval.UpsertRequested s dbNow sid hp).approvals) :
    ∃ a ∈ t.approvals, a.ServiceID = sid := by
  by_cases hany : (s.approvals.any (fun a => decide (a.ServiceID = sid))) = true
  · rw [List.any_eq_true] at hany
    obtain ⟨a, ha, hax⟩ := hany
    exact hasRecord_upsertRequested dbNow sid hp hA sid ⟨a, ha, by simpa using hax⟩
  · unfold approval.UpsertRequested at hA
    rw [if_neg hany] at hA
    rw [hA]
    exact ⟨_, List.mem_append_right _ (List.mem_singleton.mpr rfl), rfl⟩

theorem answered_upsertRequested {s t : Store} (dbNow : Time) (sid : String) (hp : Bool)
    (hA : t.approvals = (approval.UpsertRequested s dbNow sid hp).approvals) (x : String)
    (h : approval.Answered s x) : approval.Answered t x := by
  by_cases hany : (s.approvals.any (fun a => decide (a.ServiceID = sid))) = true
  · unfold approval.UpsertRequested at hA
    rw [if_pos hany] at hA
    refine answered_map _ ?_ ?_ hA x h
    · intro a
      by_cases hc : a.ServiceID = sid <;> simp [hc]
    · intro a ha
      by_cases hc : a.ServiceID = sid
      · simpa [hc] using ha
      · simpa [hc] using ha
  · have hnone : ∀ a ∈ s.approvals, a.ServiceID ≠ sid := by
      intro a ha hax
      apply hany
      rw [List.any_eq_true]
      exact ⟨a, ha, by simpa using hax⟩
    unfold approval.UpsertRequested at hA
    rw [if_neg hany] at hA
    obtain ⟨⟨a, ha, hax⟩, hall⟩ := h
    unfold approval.Answered
    rw [hA]
    refine ⟨⟨a, List.mem_append_left _ ha, hax⟩, ?_⟩
    intro b hb hbx
    rcases List.mem_append.mp hb with hb | hb
    · exact hall b hb hbx
    · simp only [List.mem_singleton] at hb
      subst hb
      simp only at hbx
      exact absurd (hax.trans hbx.symm) (hnone a ha)

/-! ### The steps of the handlers -/

theorem getForUpdateScoped_row {s : Store} {shopID milestoneID : String}
    {m : milestone.Record} (h : milestone.GetForUpdateScoped s shopID milestoneID = .ok m) :
    ∃ r ∈ s.milestones, r.ID = milestoneID ∧ m.ID = r.ID ∧ m.Status = r.Status := by
  unfold milestone.GetForUpdateScoped at h
  split at h
  · rename_i r hr
    injection h with h
    subst h
    have hmem := List.mem_of_mem_head? hr
    simp only [List.mem_filterMap] at hmem
    obtain ⟨row, hrow, hrec⟩ := hmem
    split at hrec
    · rename_i hid
      simp only [Option.map_eq_some'] at hrec
      obtain ⟨sv, _, rfl⟩ := hrec
      exact ⟨row, hrow, hid, rfl, rfl⟩
    · cases hrec
  · cases h

theorem milestoneGetForUpdate_row {s : Store} {milestoneID : String} {m : milestone.Record}
    (h : milestone.GetForUpdate s milestoneID = .ok m) :
    ∃ r ∈ s.milestones, r.ID = milestoneID ∧ m.ID = r.ID ∧ m.Status = r.Status := by
  unfold milestone.GetForUpdate at h
  split at h
  · rename_i r hr
    injection h with h
    subst h
    have hp := List.find?_some hr
    simp only [decide_eq_true_eq] at hp
    exact ⟨r, List.mem_of_find?_eq_some hr, hp, rfl, rfl⟩
  · cases h

theorem workflowInvariant_of_eq {s t : Store} (hS : t.services = s.services)
    (hM : t.milestones = s.milestones) (hA : t.approvals = s.approvals)
    (h : WorkflowInvariant s) : WorkflowInvariant t := by
  obtain ⟨h1, h2, h3, h4, h5⟩ := h
  refine ⟨?_, ?_, ?_, ?_, ?_⟩
  · unfold UniqueServiceIDs at h1 ⊢; rw [hS]; exact h1
  · unfold UniqueMilestoneIDs at h2 ⊢; rw [hM]; exact h2
  · unfold NoLockedReference at h3 ⊢; rw [hM]; exact h3
  · exact waitingHasRecord_of_eq hS (hasRecord_of_eq hA) h4
  · exact finalGate_of_eq hM (answered_of_eq hA) h5

/-- A status update of `PatchStatus`. -/
theorem workflowInvariant_patch {s t : Store} (dbNow : Time) (shopID sid : String)
    (next : Status) (ov hp : Bool)
    (hS : t.services = (service.UpdateStatus s dbNow shopID sid next ov).services)
    (hM : t.milestones = s.milestones)
    (hA : t.approvals =
      if next = StatusWaitingForApproval then
        (approval.UpsertRequested s dbNow sid hp).approvals
      else s.approvals)
    (h : WorkflowInvariant s) : WorkflowInvariant t := by
  obtain ⟨h1, h2, h3, h4, h5⟩ := h
  have hrec : ∀ x, (∃ a ∈ s.approvals, a.ServiceID = x) → ∃ a ∈ t.approvals, a.ServiceID = x := by
    intro x hx
    by_cases hn : next = StatusWaitingForApproval
    · rw [if_pos hn] at hA
      exact hasRecord_upsertRequested dbNow sid hp hA x hx
    · rw [if_neg hn] at hA
      exact hasRecord_of_eq hA x hx
  have hans : ∀ x, approval.Answered s x → approval.Answered t x := by
    intro x hx
    by_cases hn : next = StatusWaitingForApproval
    · rw [if_pos hn] at hA
      exact answered_upsertRequested dbNow sid hp hA x hx
    · rw [if_neg hn] at hA
      exact answered_of_eq hA x hx
  refine ⟨uniqueServiceIDs_updateStatus dbNow shopID sid next ov hS h1, ?_, ?_, ?_,
    finalGate_of_eq hM hans h5⟩
  · unfold UniqueMilestoneIDs at h2 ⊢; rw [hM]; exact h2
  · unfold NoLockedReference at h3 ⊢; rw [hM]; exact h3
  · refine waitingHasRecord_updateStatus dbNow shopID sid next ov hS hrec ?_ h4
    intro hn
    rw [if_pos hn] at hA
    exact hasRecord_of_upsertRequested dbNow sid hp hA

/-- A settlement: `MarkPaid` on a milestone that is not locked, with at most one
`UpdateStatus` to `Completed`. -/
theorem workflowInvariant_settle {s t : Store} (mid : String) (now dbNow : Time)
    (shopID sid : String)
    (hM : t.milestones = (milestone.MarkPaid s mid now).milestones)
    (hS : t.services = s.services ∨
      t.services = (service.UpdateStatus s dbNow shopID sid StatusCompleted false).services)
    (hA : t.approvals = s.approvals)
    (hnl : ∀ r ∈ s.milestones, r.ID = mid → r.Status ≠ "locked")
    (h : WorkflowInvariant s) : WorkflowInvariant t := by
  obtain ⟨h1, h2, h3, h4, h5⟩ := h
  have hf : ∀ m : milestone.Row,
      (if m.ID = mid then { m with Status := "paid", PaidAt := some now } else m).ID = m.ID ∧
      (if m.ID = mid then { m with Status := "paid", PaidAt := some now } else m).ServiceID =
        m.ServiceID ∧
      (if m.ID = mid then { m with Status := "paid", PaidAt := some now } else m).Sequence =
        m.Sequence := by
    intro m
    by_cases hc : m.ID = mid <;> simp [hc]
  refine ⟨?_, uniqueMilestoneIDs_map _ (fun m => (hf m).1) hM h2, ?_, ?_, ?_⟩
  · rcases hS with hS | hS
    · unfold UniqueServiceIDs at h1 ⊢; rw [hS]; exact h1
    · exact uniqueServiceIDs_updateStatus dbNow shopID sid StatusCompleted false hS h1
  · refine noLockedReference_map _ hM ?_ h3
    intro m _ hl
    by_cases hc : m.ID = mid
    · rw [if_pos hc] at hl
      simp only at hl
      exact absurd hl (by decide)
    · rw [if_neg hc] at hl ⊢
      exact ⟨hl, rfl⟩
  · rcases hS with hS | hS
    · exact waitingHasRecord_of_eq hS (hasRecord_of_eq hA) h4
    · exact waitingHasRecord_updateStatus dbNow shopID sid StatusCompleted false hS
        (hasRecord_of_eq hA) (fun hn => absurd hn (by decide)) h4
  · refine finalGate_map _ hf hM (answered_of_eq hA) ?_ h5
    intro m hm hl hnl2
    by_cases hc : m.ID = mid
    · exact absurd hl (hnl m hm hc)
    · rw [if_neg hc] at hnl2
      exact absurd hl hnl2

/-- The approval of a client: `Approve` and `UnlockFinal` for a service that waits. -/
theorem workflowInvariant_approve {s t : Store} (dbNow : Time) (svc : service.Service)
    (note : String)
    (hsvc : svc ∈ s.services) (hst : svc.Status = StatusWaitingForApproval)
    (hS : t.services = s.services)
    (hM : t.milestones = (milestone.UnlockFinal s svc.ID).milestones)
    (hA : t.approvals = (approval.Approve s dbNow svc.ID note).approvals)
    (h : WorkflowInvariant s) : WorkflowInvariant t := by
  obtain ⟨h1, h2, h3, h4, h5⟩ := h
  have hf : ∀ m : milestone.Row,
      (if m.ServiceID = svc.ID ∧ some m.Sequence = milestone.finalSequence s svc.ID ∧
          m.Status = "locked" then { m with Status := "unpaid" } else m).ID = m.ID ∧
      (if m.ServiceID = svc.ID ∧ some m.Sequence = milestone.finalSequence s svc.ID ∧
          m.Status = "locked" then { m with Status := "unpaid" } else m).ServiceID =
        m.ServiceID ∧
      (if m.ServiceID = svc.ID ∧ some m.Sequence = milestone.finalSequence s svc.ID ∧
          m.Status = "locked" then { m with Status := "unpaid" } else m).Sequence =
        m.Sequence := by
    intro m
    by_cases hc : m.ServiceID = svc.ID ∧ some m.Sequence = milestone.finalSequence s svc.ID ∧
      m.Status = "locked" <;> simp [hc]
  refine ⟨?_, uniqueMilestoneIDs_map _ (fun m => (hf m).1) hM h2, ?_,
    waitingHasRecord_of_eq hS (hasRecord_approve dbNow svc.ID note hA) h4, ?_⟩
  · unfold UniqueServiceIDs at h1 ⊢; rw [hS]; exact h1
  · refine noLockedReference_map _ hM ?_ h3
    intro m _ hl
    by_cases hc : m.ServiceID = svc.ID ∧ some m.Sequence = milestone.finalSequence s svc.ID ∧
      m.Status = "locked"
    · rw [if_pos hc] at hl
      simp only at hl
      exact absurd hl (by decide)
    · rw [if_neg hc] at hl ⊢
      exact ⟨hl, rfl⟩
  · refine finalGate_map _ hf hM (answered_approve dbNow svc.ID note hA) ?_ h5
    intro m _ hl hnl
    by_cases hc : m.ServiceID = svc.ID ∧ some m.Sequence = milestone.finalSequence s svc.ID ∧
      m.Status = "locked"
    · rw [hc.1]
      exact answered_of_approve dbNow svc.ID note hA (h4 svc hsvc hst)
    · rw [if_neg hc] at hnl
      exact absurd hl hnl

/-- The revision request of a client: `RequestRevision` and the `UpdateStatus` to
`InProgress`. -/
theorem workflowInvariant_revision {s t : Store} (dbNow : Time) (shopID sid note : String)
    (hS : t.services =
      (service.UpdateStatus s dbNow shopID sid StatusInProgress false).services)
    (hM : t.milestones = s.milestones)
    (hA : t.approvals = (approval.RequestRevision s dbNow sid note).approvals)
    (h : WorkflowInvariant s) : WorkflowInvariant t := by
  obtain ⟨h1, h2, h3, h4, h5⟩ := h
  refine ⟨uniqueServiceIDs_updateStatus dbNow shopID sid StatusInProgress false hS h1, ?_, ?_,
    ?_, finalGate_of_eq hM (answered_requestRevision dbNow sid note hA) h5⟩
  · unfold UniqueMilestoneIDs at h2 ⊢; rw [hM]; exact h2
  · unfold NoLockedReference at h3 ⊢; rw [hM]; exact h3
  · exact waitingHasRecord_updateStatus dbNow shopID sid StatusInProgress false hS
      (hasRecord_requestRevision dbNow sid note hA) (fun hn => absurd hn (by decide)) h4

/-- A payment request: `SetDraftOrder` on a milestone that is not locked. -/
theorem workflowInvariant_setDraftOrder {s t : Store} (mid d u : String)
    (hS : t.services = s.services)
    (hM : t.milestones = (milestone.SetDraftOrder s mid d u).milestones)
    (hA : t.approvals = s.approvals)
    (hnl : ∀ r ∈ s.milestones, r.ID = mid → r.Status ≠ "locked")
    (h : WorkflowInvariant s) : WorkflowInvariant t := by
  obtain ⟨h1, h2, h3, h4, h5⟩ := h
  have hf : ∀ m : milestone.Row,
      (if m.ID = mid then { m with DraftOrderID := some d, CheckoutURL := some u }
        else m).ID = m.ID ∧
      (if m.ID = mid then { m with DraftOrderID := some d, CheckoutURL := some u }
        else m).ServiceID = m.ServiceID ∧
      (if m.ID = mid then { m with DraftOrderID := some d, CheckoutURL := some u }
        else m).Sequence = m.Sequence := by
    intro m
    by_cases hc : m.ID = mid <;> simp [hc]
  have hst : ∀ m : milestone.Row,
      (if m.ID = mid then { m with DraftOrderID := some d, CheckoutURL := some u }
        else m).Status = m.Status := by
    intro m
    by_cases hc : m.ID = mid <;> simp [hc]
  refine ⟨?_, uniqueMilestoneIDs_map _ (fun m => (hf m).1) hM h2, ?_,
    waitingHasRecord_of_eq hS (hasRecord_of_eq hA) h4, ?_⟩
  · unfold UniqueServiceIDs at h1 ⊢; rw [hS]; exact h1
  · refine noLockedReference_map _ hM ?_ h3
    intro m hm hl
    rw [hst] at hl
    by_cases hc : m.ID = mid
    · exact absurd hl (hnl m hm hc)
    · rw [if_neg hc]
      exact ⟨hl, rfl⟩
  · refine finalGate_map _ hf hM (answered_of_eq hA) ?_ h5
    intro m _ hl hnl2
    rw [hst] at hnl2
    exact absurd hl hnl2

/-! ### The highest sequence of a service -/

theorem foldl_max_le (l : List Int) (a q : Int)
    (h : l.foldl (fun acc q => match acc with
      | none => some q
      | some a => some (max a q)) (some a) = some q) :
    a ≤ q ∧ ∀ x ∈ l, x ≤ q := by
  induction l generalizing a with
  | nil =>
    simp only [List.foldl_nil, Option.some.injEq] at h
    subst h
    exact ⟨le_refl _, fun x hx => by cases hx⟩
  | cons y l ih =>
    simp only [List.foldl_cons] at h
    obtain ⟨h1, h2⟩ := ih (max a y) h
    refine ⟨le_trans (le_max_left a y) h1, ?_⟩
    intro x hx
    rcases List.mem_cons.mp hx with hx | hx
    · rw [hx]; exact le_trans (le_max_right a y) h1
    · exact h2 x hx

/-- No milestone of the service has a sequence above `finalSequence`. -/
theorem finalSequence_le {s : Store} {sid : String} {q : Int}
    (h : milestone.finalSequence s sid = some q) :
    ∀ x ∈ s.milestones, x.ServiceID = sid → x.Sequence ≤ q := by
  intro x hx hxs
  unfold milestone.finalSequence at h
  have hmem : x.Sequence ∈ (s.milestones.filter (fun m => decide (m.ServiceID = sid))).map
      (fun m => m.Sequence) := by
    rw [List.mem_map]
    exact ⟨x, List.mem_filter.mpr ⟨hx, by simpa using hxs⟩, rfl⟩
  generalize (s.milestones.filter (fun m => decide (m.ServiceID = sid))).map
      (fun m => m.Sequence) = l at h hmem
  cases l with
  | nil => cases hmem
  | cons y l =>
    simp only [List.foldl_cons] at h
    obtain ⟨h1, h2⟩ := foldl_max_le l y q h
    rcases List.mem_cons.mp hmem with hm | hm
    · rw [hm]; exact h1
    · exact h2 _ hm

/-- Rows of other services added at the end do not change the highest sequence. -/
theorem finalSequence_append_other {s t : Store} (extra : List milestone.Row) (sid : String)
    (hM : t.milestones = s.milestones ++ extra) (he : ∀ e ∈ extra, e.ServiceID ≠ sid) :
    milestone.finalSequence t sid = milestone.finalSequence s sid := by
  unfold milestone.finalSequence
  rw [hM, List.filter_append]
  have : extra.filter (fun m => decide (m.ServiceID = sid)) = [] := by
    rw [List.filter_eq_nil_iff]
    intro e hme
    simpa using he e hme
  rw [this, List.append_nil]

/-- Removing rows of other services does not change the highest sequence. -/
theorem finalSequence_filter {s t : Store} (p : milestone.Row → Bool) (sid : String)
    (hM : t.milestones = s.milestones.filter p)
    (hp : ∀ m ∈ s.milestones, m.ServiceID = sid → p m = true) :
    milestone.finalSequence t sid = milestone.finalSequence s sid := by
  unfold milestone.finalSequence
  rw [hM, List.filter_filter]
  congr 2
  apply List.filter_congr
  intro m hm
  by_cases hc : m.ServiceID = sid
  · simp [hc, hp m hm hc]
  · simp [hc]

/-! ### Creation and deletion -/

/-- The creation of a service with its milestones, with identifiers that are new. -/
theorem workflowInvariant_create {s t : Store} (env : webhook.Env) (sv : service.Service)
    (amounts : List CalculatedMilestone)
    (hsv : sv.ID = env.newServiceID) (hst : sv.Status = StatusBooked)
    (hS : t.services = s.services ++ [sv])
    (hM : t.milestones = s.milestones ++ amounts.enum.map (fun p =>
      (⟨env.newMilestoneID p.1, env.newServiceID, (p.1 : Int), p.2.Amount,
        if p.1 = 0 then "paid" else if p.1 + 1 = amounts.length then "locked" else "unpaid",
        none, none, if p.1 = 0 then some env.now else none⟩ : milestone.Row)))
    (hA : t.approvals = s.approvals)
    (hfresh : FreshIDs env s)
    (h : WorkflowInvariant s) : WorkflowInvariant t := by
  obtain ⟨h1, h2, h3, h4, h5⟩ := h
  obtain ⟨hfS, hfM, hfI, hinj⟩ := hfresh
  -- the new rows
  have hnew : ∀ r ∈ amounts.enum.map (fun p =>
      (⟨env.newMilestoneID p.1, env.newServiceID, (p.1 : Int), p.2.Amount,
        if p.1 = 0 then "paid" else if p.1 + 1 = amounts.length then "locked" else "unpaid",
        none, none, if p.1 = 0 then some env.now else none⟩ : milestone.Row)),
      ∃ (i : Nat) (a : CalculatedMilestone), amounts[i]? = some a ∧
        r = ⟨env.newMilestoneID i, env.newServiceID, (i : Int), a.Amount,
          if i = 0 then "paid" else if i + 1 = amounts.length then "locked" else "unpaid",
          none, none, if i = 0 then some env.now else none⟩ := by
    intro r hr
    simp only [List.mem_map] at hr
    obtain ⟨⟨i, a⟩, hp, rfl⟩ := hr
    exact ⟨i, a, List.mk_mem_enum_iff_getElem?.mp hp, rfl⟩
  have hrow : ∀ (i : Nat) (a : CalculatedMilestone), amounts[i]? = some a →
      (⟨env.newMilestoneID i, env.newServiceID, (i : Int), a.Amount,
          if i = 0 then "paid" else if i + 1 = amounts.length then "locked" else "unpaid",
          none, none, if i = 0 then some env.now else none⟩ : milestone.Row) ∈ t.milestones := by
    intro i a hia
    rw [hM]
    apply List.mem_append_right
    simp only [List.mem_map]
    exact ⟨(i, a), List.mk_mem_enum_iff_getElem?.mpr hia, rfl⟩
  refine ⟨?_, ?_, ?_, ?_, ?_⟩
  · intro a ha b hb hab
    rw [hS] at ha hb
    rcases List.mem_append.mp ha with ha1 | ha1 <;>
      rcases List.mem_append.mp hb with hb1 | hb1
    · exact h1 a ha1 b hb1 hab
    · simp only [List.mem_singleton] at hb1
      rw [hb1] at hab
      exact absurd (hab.trans hsv) (hfS a ha1)
    · simp only [List.mem_singleton] at ha1
      rw [ha1] at hab
      exact absurd (hab.symm.trans hsv) (hfS b hb1)
    · simp only [List.mem_singleton] at ha1 hb1
      rw [ha1, hb1]
  · intro a ha b hb hab
    rw [hM] at ha hb
    rcases List.mem_append.mp ha with ha1 | ha1 <;>
      rcases List.mem_append.mp hb with hb1 | hb1
    · exact h2 a ha1 b hb1 hab
    · obtain ⟨j, y, _, rfl⟩ := hnew b hb1
      exact absurd hab (hfI a ha1 j)
    · obtain ⟨i, x, _, rfl⟩ := hnew a ha1
      exact absurd hab.symm (hfI b hb1 i)
    · obtain ⟨i, x, hix, rfl⟩ := hnew a ha1
      obtain ⟨j, y, hjy, rfl⟩ := hnew b hb1
      have hij : i = j := hinj i j hab
      subst hij
      rw [hix] at hjy
      injection hjy with hjy
      subst hjy
      rfl
  · intro m hm hl
    rw [hM] at hm
    rcases List.mem_append.mp hm with hm | hm
    · exact h3 m hm hl
    · obtain ⟨i, x, _, rfl⟩ := hnew m hm
      rfl
  · intro a ha hw
    rw [hS] at ha
    rcases List.mem_append.mp ha with ha1 | ha1
    · exact hasRecord_of_eq hA _ (h4 a ha1 hw)
    · simp only [List.mem_singleton] at ha1
      rw [ha1, hst] at hw
      exact absurd hw (by decide)
  · intro m hm hother hfin hnl
    have hm0 := hm
    rw [hM] at hm
    rcases List.mem_append.mp hm with hm | hm
    · -- a milestone of an older service
      have hne : m.ServiceID ≠ env.newServiceID := hfM m hm
      have hfs := finalSequence_append_other _ m.ServiceID hM (by
        intro e he
        obtain ⟨i, x, _, rfl⟩ := hnew e he
        exact fun h => hne h.symm)
      rw [hfs] at hfin
      obtain ⟨x, hx, hxs, hxi⟩ := hother
      rw [hM] at hx
      rcases List.mem_append.mp hx with hx | hx
      · exact answered_of_eq hA _ (h5 m hm ⟨x, hx, hxs, hxi⟩ hfin hnl)
      · obtain ⟨i, y, _, rfl⟩ := hnew x hx
        exact absurd hxs.symm hne
    · -- a milestone of the new service: the last one is locked
      exfalso
      obtain ⟨i, a, hia, rfl⟩ := hnew m hm
      simp only at hother hfin hnl
      have hle := finalSequence_le hfin
      have hilt : i < amounts.length := by
        by_contra hge
        rw [List.getElem?_eq_none (not_lt.mp hge)] at hia
        cases hia
      obtain ⟨x, hx, hxs, hxi⟩ := hother
      rw [hM] at hx
      rcases List.mem_append.mp hx with hx | hx
      · exact hfM x hx hxs
      · obtain ⟨j, y, hjy, rfl⟩ := hnew x hx
        simp only at hxi
        have hji : j ≠ i := fun h => hxi (by rw [h])
        have hj := hle _ (hrow j y hjy) rfl
        simp only at hj
        -- the row with the highest index
        have hlt : amounts.length - 1 < amounts.length := by omega
        have hlast : amounts[amounts.length - 1]? = some amounts[amounts.length - 1] :=
          List.getElem?_eq_getElem hlt
        have hl := hle _ (hrow _ _ hlast) rfl
        simp only at hl
        have h0 : i ≠ 0 := by omega
        have hi1 : i + 1 = amounts.length := by omega
        rw [if_neg h0, if_pos hi1] at hnl
        exact hnl rfl

/-- The deletion of a shop with everything it owns. -/
theorem workflowInvariant_delete {s t : Store} (id : String)
    (hS : t.services = (shop.DeleteByID s id).services)
    (hM : t.milestones = (shop.DeleteByID s id).milestones)
    (hA : t.approvals = (shop.DeleteByID s id).approvals)
    (h : WorkflowInvariant s) : WorkflowInvariant t := by
  obtain ⟨h1, h2, h3, h4, h5⟩ := h
  simp only [shop.DeleteByID] at hS hM hA
  refine ⟨?_, ?_, ?_, ?_, ?_⟩
  · intro a ha b hb hab
    rw [hS] at ha hb
    exact h1 a (List.mem_filter.mp ha).1 b (List.mem_filter.mp hb).1 hab
  · intro a ha b hb hab
    rw [hM] at ha hb
    exact h2 a (List.mem_filter.mp ha).1 b (List.mem_filter.mp hb).1 hab
  · intro m hm hl
    rw [hM] at hm
    exact h3 m (List.mem_filter.mp hm).1 hl
  · intro sv hsv hw
    rw [hS] at hsv
    obtain ⟨hsv0, hshop⟩ := List.mem_filter.mp hsv
    obtain ⟨a, ha, hax⟩ := h4 sv hsv0 hw
    refine ⟨a, ?_, hax⟩
    rw [hA, List.mem_filter]
    refine ⟨ha, ?_⟩
    simp only [Bool.not_eq_true', List.any_eq_false, decide_eq_true_eq, not_and]
    intro sv2 hsv2 hid2 hshop2
    have := h1 sv2 hsv2 sv hsv0 (hid2.trans hax)
    subst this
    simp [hshop2] at hshop
  · intro m hm hother hfin hnl
    rw [hM] at hm
    obtain ⟨hm0, hown⟩ := List.mem_filter.mp hm
    have hfs := finalSequence_filter _ m.ServiceID hM (by
      intro x _ hxs
      rw [hxs]; exact hown)
    rw [hfs] at hfin
    obtain ⟨x, hx, hxs, hxi⟩ := hother
    rw [hM] at hx
    obtain ⟨⟨r, hr, hrx⟩, hall⟩ := h5 m hm0 ⟨x, (List.mem_filter.mp hx).1, hxs, hxi⟩ hfin hnl
    refine ⟨⟨r, ?_, hrx⟩, ?_⟩
    · rw [hA, List.mem_filter]
      refine ⟨hr, ?_⟩
      rw [hrx]; exact hown
    · intro b hb hbx
      rw [hA] at hb
      exact hall b (List.mem_filter.mp hb).1 hbx

/-! ### The handlers keep the invariant -/

theorem workflowInvariant_patchStatus (now dbNow : Time) (commitErr : Option GoError)
    (store : Store) (shopCtx : Option shop.Shop) (id : String)
    (req : Option service.PatchStatusRequest) (h : WorkflowInvariant store) :
    WorkflowInvariant (service.PatchStatus now dbNow commitErr store shopCtx id req).store := by
  rcases patchStatus_effect now dbNow commitErr store shopCtx id req with
    ⟨hS, hM, hA⟩ | ⟨sh, svc, next, _, _, hS, hM, hA⟩
  · exact workflowInvariant_of_eq hS hM hA h
  · exact workflowInvariant_patch dbNow sh.ID svc.ID next svc.CompletedViaOverride _ hS hM hA h

theorem workflowInvariant_clientAction (now dbNow : Time) (commitErr : Option GoError)
    (store : Store) (token note : String) (approve : Bool) (h : WorkflowInvariant store) :
    WorkflowInvariant
      (portal.clientAction now dbNow commitErr store token note approve).store := by
  rcases clientAction_effect now dbNow commitErr store token note approve with
    ⟨hS, hM, hA⟩ | ⟨svc, hsvc, hst, ⟨hS, hM, hA⟩ | ⟨hS, hM, hA⟩⟩
  · exact workflowInvariant_of_eq hS hM hA h
  · exact workflowInvariant_approve dbNow svc note hsvc hst hS hM hA h
  · exact workflowInvariant_revision dbNow svc.ShopID svc.ID note hS hM hA h

/-- With unique ids, no row with the id of a record that is not locked is locked. -/
theorem not_locked_of_record {s : Store} {mid : String} {m : milestone.Record}
    (hu : UniqueMilestoneIDs s)
    (hrow : ∃ r ∈ s.milestones, r.ID = mid ∧ m.ID = r.ID ∧ m.Status = r.Status)
    (hl : m.Status ≠ "locked") : ∀ r ∈ s.milestones, r.ID = m.ID → r.Status ≠ "locked" := by
  obtain ⟨r0, hr0, _, hid, hst⟩ := hrow
  intro r hr hrid
  have := hu r hr r0 hr0 (hrid.trans hid)
  subst this
  rw [← hst]
  exact hl

theorem workflowInvariant_requestPayment (cfg : config.Config) (platform : shopify.Platform)
    (now : Time) (commitErr : Option GoError) (store : Store) (shopCtx : Option shop.Shop)
    (id : String) (h : WorkflowInvariant store) :
    WorkflowInvariant
      (payment.RequestPayment cfg platform now commitErr store shopCtx id).store := by
  obtain ⟨hS, hA, hM⟩ := requestPayment_effect cfg platform now commitErr store shopCtx id
  rcases hM with hM | ⟨sh, m, d, u, hg, hl, hM⟩
  · exact workflowInvariant_of_eq hS hM hA h
  · exact workflowInvariant_setDraftOrder m.ID d u hS hM hA
      (not_locked_of_record h.2.1 (getForUpdateScoped_row hg) hl) h

theorem workflowInvariant_applyMilestonePayment (s : Store) (env : webhook.Env)
    (shopRec : shop.Shop) (milestoneID : String) (orderID : Int) (h : WorkflowInvariant s) :
    WorkflowInvariant
      (webhook.applyMilestonePaymentFromOrder s env shopRec milestoneID orderID).1 := by
  have hA := applyMilestonePayment_approvals s env shopRec milestoneID orderID
  rcases applyMilestonePayment_shape s env shopRec milestoneID orderID with
    he | ⟨m, hg, _, hl, hM, hS⟩
  · rw [he]; exact h
  · exact workflowInvariant_settle m.ID env.now env.dbNow shopRec.ID m.ServiceID hM hS hA
      (not_locked_of_record h.2.1 (getForUpdateScoped_row hg) hl) h

theorem workflowInvariant_handleMilestonePaid (s : Store) (dec : webhook.Decoders)
    (env : webhook.Env) (shopRec : shop.Shop) (body : String) (h : WorkflowInvariant s) :
    WorkflowInvariant (webhook.handleMilestonePaid s dec env shopRec body).1 := by
  have hA := handleMilestonePaid_approvals s dec env shopRec body
  rcases handleMilestonePaid_shape s dec env shopRec body with
    he | ⟨payload, mid, sid, m, _, _, hr, hg, _, hM, hS⟩
  · rw [he]; exact h
  · obtain ⟨r, hrm, hrd, hrid, _, hmr⟩ := resolveDraftOrder_row s shopRec.ID _ mid sid m
      h.2.1 hr hg
    have hnl : m.Status ≠ "locked" := by
      intro hl
      have hrl : r.Status = "locked" := by rw [hmr] at hl; exact hl
      have := h.2.2.1 r hrm hrl
      rw [this] at hrd
      cases hrd
    exact workflowInvariant_settle m.ID env.now env.dbNow shopRec.ID sid hM hS hA
      (not_locked_of_record h.2.1 (milestoneGetForUpdate_row hg) hnl) h

theorem workflowInvariant_handleOrdersPaid (s : Store) (lib : Lib) (dec : webhook.Decoders)
    (env : webhook.Env) (shopRec : shop.Shop) (body : String) (hfresh : FreshIDs env s)
    (h : WorkflowInvariant s) :
    WorkflowInvariant (webhook.handleOrdersPaid s lib dec env shopRec body).1 := by
  rcases handleOrdersPaid_cases s lib dec env shopRec body with
    he | ⟨payload, _, he⟩ |
    ⟨payload, pid, raw, cfg, total, amounts, hd, hid0, htp, hli, hkey, hprod, hpid, hcfg,
      htotal, hcalc, hnew⟩
  · rw [he]; exact h
  · rw [he]; exact workflowInvariant_applyMilestonePayment s env shopRec _ _ h
  · obtain ⟨_, hM, hS⟩ := ordersPaid_creates s lib dec env shopRec body payload pid raw cfg
      total amounts hd hid0 htp hli hkey hprod hpid hcfg htotal hcalc hnew hfresh.1 hfresh.2.1
    exact workflowInvariant_create env _ amounts rfl rfl hS hM
      (handleOrdersPaid_approvals s lib dec env shopRec body) hfresh h

theorem freshIDs_of_eq {env : webhook.Env} {s t : Store} (hS : t.services = s.services)
    (hM : t.milestones = s.milestones) (h : FreshIDs env s) : FreshIDs env t := by
  unfold FreshIDs at h ⊢
  rw [hS, hM]
  exact h

/-- The deletion of a shop reads the services only. -/
theorem deleteByID_of_eq {a b : Store} (hS : a.services = b.services)
    (hM : a.milestones = b.milestones) (hA : a.approvals = b.approvals) (id : String) :
    (shop.DeleteByID a id).services = (shop.DeleteByID b id).services ∧
      (shop.DeleteByID a id).milestones = (shop.DeleteByID b id).milestones ∧
      (shop.DeleteByID a id).approvals = (shop.DeleteByID b id).approvals := by
  simp only [shop.DeleteByID, hS, hM, hA, and_self]

theorem workflowInvariant_serveHTTP (cfg : config.Config) (lib : Lib) (dec : webhook.Decoders)
    (env : webhook.Env) (store : Store) (r : webhook.Request) (hfresh : FreshIDs env store)
    (h : WorkflowInvariant store) :
    WorkflowInvariant (webhook.ServeHTTP cfg lib dec env store r).store := by
  rcases serveHTTP_store cfg lib dec env store r with he | ⟨sh, topic, eventID, hash, body, he⟩
  · rw [he]; exact h
  rw [he]
  obtain ⟨hpool, hview⟩ := serveTx_effect lib dec env sh topic eventID hash body store
  rcases withTx_store env.commitErr store
      (webhook.serveTx lib dec env sh topic eventID hash body) with hw | ⟨herr, hw⟩
  · rw [hw]
    rcases hpool with hp | hp
    · rw [hp]; exact h
    · rw [hp]; exact workflowInvariant_delete sh.ID rfl rfl rfl h
  · rw [hw]
    rcases hview herr with hv | ⟨v1, hS, hM, hA, hv⟩
    · rw [hv]; exact h
    · have h1 : WorkflowInvariant v1 := workflowInvariant_of_eq hS hM hA h
      rcases hv with hv | ⟨_, hv⟩ | hv | hv
      · rw [hv]; exact h1
      · rw [hv]
        exact workflowInvariant_handleOrdersPaid v1 lib dec env sh body
          (freshIDs_of_eq hS hM hfresh) h1
      · rw [hv]; exact workflowInvariant_handleMilestonePaid v1 dec env sh body h1
      · rw [hv]; exact workflowInvariant_delete sh.ID rfl rfl rfl h1

theorem workflowInvariant_empty : WorkflowInvariant emptyStore := by
  refine ⟨?_, ?_, ?_, ?_, ?_⟩
  · intro a ha; cases ha
  · intro a ha; cases ha
  · intro a ha; cases ha
  · intro a ha; cases ha
  · intro a ha; cases ha

/-- Every store reached without an admin override satisfies the invariant. -/
theorem workflowInvariant_of_reachable {s : Store} (h : Reachable false s) :
    WorkflowInvariant s := by
  induction h with
  | empty => exact workflowInvariant_empty
  | other s t _ hS hM hA ih => exact workflowInvariant_of_eq hS hM hA ih
  | delivery cfg lib dec env s r _ hfresh ih =>
    exact workflowInvariant_serveHTTP cfg lib dec env s r hfresh ih
  | patchStatus now dbNow commitErr s shopCtx id req _ ih =>
    exact workflowInvariant_patchStatus now dbNow commitErr s shopCtx id req ih
  | clientAction now dbNow commitErr s token note approve _ ih =>
    exact workflowInvariant_clientAction now dbNow commitErr s token note approve ih
  | requestPayment cfg platform now commitErr s shopCtx id _ ih =>
    exact workflowInvariant_requestPayment cfg platform now commitErr s shopCtx id ih
  | adminOverride now dbNow commitErr s shopCtx id req hadmin _ _ => cases hadmin

/-! ### The override flag -/

theorem canTransition_completed (next : Status) : CanTransition StatusCompleted next = false := by
  unfold CanTransition
  rfl

theorem overrideFlag_of_eq {s t : Store} (hS : t.services = s.services)
    (h : OverrideFlagOnlyCompleted s) : OverrideFlagOnlyCompleted t := by
  unfold OverrideFlagOnlyCompleted at h ⊢
  rw [hS]; exact h

/-- A status update keeps the invariant when it sets the flag only together with
`Completed`. -/
theorem overrideFlag_updateStatus {s t : Store} (dbNow : Time) (shopID sid : String)
    (next : Status) (ov : Bool)
    (hS : t.services = (service.UpdateStatus s dbNow shopID sid next ov).services)
    (hov : ov = true → next = StatusCompleted)
    (h : OverrideFlagOnlyCompleted s) : OverrideFlagOnlyCompleted t := by
  intro sv' hsv' hflag
  rw [hS] at hsv'
  simp only [service.UpdateStatus, List.mem_map] at hsv'
  obtain ⟨sv, hsv, rfl⟩ := hsv'
  by_cases hc : sv.ShopID = shopID ∧ sv.ID = sid
  · rw [if_pos hc] at hflag ⊢
    exact hov hflag
  · rw [if_neg hc] at hflag ⊢
    exact h sv hsv hflag

theorem overrideFlag_delete {s t : Store} (id : String)
    (hS : t.services = (shop.DeleteByID s id).services)
    (h : OverrideFlagOnlyCompleted s) : OverrideFlagOnlyCompleted t := by
  intro sv hsv hflag
  rw [hS] at hsv
  simp only [shop.DeleteByID] at hsv
  exact h sv (List.mem_filter.mp hsv).1 hflag

theorem overrideFlag_patchStatus (now dbNow : Time) (commitErr : Option GoError)
    (store : Store) (shopCtx : Option shop.Shop) (id : String)
    (req : Option service.PatchStatusRequest) (h : OverrideFlagOnlyCompleted store) :
    OverrideFlagOnlyCompleted
      (service.PatchStatus now dbNow commitErr store shopCtx id req).store := by
  rcases patchStatus_effect now dbNow commitErr store shopCtx id req with
    ⟨hS, _, _⟩ | ⟨sh, svc, next, hg, hct, hS, _, _⟩
  · exact overrideFlag_of_eq hS h
  · refine overrideFlag_updateStatus dbNow sh.ID svc.ID next svc.CompletedViaOverride hS ?_ h
    intro hov
    have hst := h svc (getForUpdate_mem hg).1 hov
    rw [hst, canTransition_completed] at hct
    cases hct

theorem overrideFlag_clientAction (now dbNow : Time) (commitErr : Option GoError)
    (store : Store) (token note : String) (approve : Bool)
    (h : OverrideFlagOnlyCompleted store) :
    OverrideFlagOnlyCompleted
      (portal.clientAction now dbNow commitErr store token note approve).store := by
  rcases clientAction_effect now dbNow commitErr store token note approve with
    ⟨hS, _, _⟩ | ⟨svc, _, _, ⟨hS, _, _⟩ | ⟨hS, _, _⟩⟩
  · exact overrideFlag_of_eq hS h
  · exact overrideFlag_of_eq hS h
  · exact overrideFlag_updateStatus dbNow svc.ShopID svc.ID StatusInProgress false hS
      (fun hf => by cases hf) h

theorem overrideFlag_requestPayment (cfg : config.Config) (platform : shopify.Platform)
    (now : Time) (commitErr : Option GoError) (store : Store) (shopCtx : Option shop.Shop)
    (id : String) (h : OverrideFlagOnlyCompleted store) :
    OverrideFlagOnlyCompleted
      (payment.RequestPayment cfg platform now commitErr store shopCtx id).store :=
  overrideFlag_of_eq (requestPayment_effect cfg platform now commitErr store shopCtx id).1 h

theorem overrideFlag_adminOverride (now dbNow : Time) (commitErr : Option GoError)
    (store : Store) (shopCtx : Option shop.Shop) (id : String)
    (req : Option service.AdminOverrideRequest) (h : OverrideFlagOnlyCompleted store) :
    OverrideFlagOnlyCompleted
      (service.AdminOverride now dbNow commitErr store shopCtx id req).store := by
  rcases adminOverride_store now dbNow commitErr store shopCtx id req with
    he | ⟨sh, action, rq, he⟩
  · rw [he]; exact h
  · rw [he]
    obtain ⟨hp, hv⟩ := adminOverrideTx_services now dbNow sh id action rq store
    rcases withTx_store commitErr store (service.adminOverrideTx now dbNow sh id action rq) with
      hw | ⟨_, hw⟩
    · rw [hw, hp]; exact h
    · rw [hw]
      rcases hv with hS | ⟨sid, hS⟩ | ⟨sid, hS⟩
      · exact overrideFlag_of_eq hS h
      · exact overrideFlag_updateStatus dbNow sh.ID sid StatusCompleted true hS (fun _ => rfl) h
      · exact overrideFlag_updateStatus dbNow sh.ID sid StatusInProgress false hS
          (fun hf => by cases hf) h

theorem overrideFlag_settled {s t : Store} (dbNow : Time) (shopID sid : String)
    (hS : t.services = s.services ∨
      t.services = (service.UpdateStatus s dbNow shopID sid StatusCompleted false).services)
    (h : OverrideFlagOnlyCompleted s) : OverrideFlagOnlyCompleted t := by
  rcases hS with hS | hS
  · exact overrideFlag_of_eq hS h
  · exact overrideFlag_updateStatus dbNow shopID sid StatusCompleted false hS (fun _ => rfl) h

theorem overrideFlag_handleOrdersPaid (s : Store) (lib : Lib) (dec : webhook.Decoders)
    (env : webhook.Env) (shopRec : shop.Shop) (body : String) (hfresh : FreshIDs env s)
    (h : OverrideFlagOnlyCompleted s) :
    OverrideFlagOnlyCompleted (webhook.handleOrdersPaid s lib dec env shopRec body).1 := by
  rcases handleOrdersPaid_cases s lib dec env shopRec body with
    he | ⟨payload, _, he⟩ |
    ⟨payload, pid, raw, cfg, total, amounts, hd, hid0, htp, hli, hkey, hprod, hpid, hcfg,
      htotal, hcalc, hnew⟩
  · rw [he]; exact h
  · rw [he]
    rcases applyMilestonePayment_shape s env shopRec
        (webhook.ParseKeyFromNote lib payload.Note "milestone_id") payload.ID with
      he2 | ⟨m, _, _, _, _, hS⟩
    · rw [he2]; exact h
    · exact overrideFlag_settled env.dbNow shopRec.ID m.ServiceID hS h
  · obtain ⟨_, _, hS⟩ := ordersPaid_creates s lib dec env shopRec body payload pid raw cfg
      total amounts hd hid0 htp hli hkey hprod hpid hcfg htotal hcalc hnew hfresh.1 hfresh.2.1
    intro sv hsv hflag
    rw [hS] at hsv
    rcases List.mem_append.mp hsv with hsv1 | hsv1
    · exact h sv hsv1 hflag
    · simp only [List.mem_singleton] at hsv1
      rw [hsv1] at hflag
      cases hflag

theorem overrideFlag_handleMilestonePaid (s : Store) (dec : webhook.Decoders)
    (env : webhook.Env) (shopRec : shop.Shop) (body : String)
    (h : OverrideFlagOnlyCompleted s) :
    OverrideFlagOnlyCompleted (webhook.handleMilestonePaid s dec env shopRec body).1 := by
  rcases handleMilestonePaid_shape s dec env shopRec body with
    he | ⟨_, _, sid, _, _, _, _, _, _, _, hS⟩
  · rw [he]; exact h
  · exact overrideFlag_settled env.dbNow shopRec.ID sid hS h

theorem overrideFlag_serveHTTP (cfg : config.Config) (lib : Lib) (dec : webhook.Decoders)
    (env : webhook.Env) (store : Store) (r : webhook.Request) (hfresh : FreshIDs env store)
    (h : OverrideFlagOnlyCompleted store) :
    OverrideFlagOnlyCompleted (webhook.ServeHTTP cfg lib dec env store r).store := by
  rcases serveHTTP_store cfg lib dec env store r with he | ⟨sh, topic, eventID, hash, body, he⟩
  · rw [he]; exact h
  rw [he]
  obtain ⟨hpool, hview⟩ := serveTx_effect lib dec env sh topic eventID hash body store
  rcases withTx_store env.commitErr store
      (webhook.serveTx lib dec env sh topic eventID hash body) with hw | ⟨herr, hw⟩
  · rw [hw]
    rcases hpool with hp | hp
    · rw [hp]; exact h
    · rw [hp]; exact overrideFlag_delete sh.ID rfl h
  · rw [hw]
    rcases hview herr with hv | ⟨v1, hS, hM, _, hv⟩
    · rw [hv]; exact h
    · have h1 : OverrideFlagOnlyCompleted v1 := overrideFlag_of_eq hS h
      rcases hv with hv | ⟨_, hv⟩ | hv | hv
      · rw [hv]; exact h1
      · rw [hv]
        exact overrideFlag_handleOrdersPaid v1 lib dec env sh body
          (freshIDs_of_eq hS hM hfresh) h1
      · rw [hv]; exact overrideFlag_handleMilestonePaid v1 dec env sh body h1
      · rw [hv]; exact overrideFlag_delete sh.ID rfl h1

/-- In every reachable store, with or without admin overrides, a service flagged as completed
by an override is `Completed`. -/
theorem overrideFlag_of_reachable {admin : Bool} {s : Store} (h : Reachable admin s) :
    OverrideFlagOnlyCompleted s := by
  induction h with
  | empty => intro sv hsv; cases hsv
  | other s t _ hS _ _ ih => exact overrideFlag_of_eq hS ih
  | delivery cfg lib dec env s r _ hfresh ih =>
    exact overrideFlag_serveHTTP cfg lib dec env s r hfresh ih
  | patchStatus now dbNow commitErr s shopCtx id req _ ih =>
    exact overrideFlag_patchStatus now dbNow commitErr s shopCtx id req ih
  | clientAction now dbNow commitErr s token note approve _ ih =>
    exact overrideFlag_clientAction now dbNow commitErr s token note approve ih
  | requestPayment cfg platform now commitErr s shopCtx id _ ih =>
    exact overrideFlag_requestPayment cfg platform now commitErr s shopCtx id ih
  | adminOverride now dbNow commitErr s shopCtx id req _ _ ih =>
    exact overrideFlag_adminOverride now dbNow commitErr s shopCtx id req ih

/-- The completion guard of `PatchStatus` for a service without the override flag whose last
milestone is not paid. -/
theorem patchStatus_final_not_paid (now dbNow : Time) (commitErr : Option GoError)
    (store : Store) (shopCtx : shop.Shop) (id : String) (svc : service.Service)
    (final : String) (hid : id ≠ "")
    (hsvc : service.GetForUpdate store shopCtx.ID id = .ok svc)
    (hov : svc.CompletedViaOverride = false)
    (hfinal : milestone.finalStatus store svc.ID = .ok final) (hnp : final ≠ "paid") :
    service.PatchStatus now dbNow commitErr store (some shopCtx) id (some ⟨StatusCompleted⟩) =
      ⟨store, .apiError 409 "FINAL_MILESTONE_LOCKED" "final milestone is not paid"⟩ := by
  have hp : service.ParseStatus StatusCompleted = .ok StatusCompleted := rfl
  simp only [service.PatchStatus, if_neg hid, hp, db.WithTx, service.patchStatusTx, hsvc, hov,
    hfinal]
  simp [hnp]

/-! ## Payment requests and locked milestones, admin overrides included -/

theorem referenceInvariant_of_eq {s t : Store} (hM : t.milestones = s.milestones)
    (h : ReferenceInvariant s) : ReferenceInvariant t := by
  obtain ⟨h2, h3⟩ := h
  refine ⟨?_, ?_⟩
  · unfold UniqueMilestoneIDs at h2 ⊢; rw [hM]; exact h2
  · unfold NoLockedReference at h3 ⊢; rw [hM]; exact h3

/-- `MarkPaid` locks nothing and writes no payment request. -/
theorem referenceInvariant_markPaid {s t : Store} (mid : String) (now : Time)
    (hM : t.milestones = (milestone.MarkPaid s mid now).milestones)
    (h : ReferenceInvariant s) : ReferenceInvariant t := by
  obtain ⟨h2, h3⟩ := h
  refine ⟨uniqueMilestoneIDs_map _ ?_ hM h2, noLockedReference_map _ hM ?_ h3⟩
  · intro m
    by_cases hc : m.ID = mid <;> simp [hc]
  · intro m _ hl
    by_cases hc : m.ID = mid
    · rw [if_pos hc] at hl
      simp only at hl
      exact absurd hl (by decide)
    · rw [if_neg hc] at hl ⊢
      exact ⟨hl, rfl⟩

/-- `UnlockFinal` locks nothing and writes no payment request. -/
theorem referenceInvariant_unlockFinal {s t : Store} (sid : String)
    (hM : t.milestones = (milestone.UnlockFinal s sid).milestones)
    (h : ReferenceInvariant s) : ReferenceInvariant t := by
  obtain ⟨h2, h3⟩ := h
  refine ⟨uniqueMilestoneIDs_map _ ?_ hM h2, noLockedReference_map _ hM ?_ h3⟩
  · intro m
    by_cases hc : m.ServiceID = sid ∧ some m.Sequence = milestone.finalSequence s sid ∧
      m.Status = "locked" <;> simp [hc]
  · intro m _ hl
    by_cases hc : m.ServiceID = sid ∧ some m.Sequence = milestone.finalSequence s sid ∧
      m.Status = "locked"
    · rw [if_pos hc] at hl
      simp only at hl
      exact absurd hl (by decide)
    · rw [if_neg hc] at hl ⊢
      exact ⟨hl, rfl⟩

/-- `SetDraftOrder` on a milestone that is not locked. -/
theorem referenceInvariant_setDraftOrder {s t : Store} (mid d u : String)
    (hM : t.milestones = (milestone.SetDraftOrder s mid d u).milestones)
    (hnl : ∀ r ∈ s.milestones, r.ID = mid → r.Status ≠ "locked")
    (h : ReferenceInvariant s) : ReferenceInvariant t := by
  obtain ⟨h2, h3⟩ := h
  have hst : ∀ m : milestone.Row,
      (if m.ID = mid then { m with DraftOrderID := some d, CheckoutURL := some u }
        else m).Status = m.Status := by
    intro m
    by_cases hc : m.ID = mid <;> simp [hc]
  refine ⟨uniqueMilestoneIDs_map _ ?_ hM h2, noLockedReference_map _ hM ?_ h3⟩
  · intro m
    by_cases hc : m.ID = mid <;> simp [hc]
  · intro m hm hl
    rw [hst] at hl
    by_cases hc : m.ID = mid
    · exact absurd hl (hnl m hm hc)
    · rw [if_neg hc]
      exact ⟨hl, rfl⟩

/-- The creation of milestones with identifiers that are new; they carry no payment
request. -/
theorem referenceInvariant_create {s t : Store} (env : webhook.Env)
    (amounts : List CalculatedMilestone)
    (hM : t.milestones = s.milestones ++ amounts.enum.map (fun p =>
      (⟨env.newMilestoneID p.1, env.newServiceID, (p.1 : Int), p.2.Amount,
        if p.1 = 0 then "paid" else if p.1 + 1 = amounts.length then "locked" else "unpaid",
        none, none, if p.1 = 0 then some env.now else none⟩ : milestone.Row)))
    (hfresh : FreshIDs env s)
    (h : ReferenceInvariant s) : ReferenceInvariant t := by
  obtain ⟨h2, h3⟩ := h
  obtain ⟨_, _, hfI, hinj⟩ := hfresh
  have hnew : ∀ r ∈ amounts.enum.map (fun p =>
      (⟨env.newMilestoneID p.1, env.newServiceID, (p.1 : Int), p.2.Amount,
        if p.1 = 0 then "paid" else if p.1 + 1 = amounts.length then "locked" else "unpaid",
        none, none, if p.1 = 0 then some env.now else none⟩ : milestone.Row)),
      ∃ (i : Nat) (a : CalculatedMilestone), amounts[i]? = some a ∧
        r = ⟨env.newMilestoneID i, env.newServiceID, (i : Int), a.Amount,
          if i = 0 then "paid" else if i + 1 = amounts.length then "locked" else "unpaid",
          none, none, if i = 0 then some env.now else none⟩ := by
    intro r hr
    simp only [List.mem_map] at hr
    obtain ⟨⟨i, a⟩, hp, rfl⟩ := hr
    exact ⟨i, a, List.mk_mem_enum_iff_getElem?.mp hp, rfl⟩
  refine ⟨?_, ?_⟩
  · intro a ha b hb hab
    rw [hM] at ha hb
    rcases List.mem_append.mp ha with ha1 | ha1 <;>
      rcases List.mem_append.mp hb with hb1 | hb1
    · exact h2 a ha1 b hb1 hab
    · obtain ⟨j, y, _, rfl⟩ := hnew b hb1
      exact absurd hab (hfI a ha1 j)
    · obtain ⟨i, x, _, rfl⟩ := hnew a ha1
      exact absurd hab.symm (hfI b hb1 i)
    · obtain ⟨i, x, hix, rfl⟩ := hnew a ha1
      obtain ⟨j, y, hjy, rfl⟩ := hnew b hb1
      have hij : i = j := hinj i j hab
      subst hij
      rw [hix] at hjy
      injection hjy with hjy
      subst hjy
      rfl
  · intro m hm hl
    rw [hM] at hm
    rcases List.mem_append.mp hm with hm | hm
    · exact h3 m hm hl
    · obtain ⟨i, x, _, rfl⟩ := hnew m hm
      rfl

/-- The deletion of a shop with everything it owns. -/
theorem referenceInvariant_delete {s t : Store} (id : String)
    (hM : t.milestones = (shop.DeleteByID s id).milestones)
    (h : ReferenceInvariant s) : ReferenceInvariant t := by
  obtain ⟨h2, h3⟩ := h
  simp only [shop.DeleteByID] at hM
  refine ⟨?_, ?_⟩
  · intro a ha b hb hab
    rw [hM] at ha hb
    exact h2 a (List.mem_filter.mp ha).1 b (List.mem_filter.mp hb).1 hab
  · intro m hm hl
    rw [hM] at hm
    exact h3 m (List.mem_filter.mp hm).1 hl

theorem referenceInvariant_patchStatus (now dbNow : Time) (commitErr : Option GoError)
    (store : Store) (shopCtx : Option shop.Shop) (id : String)
    (req : Option service.PatchStatusRequest) (h : ReferenceInvariant store) :
    ReferenceInvariant (service.PatchStatus now dbNow commitErr store shopCtx id req).store := by
  rcases patchStatus_effect now dbNow commitErr store shopCtx id req with
    ⟨_, hM, _⟩ | ⟨sh, svc, next, _, _, _, hM, _⟩
  · exact referenceInvariant_of_eq hM h
  · exact referenceInvariant_of_eq hM h

theorem referenceInvariant_clientAction (now dbNow : Time) (commitErr : Option GoError)
    (store : Store) (token note : String) (approve : Bool) (h : ReferenceInvariant store) :
    ReferenceInvariant
      (portal.clientAction now dbNow commitErr store token note approve).store := by
  rcases clientAction_effect now dbNow commitErr store token note approve with
    ⟨_, hM, _⟩ | ⟨svc, _, _, ⟨_, hM, _⟩ | ⟨_, hM, _⟩⟩
  · exact referenceInvariant_of_eq hM h
  · exact referenceInvariant_unlockFinal svc.ID hM h
  · exact referenceInvariant_of_eq hM h

theorem referenceInvariant_requestPayment (cfg : config.Config) (platform : shopify.Platform)
    (now : Time) (commitErr : Option GoError) (store : Store) (shopCtx : Option shop.Shop)
    (id : String) (h : ReferenceInvariant store) :
    ReferenceInvariant
      (payment.RequestPayment cfg platform now commitErr store shopCtx id).store := by
  obtain ⟨_, _, hM⟩ := requestPayment_effect cfg platform now commitErr store shopCtx id
  rcases hM with hM | ⟨sh, m, d, u, hg, hl, hM⟩
  · exact referenceInvariant_of_eq hM h
  · exact referenceInvariant_setDraftOrder m.ID d u hM
      (not_locked_of_record h.1 (getForUpdateScoped_row hg) hl) h

theorem referenceInvariant_applyMilestonePayment (s : Store) (env : webhook.Env)
    (shopRec : shop.Shop) (milestoneID : String) (orderID : Int) (h : ReferenceInvariant s) :
    ReferenceInvariant
      (webhook.applyMilestonePaymentFromOrder s env shopRec milestoneID orderID).1 := by
  rcases applyMilestonePayment_shape s env shopRec milestoneID orderID with
    he | ⟨m, _, _, _, hM, _⟩
  · rw [he]; exact h
  · exact referenceInvariant_markPaid m.ID env.now hM h

theorem referenceInvariant_handleMilestonePaid (s : Store) (dec : webhook.Decoders)
    (env : webhook.Env) (shopRec : shop.Shop) (body : String) (h : ReferenceInvariant s) :
    ReferenceInvariant (webhook.handleMilestonePaid s dec env shopRec body).1 := by
  rcases handleMilestonePaid_shape s dec env shopRec body with
    he | ⟨payload, mid, sid, m, _, _, _, _, _, hM, _⟩
  · rw [he]; exact h
  · exact referenceInvariant_markPaid m.ID env.now hM h

theorem referenceInvariant_handleOrdersPaid (s : Store) (lib : Lib) (dec : webhook.Decoders)
    (env : webhook.Env) (shopRec : shop.Shop) (body : String) (hfresh : FreshIDs env s)
    (h : ReferenceInvariant s) :
    ReferenceInvariant (webhook.handleOrdersPaid s lib dec env shopRec body).1 := by
  rcases handleOrdersPaid_cases s lib dec env shopRec body with
    he | ⟨payload, _, he⟩ |
    ⟨payload, pid, raw, cfg, total, amounts, hd, hid0, htp, hli, hkey, hprod, hpid, hcfg,
      htotal, hcalc, hnew⟩
  · rw [he]; exact h
  · rw [he]; exact referenceInvariant_applyMilestonePayment s env shopRec _ _ h
  · obtain ⟨_, hM, _⟩ := ordersPaid_creates s lib dec env shopRec body payload pid raw cfg
      total amounts hd hid0 htp hli hkey hprod hpid hcfg htotal hcalc hnew hfresh.1 hfresh.2.1
    exact referenceInvariant_create env amounts hM hfresh h

theorem referenceInvariant_serveHTTP (cfg : config.Config) (lib : Lib) (dec : webhook.Decoders)
    (env : webhook.Env) (store : Store) (r : webhook.Request) (hfresh : FreshIDs env store)
    (h : ReferenceInvariant store) :
    ReferenceInvariant (webhook.ServeHTTP cfg lib dec env store r).store := by
  rcases serveHTTP_store cfg lib dec env store r with he | ⟨sh, topic, eventID, hash, body, he⟩
  · rw [he]; exact h
  rw [he]
  obtain ⟨hpool, hview⟩ := serveTx_effect lib dec env sh topic eventID hash body store
  rcases withTx_store env.commitErr store
      (webhook.serveTx lib dec env sh topic eventID hash body) with hw | ⟨herr, hw⟩
  · rw [hw]
    rcases hpool with hp | hp
    · rw [hp]; exact h
    · rw [hp]; exact referenceInvariant_delete sh.ID rfl h
  · rw [hw]
    rcases hview herr with hv | ⟨v1, hS, hM, hA, hv⟩
    · rw [hv]; exact h
    · have h1 : ReferenceInvariant v1 := referenceInvariant_of_eq hM h
      rcases hv with hv | ⟨_, hv⟩ | hv | hv
      · rw [hv]; exact h1
      · rw [hv]
        exact referenceInvariant_handleOrdersPaid v1 lib dec env sh body
          (freshIDs_of_eq hS hM hfresh) h1
      · rw [hv]; exact referenceInvariant_handleMilestonePaid v1 dec env sh body h1
      · rw [hv]; exact referenceInvariant_delete sh.ID rfl h1

/-- The closure of `AdminOverride` changes the milestones by at most one `MarkPaid`. -/
theorem adminOverrideTx_milestones (now dbNow : Time) (sh : shop.Shop) (id : String)
    (action : adminaction.ActionType) (rq : service.AdminOverrideRequest) (store : Store) :
    (service.adminOverrideTx now dbNow sh id action rq ⟨store, store⟩).st.view.milestones =
        store.milestones ∨
      ∃ mid, (service.adminOverrideTx now dbNow sh id action rq
          ⟨store, store⟩).st.view.milestones =
        (milestone.MarkPaid store mid now).milestones := by
  unfold service.adminOverrideTx
  cases hg : service.GetForUpdate store sh.ID id with
  | error e => exact Or.inl rfl
  | ok svc =>
    simp only []
    by_cases h1 : action = adminaction.ActionMarkMilestonePaid
    · simp only [if_pos h1]
      split
      · exact Or.inl rfl
      · rename_i v1 hv
        split at hv
        · cases hv
        · split at hv
          · cases hv
          · rename_i m _
            split at hv
            · cases hv
            · split at hv
              · cases hv
              · injection hv with hv
                subst hv
                exact Or.inr ⟨m.ID, rfl⟩
    · simp only [if_neg h1]
      by_cases h2 : action = adminaction.ActionCompleteServiceWithoutFinalPay
      · simp only [if_pos h2]
        exact Or.inl rfl
      · simp only [if_neg h2]
        by_cases h3 : action = adminaction.ActionReopenService
        · simp only [if_pos h3]
          exact Or.inl rfl
        · simp only [if_neg h3]
          exact Or.inl rfl

theorem referenceInvariant_adminOverride (now dbNow : Time) (commitErr : Option GoError)
    (store : Store) (shopCtx : Option shop.Shop) (id : String)
    (req : Option service.AdminOverrideRequest) (h : ReferenceInvariant store) :
    ReferenceInvariant
      (service.AdminOverride now dbNow commitErr store shopCtx id req).store := by
  rcases adminOverride_store now dbNow commitErr store shopCtx id req with
    he | ⟨sh, action, rq, he⟩
  · rw [he]; exact h
  · rw [he]
    obtain ⟨hp, _⟩ := adminOverrideTx_services now dbNow sh id action rq store
    rcases withTx_store commitErr store (service.adminOverrideTx now dbNow sh id action rq) with
      hw | ⟨_, hw⟩
    · rw [hw, hp]; exact h
    · rw [hw]
      rcases adminOverrideTx_milestones now dbNow sh id action rq store with hM | ⟨mid, hM⟩
      · exact referenceInvariant_of_eq hM h
      · exact referenceInvariant_markPaid mid now hM h

/-- Every store that the handlers produce, admin overrides included, has unique milestone
ids and no locked milestone with a payment request. -/
theorem referenceInvariant_of_reachable {admin : Bool} {s : Store} (h : Reachable admin s) :
    ReferenceInvariant s := by
  induction h with
  | empty => exact ⟨fun a ha => (by cases ha), fun a ha => (by cases ha)⟩
  | other s t _ _ hM _ ih => exact referenceInvariant_of_eq hM ih
  | delivery cfg lib dec env s r _ hfresh ih =>
    exact referenceInvariant_serveHTTP cfg lib dec env s r hfresh ih
  | patchStatus now dbNow commitErr s shopCtx id req _ ih =>
    exact referenceInvariant_patchStatus now dbNow commitErr s shopCtx id req ih
  | clientAction now dbNow commitErr s token note approve _ ih =>
    exact referenceInvariant_clientAction now dbNow commitErr s token note approve ih
  | requestPayment cfg platform now commitErr s shopCtx id _ ih =>
    exact referenceInvariant_requestPayment cfg platform now commitErr s shopCtx id ih
  | adminOverride now dbNow commitErr s shopCtx id req _ _ ih =>
    exact referenceInvariant_adminOverride now dbNow commitErr s shopCtx id req ih

/-! # The claims -/

/-! ## C1: the amounts sum to the rounded total -/

/-- The template 50% + 50% (final) is accepted. -/
theorem validate_halves :
    ValidateTemplate [⟨TemplateTypePercentage, 50, false⟩, ⟨TemplateTypePercentage, 50, true⟩]
      = none := by
  rw [validateTemplate_eq_none_iff]
  refine ⟨[⟨TemplateTypePercentage, 50, false⟩], ⟨TemplateTypePercentage, 50, true⟩, rfl, rfl,
    ⟨by norm_num, Or.inr rfl⟩, ?_⟩
  intro x hx
  simp only [List.mem_singleton] at hx
  subst hx
  exact ⟨⟨by norm_num, Or.inr rfl⟩, rfl⟩

theorem percentage_ne_fixed : TemplateTypePercentage ≠ TemplateTypeFixed := by decide

/-- Total 10.01 split 50% + 50% at scale 2 and at scale 0 (which means scale 2). -/
theorem calculate_halves (scale : CurrencyScale) (hs : scale = 2 ∨ scale = 0) :
    CalculateAmounts (1001 / 100)
      [⟨TemplateTypePercentage, 50, false⟩, ⟨TemplateTypePercentage, 50, true⟩] scale
      = .ok [⟨501 / 100, false⟩, ⟨5, true⟩] := by
  rw [calculateAmounts_of_valid _ _ _ validate_halves (by norm_num)]
  rcases hs with rfl | rfl <;>
    norm_num [correctedFinal, effectiveScale, DefaultCurrencyScale, entryAmount,
      percentage_ne_fixed, Decimal.Round, Decimal.Div, Decimal.DivisionPrecision]

/-- C1, counterexample: with scale 0 the calculator works at the default scale 2, so for the
accepted template 50% + 50% (final) and total 10.01 the amounts are 5.01 and 5.00; their sum
10.01 is not 10.01 rounded to 0 decimal places (which is 10). -/
theorem C1_counterexample :
    ValidateTemplate [⟨TemplateTypePercentage, 50, false⟩, ⟨TemplateTypePercentage, 50, true⟩]
        = none ∧
      (0 : Decimal) < 1001 / 100 ∧
      CalculateAmounts (1001 / 100)
        [⟨TemplateTypePercentage, 50, false⟩, ⟨TemplateTypePercentage, 50, true⟩] 0
        = .ok [⟨501 / 100, false⟩, ⟨5, true⟩] ∧
      amountsSum [⟨501 / 100, false⟩, ⟨5, true⟩] ≠ Decimal.Round (1001 / 100) 0 := by
  refine ⟨validate_halves, by norm_num, calculate_halves 0 (Or.inr rfl), ?_⟩
  norm_num [amountsSum, Decimal.Round]

/-- C1, amended: whenever `CalculateAmounts` returns milestones, their exact sum is the total
rounded to `scale` places when `scale` is positive, and the total rounded to the default 2
places when `scale ≤ 0`. -/
theorem C1_sum_is_rounded_total (total : Decimal) (ts : List MilestoneTemplate)
    (scale : CurrencyScale) (out : List CalculatedMilestone)
    (h : CalculateAmounts total ts scale = .ok out) :
    (0 < scale → amountsSum out = Decimal.Round total scale) ∧
      (scale ≤ 0 → amountsSum out = Decimal.Round total 2) := by
  have hs := calculateAmounts_sum total ts scale out h
  constructor
  · intro hpos
    rw [hs, effectiveScale, if_neg (not_le.mpr hpos)]
  · intro hle
    rw [hs, effectiveScale, if_pos hle]
    rfl

/-- C1, witness: total 10.01, template 50% + 50% (final), scale 2. -/
theorem C1_sum_is_rounded_total_witness :
    CalculateAmounts (1001 / 100)
        [⟨TemplateTypePercentage, 50, false⟩, ⟨TemplateTypePercentage, 50, true⟩] 2
        = .ok [⟨501 / 100, false⟩, ⟨5, true⟩] ∧
      (((0 : CurrencyScale) < 2 →
        amountsSum [⟨501 / 100, false⟩, ⟨5, true⟩] = Decimal.Round (1001 / 100) 2) ∧
      ((2 : CurrencyScale) ≤ 0 →
        amountsSum [⟨501 / 100, false⟩, ⟨5, true⟩] = Decimal.Round (1001 / 100) 2)) :=
  ⟨calculate_halves 2 (Or.inl rfl),
    C1_sum_is_rounded_total (1001 / 100)
      [⟨TemplateTypePercentage, 50, false⟩, ⟨TemplateTypePercentage, 50, true⟩] 2
      [⟨501 / 100, false⟩, ⟨5, true⟩] (calculate_halves 2 (Or.inl rfl))⟩

/-! ## C4: the transition table -/

/-- Lookup in an association list keyed by strings, one entry at a time. -/
theorem lookup_cons_string {β : Type} (x lit : String) (v : β) (m : List (String × β)) :
    ((lit, v) :: m).lookup x = if x = lit then some v else m.lookup x := by
  by_cases hx : x = lit
  · subst hx; simp [List.lookup]
  · have e : (x == lit) = false := by simp [hx]
    rw [List.lookup, e, if_neg hx]

/-- C4: `CanTransition` holds exactly for the five listed pairs of strings, and never from
`Completed`. -/
theorem C4_canTransition_table :
    (∀ a b : Status, CanTransition a b = true ↔
      (a = "Draft" ∧ b = "Booked") ∨ (a = "Booked" ∧ b = "InProgress") ∨
      (a = "InProgress" ∧ b = "WaitingForApproval") ∨
      (a = "WaitingForApproval" ∧ b = "Completed") ∨
      (a = "WaitingForApproval" ∧ b = "InProgress")) ∧
    (∀ x : Status, CanTransition "Completed" x = false) := by
  constructor
  · intro a b
    unfold CanTransition allowedTransitions StatusDraft StatusBooked StatusInProgress
      StatusWaitingForApproval StatusCompleted
    simp only [lookup_cons_string, List.lookup_nil]
    by_cases h1 : a = "Draft"
    · subst h1
      by_cases g : b = "Booked" <;> simp [g, lookup_cons_string]
    by_cases h2 : a = "Booked"
    · subst h2
      by_cases g : b = "InProgress" <;> simp [g, lookup_cons_string]
    by_cases h3 : a = "InProgress"
    · subst h3
      by_cases g : b = "WaitingForApproval" <;> simp [g, lookup_cons_string]
    by_cases h4 : a = "WaitingForApproval"
    · subst h4
      by_cases g : b = "Completed" <;> by_cases g2 : b = "InProgress" <;>
        simp [g, g2, lookup_cons_string]
    by_cases h5 : a = "Completed"
    · subst h5
      simp
    · simp [h1, h2, h3, h4, h5]
  · intro x
    rfl

/-! ## C5: the final entry -/

/-- C5: a template with no final entry, with more than one, or whose only final entry is not
the last entry is rejected by `ValidateTemplate`. -/
theorem C5_final_entry_rules (ts : List MilestoneTemplate)
    (h : ts.countP (fun t => t.IsFinal) = 0 ∨ 1 < ts.countP (fun t => t.IsFinal) ∨
      (ts.countP (fun t => t.IsFinal) = 1 ∧ ∃ l, ts.getLast? = some l ∧ l.IsFinal = false)) :
    ∃ e, ValidateTemplate ts = some e := by
  cases hv : ValidateTemplate ts with
  | some e => exact ⟨e, rfl⟩
  | none =>
    exfalso
    obtain ⟨-, -, hcount, l, hlast, hl⟩ := (validateTemplate_eq_none_iff_count ts).mp hv
    rcases h with h | h | ⟨-, l2, hlast2, hl2⟩
    · omega
    · omega
    · rw [hlast] at hlast2
      injection hlast2 with e
      subst e
      rw [hl] at hl2
      cases hl2

/-- C5, witness: the template of the repository test `FinalMustBeLast` (a final fixed 10
followed by a non-final fixed 90) is rejected. -/
theorem C5_final_entry_rules_witness :
    ([⟨TemplateTypeFixed, 10, true⟩, ⟨TemplateTypeFixed, 90, false⟩] :
        List MilestoneTemplate).countP (fun t => t.IsFinal) = 1 ∧
      (∃ e, ValidateTemplate [⟨TemplateTypeFixed, 10, true⟩, ⟨TemplateTypeFixed, 90, false⟩]
        = some e) :=
  ⟨by simp [List.countP_cons],
    C5_final_entry_rules [⟨TemplateTypeFixed, 10, true⟩, ⟨TemplateTypeFixed, 90, false⟩]
      (Or.inr (Or.inr ⟨by simp [List.countP_cons], ⟨TemplateTypeFixed, 90, false⟩, rfl, rfl⟩))⟩

/-! ## C6: the percentage sum in `ParseAndValidate` -/

/-- The template with the single entry 50% (final) is accepted by `ValidateTemplate`. -/
theorem validate_single_half :
    ValidateTemplate [⟨TemplateTypePercentage, 50, true⟩] = none := by
  rw [validateTemplate_eq_none_iff]
  exact ⟨[], ⟨TemplateTypePercentage, 50, true⟩, rfl, rfl, ⟨by norm_num, Or.inr rfl⟩,
    by simp⟩

/-- C7, counterexample: the all-percentage template with the single entry 50% (final) has
value sum 50, yet `ValidateTemplate` accepts it and `CalculateAmounts` returns the single
milestone 100.00 for the total 100. -/
theorem C7_counterexample :
    (∀ t ∈ ([⟨TemplateTypePercentage, 50, true⟩] : List MilestoneTemplate),
        t.Typ = TemplateTypePercentage) ∧
      (([⟨TemplateTypePercentage, 50, true⟩] : List MilestoneTemplate).map
        (fun t => t.Value)).sum ≠ 100 ∧
      ValidateTemplate [⟨TemplateTypePercentage, 50, true⟩] = none ∧
      CalculateAmounts 100 [⟨TemplateTypePercentage, 50, true⟩] 2 = .ok [⟨100, true⟩] := by
  refine ⟨by simp, by norm_num, validate_single_half, ?_⟩
  rw [calculateAmounts_of_valid _ _ _ validate_single_half (by norm_num)]
  norm_num [correctedFinal, effectiveScale, Decimal.Round]

/-- C7, amended: `ValidateTemplate` does not look at the sum of the values. It accepts an
all-percentage template exactly when the template is non-empty, every value is positive,
exactly one entry is final and that entry is the last one. The sum rule is the separate check
of `ParseAndValidate`, which rejects every decoded all-percentage config whose values do not
sum to 100. -/
theorem C7_validate_ignores_sum (ts : List MilestoneTemplate)
    (hall : ∀ t ∈ ts, t.Typ = TemplateTypePercentage) :
    (ValidateTemplate ts = none ↔
      ts ≠ [] ∧ (∀ t ∈ ts, 0 < t.Value) ∧ ts.countP (fun t => t.IsFinal) = 1 ∧
        ∃ l, ts.getLast? = some l ∧ l.IsFinal = true) ∧
    (∀ (unmarshal : RawMessage → Option serviceproduct.Config) (raw : RawMessage)
        (cfg : serviceproduct.Config),
      unmarshal raw = some cfg → cfg.Templates = ts →
      (ts.map (fun t => t.Value)).sum ≠ 100 →
      ∃ e, serviceproduct.ParseAndValidate unmarshal raw = .error e) := by
  constructor
  · rw [validateTemplate_eq_none_iff_count]
    constructor
    · rintro ⟨hne, hok, hc, hl⟩
      exact ⟨hne, fun t ht => (hok t ht).1, hc, hl⟩
    · rintro ⟨hne, hpos, hc, hl⟩
      exact ⟨hne, fun t ht => ⟨hpos t ht, Or.inr (hall t ht)⟩, hc, hl⟩
  · intro unmarshal raw cfg hd hts hsum
    subst hts
    rw [parseAndValidate_of_decoded unmarshal raw cfg hd]
    cases hv : ValidateTemplate cfg.Templates with
    | some e => exact ⟨e, rfl⟩
    | none =>
      rw [percentLoop_all _ _ hall, zero_add]
      simp only [ne_eq, hsum, not_false_eq_true, and_self, if_true]
      exact ⟨_, rfl⟩

/-- C7, witness: the amended statement at the single entry 50% (final). -/
theorem C7_validate_ignores_sum_witness :
    (∀ t ∈ ([⟨TemplateTypePercentage, 50, true⟩] : List MilestoneTemplate),
        t.Typ = TemplateTypePercentage) ∧
      (ValidateTemplate [⟨TemplateTypePercentage, 50, true⟩] = none ↔
        ([⟨TemplateTypePercentage, 50, true⟩] : List MilestoneTemplate) ≠ [] ∧
        (∀ t ∈ ([⟨TemplateTypePercentage, 50, true⟩] : List MilestoneTemplate), 0 < t.Value) ∧
        ([⟨TemplateTypePercentage, 50, true⟩] : List MilestoneTemplate).countP
          (fun t => t.IsFinal) = 1 ∧
        ∃ l, ([⟨TemplateTypePercentage, 50, true⟩] : List MilestoneTemplate).getLast? = some l ∧
          l.IsFinal = true) :=
  ⟨by simp, (C7_validate_ignores_sum [⟨TemplateTypePercentage, 50, true⟩] (by simp)).1⟩

/-! ## C8: the final amount -/

/-- C8: for an accepted template and a positive total, `CalculateAmounts` fails with
`FINAL_MILESTONE_INVALID` exactly when the corrected final amount (the rounded total minus the
rounded amounts of the entries before the last) is `≤ 0`; otherwise it succeeds, and the last
amount of every successful result is that corrected amount and is strictly positive. -/
theorem C8_final_amount (total : Decimal) (ts : List MilestoneTemplate)
    (scale : CurrencyScale) (hv : ValidateTemplate ts = none) (ht : 0 < total) :
    ((∃ e, CalculateAmounts total ts scale = .err e ∧ e.Code = "FINAL_MILESTONE_INVALID") ↔
        correctedFinal total (effectiveScale scale) ts ≤ 0) ∧
      ((∃ out, CalculateAmounts total ts scale = .ok out) ↔
        0 < correctedFinal total (effectiveScale scale) ts) ∧
      (∀ out, CalculateAmounts total ts scale = .ok out →
        ∃ l, out.getLast? = some l ∧
          l.Amount = correctedFinal total (effectiveScale scale) ts ∧ 0 < l.Amount) := by
  rw [calculateAmounts_of_valid total ts scale hv ht]
  by_cases hle : correctedFinal total (effectiveScale scale) ts ≤ 0
  · simp only [hle, if_true, iff_true]
    refine ⟨⟨_, rfl, rfl⟩, ?_, ?_⟩
    · constructor
      · rintro ⟨out, h⟩; cases h
      · intro h; exact absurd h (not_lt.mpr hle)
    · intro out h; cases h
  · simp only [hle, if_false, iff_false]
    refine ⟨?_, ?_, ?_⟩
    · rintro ⟨e, h, -⟩; cases h
    · exact ⟨fun _ => not_le.mp hle, fun _ => ⟨_, rfl⟩⟩
    · intro out h
      injection h with h
      subst h
      exact ⟨_, List.getLast?_concat _, rfl, not_le.mp hle⟩

/-- C8, witness: a fixed 150 followed by 50% (final) on the total 100 leaves the final
amount 100 - 150 = -50, and the calculation fails with `FINAL_MILESTONE_INVALID`. -/
theorem C8_final_amount_witness :
    ValidateTemplate [⟨TemplateTypeFixed, 150, false⟩, ⟨TemplateTypePercentage, 50, true⟩]
        = none ∧
      (0 : Decimal) < 100 ∧
      correctedFinal 100 (effectiveScale 2)
        [⟨TemplateTypeFixed, 150, false⟩, ⟨TemplateTypePercentage, 50, true⟩] = -50 ∧
      ((∃ e, CalculateAmounts 100
          [⟨TemplateTypeFixed, 150, false⟩, ⟨TemplateTypePercentage, 50, true⟩] 2 = .err e ∧
          e.Code = "FINAL_MILESTONE_INVALID") ↔
        correctedFinal 100 (effectiveScale 2)
          [⟨TemplateTypeFixed, 150, false⟩, ⟨TemplateTypePercentage, 50, true⟩] ≤ 0) := by
  have hv : ValidateTemplate
      [⟨TemplateTypeFixed, 150, false⟩, ⟨TemplateTypePercentage, 50, true⟩] = none := by
    rw [validateTemplate_eq_none_iff]
    refine ⟨[⟨TemplateTypeFixed, 150, false⟩], ⟨TemplateTypePercentage, 50, true⟩, rfl, rfl,
      ⟨by norm_num, Or.inr rfl⟩, ?_⟩
    intro x hx
    simp only [List.mem_singleton] at hx
    subst hx
    exact ⟨⟨by norm_num, Or.inl rfl⟩, rfl⟩
  refine ⟨hv, by norm_num, ?_, (C8_final_amount 100 _ 2 hv (by norm_num)).1⟩
  norm_num [correctedFinal, effectiveScale, entryAmount, Decimal.Round]

/-! ## C3: repeated payment requests -/

/-- C3, the code at the failing input: the first `RequestPayment` on the unpaid milestone
`m-1` sends one request to the payment platform and stores the returned draft order id
`1001` with an empty checkout URL; the second `RequestPayment` on the same milestone, which
now has a stored draft order id and is still unpaid, sends a second request instead of
returning the stored reference. -/
theorem C3_second_request_sent :
    Example.firstRequest.sent.length = 1 ∧
      (milestone.GetForUpdateScoped Example.firstRequest.store "shop-1" "m-1").toOption.map
          (fun m => (m.Status, m.DraftOrderID, m.CheckoutURL)) = some ("unpaid", "1001", "") ∧
      Example.secondRequest.sent.length = 1 := by
  decide

/-! ## C10 and C9: guards of `RequestPayment` -/

/-- C10: when the milestone the request addresses is paid (respectively locked), the handler
answers 409 `MILESTONE_ALREADY_PAID` (respectively `MILESTONE_LOCKED`), sends nothing to the
payment platform and leaves the whole store as it was, whatever reference the milestone
carries. -/
theorem C10_paid_or_locked (cfg : config.Config) (platform : shopify.Platform) (now : Time)
    (commitErr : Option GoError) (store : Store) (shopCtx : shop.Shop) (id : String)
    (m : milestone.Record) (hid : id ≠ "")
    (hm : milestone.GetForUpdateScoped store shopCtx.ID id = .ok m) :
    (m.Status = "paid" →
      payment.RequestPayment cfg platform now commitErr store (some shopCtx) id =
        ⟨store, .apiError 409 "MILESTONE_ALREADY_PAID" "milestone already paid", []⟩) ∧
    (m.Status = "locked" →
      payment.RequestPayment cfg platform now commitErr store (some shopCtx) id =
        ⟨store, .apiError 409 "MILESTONE_LOCKED" "milestone is locked", []⟩) := by
  constructor
  · intro hs
    simp only [payment.RequestPayment, hid, if_false, db.WithTx, payment.requestPaymentTx, hm,
      hs, if_true, Option.getD_some]
  · intro hs
    have hne : ¬ ("locked" = "paid") := by decide
    simp only [payment.RequestPayment, hid, if_false, db.WithTx, payment.requestPaymentTx, hm,
      hs, hne, if_true, if_false, Option.getD_some]

/-- C10, witness: the paid deposit `m-0` and the locked final milestone `m-2` of the demo
store. -/
theorem C10_paid_or_locked_witness :
    milestone.GetForUpdateScoped Example.demoStore Example.demoShop.ID "m-0" =
        .ok ⟨"m-0", "svc-1", 0, 30, "paid", "USD", "", "", some 0⟩ ∧
      payment.RequestPayment Example.demoConfig Example.platformNoInvoiceURL 1 none
          Example.demoStore (some Example.demoShop) "m-0" =
        ⟨Example.demoStore, .apiError 409 "MILESTONE_ALREADY_PAID" "milestone already paid",
          []⟩ :=
  ⟨rfl,
    (C10_paid_or_locked Example.demoConfig Example.platformNoInvoiceURL 1 none
      Example.demoStore Example.demoShop "m-0"
      ⟨"m-0", "svc-1", 0, 30, "paid", "USD", "", "", some 0⟩ (by decide) rfl).1 rfl⟩

/-- C9: for an unpaid milestone without a stored payment request that has the highest
sequence of its service, a request reaches the payment platform only if the approval record
of the service exists with `approved = true`; otherwise the handler answers 409
`FINAL_MILESTONE_LOCKED`, sends nothing and leaves the whole store as it was. -/
theorem C9_final_requires_approval (cfg : config.Config) (platform : shopify.Platform)
    (now : Time) (commitErr : Option GoError) (store : Store) (shopCtx : shop.Shop)
    (id : String) (m : milestone.Record) (hid : id ≠ "")
    (hm : milestone.GetForUpdateScoped store shopCtx.ID id = .ok m)
    (hs : m.Status = "unpaid") (hnone : m.DraftOrderID = "" ∨ m.CheckoutURL = "")
    (hlast : milestone.finalSequence store m.ServiceID = some m.Sequence) :
    ((payment.RequestPayment cfg platform now commitErr store (some shopCtx) id).sent ≠ [] →
      approval.queryApproved store m.ServiceID = some true) ∧
    (approval.queryApproved store m.ServiceID ≠ some true →
      payment.RequestPayment cfg platform now commitErr store (some shopCtx) id =
        ⟨store, .apiError 409 "FINAL_MILESTONE_LOCKED" "final payment requires approval",
          []⟩) := by
  have hp : ¬ ("unpaid" = "paid") := by decide
  have hl : ¬ ("unpaid" = "locked") := by decide
  have hex : ¬ (m.DraftOrderID ≠ "" ∧ m.CheckoutURL ≠ "") := by
    rintro ⟨h1, h2⟩
    rcases hnone with h | h
    · exact h1 h
    · exact h2 h
  have hrej : approval.queryApproved store m.ServiceID ≠ some true →
      payment.RequestPayment cfg platform now commitErr store (some shopCtx) id =
        ⟨store, .apiError 409 "FINAL_MILESTONE_LOCKED" "final payment requires approval",
          []⟩ := by
    intro hna
    have hb : (match approval.queryApproved store m.ServiceID with
        | some approved => !approved
        | none => true) = true := by
      cases hq : approval.queryApproved store m.ServiceID with
      | none => rfl
      | some b =>
        cases b with
        | false => rfl
        | true => exact absurd hq hna
    simp only [payment.RequestPayment, hid, if_false, db.WithTx, payment.requestPaymentTx, hm,
      hs, hp, hl, hex, hlast, if_true, hb, Option.getD_some]
  refine ⟨?_, hrej⟩
  intro hsent
  by_contra hna
  rw [hrej hna] at hsent
  exact hsent rfl

/-- C9, witness: the unpaid final milestone `m-2` of a service without approval record. -/
theorem C9_final_requires_approval_witness :
    milestone.GetForUpdateScoped Example.demoStoreFinalUnpaid Example.demoShop.ID "m-2" =
        .ok ⟨"m-2", "svc-1", 2, 40, "unpaid", "USD", "", "", none⟩ ∧
      milestone.finalSequence Example.demoStoreFinalUnpaid "svc-1" = some 2 ∧
      approval.queryApproved Example.demoStoreFinalUnpaid "svc-1" ≠ some true ∧
      payment.RequestPayment Example.demoConfig Example.platformNoInvoiceURL 1 none
          Example.demoStoreFinalUnpaid (some Example.demoShop) "m-2" =
        ⟨Example.demoStoreFinalUnpaid,
          .apiError 409 "FINAL_MILESTONE_LOCKED" "final payment requires approval", []⟩ :=
  ⟨rfl, by decide, by decide,
    (C9_final_requires_approval Example.demoConfig Example.platformNoInvoiceURL 1 none
      Example.demoStoreFinalUnpaid Example.demoShop "m-2"
      ⟨"m-2", "svc-1", 2, 40, "unpaid", "USD", "", "", none⟩ (by decide) rfl rfl
      (Or.inl rfl) (by decide)).2 (by decide)⟩

/-! ## C2: a redelivered event changes nothing -/

/-- C2: let a first delivery of a known shop be authentic and its transaction commit. Then
any later delivery with the same shop domain, normalized topic and event id leaves the store
exactly as the first delivery left it, whatever the clock, the generated identifiers and the
commit result of the second delivery; and the event id of a delivery without an id header is
the SHA-256 hex of its body, so two such deliveries of one payload have the same ledger
key. -/
theorem C2_redelivery_changes_nothing (cfg : config.Config) (lib : Lib)
    (dec : webhook.Decoders) (env1 env2 : webhook.Env) (store : Store)
    (r1 r2 : webhook.Request) (body1 body2 : String) (sh : shop.Shop)
    (hu : UniqueShopDomains store)
    (hb1 : r1.body = some body1) (hb2 : r2.body = some body2)
    (hv1 : webhook.VerifyShopifyWebhook lib body1 (TrimSpace r1.hmacHeader)
      cfg.Shopify.WebhookSecret = true)
    (hs : shop.FindByDomain store (TrimSpace r1.shopDomainHeader) = .ok sh)
    (hdom : TrimSpace r2.shopDomainHeader = TrimSpace r1.shopDomainHeader)
    (htopic : webhook.requestTopic lib r2 = webhook.requestTopic lib r1)
    (hkey : webhook.requestEventID lib r2 body2 = webhook.requestEventID lib r1 body1)
    (hcommit : (webhook.ServeHTTP cfg lib dec env1 store r1).txErr = none) :
    (webhook.ServeHTTP cfg lib dec env2 (webhook.ServeHTTP cfg lib dec env1 store r1).store
        r2).store = (webhook.ServeHTTP cfg lib dec env1 store r1).store ∧
      (∀ (r : webhook.Request) (body : String), TrimSpace r.webhookIDHeader = "" →
        TrimSpace r.eventIDHeader = "" →
        webhook.requestEventID lib r body = lib.sha256Hex body) := by
  refine ⟨?_, ?_⟩
  swap
  · intro r body h1 h2
    simp [webhook.requestEventID, h1, h2]
  obtain ⟨hmem, hdomain⟩ := findByDomain_ok _ _ _ hs
  -- the two ways the second delivery is stopped
  have recorded : ∀ s1 : Store, s1.shops = store.shops →
      ledgerHas s1 sh.ID (webhook.requestTopic lib r1) (webhook.requestEventID lib r1 body1)
        = true →
      (webhook.ServeHTTP cfg lib dec env2 s1 r2).store = s1 := by
    intro s1 hshops hl
    apply serveHTTP_recorded cfg lib dec env2 s1 r2 body2 sh hb2
    · rw [hdom, findByDomain_of_shops_eq hshops]; exact hs
    · rw [htopic, hkey]; exact hl
  -- the store after the first delivery
  have hout : (webhook.ServeHTTP cfg lib dec env1 store r1) =
      ⟨(db.WithTx env1.commitErr store
          (webhook.serveTx lib dec env1 sh (webhook.requestTopic lib r1)
            (webhook.requestEventID lib r1 body1) (lib.sha256Hex body1) body1)).1,
        .status 200,
        (db.WithTx env1.commitErr store
          (webhook.serveTx lib dec env1 sh (webhook.requestTopic lib r1)
            (webhook.requestEventID lib r1 body1) (lib.sha256Hex body1) body1)).2.1⟩ := by
    unfold webhook.ServeHTTP
    simp only [hb1, hv1, not_true_eq_false, if_false, hs]
  rw [hout] at hcommit ⊢
  simp only [] at hcommit ⊢
  rcases serveTx_committed lib dec env1 store sh _ _ _ _ hcommit with ⟨hshops, hl⟩ |
    ⟨v1, hshops, hdel⟩
  · exact recorded _ hshops hl
  · rw [hdel]
    apply serveHTTP_unknown_shop cfg lib dec env2 _ r2 .ErrNoRows
    rw [hdom]
    apply findByDomain_deleteByID v1 _ sh _ _ hdomain
    · rw [hshops]; exact hu
    · rw [hshops]; exact hmem

/-- C2, witness: the first delivery of the demo order commits, records the ledger key (the
digest of the body) and marks milestone `m-1` paid; the second delivery of the same request
leaves that store unchanged. -/
theorem C2_redelivery_changes_nothing_witness :
    Example.firstDelivery.txErr = none ∧
      Example.firstDelivery.store.webhookEvents =
        [⟨"shop-1", "orders_paid", "sha256:order-7001", "sha256:order-7001", 10⟩] ∧
      Example.firstDelivery.store.milestones.map (fun m => (m.ID, m.Status)) =
        [("m-0", "paid"), ("m-1", "paid"), ("m-2", "locked")] ∧
      (webhook.ServeHTTP Example.demoConfig Example.demoLib Example.demoDecoders Example.demoEnv
        Example.firstDelivery.store Example.demoDelivery).store = Example.firstDelivery.store :=
  ⟨by decide, by decide, by decide,
    (C2_redelivery_changes_nothing Example.demoConfig Example.demoLib Example.demoDecoders
      Example.demoEnv Example.demoEnv Example.demoStore Example.demoDelivery
      Example.demoDelivery "order-7001" "order-7001" Example.demoShop
      (by
        intro a ha b hb _
        simp only [Example.demoStore, List.mem_singleton] at ha hb
        rw [ha, hb])
      rfl rfl (by decide) (by rfl) rfl rfl rfl (by decide)).1⟩

/-! ## C11: the completion guard of `PatchStatus` -/

/-- C11: for a service of the caller's shop that is not flagged completed-via-override and
whose last-sequence milestone has a status other than `paid`, `PatchStatus` with the target
`Completed` answers 409 `FINAL_MILESTONE_LOCKED` and leaves the whole store as it was,
whatever the current status of the service and whatever the commit would have returned. -/
theorem C11_completion_requires_final_paid (now dbNow : Time) (commitErr : Option GoError)
    (store : Store) (shopCtx : shop.Shop) (id : String) (svc : service.Service)
    (final : String)
    (hid : id ≠ "")
    (hsvc : service.GetForUpdate store shopCtx.ID id = .ok svc)
    (hov : svc.CompletedViaOverride = false)
    (hfinal : milestone.finalStatus store svc.ID = .ok final)
    (hnp : final ≠ "paid") :
    service.PatchStatus now dbNow commitErr store (some shopCtx) id (some ⟨StatusCompleted⟩) =
      ⟨store, .apiError 409 "FINAL_MILESTONE_LOCKED" "final milestone is not paid"⟩ := by
  have hp : service.ParseStatus StatusCompleted = .ok StatusCompleted := rfl
  simp only [service.PatchStatus, if_neg hid, hp, db.WithTx, service.patchStatusTx, hsvc, hov,
    hfinal]
  simp [hnp]

/-- C11, witness: the demo service, whose final milestone `m-2` is locked. -/
theorem C11_completion_requires_final_paid_witness :
    service.GetForUpdate Example.demoStore Example.demoShop.ID "svc-1" =
        .ok Example.demoService ∧
      milestone.finalStatus Example.demoStore Example.demoService.ID = .ok "locked" ∧
      service.PatchStatus 10 10 none Example.demoStore (some Example.demoShop) "svc-1"
          (some ⟨StatusCompleted⟩) =
        ⟨Example.demoStore,
          .apiError 409 "FINAL_MILESTONE_LOCKED" "final milestone is not paid"⟩ :=
  ⟨rfl, rfl,
    C11_completion_requires_final_paid 10 10 none Example.demoStore Example.demoShop "svc-1"
      Example.demoService "locked" (by decide) rfl rfl rfl (by decide)⟩

/-! ## C12: client actions outside `WaitingForApproval` -/

/-- C12: when the service of an active portal link has a status other than
`WaitingForApproval`, `Approve` and `RequestRevision` both answer 409
`INVALID_STATE_TRANSITION` and leave the whole store as it was: the approval record, the
milestones, the service and the audit and event trails. -/
theorem C12_not_waiting_rejected (now dbNow : Time) (commitErr : Option GoError)
    (store : Store) (token note : String) (tr : portal.TokenRecord) (svc : service.Service)
    (htok : token ≠ "")
    (htr : portal.GetActiveByTokenForUpdate store token now = .ok tr)
    (hsvc : service.GetForUpdateAny store tr.ServiceID = .ok svc)
    (hst : svc.Status ≠ StatusWaitingForApproval) :
    portal.Approve now dbNow commitErr store token note =
        ⟨store,
          .apiError 409 "INVALID_STATE_TRANSITION" "service is not waiting for approval"⟩ ∧
      portal.RequestRevision now dbNow commitErr store token note =
        ⟨store,
          .apiError 409 "INVALID_STATE_TRANSITION" "service is not waiting for approval"⟩ := by
  constructor <;>
    simp [portal.Approve, portal.RequestRevision, portal.clientAction, htok, db.WithTx,
      portal.clientActionTx, htr, hsvc, hst]

/-- C12, witness: the demo service is `InProgress`. -/
theorem C12_not_waiting_rejected_witness :
    portal.GetActiveByTokenForUpdate Example.portalStore "link-1" 10 = .ok Example.demoToken ∧
      service.GetForUpdateAny Example.portalStore "svc-1" = .ok Example.demoService ∧
      portal.Approve 10 10 none Example.portalStore "link-1" "looks good" =
        ⟨Example.portalStore,
          .apiError 409 "INVALID_STATE_TRANSITION" "service is not waiting for approval"⟩ :=
  ⟨rfl, rfl,
    (C12_not_waiting_rejected 10 10 none Example.portalStore "link-1" "looks good"
      Example.demoToken Example.demoService (by decide) rfl rfl (by decide)).1⟩

/-! ## C20: the admin override on a paid milestone -/

/-- C20: for a service of the caller's shop and a milestone of that service that is already
paid, `AdminOverride` with the action `MARK_MILESTONE_PAID` and a non-empty reason answers 409
`MILESTONE_ALREADY_PAID` and leaves the whole store as it was: no admin action, audit entry or
event is written and no milestone or service changes. -/
theorem C20_already_paid_rejected (now dbNow : Time) (commitErr : Option GoError)
    (store : Store) (shopCtx : shop.Shop) (id reason milestoneID : String)
    (svc : service.Service) (m : milestone.Record)
    (hid : id ≠ "") (hreason : reason ≠ "") (hmid : milestoneID ≠ "")
    (hsvc : service.GetForUpdate store shopCtx.ID id = .ok svc)
    (hm : milestone.GetForUpdate store milestoneID = .ok m)
    (hof : m.ServiceID = svc.ID) (hpaid : m.Status = "paid") :
    service.AdminOverride now dbNow commitErr store (some shopCtx) id
        (some ⟨adminaction.ActionMarkMilestonePaid, reason, milestoneID⟩) =
      ⟨store, .apiError 409 "MILESTONE_ALREADY_PAID" "milestone already paid"⟩ := by
  simp [service.AdminOverride, hid, hreason, db.WithTx, service.adminOverrideTx, hsvc, hmid,
    hm, hof, hpaid]

/-- C20, witness: the paid deposit `m-0` of the demo service. -/
theorem C20_already_paid_rejected_witness :
    service.GetForUpdate Example.demoStore Example.demoShop.ID "svc-1" =
        .ok Example.demoService ∧
      milestone.GetForUpdate Example.demoStore "m-0" =
        .ok ⟨"m-0", "svc-1", 0, 30, "paid", "", "", "", some 0⟩ ∧
      service.AdminOverride 10 10 none Example.demoStore (some Example.demoShop) "svc-1"
          (some ⟨adminaction.ActionMarkMilestonePaid, "paid by bank transfer", "m-0"⟩) =
        ⟨Example.demoStore, .apiError 409 "MILESTONE_ALREADY_PAID" "milestone already paid"⟩ :=
  ⟨rfl, rfl,
    C20_already_paid_rejected 10 10 none Example.demoStore Example.demoShop "svc-1"
      "paid by bank transfer" "m-0" Example.demoService
      ⟨"m-0", "svc-1", 0, 30, "paid", "", "", "", some 0⟩ (by decide) (by decide) (by decide)
      rfl rfl rfl rfl⟩

/-! ## C13: the effects of `Approve` -/

/-- C13: a committed `Approve` on a service that waits for approval answers 204 and
* sets `approved = true` and `revisionRequested = false` on the approval record of the
  service, so that the record, when there is one, reads approved afterwards, and changes no
  other approval record;
* turns the last-sequence milestone of the service from `locked` into `unpaid`, and changes
  no other milestone and nothing when that milestone is not locked;
* leaves every service, so the service status, as it was;
and a second `Approve` through the same link, at any later time, changes no milestone. -/
theorem C13_approve_effects (now dbNow now2 dbNow2 : Time) (store : Store)
    (token note note2 : String) (tr : portal.TokenRecord) (svc : service.Service)
    (htok : token ≠ "")
    (htr : portal.GetActiveByTokenForUpdate store token now = .ok tr)
    (hsvc : service.GetForUpdateAny store tr.ServiceID = .ok svc)
    (hst : svc.Status = StatusWaitingForApproval) :
    (portal.Approve now dbNow none store token note).response = .status 204 ∧
    (portal.Approve now dbNow none store token note).store.approvals =
      store.approvals.map (fun a =>
        if a.ServiceID = svc.ID then
          { a with Approved := true, RevisionRequested := false, ApprovedAt := some dbNow,
                   ClientNote := note, UpdatedAt := dbNow }
        else a) ∧
    (∀ a ∈ (portal.Approve now dbNow none store token note).store.approvals,
      a.ServiceID = svc.ID → a.Approved = true ∧ a.RevisionRequested = false) ∧
    (approval.queryApproved store svc.ID ≠ none →
      approval.queryApproved (portal.Approve now dbNow none store token note).store svc.ID =
        some true) ∧
    (portal.Approve now dbNow none store token note).store.milestones =
      store.milestones.map (fun m =>
        if m.ServiceID = svc.ID ∧ some m.Sequence = milestone.finalSequence store svc.ID ∧
            m.Status = "locked" then
          { m with Status := "unpaid" }
        else m) ∧
    (portal.Approve now dbNow none store token note).store.services = store.services ∧
    (portal.Approve now2 dbNow2 none (portal.Approve now dbNow none store token note).store
        token note2).store.milestones =
      (portal.Approve now dbNow none store token note).store.milestones := by
  have h1 := approve_of_waiting now dbNow store token note tr svc htok htr hsvc hst
  have hfs : milestone.finalSequence (approval.Approve store dbNow svc.ID note) svc.ID =
      milestone.finalSequence store svc.ID := finalSequence_of_milestones_eq rfl _
  simp only [portal.Approve]
  rw [h1]
  refine ⟨rfl, ?_, ?_, ?_, ?_, rfl, ?_⟩
  · simp [events.Insert, audit.Insert, milestone.UnlockFinal, approval.Approve]
  · intro a ha
    simp only [events.Insert, audit.Insert, milestone.UnlockFinal, approval.Approve,
      List.mem_map] at ha
    obtain ⟨b, _, hb⟩ := ha
    intro hid
    by_cases hc : b.ServiceID = svc.ID
    · rw [if_pos hc] at hb
      subst hb
      exact ⟨rfl, rfl⟩
    · rw [if_neg hc] at hb
      subst hb
      exact absurd hid hc
  · intro hq
    exact (queryApproved_of_eq (b := approval.Approve store dbNow svc.ID note) rfl
      svc.ID).trans (queryApproved_approve store dbNow svc.ID note hq)
  · simp only [events.Insert, audit.Insert, milestone.UnlockFinal, hfs]
    rfl
  · generalize hs1 : events.Insert
      (audit.Insert (milestone.UnlockFinal (approval.Approve store dbNow svc.ID note) svc.ID)
        svc.ShopID (some svc.ID) "APPROVED" "client" [("note", .str note)])
      svc.ID "APPROVED" "Client approved" "client" now [] = s1
    have hm1 : s1.milestones =
        (milestone.UnlockFinal (approval.Approve store dbNow svc.ID note) svc.ID).milestones := by
      rw [← hs1]; rfl
    have ht1 : s1.portalTokens = store.portalTokens := by rw [← hs1]; rfl
    have hv1 : s1.services = store.services := by rw [← hs1]; rfl
    have htr1 := getActiveByToken_of_eq ht1 token now
    rw [htr] at htr1
    rcases getActiveByToken_other_time htr1 now2 with h2 | h2
    · have hsvc1 : service.GetForUpdateAny s1 tr.ServiceID = .ok svc := by
        rw [getForUpdateAny_of_eq hv1, hsvc]
      rw [approve_of_waiting now2 dbNow2 s1 token note2 tr svc htok h2 hsvc1 hst]
      show (milestone.UnlockFinal (approval.Approve s1 dbNow2 svc.ID note2) svc.ID).milestones
        = s1.milestones
      rw [unlockFinal_milestones_of_eq
        (show (approval.Approve s1 dbNow2 svc.ID note2).milestones =
          (milestone.UnlockFinal (approval.Approve store dbNow svc.ID note) svc.ID).milestones
          from hm1), unlockFinal_idem, hm1]
    · rw [clientAction_no_link now2 dbNow2 none s1 token note2 true h2]

/-- C13, witness: the demo service waiting for approval, with its open approval record and
its locked final milestone `m-2`. -/
theorem C13_approve_effects_witness :
    portal.GetActiveByTokenForUpdate Example.waitingStore "link-1" 10 =
        .ok Example.demoToken ∧
      service.GetForUpdateAny Example.waitingStore "svc-1" = .ok Example.waitingService ∧
      (portal.Approve 10 10 none Example.waitingStore "link-1" "looks good").store.services =
        Example.waitingStore.services :=
  ⟨rfl, rfl,
    (C13_approve_effects 10 10 20 20 Example.waitingStore "link-1" "looks good" "again"
      Example.demoToken Example.waitingService (by decide) rfl rfl rfl).2.2.2.2.2.1⟩

/-! ## C14: `approved` and `revisionRequested` exclude each other -/

/-- C14: starting from a store without approval records, after any sequence of
`UpsertRequested`, `Approve` and `RequestRevision` statements, with any arguments, no approval
record has `approved = true` and `revisionRequested = true` at once. -/
theorem C14_approved_excludes_revision (s : Store) (ops : List approval.Op)
    (h : s.approvals = []) : approval.Exclusive (approval.run s ops) := by
  have step : ∀ (t : Store) (op : approval.Op), approval.Exclusive t →
      approval.Exclusive (approval.Op.apply t op) := by
    intro t op ht a ha
    cases op with
    | upsertRequested dbNow sid hp =>
      simp only [approval.Op.apply, approval.UpsertRequested] at ha
      by_cases hex : (t.approvals.any (fun a => a.ServiceID = sid)) = true
      · rw [if_pos hex] at ha
        simp only [List.mem_map] at ha
        obtain ⟨b, hb, hab⟩ := ha
        by_cases hc : b.ServiceID = sid
        · rw [if_pos hc] at hab
          subst hab
          exact ht b hb
        · rw [if_neg hc] at hab
          subst hab
          exact ht b hb
      · rw [if_neg hex] at ha
        simp only [List.mem_append, List.mem_singleton] at ha
        rcases ha with ha | ha
        · exact ht a ha
        · subst ha
          simp
    | approve dbNow sid note =>
      simp only [approval.Op.apply, approval.Approve, List.mem_map] at ha
      obtain ⟨b, hb, hab⟩ := ha
      by_cases hc : b.ServiceID = sid
      · rw [if_pos hc] at hab
        subst hab
        simp
      · rw [if_neg hc] at hab
        subst hab
        exact ht b hb
    | requestRevision dbNow sid note =>
      simp only [approval.Op.apply, approval.RequestRevision, List.mem_map] at ha
      obtain ⟨b, hb, hab⟩ := ha
      by_cases hc : b.ServiceID = sid
      · rw [if_pos hc] at hab
        subst hab
        simp
      · rw [if_neg hc] at hab
        subst hab
        exact ht b hb
  have h0 : approval.Exclusive s := by
    intro a ha
    rw [h] at ha
    cases ha
  clear h
  induction ops generalizing s with
  | nil => exact h0
  | cons op rest ih => exact ih (approval.Op.apply s op) (step s op h0)

/-- C14, witness: on the empty store, a request for approval, an approval, a revision request
and a second approval leave one record, approved and without a revision request. -/
theorem C14_approved_excludes_revision_witness :
    (approval.run ⟨[], [], [], [], [], [], [], [], [], [], []⟩
        [.upsertRequested 1 "svc-1" true, .approve 2 "svc-1" "ok",
          .requestRevision 3 "svc-1" "redo", .approve 4 "svc-1" "fine"]).approvals =
        [⟨"svc-1", true, false, "fine", true, some 4, 4⟩] ∧
      approval.Exclusive (approval.run ⟨[], [], [], [], [], [], [], [], [], [], []⟩
        [.upsertRequested 1 "svc-1" true, .approve 2 "svc-1" "ok",
          .requestRevision 3 "svc-1" "redo", .approve 4 "svc-1" "fine"]) :=
  ⟨by decide,
    C14_approved_excludes_revision ⟨[], [], [], [], [], [], [], [], [], [], []⟩
      [.upsertRequested 1 "svc-1" true, .approve 2 "svc-1" "ok",
        .requestRevision 3 "svc-1" "redo", .approve 4 "svc-1" "fine"] rfl⟩

/-! ## C17: settlement completes the service when final and approved -/

/-- C17: when settlement marks a milestone paid, through the order note
(`applyMilestonePaymentFromOrder`, on a milestone of the shop that is neither paid nor locked)
or through a draft order id (`handleMilestonePaid`, on the resolved milestone when it is not
paid), the milestones afterwards are those of `MarkPaid`, and the services afterwards are:
the service of the milestone set to `Completed` when the milestone has the highest sequence
of that service and the approval record of the service exists with `approved = true` (that
service is then among the services, with status `Completed`), and exactly the services before
in every other case. In `handleMilestonePaid` the service is the
one the first query returns, which is the service of the milestone read by id. -/
theorem C17_completed_iff_final_and_approved (s : Store) (dec : webhook.Decoders)
    (env : webhook.Env) (shopRec : shop.Shop) (milestoneID : String) (orderID : Int)
    (body : String) (payload : webhook.milestonePaidPayload) (mid sid : String)
    (m m2 : milestone.Record) :
    (milestone.GetForUpdateScoped s shopRec.ID milestoneID = .ok m → m.Status ≠ "paid" →
      m.Status ≠ "locked" →
      (webhook.applyMilestonePaymentFromOrder s env shopRec milestoneID orderID).1.milestones =
          s.milestones.map (fun x =>
            if x.ID = m.ID then { x with Status := "paid", PaidAt := some env.now } else x) ∧
        (webhook.applyMilestonePaymentFromOrder s env shopRec milestoneID orderID).1.services =
          (if milestone.finalSequence s m.ServiceID = some m.Sequence ∧
              approval.queryApproved s m.ServiceID = some true then
            s.services.map (fun sv =>
              if sv.ShopID = shopRec.ID ∧ sv.ID = m.ServiceID then
                { sv with Status := StatusCompleted, CompletedViaOverride := false,
                          UpdatedAt := env.dbNow }
              else sv)
          else s.services) ∧
        (milestone.finalSequence s m.ServiceID = some m.Sequence ∧
            approval.queryApproved s m.ServiceID = some true →
          ∃ sv ∈ (webhook.applyMilestonePaymentFromOrder s env shopRec milestoneID
              orderID).1.services,
            sv.ID = m.ServiceID ∧ sv.ShopID = shopRec.ID ∧ sv.Status = StatusCompleted)) ∧
    (dec.milestonePaid body = some payload → payload.DraftOrderID ≠ "" →
      webhook.resolveDraftOrder s shopRec.ID payload.DraftOrderID = some (mid, sid) →
      milestone.GetForUpdate s mid = .ok m2 → m2.Status ≠ "paid" →
      (webhook.handleMilestonePaid s dec env shopRec body).1.milestones =
          s.milestones.map (fun x =>
            if x.ID = m2.ID then { x with Status := "paid", PaidAt := some env.now } else x) ∧
        (webhook.handleMilestonePaid s dec env shopRec body).1.services =
          (if milestone.finalSequence s sid = some m2.Sequence ∧
              approval.queryApproved s sid = some true then
            s.services.map (fun sv =>
              if sv.ShopID = shopRec.ID ∧ sv.ID = sid then
                { sv with Status := StatusCompleted, CompletedViaOverride := false,
                          UpdatedAt := env.dbNow }
              else sv)
          else s.services) ∧
        (milestone.finalSequence s sid = some m2.Sequence ∧
            approval.queryApproved s sid = some true →
          ∃ sv ∈ (webhook.handleMilestonePaid s dec env shopRec body).1.services,
            sv.ID = sid ∧ sv.ShopID = shopRec.ID ∧ sv.Status = StatusCompleted) ∧
        (UniqueMilestoneIDs s → sid = m2.ServiceID)) := by
  constructor
  · intro hm hp hl
    have h := settle_effects s env shopRec.ID m.ServiceID m.ID m.Sequence
      [("milestoneId", .str m.ID), ("orderId", .str (webhook.int64ToString orderID))]
      [("milestoneId", .str m.ID)]
    simp only [webhook.applyMilestonePaymentFromOrder, hm, if_neg hp, if_neg hl]
    refine ⟨h.1, h.2, ?_⟩
    intro hc
    rw [h.2, if_pos hc]
    exact updateStatus_sets s env.dbNow shopRec.ID m.ServiceID StatusCompleted false
      (getForUpdateScoped_service hm)
  · intro hd hne hr hm hp
    have h := settle_effects s env shopRec.ID sid m2.ID m2.Sequence
      [("sequence", .int m2.Sequence), ("draftOrderId", .str payload.DraftOrderID)]
      [("sequence", .int m2.Sequence)]
    simp only [webhook.handleMilestonePaid, hd, if_neg hne, hr, hm, if_neg hp]
    refine ⟨h.1, h.2, ?_, ?_⟩
    · intro hc
      rw [h.2, if_pos hc]
      exact updateStatus_sets s env.dbNow shopRec.ID sid StatusCompleted false
        (resolveDraftOrder_service hr)
    intro hu
    obtain ⟨r, _, _, _, hsid, hrec⟩ := resolveDraftOrder_row s shopRec.ID payload.DraftOrderID
      mid sid m2 hu hr hm
    rw [hrec, ← hsid]
    rfl

/-- C17, witness: the settlement of the draft order `2002` of the approved demo service; the
final milestone `m-2` becomes paid and the service `Completed`. -/
theorem C17_completed_iff_final_and_approved_witness :
    webhook.resolveDraftOrder Example.approvedInProgress "shop-1" "2002" =
        some ("m-2", "svc-1") ∧
      (webhook.handleMilestonePaid Example.approvedInProgress Example.settleDecoders
          Example.demoEnv Example.demoShop "draft-2002").1.services =
        [{ Example.demoService with Status := StatusCompleted, UpdatedAt := 10 }] :=
  ⟨by decide,
    ((C17_completed_iff_final_and_approved Example.approvedInProgress Example.settleDecoders
      Example.demoEnv Example.demoShop "m-2" 7002 "draft-2002" ⟨"2002"⟩ "m-2" "svc-1"
      ⟨"m-2", "svc-1", 2, 40, "unpaid", "", "2002", "https://pay.example/2002", none⟩
      ⟨"m-2", "svc-1", 2, 40, "unpaid", "", "2002", "https://pay.example/2002", none⟩).2
      rfl (by decide) (by decide) rfl (by decide)).2.1.trans (by decide)⟩

/-! ## C15: status changes outside the admin override -/

/-- C15, counterexample: the client approves the demo service, the merchant moves it back to
`InProgress` (which the table allows and which leaves the approval record approved), and the
order that pays the final milestone `m-2` is delivered. Settlement takes the service from
`InProgress` to `Completed`, a pair for which `CanTransition` is false. -/
theorem C15_counterexample :
    Example.reopenedAfterApproval.services.map (fun sv => (sv.ID, sv.Status)) =
        [("svc-1", StatusInProgress)] ∧
      Example.finalSettlement.store.services.map (fun sv => (sv.ID, sv.Status)) =
        [("svc-1", StatusCompleted)] ∧
      CanTransition StatusInProgress StatusCompleted = false ∧
      ¬ StatusChangesAllowed (fun x y => CanTransition x y = true)
        Example.reopenedAfterApproval Example.finalSettlement.store := by
  refine ⟨by decide, by decide, by decide, ?_⟩
  intro h
  have h1 := h { Example.demoService with UpdatedAt := 11 } (by decide)
    { Example.demoService with Status := StatusCompleted, UpdatedAt := 10 } (by decide) rfl
  revert h1
  decide

/-- C15, amended: on a store with unique service ids,
* `PatchStatus` and the client actions (`Approve`, `RequestRevision`) change the status of a
  service only from a status `x` to a status `y` with `CanTransition x y`;
* the settlement of a milestone, through a draft order id or through the order note, changes
  the status of a service only to `Completed`;
* an order-paid delivery whose note names no milestone changes the status of no service that
  exists (the service it creates gets an id that no service has). -/
theorem C15_status_changes (now dbNow : Time) (commitErr : Option GoError) (store : Store)
    (shopCtx : Option shop.Shop) (id : String) (req : Option service.PatchStatusRequest)
    (token note : String) (approve : Bool) (lib : Lib) (dec : webhook.Decoders)
    (env : webhook.Env) (shopRec : shop.Shop) (body : String)
    (hu : UniqueServiceIDs store)
    (hfresh : ∀ sv ∈ store.services, sv.ID ≠ env.newServiceID) :
    StatusChangesAllowed (fun x y => CanTransition x y = true) store
        (service.PatchStatus now dbNow commitErr store shopCtx id req).store ∧
      StatusChangesAllowed (fun x y => CanTransition x y = true) store
        (portal.clientAction now dbNow commitErr store token note approve).store ∧
      StatusChangesAllowed (fun _ y => y = StatusCompleted) store
        (webhook.handleMilestonePaid store dec env shopRec body).1 ∧
      StatusChangesAllowed (fun _ y => y = StatusCompleted) store
        (webhook.handleOrdersPaid store lib dec env shopRec body).1 ∧
      ((∀ payload, dec.orderPaid body = some payload →
          webhook.ParseKeyFromNote lib payload.Note "milestone_id" = "") →
        StatusChangesAllowed (fun _ _ => False) store
          (webhook.handleOrdersPaid store lib dec env shopRec body).1) := by
  refine ⟨?_, ?_, statusChanges_handleMilestonePaid store dec env shopRec body hu, ?_, ?_⟩
  · rcases (patchStatus_shape now dbNow commitErr store shopCtx id req).2 with
      h | ⟨sh, svc, next, _, hg, hct, h⟩
    · exact statusChanges_of_eq hu h
    · obtain ⟨hmem, _, _⟩ := getForUpdate_mem hg
      refine statusChanges_of_updateStatus hu dbNow sh.ID svc.ID next svc.CompletedViaOverride
        ?_ h
      intro a ha _ hid
      have := hu a ha svc hmem hid
      subst this
      exact Or.inr hct
  · rcases (clientAction_shape now dbNow commitErr store token note approve).2 with
      h | ⟨svc, hmem, hst, h⟩
    · exact statusChanges_of_eq hu h
    · refine statusChanges_of_updateStatus hu dbNow svc.ShopID svc.ID StatusInProgress false
        ?_ h
      intro a ha _ hid
      have := hu a ha svc hmem hid
      subst this
      rw [hst]
      exact Or.inr (by decide)
  · rcases handleOrdersPaid_shape store lib dec env shopRec body with
      ⟨payload, _, _, h⟩ | h | ⟨s3, hs3, h⟩
    · rw [h]
      exact statusChanges_applyMilestonePayment store env shopRec _ _ hu
    · exact (statusChanges_of_creationFrame hu hfresh h env.dbNow shopRec.ID StatusBooked
        false).1
    · rw [h]
      exact (statusChanges_of_creationFrame hu hfresh hs3 env.dbNow shopRec.ID StatusBooked
        false).2
  · intro hkey
    rcases handleOrdersPaid_shape store lib dec env shopRec body with
      ⟨payload, hd, hk, _⟩ | h | ⟨s3, hs3, h⟩
    · exact absurd (hkey payload hd) hk
    · exact (statusChanges_of_creationFrame hu hfresh h env.dbNow shopRec.ID StatusBooked
        false).1
    · rw [h]
      exact (statusChanges_of_creationFrame hu hfresh hs3 env.dbNow shopRec.ID StatusBooked
        false).2

/-- C15, witness: on the store where the demo service waits for approval, a `PatchStatus`
back to `InProgress`. -/
theorem C15_status_changes_witness :
    UniqueServiceIDs Example.waitingStore ∧
      (service.PatchStatus 11 11 none Example.waitingStore (some Example.demoShop) "svc-1"
          (some ⟨StatusInProgress⟩)).store.services.map (fun sv => (sv.ID, sv.Status)) =
        [("svc-1", StatusInProgress)] ∧
      StatusChangesAllowed (fun x y => CanTransition x y = true) Example.waitingStore
        (service.PatchStatus 11 11 none Example.waitingStore (some Example.demoShop) "svc-1"
          (some ⟨StatusInProgress⟩)).store :=
  ⟨by decide, by decide,
    (C15_status_changes 11 11 none Example.waitingStore (some Example.demoShop) "svc-1"
      (some ⟨StatusInProgress⟩) "link-1" "" true Example.demoLib Example.demoDecoders
      Example.demoEnv Example.demoShop "order-7001" (by decide) (by decide)).1⟩

/-! ## C18: the milestones of a new service -/

/-- The config 50% + 50% (final) passes `ParseAndValidate`. -/
theorem parse_halves :
    serviceproduct.ParseAndValidate Example.halvesLib.unmarshalConfig "template-json" =
      .ok ⟨1, "USD",
        [⟨TemplateTypePercentage, 50, false⟩, ⟨TemplateTypePercentage, 50, true⟩]⟩ := by
  rw [parseAndValidate_of_decoded _ _ _ rfl]
  simp only [validate_halves]
  norm_num [serviceproduct.percentLoop]

/-- The template with the single entry 100% (final) is accepted by `ValidateTemplate`. -/
theorem validate_single_full :
    ValidateTemplate [⟨TemplateTypePercentage, 100, true⟩] = none := by
  rw [validateTemplate_eq_none_iff]
  exact ⟨[], ⟨TemplateTypePercentage, 100, true⟩, rfl, rfl, ⟨by norm_num, Or.inr rfl⟩,
    by simp⟩

/-- The config with the single entry 100% (final) passes `ParseAndValidate`. -/
theorem parse_single_full :
    serviceproduct.ParseAndValidate Example.singleLib.unmarshalConfig "template-json" =
      .ok ⟨1, "USD", [⟨TemplateTypePercentage, 100, true⟩]⟩ := by
  rw [parseAndValidate_of_decoded _ _ _ rfl]
  simp only [validate_single_full]
  norm_num [serviceproduct.percentLoop]

/-- Total 100 on the single entry 100% (final): one milestone of 100.00. -/
theorem calculate_single_full :
    CalculateAmounts 100 [⟨TemplateTypePercentage, 100, true⟩] DefaultCurrencyScale =
      .ok [⟨100, true⟩] := by
  rw [calculateAmounts_of_valid _ _ _ validate_single_full (by norm_num)]
  norm_num [correctedFinal, effectiveScale, DefaultCurrencyScale, Decimal.Round]

/-- C18, counterexample: a paid order for a product whose accepted template has the single
entry 100% (final) creates one milestone, with sequence 0; it is the final entry and it starts
`paid`, so no milestone of the new service is locked. -/
theorem C18_counterexample :
    ValidateTemplate [⟨TemplateTypePercentage, 100, true⟩] = none ∧
      (webhook.handleOrdersPaid Example.creationStore Example.singleLib
          Example.creationDecoders Example.creationEnv Example.demoShop "order-7003").1.milestones
        = Example.creationStore.milestones ++
          [⟨"ms-new-0", "svc-new", 0, 100, "paid", none, none, some 10⟩] := by
  refine ⟨validate_single_full, ?_⟩
  have h := (ordersPaid_creates Example.creationStore Example.singleLib
    Example.creationDecoders Example.creationEnv Example.demoShop "order-7003"
    ⟨7003, "new@example.com", "10.01", "USD", "", "Bo", "Buyer", [9001]⟩ "9001"
    "template-json" ⟨1, "USD", [⟨TemplateTypePercentage, 100, true⟩]⟩ 100 [⟨100, true⟩]
    rfl (by decide) (by decide) (by decide) (by decide) (by decide) (by decide)
    parse_single_full rfl calculate_single_full (by decide) (by decide) (by decide)).2.1
  rw [h]
  rfl

/-- C18, amended: an order-paid delivery that creates a service from an accepted template of
`n` entries appends `n` milestones of the new service, with the sequences `0..n-1` in template
order and the calculated amounts, none with a payment request. The milestone with sequence 0
starts `paid`; of the others the last one starts `locked` and the rest start `unpaid`. So a
created milestone is locked exactly when `n ≥ 2` and it has the last sequence; for `n = 1` the
single milestone, which is the final entry, starts `paid` and none is locked. -/
theorem C18_created_milestones (s : Store) (lib : Lib) (dec : webhook.Decoders)
    (env : webhook.Env) (shopRec : shop.Shop) (body : String)
    (payload : webhook.orderPaidPayload) (pid : String) (raw : RawMessage)
    (cfg : serviceproduct.Config) (total : Decimal) (amounts : List CalculatedMilestone)
    (hd : dec.orderPaid body = some payload)
    (hid0 : payload.ID ≠ 0) (htp : payload.TotalPrice ≠ "") (hli : payload.LineItems ≠ [])
    (hkey : webhook.ParseKeyFromNote lib payload.Note "milestone_id" = "")
    (hprod : webhook.chooseProduct s shopRec.ID payload.LineItems = (pid, raw))
    (hpid : pid ≠ "")
    (hcfg : serviceproduct.ParseAndValidate lib.unmarshalConfig raw = .ok cfg)
    (htotal : lib.decimalFromString payload.TotalPrice = some total)
    (hcalc : CalculateAmounts total cfg.Templates DefaultCurrencyScale = .ok amounts)
    (hnew : ∀ sv ∈ s.services,
      ¬ (sv.ShopID = shopRec.ID ∧ sv.ShopifyOrderID = webhook.int64ToString payload.ID))
    (hfreshS : ∀ sv ∈ s.services, sv.ID ≠ env.newServiceID)
    (hfreshM : ∀ m ∈ s.milestones, m.ServiceID ≠ env.newServiceID) :
    amounts.length = cfg.Templates.length ∧
      ∃ rows : List milestone.Row,
        (webhook.handleOrdersPaid s lib dec env shopRec body).1.milestones =
          s.milestones ++ rows ∧
        rows = amounts.enum.map (fun p =>
          (⟨env.newMilestoneID p.1, env.newServiceID, (p.1 : Int), p.2.Amount,
            if p.1 = 0 then "paid" else if p.1 + 1 = amounts.length then "locked" else "unpaid",
            none, none, if p.1 = 0 then some env.now else none⟩ : milestone.Row)) ∧
        (∀ r ∈ rows, r.Status = "locked" ↔
          2 ≤ amounts.length ∧ r.Sequence + 1 = (amounts.length : Int)) ∧
        (∀ r ∈ rows, r.Status = "paid" ↔ r.Sequence = 0) := by
  have h := ordersPaid_creates s lib dec env shopRec body payload pid raw cfg total amounts hd
    hid0 htp hli hkey hprod hpid hcfg htotal hcalc hnew hfreshS hfreshM
  refine ⟨(calculateAmounts_entries total cfg.Templates DefaultCurrencyScale amounts hcalc).1,
    _, h.2.1, rfl, ?_, ?_⟩
  · intro r hr
    simp only [List.mem_map] at hr
    obtain ⟨⟨i, a⟩, hp, rfl⟩ := hr
    have hi := (List.mem_enum hp).1
    simp only []
    by_cases h0 : i = 0
    · subst h0
      simp
      intro h2
      omega
    · by_cases hlast : i + 1 = amounts.length
      · simp [h0, hlast]
        constructor
        · omega
        · omega
      · simp [h0, hlast]
        intro _
        omega
  · intro r hr
    simp only [List.mem_map] at hr
    obtain ⟨⟨i, a⟩, hp, rfl⟩ := hr
    simp only []
    by_cases h0 : i = 0
    · subst h0
      simp
    · by_cases hlast : i + 1 = amounts.length
      · simp [h0, hlast]
      · simp [h0, hlast]

/-- C18, witness: a paid order of 10.01 for a product with the template 50% + 50% (final)
creates the milestones 5.01 (paid) and 5.00 (locked). -/
theorem C18_created_milestones_witness :
    CalculateAmounts (1001 / 100)
        [⟨TemplateTypePercentage, 50, false⟩, ⟨TemplateTypePercentage, 50, true⟩]
        DefaultCurrencyScale = .ok [⟨501 / 100, false⟩, ⟨5, true⟩] ∧
      ∃ rows : List milestone.Row,
        (webhook.handleOrdersPaid Example.creationStore Example.halvesLib
          Example.creationDecoders Example.creationEnv Example.demoShop
          "order-7003").1.milestones = Example.creationStore.milestones ++ rows ∧
        rows = [⟨"ms-new-0", "svc-new", 0, 501 / 100, "paid", none, none, some 10⟩,
          ⟨"ms-new-1", "svc-new", 1, 5, "locked", none, none, none⟩] :=
  ⟨calculate_halves 2 (Or.inl rfl),
    match (C18_created_milestones Example.creationStore Example.halvesLib
      Example.creationDecoders Example.creationEnv Example.demoShop "order-7003"
      ⟨7003, "new@example.com", "10.01", "USD", "", "Bo", "Buyer", [9001]⟩ "9001"
      "template-json"
      ⟨1, "USD", [⟨TemplateTypePercentage, 50, false⟩, ⟨TemplateTypePercentage, 50, true⟩]⟩
      (1001 / 100) [⟨501 / 100, false⟩, ⟨5, true⟩]
      rfl (by decide) (by decide) (by decide) (by decide) (by decide) (by decide)
      parse_halves rfl (calculate_halves 2 (Or.inl rfl)) (by decide) (by decide)
      (by decide)).2 with
    | ⟨rows, h1, h2, _⟩ => ⟨rows, h1, h2.trans rfl⟩⟩

/-! ## C19: a milestone becomes paid only with a payment request -/

/-- C19, counterexample: on the demo store the unpaid milestone `m-1` has no payment request;
the delivery of a paid order whose note names `m-1` marks it paid. -/
theorem C19_counterexample :
    Example.demoStore.milestones.map (fun m => (m.ID, m.Status, m.DraftOrderID)) =
        [("m-0", "paid", none), ("m-1", "unpaid", none), ("m-2", "locked", none)] ∧
      Example.firstDelivery.store.milestones.map (fun m => (m.ID, m.Status, m.DraftOrderID)) =
        [("m-0", "paid", none), ("m-1", "paid", none), ("m-2", "locked", none)] ∧
      ¬ PaidOnlyWithReference Example.demoStore Example.firstDelivery.store := by
  refine ⟨by decide, by decide, ?_⟩
  intro h
  obtain ⟨d, hd, _⟩ := h ⟨"m-1", "svc-1", 1, 30, "unpaid", none, none, none⟩ (by decide)
    ⟨"m-1", "svc-1", 1, 30, "paid", none, none, some 10⟩ (by decide) rfl (by decide) rfl
  cases hd

/-- C19, amended: on a store with unique milestone ids, the operations other than the admin
override and other than the settlement through a `milestone_id` in the order note change an
existing milestone from not paid to paid only if it has a stored, non-empty draft order id:
the settlement through a draft order id (`handleMilestonePaid`), `RequestPayment`,
`PatchStatus`, the client actions, and an order-paid delivery whose note names no milestone
(the milestones it creates get ids that no milestone has). -/
theorem C19_paid_needs_reference (cfg : config.Config) (platform : shopify.Platform)
    (now dbNow : Time) (commitErr : Option GoError) (store : Store)
    (shopCtx : Option shop.Shop) (id : String) (req : Option service.PatchStatusRequest)
    (token note : String) (approve : Bool) (lib : Lib) (dec : webhook.Decoders)
    (env : webhook.Env) (shopRec : shop.Shop) (body : String)
    (hu : UniqueMilestoneIDs store)
    (hfresh : ∀ j, ∀ m ∈ store.milestones, m.ID ≠ env.newMilestoneID j) :
    PaidOnlyWithReference store (webhook.handleMilestonePaid store dec env shopRec body).1 ∧
      PaidOnlyWithReference store
        (payment.RequestPayment cfg platform now commitErr store shopCtx id).store ∧
      PaidOnlyWithReference store
        (service.PatchStatus now dbNow commitErr store shopCtx id req).store ∧
      PaidOnlyWithReference store
        (portal.clientAction now dbNow commitErr store token note approve).store ∧
      ((∀ payload, dec.orderPaid body = some payload →
          webhook.ParseKeyFromNote lib payload.Note "milestone_id" = "") →
        PaidOnlyWithReference store
          (webhook.handleOrdersPaid store lib dec env shopRec body).1) := by
  refine ⟨?_, ?_, ?_, ?_, ?_⟩
  · rcases handleMilestonePaid_shape store dec env shopRec body with
      h | ⟨payload, mid, sid, m, _, hne, hr, hm, _, hms, _⟩
    · exact paidOnly_of_eq hu (by rw [h])
    · obtain ⟨r, hrmem, hrd, hrid, _, hrec⟩ :=
        resolveDraftOrder_row store shopRec.ID payload.DraftOrderID mid sid m hu hr hm
      refine paidOnly_of_map hu _ ?_ ?_ hms
      · intro x
        by_cases hx : x.ID = m.ID <;> simp [hx]
      · intro a ha hnp hp
        by_cases hx : a.ID = m.ID
        · have hmr : m.ID = r.ID := by rw [hrec]; rfl
          have := hu a ha r hrmem (hx.trans hmr)
          subst this
          exact ⟨payload.DraftOrderID, hrd, hne⟩
        · rw [if_neg hx] at hp
          exact absurd hp hnp
  · rcases requestPayment_shape cfg platform now commitErr store shopCtx id with
      h | ⟨mid, d, u, h⟩
    · exact paidOnly_of_eq hu h
    · refine paidOnly_of_map hu _ ?_ ?_ h
      · intro x
        by_cases hx : x.ID = mid <;> simp [hx]
      · intro a _ hnp hp
        by_cases hx : a.ID = mid
        · rw [if_pos hx] at hp
          exact absurd hp hnp
        · rw [if_neg hx] at hp
          exact absurd hp hnp
  · exact paidOnly_of_eq hu (patchStatus_shape now dbNow commitErr store shopCtx id req).1
  · rcases (clientAction_shape now dbNow commitErr store token note approve).1 with
      h | ⟨sid, h⟩
    · exact paidOnly_of_eq hu h
    · refine paidOnly_of_map hu _ ?_ ?_ h
      · intro x
        by_cases hx : x.ServiceID = sid ∧ some x.Sequence = milestone.finalSequence store sid ∧
          x.Status = "locked" <;> simp [hx]
      · intro a _ hnp hp
        by_cases hx : a.ServiceID = sid ∧ some a.Sequence = milestone.finalSequence store sid ∧
          a.Status = "locked"
        · rw [if_pos hx] at hp
          exact absurd hp (show ¬ ("unpaid" = "paid") by decide)
        · rw [if_neg hx] at hp
          exact absurd hp hnp
  · intro hkey
    rcases handleOrdersPaid_shape store lib dec env shopRec body with
      ⟨payload, hd, hk, _⟩ | h | ⟨s3, hs3, h⟩
    · exact absurd (hkey payload hd) hk
    · exact paidOnly_of_creationFrame hu hfresh h rfl
    · exact paidOnly_of_creationFrame hu hfresh hs3 (by rw [h]; rfl)

/-- C19, witness: the settlement of the draft order `2002` on the store where the final
milestone `m-2` is unpaid and carries that payment request. -/
theorem C19_paid_needs_reference_witness :
    UniqueMilestoneIDs Example.approvedInProgress ∧
      (webhook.handleMilestonePaid Example.approvedInProgress Example.settleDecoders
          Example.demoEnv Example.demoShop "draft-2002").1.milestones.map
          (fun m => (m.ID, m.Status, m.DraftOrderID)) =
        [("m-0", "paid", none), ("m-1", "paid", some "2001"), ("m-2", "paid", some "2002")] ∧
      PaidOnlyWithReference Example.approvedInProgress
        (webhook.handleMilestonePaid Example.approvedInProgress Example.settleDecoders
          Example.demoEnv Example.demoShop "draft-2002").1 :=
  ⟨by decide, by decide,
    (C19_paid_needs_reference Example.demoConfig Example.platformNoInvoiceURL 10 10 none
      Example.approvedInProgress (some Example.demoShop) "m-2" none "link-1" "" true
      Example.demoLib Example.settleDecoders Example.demoEnv Example.demoShop "draft-2002"
      (by decide)
      (fun _ => (by decide : ∀ m ∈ Example.approvedInProgress.milestones, m.ID ≠ "ms-new"))).1⟩

/-! ## C21: deliveries for an unknown shop -/

/-- C21: a delivery with a readable body and a correct signature whose shop domain is the
domain of no shop of the store is answered with status 200 and leaves the whole store as it
was, whatever the topic, the payload and the result a commit would have: no transaction is
opened. -/
theorem C21_unknown_shop_dropped (cfg : config.Config) (lib : Lib) (dec : webhook.Decoders)
    (env : webhook.Env) (store : Store) (r : webhook.Request) (body : String)
    (hb : r.body = some body)
    (hsig : webhook.VerifyShopifyWebhook lib body (TrimSpace r.hmacHeader)
      cfg.Shopify.WebhookSecret = true)
    (hun : ∀ sh ∈ store.shops, sh.Domain ≠ TrimSpace r.shopDomainHeader) :
    webhook.ServeHTTP cfg lib dec env store r = ⟨store, .status 200, none⟩ := by
  have hf : shop.FindByDomain store (TrimSpace r.shopDomainHeader) = .error .ErrNoRows := by
    unfold shop.FindByDomain
    have : store.shops.find? (fun sh => decide (sh.Domain = TrimSpace r.shopDomainHeader)) =
        none := by
      rw [List.find?_eq_none]
      intro sh hsh
      simpa using hun sh hsh
    rw [this]
  simp [webhook.ServeHTTP, hb, hsig, hf]

/-- C21, witness: an `orders/paid` delivery from `stranger.myshopify.com` on the demo store. -/
theorem C21_unknown_shop_dropped_witness :
    webhook.VerifyShopifyWebhook Example.demoLib "order-7001" "sig"
        Example.demoConfig.Shopify.WebhookSecret = true ∧
      webhook.ServeHTTP Example.demoConfig Example.demoLib Example.demoDecoders Example.demoEnv
          Example.demoStore Example.strangerDelivery = ⟨Example.demoStore, .status 200, none⟩ :=
  ⟨by decide,
    C21_unknown_shop_dropped Example.demoConfig Example.demoLib Example.demoDecoders
      Example.demoEnv Example.demoStore Example.strangerDelivery "order-7001" rfl (by decide)
      (by decide)⟩

/-! ## C22: the ledger record and the domain writes of a delivery -/

/-- C22, at the failing input: an `app/uninstalled` delivery for the demo shop whose commit
fails. The transaction is rolled back, so the ledger holds no record of the delivery, yet the
shop and everything it owns are gone: the deletion ran on the pool, outside the transaction.
An `orders/paid` delivery whose commit fails leaves the store as it was. -/
theorem C22_uninstall_outside_transaction :
    (webhook.ServeHTTP Example.demoConfig Example.demoLib Example.demoDecoders
        Example.failingCommitEnv Example.demoStore Example.uninstallDelivery).txErr =
        some (.other "conn closed") ∧
      (webhook.ServeHTTP Example.demoConfig Example.demoLib Example.demoDecoders
        Example.failingCommitEnv Example.demoStore Example.uninstallDelivery).store.webhookEvents
        = [] ∧
      Example.demoStore.shops = [Example.demoShop] ∧
      (webhook.ServeHTTP Example.demoConfig Example.demoLib Example.demoDecoders
        Example.failingCommitEnv Example.demoStore Example.uninstallDelivery).store.shops = [] ∧
      (webhook.ServeHTTP Example.demoConfig Example.demoLib Example.demoDecoders
        Example.failingCommitEnv Example.demoStore Example.uninstallDelivery).store.services
        = [] ∧
      (webhook.ServeHTTP Example.demoConfig Example.demoLib Example.demoDecoders
        Example.failingCommitEnv Example.demoStore Example.uninstallDelivery).store.milestones
        = [] ∧
      (webhook.ServeHTTP Example.demoConfig Example.demoLib Example.demoDecoders
        Example.failingCommitEnv Example.demoStore Example.demoDelivery).store =
        Example.demoStore := by
  decide

/-! ## C23: the templates that `ValidateTemplate` accepts -/

/-- C23: `ValidateTemplate` returns no error exactly when the template is non-empty, every
entry has a value `> 0`, every entry has the type `fixed` or `percentage`, exactly one entry is
final, and the last entry is final. -/
theorem C23_validateTemplate_iff (ts : List MilestoneTemplate) :
    ValidateTemplate ts = none ↔
      ts ≠ [] ∧ (∀ t ∈ ts, 0 < t.Value) ∧
        (∀ t ∈ ts, t.Typ = TemplateTypeFixed ∨ t.Typ = TemplateTypePercentage) ∧
        ts.countP (fun t => t.IsFinal) = 1 ∧
        ∃ l, ts.getLast? = some l ∧ l.IsFinal = true := by
  rw [validateTemplate_eq_none_iff_count]
  constructor
  · rintro ⟨hne, hok, hc, hl⟩
    exact ⟨hne, fun t ht => (hok t ht).1, fun t ht => (hok t ht).2, hc, hl⟩
  · rintro ⟨hne, hv, hty, hc, hl⟩
    exact ⟨hne, fun t ht => ⟨hv t ht, hty t ht⟩, hc, hl⟩

/-! ## C26: the ways `CalculateAmounts` fails -/

/-- C26: `CalculateAmounts` returns the error of `ValidateTemplate` when the template is not
accepted; for an accepted template it returns `SERVICE_TOTAL_INVALID` when `total ≤ 0`; for an
accepted template and `total > 0` its loop returns no error, the index `len(out)-1` is in
range, and the only error is `FINAL_MILESTONE_INVALID`, returned exactly when the corrected
final amount is `≤ 0`; otherwise the result has one milestone per entry. -/
theorem C26_failure_modes (total : Decimal) (ts : List MilestoneTemplate)
    (scale : CurrencyScale) :
    (∀ e, ValidateTemplate ts = some e → CalculateAmounts total ts scale = .err e) ∧
      (ValidateTemplate ts = none → total ≤ 0 →
        CalculateAmounts total ts scale =
          .err ⟨"SERVICE_TOTAL_INVALID", "service total must be > 0"⟩) ∧
      (ValidateTemplate ts = none → 0 < total →
        (∃ r, calcLoop total (effectiveScale scale) ts [] 0 = .ok r) ∧
          CalculateAmounts total ts scale ≠ .indexPanic ∧
          (∀ e, CalculateAmounts total ts scale = .err e →
            e = ⟨"FINAL_MILESTONE_INVALID", "final milestone amount must be > 0"⟩) ∧
          (correctedFinal total (effectiveScale scale) ts ≤ 0 →
            CalculateAmounts total ts scale =
              .err ⟨"FINAL_MILESTONE_INVALID", "final milestone amount must be > 0"⟩) ∧
          (0 < correctedFinal total (effectiveScale scale) ts →
            ∃ out, CalculateAmounts total ts scale = .ok out ∧ out.length = ts.length)) := by
  refine ⟨?_, ?_, ?_⟩
  · intro e he
    simp only [CalculateAmounts, he]
  · intro hv ht
    simp only [CalculateAmounts, hv, ht, if_true]
  · intro hv ht
    have hall : ∀ t ∈ ts, EntryOK t := ((validateTemplate_eq_none_iff_count ts).mp hv).2.1
    refine ⟨⟨_, calcLoop_ok total (effectiveScale scale) ts [] 0 hall⟩, ?_⟩
    rw [calculateAmounts_of_valid total ts scale hv ht]
    by_cases hle : correctedFinal total (effectiveScale scale) ts ≤ 0
    · rw [if_pos hle]
      refine ⟨fun h => (by cases h), ?_, fun _ => rfl, fun h => absurd h (not_lt.mpr hle)⟩
      intro e he
      injection he with he
      exact he.symm
    · rw [if_neg hle]
      refine ⟨fun h => (by cases h), fun e he => (by cases he), fun h => absurd h hle,
        fun _ => ?_⟩
      refine ⟨_, rfl, ?_⟩
      obtain ⟨init, l, rfl, -⟩ := (validateTemplate_eq_none_iff ts).mp hv
      simp

/-- C26, witness: the template 50% + 50% (final) with the total 10.01. -/
theorem C26_failure_modes_witness :
    ValidateTemplate [⟨TemplateTypePercentage, 50, false⟩, ⟨TemplateTypePercentage, 50, true⟩]
        = none ∧
      CalculateAmounts (1001 / 100)
        [⟨TemplateTypePercentage, 50, false⟩, ⟨TemplateTypePercentage, 50, true⟩] 2
        ≠ .indexPanic :=
  ⟨validate_halves,
    ((C26_failure_modes (1001 / 100)
      [⟨TemplateTypePercentage, 50, false⟩, ⟨TemplateTypePercentage, 50, true⟩] 2).2.2
      validate_halves (by norm_num)).2.1⟩

/-! ## C25: the amounts of the entries -/

/-- The template 1% + 99% (final) is accepted. -/
theorem validate_one_ninetynine :
    ValidateTemplate [⟨TemplateTypePercentage, 1, false⟩, ⟨TemplateTypePercentage, 99, true⟩]
      = none := by
  rw [validateTemplate_eq_none_iff]
  refine ⟨[⟨TemplateTypePercentage, 1, false⟩], ⟨TemplateTypePercentage, 99, true⟩, rfl, rfl,
    ⟨by norm_num, Or.inr rfl⟩, ?_⟩
  intro x hx
  simp only [List.mem_singleton] at hx
  subst hx
  exact ⟨⟨by norm_num, Or.inr rfl⟩, rfl⟩

/-- C25, counterexample: the accepted template 1% + 99% (final), the total
0.49999999999999995 and the scale 2. The exact 1% of the total is 0.0049999999999999995,
which rounds to 0.00; the division of the decimal library keeps 16 places and returns 0.005,
which rounds to 0.01: the non-final amount is 0.01 (and the final amount 0.49). -/
theorem C25_counterexample :
    ValidateTemplate [⟨TemplateTypePercentage, 1, false⟩, ⟨TemplateTypePercentage, 99, true⟩]
        = none ∧
      (0 : Decimal) < 49999999999999995 / 100000000000000000 ∧
      CalculateAmounts (49999999999999995 / 100000000000000000)
        [⟨TemplateTypePercentage, 1, false⟩, ⟨TemplateTypePercentage, 99, true⟩] 2
        = .ok [⟨1 / 100, false⟩, ⟨49 / 100, true⟩] ∧
      Decimal.Round ((49999999999999995 / 100000000000000000 : Decimal) * 1 / 100) 2 = 0 := by
  refine ⟨validate_one_ninetynine, by norm_num, ?_, ?_⟩
  · rw [calculateAmounts_of_valid _ _ _ validate_one_ninetynine (by norm_num)]
    norm_num [correctedFinal, effectiveScale, DefaultCurrencyScale, entryAmount,
      percentage_ne_fixed, Decimal.Round, Decimal.Div, Decimal.DivisionPrecision]
  · norm_num [Decimal.Round]

/-- C25, amended: a successful `CalculateAmounts` at a scale `≥ 1` returns one milestone per
template entry with the entry's final flag, in order. The amount of a non-final entry depends
on the total and on that entry only: the value rounded half away from zero to `scale` places
for a fixed entry, and for a percentage entry the quotient `total * value / 100` as the decimal
library computes it, that is rounded half away from zero to 16 places, then rounded half away
from zero to `scale` places. The last amount is the total rounded to `scale` places minus the
sum of the other amounts. The library's quotient is the exact one whenever the exact quotient
has at most 16 decimal places. -/
theorem C25_entry_amounts (total : Decimal) (ts : List MilestoneTemplate)
    (scale : CurrencyScale) (out : List CalculatedMilestone) (hs : 1 ≤ scale)
    (h : CalculateAmounts total ts scale = .ok out) :
    out.length = ts.length ∧
      out.map (fun m => m.IsFinal) = ts.map (fun t => t.IsFinal) ∧
      (∀ (i : Nat) (t : MilestoneTemplate) (a : CalculatedMilestone),
        ts[i]? = some t → out[i]? = some a → t.IsFinal = false →
        a.Amount =
          if t.Typ = TemplateTypeFixed then Decimal.Round t.Value scale
          else Decimal.Round (Decimal.Round (total * t.Value / 100) 16) scale) ∧
      (∃ l, out.getLast? = some l ∧
        l.Amount = Decimal.Round total scale - ((out.dropLast).map (fun m => m.Amount)).sum) ∧
      (∀ t : MilestoneTemplate, IsScaled 16 (total * t.Value / 100) →
        Decimal.Div (total * t.Value) 100 = total * t.Value / 100) := by
  obtain ⟨hv, ht⟩ := calculateAmounts_ok_inv total ts scale out h
  have hes : effectiveScale scale = scale := by
    unfold effectiveScale
    rw [if_neg (not_le.mpr (lt_of_lt_of_le Int.zero_lt_one hs))]
  rw [calculateAmounts_of_valid total ts scale hv ht, hes] at h
  obtain ⟨init, l, rfl, hl, _, hinit⟩ := (validateTemplate_eq_none_iff ts).mp hv
  split at h
  · cases h
  · injection h with h
    subst h
    simp only [List.dropLast_concat]
    refine ⟨by simp, ?_, ?_, ?_, ?_⟩
    · simp [hl]
    · intro i t a hit hia hfin
      by_cases hi : i < init.length
      · rw [List.getElem?_append_left hi] at hit
        rw [List.getElem?_append_left (by simpa using hi)] at hia
        simp only [List.getElem?_map, hit, Option.map_some', Option.some.injEq] at hia
        subst hia
        simp only [entryAmount, Decimal.Div, Decimal.DivisionPrecision]
      · have hle : init.length ≤ i := not_lt.mp hi
        rw [List.getElem?_append_right hle] at hit
        have hi0 : i - init.length = 0 := by
          by_contra hne
          have : 1 ≤ i - init.length := Nat.one_le_iff_ne_zero.mpr hne
          rw [List.getElem?_eq_none (by simpa using this)] at hit
          cases hit
        rw [hi0] at hit
        simp only [List.getElem?_cons_zero, Option.some.injEq] at hit
        subst hit
        rw [hl] at hfin
        cases hfin
    · refine ⟨_, List.getLast?_concat _, ?_⟩
      simp only [correctedFinal, List.dropLast_concat, List.map_map, Function.comp_def]
    · intro t hsc
      simp only [Decimal.Div, Decimal.DivisionPrecision]
      exact round_of_isScaled hsc

/-- C25, witness: the template 50% + 50% (final) with the total 10.01 at scale 2 gives 5.01
and 5.00. -/
theorem C25_entry_amounts_witness :
    CalculateAmounts (1001 / 100)
        [⟨TemplateTypePercentage, 50, false⟩, ⟨TemplateTypePercentage, 50, true⟩] 2
        = .ok [⟨501 / 100, false⟩, ⟨5, true⟩] ∧
      ([⟨501 / 100, false⟩, ⟨5, true⟩] : List CalculatedMilestone).length =
        ([⟨TemplateTypePercentage, 50, false⟩, ⟨TemplateTypePercentage, 50, true⟩] :
          List MilestoneTemplate).length :=
  ⟨calculate_halves 2 (Or.inl rfl),
    (C25_entry_amounts (1001 / 100)
      [⟨TemplateTypePercentage, 50, false⟩, ⟨TemplateTypePercentage, 50, true⟩] 2
      [⟨501 / 100, false⟩, ⟨5, true⟩] (by decide) (calculate_halves 2 (Or.inl rfl))).1⟩

/-! ## C29: `NormalizeTopic` applied twice -/

/-- C29, counterexample: `NormalizeTopic` removes the white space at the ends before it removes
the underscores at the ends. The topic `- orders/paid` becomes `_ orders_paid` and then
` orders_paid`, with a leading space; normalizing that gives `orders_paid`. -/
theorem C29_counterexample :
    webhook.NormalizeTopic Example.demoLib "- orders/paid" = " orders_paid" ∧
      webhook.NormalizeTopic Example.demoLib
        (webhook.NormalizeTopic Example.demoLib "- orders/paid") = "orders_paid" ∧
      webhook.NormalizeTopic Example.demoLib
          (webhook.NormalizeTopic Example.demoLib "- orders/paid") ≠
        webhook.NormalizeTopic Example.demoLib "- orders/paid" := by
  decide

/-- C29, amended: for a lower-casing that is idempotent and keeps the underscore, a topic whose
normal form has no white space at its ends is normalized to a fixed point:
`NormalizeTopic (NormalizeTopic t) = NormalizeTopic t`. -/
theorem C29_normalize_stable (lib : Lib) (t : String)
    (hlow : ∀ c, lib.toLower (lib.toLower c) = lib.toLower c)
    (hus : lib.toLower '_' = '_')
    (hsp : TrimSpace (webhook.NormalizeTopic lib t) = webhook.NormalizeTopic lib t) :
    webhook.NormalizeTopic lib (webhook.NormalizeTopic lib t) = webhook.NormalizeTopic lib t := by
  -- the characters of the normal form
  generalize hl0 : (TrimSpace (ToLower lib t)).toList = l0
  have hl0mem : ∀ c ∈ l0, ∃ x, c = lib.toLower x := by
    intro c hc
    rw [← hl0] at hc
    have h4 := mem_trimSpace hc
    change c ∈ t.toList.map lib.toLower at h4
    simp only [List.mem_map] at h4
    obtain ⟨x, _, hx⟩ := h4
    exact ⟨x, hx.symm⟩
  generalize hl3 : webhook.replaceChar '-' (webhook.replaceChar '.' (webhook.replaceChar '/' l0))
    = l3
  have hl3mem : ∀ c ∈ l3, (c = '_' ∨ ∃ x, c = lib.toLower x) ∧ c ≠ '/' ∧ c ≠ '.' ∧ c ≠ '-' := by
    intro c hc
    rw [← hl3] at hc
    rcases mem_replaceChar hc with h | ⟨hc2, hne3⟩
    · subst h; exact ⟨Or.inl rfl, by decide, by decide, by decide⟩
    rcases mem_replaceChar hc2 with h | ⟨hc1, hne2⟩
    · subst h; exact ⟨Or.inl rfl, by decide, by decide, by decide⟩
    rcases mem_replaceChar hc1 with h | ⟨hc0, hne1⟩
    · subst h; exact ⟨Or.inl rfl, by decide, by decide, by decide⟩
    exact ⟨Or.inr (hl0mem c hc0), hne1, hne2, hne3⟩
  obtain ⟨hnd, hsub⟩ := collapseUnderscores_spec l3.length l3 (le_refl _)
  generalize hl4 : webhook.collapseUnderscores l3.length l3 = l4 at hnd hsub
  have hr : webhook.NormalizeTopic lib t = String.mk (webhook.trimUnderscores l4) := by
    simp only [webhook.NormalizeTopic, hl0, hl3, hl4]
  have hrmem : ∀ c ∈ webhook.trimUnderscores l4,
      (c = '_' ∨ ∃ x, c = lib.toLower x) ∧ c ≠ '/' ∧ c ≠ '.' ∧ c ≠ '-' :=
    fun c hc => hl3mem c (hsub c ((trimUnderscores_within l4).subset hc))
  have hrnd : webhook.hasDoubleUnderscore (webhook.trimUnderscores l4) = false := by
    rw [hasDoubleUnderscore_eq_false_iff] at hnd ⊢
    exact hnd.infix (trimUnderscores_within l4)
  -- the second pass
  have hlower : ToLower lib (String.mk (webhook.trimUnderscores l4)) =
      String.mk (webhook.trimUnderscores l4) := by
    simp only [ToLower]
    congr 1
    conv_rhs => rw [← List.map_id (webhook.trimUnderscores l4)]
    apply List.map_congr_left
    intro c hc
    rcases (hrmem c hc).1 with h | ⟨x, h⟩
    · rw [h]; exact hus
    · rw [h]; exact hlow x
  rw [hr] at hsp ⊢
  have e1 : webhook.replaceChar '/' (webhook.trimUnderscores l4) = webhook.trimUnderscores l4 :=
    replaceChar_of_not_mem (fun h => (hrmem _ h).2.1 rfl)
  have e2 : webhook.replaceChar '.' (webhook.trimUnderscores l4) = webhook.trimUnderscores l4 :=
    replaceChar_of_not_mem (fun h => (hrmem _ h).2.2.1 rfl)
  have e3 : webhook.replaceChar '-' (webhook.trimUnderscores l4) = webhook.trimUnderscores l4 :=
    replaceChar_of_not_mem (fun h => (hrmem _ h).2.2.2 rfl)
  unfold webhook.NormalizeTopic
  simp only [hlower, hsp, String.toList, e1, e2, e3, collapseUnderscores_of_none _ _ hrnd,
    trimUnderscores_idem]

/-- C29, witness: `orders/paid` is normalized to `orders_paid`, which is normalized to
itself. -/
theorem C29_normalize_stable_witness :
    webhook.NormalizeTopic Example.demoLib "orders/paid" = "orders_paid" ∧
      webhook.NormalizeTopic Example.demoLib
          (webhook.NormalizeTopic Example.demoLib "orders/paid") =
        webhook.NormalizeTopic Example.demoLib "orders/paid" :=
  ⟨by decide,
    C29_normalize_stable Example.demoLib "orders/paid"
      char_toLower_idem
      (by decide) (by decide)⟩

/-! ## C24: the key that `ParseKeyFromNote` finds -/

/-- The first token under each of two keys that lower-casing keeps apart, in a note with at
most one token for each. -/
theorem find_two_tokens (lib : Lib) (p q m s : List Char)
    (hpq : ToLower lib (String.mk p) ≠ ToLower lib (String.mk q)) :
    (match ((if m ≠ [] then [(p, m)] else []) ++ (if s ≠ [] then [(q, s)] else [])).find?
        (fun t => ToLower lib (String.mk t.1) = ToLower lib (String.mk p)) with
      | some t => String.mk t.2
      | none => "") = String.mk m ∧
    (match ((if m ≠ [] then [(p, m)] else []) ++ (if s ≠ [] then [(q, s)] else [])).find?
        (fun t => ToLower lib (String.mk t.1) = ToLower lib (String.mk q)) with
      | some t => String.mk t.2
      | none => "") = String.mk s := by
  have hqp := hpq.symm
  by_cases h1 : m = [] <;> by_cases h2 : s = [] <;>
    simp [h1, h2, hpq, hqp, List.find?]

/-- C24, counterexample: the flag `(?i)` of the pattern adds the Kelvin sign U+212A to both
classes, so the note made of `a=` and the Kelvin sign has the token `a` for the code and no
token with a value over `[A-Za-z0-9-]`; and the key is trimmed before it is compared, so the
key ` a` finds the token `a=1`, whose key is not ` a` in any case. -/
theorem C24_counterexample :
    webhook.ParseKeyFromNote Example.demoLib "a=\u212A" "a" = "\u212A" ∧
      notespec.parseKey notespec.isAsciiKeyChar notespec.isAsciiValueChar
        webhook.isNoteSeparator Example.demoLib "a=\u212A" "a" = "" ∧
      webhook.ParseKeyFromNote Example.demoLib "a=1" " a" = "1" ∧
      notespec.parseKey notespec.isAsciiKeyChar notespec.isAsciiValueChar
        webhook.isNoteSeparator Example.demoLib "a=1" " a" = "" := by
  decide

/-- C24, amended: for every note and every key that is not blank, `ParseKeyFromNote` returns
the value of the first token `k=v` of the note whose `k` equals the trimmed key ignoring case,
and the empty string when there is none, where the classes of `k` and `v` are
`[A-Za-z0-9_]` and `[A-Za-z0-9-]` with the two code points U+017F and U+212A added to each,
and a token starts at the beginning of the note or right after one of `\t \n \f \r`, space,
comma, semicolon. From the note that `RequestPayment` writes for identifiers `m` and `s` over
`[A-Za-z0-9-]` it returns `m` for `milestone_id` and `s` for `service_id`. -/
theorem C24_parse_key_tokens (lib : Lib) (note key m s : String)
    (hk : TrimSpace key ≠ "")
    (hm : ∀ c ∈ m.toList, notespec.isAsciiValueChar c = true)
    (hs : ∀ c ∈ s.toList, notespec.isAsciiValueChar c = true)
    (hlib : ToLower lib "milestone_id" ≠ ToLower lib "service_id") :
    webhook.ParseKeyFromNote lib note key =
        notespec.parseKey webhook.isKeyChar webhook.isValueChar webhook.isNoteSeparator lib
          note (TrimSpace key) ∧
      (∀ c, webhook.isKeyChar c = true ↔
        (notespec.isAsciiKeyChar c = true ∨ c.toNat = 0x17F ∨ c.toNat = 0x212A)) ∧
      (∀ c, webhook.isValueChar c = true ↔
        (notespec.isAsciiValueChar c = true ∨ c.toNat = 0x17F ∨ c.toNat = 0x212A)) ∧
      webhook.ParseKeyFromNote lib
        ("service_workflow: milestone_id=" ++ m ++ " service_id=" ++ s) "milestone_id" = m ∧
      webhook.ParseKeyFromNote lib
        ("service_workflow: milestone_id=" ++ m ++ " service_id=" ++ s) "service_id" = s := by
  refine ⟨parseKeyFromNote_eq lib note key hk, ?_, ?_, ?_, ?_⟩
  · intro c
    simp only [webhook.isKeyChar, notespec.isAsciiKeyChar, Bool.or_eq_true, decide_eq_true_eq,
      or_assoc]
  · intro c
    simp only [webhook.isValueChar, notespec.isAsciiValueChar, Bool.or_eq_true,
      decide_eq_true_eq, or_assoc]
  · rw [parseKeyFromNote_eq lib _ _ (by decide)]
    have ht : TrimSpace "milestone_id" = "milestone_id" := by decide
    rw [ht]
    unfold notespec.parseKey
    rw [tokens_payment_note m s hm hs]
    exact (find_two_tokens lib "milestone_id".toList "service_id".toList m.toList s.toList
      hlib).1
  · rw [parseKeyFromNote_eq lib _ _ (by decide)]
    have ht : TrimSpace "service_id" = "service_id" := by decide
    rw [ht]
    unfold notespec.parseKey
    rw [tokens_payment_note m s hm hs]
    exact (find_two_tokens lib "milestone_id".toList "service_id".toList m.toList s.toList
      hlib).2

/-- C24, witness: the note of the milestone `m-2` of the service `svc-1`, read with the key
` Service_ID`. -/
theorem C24_parse_key_tokens_witness :
    TrimSpace " Service_ID" ≠ "" ∧
      webhook.ParseKeyFromNote Example.demoLib
        "service_workflow: milestone_id=m-2 service_id=svc-1" " Service_ID" = "svc-1" ∧
      webhook.ParseKeyFromNote Example.demoLib
        ("service_workflow: milestone_id=" ++ "m-2" ++ " service_id=" ++ "svc-1")
        "milestone_id" = "m-2" :=
  ⟨by decide, by decide,
    (C24_parse_key_tokens Example.demoLib "service_workflow: milestone_id=m-2 service_id=svc-1"
      " Service_ID" "m-2" "svc-1" (by decide) (by decide) (by decide) (by decide)).2.2.2.1⟩

/-! ## C30: the shop of a session token -/

/-- C30, counterexample: a signed token that expires at time 300, names the API key as
audience and has the `dest` claim `https://demo.myshopify.com` is accepted at time 100; the
same token with the not-before time 200 is refused at time 100 (by the JWT library), and so is
the same token without an expiry time (by `VerifySessionToken` itself). -/
theorem C30_counterexample :
    shopify.VerifySessionToken Example.demoJWT "token-now" "api-key" "secret" 100 =
        .ok ⟨"demo.myshopify.com", 300⟩ ∧
      shopify.VerifySessionToken Example.demoJWT "token-early" "api-key" "secret" 100 =
        .error (.other "token has invalid claims: token is not valid yet") ∧
      shopify.VerifySessionToken Example.demoJWT "token-open" "api-key" "secret" 100 =
        .error (.other "token expired") :=
  ⟨rfl, rfl, rfl⟩

/-- C30, amended: for a token that decodes and verifies as an HS256 token under a non-empty
API secret, that has an expiry time after `now` and no not-before time after `now`, whose
audience contains the API key and whose `dest` claim is `https://` followed by a non-empty `d`
(without surrounding white space, not starting with `http://`, not ending in `/`),
`VerifySessionToken` returns the shop domain `d` with the expiry time of the token; and the
shop of any claims is the trimmed `dest` when that is not empty, else the trimmed issuer. -/
theorem C30_session_shop (lib : jwt.Library)
    (token apiKey apiSecret d : String) (now expiresAt : Time)
    (claims : shopify.SessionTokenClaims)
    (htok : token ≠ "") (hsec : apiSecret ≠ "")
    (hdecode : lib.decode token apiSecret = .ok claims)
    (hexp : claims.ExpiresAt = some expiresAt) (hnow : now < expiresAt)
    (hnbf : ∀ notBefore, claims.NotBefore = some notBefore → notBefore ≤ now)
    (haud : apiKey ∈ claims.Audience)
    (hdest : claims.Dest = "https://" ++ d) (hd : d ≠ "") (htrim : TrimSpace d = d)
    (hscheme : ¬ "http://".toList <+: d.toList) (hslash : ¬ "/".toList <:+ d.toList) :
    shopify.VerifySessionToken lib token apiKey apiSecret now = .ok ⟨d, expiresAt⟩ ∧
      ∀ c : shopify.SessionTokenClaims,
        shopify.extractShopFromClaims c =
          if TrimSuffix (TrimPrefix (TrimPrefix (TrimSpace c.Dest) "https://") "http://") "/"
              ≠ "" then
            TrimSuffix (TrimPrefix (TrimPrefix (TrimSpace c.Dest) "https://") "http://") "/"
          else
            TrimSuffix (TrimPrefix (TrimPrefix (TrimSpace c.Issuer) "https://") "http://")
              "/" := by
  constructor
  · have hshop := extractShop_of_dest claims d hdest hd htrim hscheme hslash
    unfold shopify.VerifySessionToken
    rw [if_neg htok, if_neg hsec,
      parseWithClaims_ok lib token apiSecret now expiresAt claims hdecode hexp hnow hnbf]
    cases hn : claims.NotBefore with
    | none =>
      simp [hexp, not_lt.mpr (le_of_lt hnow), hshop, (audContains_iff _ _).mpr haud, hd, hn]
    | some nb =>
      have hle := hnbf nb hn
      simp [hexp, not_lt.mpr (le_of_lt hnow), hshop, (audContains_iff _ _).mpr haud, hd, hn,
        not_lt.mpr hle]
  · intro c
    have hstrip : TrimSuffix (TrimPrefix (TrimPrefix (TrimSpace "") "https://") "http://") "/"
        = "" := by decide
    unfold shopify.extractShopFromClaims
    by_cases h0 : c.Dest = ""
    · by_cases h1 : c.Issuer = ""
      · simp [h0, h1, hstrip]
      · simp [h0, h1, hstrip]
    · by_cases h1 : c.Issuer = ""
      · simp only [h0, h1, hstrip, ne_eq, not_false_eq_true, if_true, not_true_eq_false,
          if_false]
      · simp only [h0, h1, ne_eq, not_false_eq_true, if_true]

/-- C30, witness: the token of the demo shop at time 100. -/
theorem C30_session_shop_witness :
    shopify.VerifySessionToken Example.demoJWT "token-now" "api-key" "secret" 100 =
      .ok ⟨"demo.myshopify.com", 300⟩ :=
  (C30_session_shop Example.demoJWT "token-now" "api-key" "secret"
    "demo.myshopify.com" 100 300 Example.sessionClaims (by decide) (by decide) rfl rfl
    (by decide) (fun _ h => by cases h) (by decide) rfl (by decide) (by decide) (by decide)
    (by decide)).1

/-! ## A run of the handlers from the empty database -/

theorem tallyEnv_fresh : FreshIDs Example.tallyEnv Example.installedStore := by
  refine ⟨fun _ h => (by cases h), fun _ h => (by cases h), fun _ h => (by cases h), ?_⟩
  intro i j hij
  have e : ∀ n, (String.mk (List.replicate n 'i')).length = n := fun n => by
    simp [String.length]
  have h := congrArg String.length hij
  simp only [Example.tallyEnv] at h
  rw [String.length_append, String.length_append, e, e] at h
  omega

/-- Total 100 on the template 50% + 50% (final): 50 and 50. -/
theorem calculate_even :
    CalculateAmounts 100
        [⟨TemplateTypePercentage, 50, false⟩, ⟨TemplateTypePercentage, 50, true⟩]
        DefaultCurrencyScale = .ok [⟨50, false⟩, ⟨50, true⟩] := by
  rw [calculateAmounts_of_valid _ _ _ validate_halves (by norm_num)]
  norm_num [correctedFinal, effectiveScale, DefaultCurrencyScale, entryAmount,
    percentage_ne_fixed, Decimal.Round, Decimal.Div, Decimal.DivisionPrecision]

/-- A delivery with the topic `orders_paid` for a known shop, not yet in the ledger, whose
handler returns no error and whose commit succeeds, leaves the store of `handleOrdersPaid`. -/
theorem serveHTTP_orders_paid (cfg : config.Config) (lib : Lib) (dec : webhook.Decoders)
    (env : webhook.Env) (store v1 : Store) (r : webhook.Request) (body : String)
    (sh : shop.Shop) (hb : r.body = some body)
    (hsig : webhook.VerifyShopifyWebhook lib body (TrimSpace r.hmacHeader)
      cfg.Shopify.WebhookSecret = true)
    (hsh : shop.FindByDomain store (TrimSpace r.shopDomainHeader) = .ok sh)
    (htopic : webhook.requestTopic lib r = "orders_paid")
    (hI : webhook.insertWebhookEvent store env.dbNow sh.ID "orders_paid"
      (webhook.requestEventID lib r body) (lib.sha256Hex body) = .ok v1)
    (hc : env.commitErr = none)
    (herr : (webhook.handleOrdersPaid v1 lib dec env sh body).2 = none) :
    (webhook.ServeHTTP cfg lib dec env store r).store =
      (webhook.handleOrdersPaid v1 lib dec env sh body).1 := by
  unfold webhook.ServeHTTP
  simp only [hb, hsig, not_true_eq_false, if_false, hsh, htopic, db.WithTx, webhook.serveTx, hI,
    if_true, herr, hc]

/-- The delivery of the paid order on `installedStore` creates the service and the milestones
of `bookedStore`, and no approval record. -/
theorem bookingDelivery_core :
    Example.bookedStore.services = Example.bookingDelivery.store.services ∧
      Example.bookedStore.milestones = Example.bookingDelivery.store.milestones ∧
      Example.bookedStore.approvals = Example.bookingDelivery.store.approvals := by
  have hc := ordersPaid_creates
    { Example.installedStore with
      webhookEvents := [⟨"shop-1", "orders_paid", "sha256:order-7001", "sha256:order-7001", 10⟩] }
    Example.evenLib Example.creationDecoders Example.tallyEnv Example.demoShop "order-7001"
    ⟨7003, "new@example.com", "10.01", "USD", "", "Bo", "Buyer", [9001]⟩ "9001"
    "template-json" ⟨1, "USD",
      [⟨TemplateTypePercentage, 50, false⟩, ⟨TemplateTypePercentage, 50, true⟩]⟩ 100
    [⟨50, false⟩, ⟨50, true⟩]
    rfl (by decide) (by decide) (by decide) (by decide) (by decide) (by decide)
    parse_halves rfl calculate_even (by decide) (by decide) (by decide)
  have hs : Example.bookingDelivery.store =
      (webhook.handleOrdersPaid
        { Example.installedStore with
          webhookEvents :=
            [⟨"shop-1", "orders_paid", "sha256:order-7001", "sha256:order-7001", 10⟩] }
        Example.evenLib Example.creationDecoders Example.tallyEnv Example.demoShop
        "order-7001").1 :=
    serveHTTP_orders_paid Example.demoConfig Example.evenLib Example.creationDecoders
      Example.tallyEnv Example.installedStore _ Example.demoDelivery "order-7001"
      Example.demoShop rfl (by decide) rfl (by decide) rfl rfl hc.1
  have hr : Decimal.Round (100 : Decimal) 2 = 100 := by norm_num [Decimal.Round]
  rw [hs]
  refine ⟨?_, ?_, ?_⟩
  · rw [hc.2.2, hr]
    rfl
  · rw [hc.2.1]
    rfl
  · rw [handleOrdersPaid_approvals]
    rfl

theorem reachable_bookedStore (admin : Bool) : Reachable admin Example.bookedStore := by
  have h0 : Reachable admin Example.installedStore :=
    Reachable.other emptyStore Example.installedStore Reachable.empty rfl rfl rfl
  have h1 : Reachable admin Example.bookingDelivery.store :=
    Reachable.delivery Example.demoConfig Example.evenLib Example.creationDecoders
      Example.tallyEnv Example.installedStore Example.demoDelivery h0 tallyEnv_fresh
  exact Reachable.other _ _ h1 bookingDelivery_core.1 bookingDelivery_core.2.1
    bookingDelivery_core.2.2

theorem reachable_approvedStore : Reachable false Example.approvedStore :=
  Reachable.clientAction 13 13 none _ "abcdef" "looks good" true
    (Reachable.patchStatus 12 12 none _ (some Example.demoShop) "svc-new"
      (some ⟨StatusWaitingForApproval⟩)
      (Reachable.patchStatus 11 11 none _ (some Example.demoShop) "svc-new"
        (some ⟨StatusInProgress⟩) (reachable_bookedStore false)))

theorem reachable_revisedStore : Reachable false Example.revisedStore :=
  Reachable.clientAction 14 14 none _ "abcdef" "one more change" false reachable_approvedStore

theorem reachable_overriddenStore : Reachable true Example.overriddenStore :=
  Reachable.adminOverride 11 11 none _ (some Example.demoShop) "svc-new"
    (some ⟨adminaction.ActionCompleteServiceWithoutFinalPay, "paid in cash", ""⟩) rfl
    (reachable_bookedStore true)

/-- The stores of the run, computed. -/
theorem run_stores :
    Example.approvedStore.milestones =
        [ ⟨"ms-", "svc-new", 0, 50, "paid", none, none, some 10⟩,
          ⟨"ms-i", "svc-new", 1, 50, "unpaid", none, none, none⟩ ] ∧
      Example.approvedStore.approvals =
        [⟨"svc-new", true, false, "looks good", false, some 13, 13⟩] ∧
      Example.revisedStore.milestones =
        [ ⟨"ms-", "svc-new", 0, 50, "paid", none, none, some 10⟩,
          ⟨"ms-i", "svc-new", 1, 50, "unpaid", none, none, none⟩ ] ∧
      Example.revisedStore.approvals =
        [⟨"svc-new", false, true, "one more change", false, none, 14⟩] ∧
      Example.overriddenStore.services =
        [⟨"svc-new", "shop-1", "7003", "9001", "new@example.com", "Bo Buyer", 100, "USD",
          StatusCompleted, "template-json", true, 11⟩] := by
  decide

/-! ## C27: the completed-via-override flag -/

/-- C27: in every store that the handlers produce from the empty database, admin overrides
included, a service whose completed-via-override flag is set has the status `Completed`.
Hence a service that is not `Completed` has the flag unset, and `PatchStatus` to `Completed`
runs its guard for it: when the last milestone is not paid, it answers 409
`FINAL_MILESTONE_LOCKED` and leaves the store as it was. -/
theorem C27_override_flag_only_completed (admin : Bool) (s : Store) (h : Reachable admin s) :
    (∀ sv ∈ s.services, sv.CompletedViaOverride = true → sv.Status = StatusCompleted) ∧
      ∀ (now dbNow : Time) (commitErr : Option GoError) (shopCtx : shop.Shop) (id : String)
        (svc : service.Service) (final : String),
        id ≠ "" → service.GetForUpdate s shopCtx.ID id = .ok svc →
        svc.Status ≠ StatusCompleted →
        svc.CompletedViaOverride = false ∧
          (milestone.finalStatus s svc.ID = .ok final → final ≠ "paid" →
            service.PatchStatus now dbNow commitErr s (some shopCtx) id
                (some ⟨StatusCompleted⟩) =
              ⟨s, .apiError 409 "FINAL_MILESTONE_LOCKED" "final milestone is not paid"⟩) := by
  have hinv := overrideFlag_of_reachable h
  refine ⟨hinv, ?_⟩
  intro now dbNow commitErr shopCtx id svc final hid hsvc hst
  have hov : svc.CompletedViaOverride = false := by
    cases hf : svc.CompletedViaOverride with
    | false => rfl
    | true => exact absurd (hinv svc (getForUpdate_mem hsvc).1 hf) hst
  exact ⟨hov, fun hfinal hnp =>
    patchStatus_final_not_paid now dbNow commitErr s shopCtx id svc final hid hsvc hov hfinal
      hnp⟩

/-- C27, witness: the store after a paid order and the admin override that completes the
new service. The service carries the flag and is `Completed`. -/
theorem C27_override_flag_only_completed_witness :
    Reachable true Example.overriddenStore ∧
      (∃ sv ∈ Example.overriddenStore.services, sv.CompletedViaOverride = true) ∧
      ∀ sv ∈ Example.overriddenStore.services,
        sv.CompletedViaOverride = true → sv.Status = StatusCompleted :=
  ⟨reachable_overriddenStore, by decide,
    (C27_override_flag_only_completed true Example.overriddenStore
      reachable_overriddenStore).1⟩

/-! ## C28: the final milestone and the approval record -/

/-- C28, counterexample: after a paid order, the merchant moves the service to `InProgress`
and to `WaitingForApproval`, the client approves, which unlocks the final milestone `ms-i`,
and the client then requests a revision. The service has two milestones, the one with the
highest sequence is `unpaid`, and the approval record says not approved. -/
theorem C28_counterexample :
    Reachable false Example.revisedStore ∧
      Example.revisedStore.milestones =
        [ ⟨"ms-", "svc-new", 0, 50, "paid", none, none, some 10⟩,
          ⟨"ms-i", "svc-new", 1, 50, "unpaid", none, none, none⟩ ] ∧
      milestone.finalSequence Example.revisedStore "svc-new" = some 1 ∧
      approval.queryApproved Example.revisedStore "svc-new" = some false :=
  ⟨reachable_revisedStore, run_stores.2.2.1, by decide, by decide⟩

/-- C28, amended: in every store that the handlers other than the admin override produce from
the empty database, a milestone that has the highest sequence of its service, is not the only
milestone of the service and is not locked belongs to a service whose approval record is
approved or has a revision requested: the final milestone leaves the locked state only with an
approval, and a later revision request does not lock it again. -/
theorem C28_final_unlocked_only_if_answered (s : Store) (h : Reachable false s)
    (m : milestone.Row) (hm : m ∈ s.milestones)
    (hother : ∃ x ∈ s.milestones, x.ServiceID = m.ServiceID ∧ x.ID ≠ m.ID)
    (hfin : milestone.finalSequence s m.ServiceID = some m.Sequence)
    (hnl : m.Status ≠ "locked") :
    ∃ a, s.approvals.find? (fun a => a.ServiceID = m.ServiceID) = some a ∧
      (a.Approved = true ∨ a.RevisionRequested = true) := by
  obtain ⟨⟨a, ha, hax⟩, hall⟩ := (workflowInvariant_of_reachable h).2.2.2.2 m hm hother hfin hnl
  cases hf : s.approvals.find? (fun a => decide (a.ServiceID = m.ServiceID)) with
  | none =>
    rw [List.find?_eq_none] at hf
    exact absurd (by simpa using hax) (hf a ha)
  | some b =>
    have hp := List.find?_some hf
    simp only [decide_eq_true_eq] at hp
    exact ⟨b, rfl, hall b (List.mem_of_find?_eq_some hf) hp⟩

/-- C28, witness: the store after the client approved; the final milestone `ms-i` is unpaid
and the approval record of the service says approved. -/
theorem C28_final_unlocked_only_if_answered_witness :
    (⟨"ms-i", "svc-new", 1, 50, "unpaid", none, none, none⟩ : milestone.Row) ∈
        Example.approvedStore.milestones ∧
      ∃ a, Example.approvedStore.approvals.find? (fun a => a.ServiceID = "svc-new") = some a ∧
        (a.Approved = true ∨ a.RevisionRequested = true) :=
  ⟨by decide,
    C28_final_unlocked_only_if_answered Example.approvedStore reachable_approvedStore
      ⟨"ms-i", "svc-new", 1, 50, "unpaid", none, none, none⟩ (by decide) (by decide)
      (by decide) (by decide)⟩

/-! ## C16: settlement of a paid or locked milestone -/

theorem requestedStore_core :
    Example.requestedStore.services.map (fun sv => sv.ID) = ["svc-new"] ∧
      Example.requestedStore.milestones =
        [ ⟨"ms-", "svc-new", 0, 50, "paid", none, none, some 10⟩,
          ⟨"ms-i", "svc-new", 1, 50, "unpaid", some "1001", some "https://pay.example/1001",
            none⟩ ] := by
  decide

theorem laterEnv_fresh : FreshIDs Example.laterEnv Example.requestedStore := by
  have e : ∀ n, (String.mk (List.replicate n 'i')).length = n := fun n => by
    simp [String.length]
  have hlen : ∀ i, 6 ≤ (Example.laterEnv.newMilestoneID i).length := by
    intro i
    simp only [Example.laterEnv]
    rw [String.length_append, e]
    exact Nat.le_add_right _ _
  refine ⟨?_, ?_, ?_, ?_⟩
  · exact (by decide : ∀ sv ∈ Example.requestedStore.services, sv.ID ≠ "svc-later")
  · exact (by decide : ∀ m ∈ Example.requestedStore.milestones, m.ServiceID ≠ "svc-later")
  · intro m hm i hmi
    rw [requestedStore_core.2] at hm
    have h6 := hlen i
    rw [← hmi] at h6
    simp only [List.mem_cons, List.mem_singleton, List.not_mem_nil, or_false] at hm
    rcases hm with rfl | rfl <;> revert h6 <;> decide
  · intro i j hij
    have h := congrArg String.length hij
    simp only [Example.laterEnv] at h
    rw [String.length_append, String.length_append, e, e] at h
    omega

theorem reachable_settledStore : Reachable false Example.settledStore :=
  Reachable.delivery Example.demoConfig Example.demoLib Example.draftDecoders Example.laterEnv
    Example.requestedStore Example.draftDelivery
    (Reachable.requestPayment Example.demoConfig Example.platformInvoice 15 none _
      (some Example.demoShop) "ms-i" reachable_approvedStore)
    laterEnv_fresh

/-- C16: in every store that the handlers produce from the empty database, admin overrides
included, the settlement of a milestone that is already paid or still locked changes nothing:
the store afterwards is the store before, so the milestone, the status of the service, the
audit log and the timeline are as they were. Through the order note,
`applyMilestonePaymentFromOrder` returns at once for both statuses. Through a draft order id,
`handleMilestonePaid` returns at once for a paid milestone; it has no test for `locked`, and
needs none: a locked milestone carries no draft order id (`RequestPayment` refuses a locked
milestone), so the identifier never resolves to a locked milestone. -/
theorem C16_settlement_of_paid_or_locked (admin : Bool) (s : Store) (h : Reachable admin s) :
    (∀ (env : webhook.Env) (shopRec : shop.Shop) (milestoneID : String) (orderID : Int)
        (m : milestone.Record),
        milestone.GetForUpdateScoped s shopRec.ID milestoneID = .ok m →
        m.Status = "paid" ∨ m.Status = "locked" →
        webhook.applyMilestonePaymentFromOrder s env shopRec milestoneID orderID = (s, none)) ∧
      ∀ (dec : webhook.Decoders) (env : webhook.Env) (shopRec : shop.Shop) (body : String)
        (payload : webhook.milestonePaidPayload) (mid sid : String) (m : milestone.Record),
        dec.milestonePaid body = some payload →
        webhook.resolveDraftOrder s shopRec.ID payload.DraftOrderID = some (mid, sid) →
        milestone.GetForUpdate s mid = .ok m →
        m.Status ≠ "locked" ∧
          (m.Status = "paid" ∨ m.Status = "locked" →
            webhook.handleMilestonePaid s dec env shopRec body = (s, none)) := by
  obtain ⟨hu, hn⟩ := referenceInvariant_of_reachable h
  refine ⟨?_, ?_⟩
  · intro env shopRec milestoneID orderID m hg hst
    unfold webhook.applyMilestonePaymentFromOrder
    rw [hg]
    rcases hst with hp | hl
    · simp only [hp, if_true]
    · simp only [hl, if_true, ite_self]
  · intro dec env shopRec body payload mid sid m hd hr hg
    obtain ⟨r, hrm, hrd, _, _, hmr⟩ := resolveDraftOrder_row s shopRec.ID _ mid sid m hu hr hg
    have hnl : m.Status ≠ "locked" := by
      intro hl
      have hrl : r.Status = "locked" := by rw [hmr] at hl; exact hl
      have := hn r hrm hrl
      rw [this] at hrd
      cases hrd
    refine ⟨hnl, ?_⟩
    intro hst
    rcases hst with hp | hl
    · unfold webhook.handleMilestonePaid
      simp only [hd, hr, hg, hp, if_true, ite_self]
    · exact absurd hl hnl

/-- C16, witness: the store after the final milestone `ms-i` was approved, requested and
settled through the draft order `1001`. A second report of that draft order changes nothing,
and so does an order whose note names `ms-i`. On the store after the booking, where `ms-i` is
still locked, an order whose note names `ms-i` changes nothing. -/
theorem C16_settlement_of_paid_or_locked_witness :
    Reachable false Example.settledStore ∧
      Example.settledStore.milestones =
        [ ⟨"ms-", "svc-new", 0, 50, "paid", none, none, some 10⟩,
          ⟨"ms-i", "svc-new", 1, 50, "paid", some "1001", some "https://pay.example/1001",
            some 16⟩ ] ∧
      webhook.handleMilestonePaid Example.settledStore Example.draftDecoders Example.laterEnv
          Example.demoShop "draft-1001" = (Example.settledStore, none) ∧
      webhook.applyMilestonePaymentFromOrder Example.settledStore Example.laterEnv
          Example.demoShop "ms-i" 7004 = (Example.settledStore, none) ∧
      webhook.applyMilestonePaymentFromOrder Example.bookedStore Example.laterEnv
          Example.demoShop "ms-i" 7004 = (Example.bookedStore, none) :=
  ⟨reachable_settledStore, by decide,
    ((C16_settlement_of_paid_or_locked false Example.settledStore reachable_settledStore).2
      Example.draftDecoders Example.laterEnv Example.demoShop "draft-1001" ⟨"1001"⟩ "ms-i"
      "svc-new" ⟨"ms-i", "svc-new", 1, 50, "paid", "", "1001", "https://pay.example/1001",
        some 16⟩ rfl (by decide) rfl).2 (Or.inl rfl),
    (C16_settlement_of_paid_or_locked false Example.settledStore reachable_settledStore).1
      Example.laterEnv Example.demoShop "ms-i" 7004
      ⟨"ms-i", "svc-new", 1, 50, "paid", "USD", "1001", "https://pay.example/1001", some 16⟩
      rfl (Or.inl rfl),
    (C16_settlement_of_paid_or_locked false Example.bookedStore (reachable_bookedStore false)).1
      Example.laterEnv Example.demoShop "ms-i" 7004
      ⟨"ms-i", "svc-new", 1, 50, "locked", "USD", "", "", none⟩ rfl (Or.inr rfl)⟩

end Microservice
